import Mathlib

/-!
AsyncRequestsSender (src/mongo/s/async_requests_sender.cpp)

A shallow embedding of the fan-out dispatcher of the routing node and theorems
about it.

Conventions of the embedding.

* The mutex makes every member function atomic with respect to the executor's
  callbacks, so each member function is a function on the dispatcher state and
  a callback (`_handleResponse`) is a step of its own.
* A failed `invariant(...)` aborts the process: the functions that contain one
  return `Option`, and `none` is the abort.
* The collaborators (shard registry, targeter, executor, replica-set monitor)
  are outside the file.  Their answers during one scheduling pass are an
  argument (`Answers`, one per slot); the calls made to them are appended to
  the ghost field `calls`.
* Log output, the reason strings of statuses, the database name, the read
  preference and the command metadata do not influence control flow and are
  left out.
* `_ready` moves the shard id, the response and the host out of the slot it
  hands out (`std::move`).  No member function reads these fields of a
  terminal slot again; the model leaves them in place.
-/

/-- Identifies a non-OK value of `ErrorCodes::Error`. -/
abbrev ErrorCode := Nat

namespace ErrorCodes

abbrev HostUnreachable : ErrorCode := 6
abbrev Unauthorized : ErrorCode := 13
abbrev ShardNotFound : ErrorCode := 70
abbrev CallbackCanceled : ErrorCode := 90
abbrev NotMaster : ErrorCode := 10107
abbrev Interrupted : ErrorCode := 11601

end ErrorCodes

/-- A `Status`: either `Status::OK()` or an error with its code. -/
inductive Status where
  | OK
  | error (code : ErrorCode)
deriving DecidableEq, Repr

def Status.isOK : Status → Bool
  | .OK => true
  | .error _ => false

/-- A `StatusWith<T>`: a value, or a non-OK status. -/
inductive StatusWith (T : Type) where
  | value (v : T)
  | error (code : ErrorCode)
deriving DecidableEq, Repr

def StatusWith.isOK {T : Type} : StatusWith T → Bool
  | .value _ => true
  | .error _ => false

def StatusWith.getStatus {T : Type} : StatusWith T → Status
  | .value _ => .OK
  | .error c => .error c

abbrev ShardId := Nat
abbrev HostAndPort := Nat
abbrev BSONObj := Nat

/-- The reply of the executor: `executor::RemoteCommandResponse`. -/
structure RemoteCommandResponse where
  status : Status
  data : BSONObj
deriving DecidableEq, Repr

/-- The argument of the callback: `RemoteCommandCallbackArgs`. -/
structure RemoteCommandCallbackArgs where
  response : RemoteCommandResponse
deriving DecidableEq, Repr

/-- A `TaskExecutor::CallbackHandle`; the default-constructed handle is invalid. -/
structure CallbackHandle where
  id : Option Nat
deriving DecidableEq, Repr

def CallbackHandle.isValid (h : CallbackHandle) : Bool := h.id.isSome

/-- The configuration fixed at construction: the retry classification
`Shard::isRetriableError(code, _retryPolicy)` and `getStatusFromCommandResult`,
both defined outside the file and taken as parameters. -/
structure Config where
  isRetriableError : ErrorCode → Bool
  getStatusFromCommandResult : BSONObj → Status

/-- What the collaborators answer for one slot during one scheduling pass. -/
structure Answers where
  /-- whether `getShard()` finds the shard in the retry check -/
  getShard : Bool
  /-- whether `getShard()` finds the shard in `resolveShardIdToHostAndPort` -/
  getShardResolve : Bool
  /-- the result of `findHostWithMaxWait` -/
  findHostWithMaxWait : StatusWith HostAndPort
  /-- the result of `scheduleRemoteCommand`: the id of a valid handle, or an error -/
  scheduleRemoteCommand : StatusWith Nat

/-- A call made to a collaborator, tagged with the index of the slot. -/
inductive Call where
  | findHostWithMaxWait (i : Nat)
  | scheduleRemoteCommand (i : Nat) (host : HostAndPort)
  | updateReplSetMonitor (i : Nat) (host : HostAndPort) (status : Status)
  | cancel (i : Nat) (handle : Nat)
deriving DecidableEq, Repr

def Call.isSchedule (i : Nat) : Call → Bool
  | .scheduleRemoteCommand j _ => j == i
  | _ => false

def Call.isFindHost (i : Nat) : Call → Bool
  | .findHostWithMaxWait j => j == i
  | _ => false

def Call.isCancel (i : Nat) : Call → Bool
  | .cancel j _ => j == i
  | _ => false

def Call.isMonitor (i : Nat) : Call → Bool
  | .updateReplSetMonitor j _ _ => j == i
  | _ => false

/-- The slot a collaborator call is made for. -/
def Call.slot : Call → Nat
  | .findHostWithMaxWait i => i
  | .scheduleRemoteCommand i _ => i
  | .updateReplSetMonitor i _ _ => i
  | .cancel i _ => i

/-- Maximum number of retries for network and replication notMaster errors (per host). -/
def kMaxNumFailedHostRetryAttempts : Nat := 3

namespace AsyncRequestsSender

structure Request where
  shardId : ShardId
  cmdObj : BSONObj
deriving DecidableEq, Repr

structure Response where
  shardId : ShardId
  swResponse : StatusWith RemoteCommandResponse
  shardHostAndPort : Option HostAndPort
deriving DecidableEq, Repr

/-- Modelled from the spec: the member initialisers of `RemoteData` are in
async_requests_sender.h, which is not among the sources; the spec gives
`retryCount` starting at 0, no outcome, no handle, no host and `terminal` false. -/
structure RemoteData where
  shardId : ShardId
  cmdObj : BSONObj
  swResponse : Option (StatusWith RemoteCommandResponse) := none
  shardHostAndPort : Option HostAndPort := none
  cbHandle : CallbackHandle := ⟨none⟩
  retryCount : Nat := 0
  done : Bool := false
deriving DecidableEq, Repr

end AsyncRequestsSender

open AsyncRequestsSender in
/-- Modelled from the spec: the member initialisers of the dispatcher are in
async_requests_sender.h, which is not among the sources; the spec gives
`interruptStatus` OK initially, and `stopRetrying` is set by the code alone,
so it starts false.  `_notification` is true when the current notification has
been set; `calls` is the ghost log of collaborator calls. -/
structure AsyncRequestsSender where
  _remotes : List RemoteData
  _interruptStatus : Status := .OK
  _stopRetrying : Bool := false
  _notification : Bool := false
  calls : List Call := []
deriving DecidableEq, Repr

namespace AsyncRequestsSender

/-- `RemoteData::resolveShardIdToHostAndPort`: the status, the remote and the
calls made. -/
def RemoteData.resolveShardIdToHostAndPort (a : Answers) (i : Nat) (remote : RemoteData) :
    Status × RemoteData × List Call :=
  if !a.getShardResolve then
    (.error ErrorCodes.ShardNotFound, remote, [])
  else
    match a.findHostWithMaxWait with
    | .error c => (.error c, remote, [.findHostWithMaxWait i])
    | .value hp => (.OK, { remote with shardHostAndPort := some hp }, [.findHostWithMaxWait i])

/-- `_scheduleRequest` for the remote at `remoteIndex`. -/
def _scheduleRequest (a : Answers) (remoteIndex : Nat) (remote : RemoteData) :
    Option (Status × RemoteData × List Call) :=
  if remote.cbHandle.isValid then none
  else if remote.swResponse.isSome then none
  else
    match remote.resolveShardIdToHostAndPort a remoteIndex with
    | (.error c, remote1, calls1) => some (.error c, remote1, calls1)
    | (.OK, remote1, calls1) =>
      match remote1.shardHostAndPort with
      | none => none
      | some hp =>
        match a.scheduleRemoteCommand with
        | .error c => some (.error c, remote1, calls1 ++ [.scheduleRemoteCommand remoteIndex hp])
        | .value h =>
          some (.OK, { remote1 with cbHandle := ⟨some h⟩ },
            calls1 ++ [.scheduleRemoteCommand remoteIndex hp])

/-- The status the retry check looks at: the response status and, when that is
OK, the command status. -/
def errorStatus (cfg : Config) (sw : StatusWith RemoteCommandResponse) : Status :=
  match sw with
  | .error c => .error c
  | .value resp => cfg.getStatusFromCommandResult resp.data

/-- First half of the loop body of `_scheduleRequests`: the retry check. -/
def retryCheck (cfg : Config) (a : Answers) (i : Nat) (remote : RemoteData) :
    RemoteData × List Call :=
  match remote.swResponse with
  | none => (remote, [])
  | some sw =>
    if remote.done then (remote, [])
    else
      match errorStatus cfg sw with
      | .OK => (remote, [])
      | .error code =>
        if !a.getShard then
          ({ remote with swResponse := some (.error ErrorCodes.ShardNotFound) }, [])
        else
          let monitor : List Call :=
            match remote.shardHostAndPort with
            | some hp => [.updateReplSetMonitor i hp (.error code)]
            | none => []
          if cfg.isRetriableError code && decide (remote.retryCount < kMaxNumFailedHostRetryAttempts) then
            ({ remote with retryCount := remote.retryCount + 1, swResponse := none }, monitor)
          else
            (remote, monitor)

/-- Modelled from the spec: the one-shot notification (`Notification<void>`)
is declared in util/concurrency/notification.h, which is not among the
sources; the spec gives a one-shot signal that goes from unsignaled to
signaled.  The argument and the result tell whether the notification is
signaled; `set` on a notification that is signaled already is the illegal
call, `none`. -/
def Notification.set (signaled : Bool) : Option Bool :=
  if signaled then none else some true

/-- The statement `if (!*_notification) { _notification->set(); }` of
`_scheduleRequests` and of `_handleResponse`; `none` is an illegal `set`. -/
def signalIfUnset (notification : Bool) : Option Bool :=
  if !notification then Notification.set notification else some notification

/-- The loop body of `_scheduleRequests` for `_remotes[i]`; the third component
is the notification, and `none` is a failed `invariant` or an illegal `set`. -/
def scheduleRemote (cfg : Config) (a : Answers) (i : Nat) (remote : RemoteData)
    (notification : Bool) : Option (RemoteData × List Call × Bool) :=
  match retryCheck cfg a i remote with
  | (remote1, calls1) =>
    if remote1.swResponse.isNone && !remote1.cbHandle.isValid then
      match _scheduleRequest a i remote1 with
      | none => none
      | some (.OK, remote2, calls2) => some (remote2, calls1 ++ calls2, notification)
      | some (.error c, remote2, calls2) =>
        match signalIfUnset notification with
        | none => none
        | some notification1 =>
          some ({ remote2 with swResponse := some (.error c) }, calls1 ++ calls2, notification1)
    else
      some (remote1, calls1, notification)

/-- The loop of `_scheduleRequests` from index `i` on. -/
def scheduleLoop (cfg : Config) (oracle : Nat → Answers) :
    Nat → List RemoteData → Bool → Option (List RemoteData × List Call × Bool)
  | _, [], notification => some ([], [], notification)
  | i, remote :: rest, notification =>
    match scheduleRemote cfg (oracle i) i remote notification with
    | none => none
    | some (remote1, calls1, notification1) =>
      match scheduleLoop cfg oracle (i + 1) rest notification1 with
      | none => none
      | some (rest1, calls2, notification2) =>
        some (remote1 :: rest1, calls1 ++ calls2, notification2)

/-- `_scheduleRequests`. -/
def _scheduleRequests (cfg : Config) (oracle : Nat → Answers) (s : AsyncRequestsSender) :
    Option AsyncRequestsSender :=
  if s._stopRetrying then none
  else
    match scheduleLoop cfg oracle 0 s._remotes s._notification with
    | none => none
    | some (remotes, calls, notification) =>
      some { s with _remotes := remotes, calls := s.calls ++ calls, _notification := notification }

/-- The constructor. -/
def construct (cfg : Config) (oracle : Nat → Answers) (requests : List Request) :
    Option AsyncRequestsSender :=
  _scheduleRequests cfg oracle
    { _remotes := requests.map fun request =>
        { shardId := request.shardId, cmdObj := request.cmdObj } }

/-- `stopRetrying`. -/
def stopRetrying (s : AsyncRequestsSender) : AsyncRequestsSender :=
  { s with _stopRetrying := true }

/-- `done`, a member function that is not `const`: the result and the state
after the call. -/
def done (s : AsyncRequestsSender) : Bool × AsyncRequestsSender :=
  (s._remotes.all fun remote => remote.done, s)

/-- The `cancel` calls of `_cancelPendingRequests`, from index `i` on. -/
def cancelCalls : Nat → List RemoteData → List Call
  | _, [] => []
  | i, remote :: rest =>
    match remote.cbHandle.id with
    | some h => .cancel i h :: cancelCalls (i + 1) rest
    | none => cancelCalls (i + 1) rest

/-- `_cancelPendingRequests`. -/
def _cancelPendingRequests (s : AsyncRequestsSender) : AsyncRequestsSender :=
  { s with _stopRetrying := true, calls := s.calls ++ cancelCalls 0 s._remotes }

/-- The status a non-OK outcome is emitted with: CallbackCanceled is promoted
to the interrupt status when that is set. -/
def promote (interruptStatus : Status) (code : ErrorCode) : ErrorCode :=
  match interruptStatus with
  | .OK => code
  | .error ic => if ErrorCodes.CallbackCanceled == code then ic else code

/-- The loop of `_ready` over the remotes: the first remote that has an
outcome and is not done is marked done and handed out; an error
CallbackCanceled is first replaced, in the slot too, by a set
`_interruptStatus`. -/
def readyLoop (interruptStatus : Status) :
    List RemoteData → Option (Option Response × List RemoteData)
  | [] => some (none, [])
  | remote :: rest =>
    match remote.swResponse with
    | some sw =>
      if !remote.done then
        match sw with
        | .value resp =>
          match remote.shardHostAndPort with
          | none => none
          | some hp =>
            some (some ⟨remote.shardId, .value resp, some hp⟩,
              { remote with done := true } :: rest)
        | .error code =>
          some (some ⟨remote.shardId, .error (promote interruptStatus code),
              remote.shardHostAndPort⟩,
            { remote with done := true,
                          swResponse := some (.error (promote interruptStatus code)) } :: rest)
      else
        match readyLoop interruptStatus rest with
        | none => none
        | some (r, rest1) => some (r, remote :: rest1)
    | none =>
      match readyLoop interruptStatus rest with
      | none => none
      | some (r, rest1) => some (r, remote :: rest1)

/-- `_ready`. -/
def _ready (cfg : Config) (oracle : Nat → Answers) (s : AsyncRequestsSender) :
    Option (Option Response × AsyncRequestsSender) :=
  let s1 := { s with _notification := false }
  match (if !s1._stopRetrying then _scheduleRequests cfg oracle s1 else some s1) with
  | none => none
  | some s2 =>
    if s2._remotes.isEmpty then none
    else
      match readyLoop s2._interruptStatus s2._remotes with
      | none => none
      | some (r, remotes) => some (r, { s2 with _remotes := remotes })

/-- `_handleResponse`; `none` is the failed `invariant` or an illegal `set`. -/
def _handleResponse (cbData : RemoteCommandCallbackArgs) (remoteIndex : Nat)
    (s : AsyncRequestsSender) : Option AsyncRequestsSender :=
  match s._remotes[remoteIndex]? with
  | none => none
  | some remote =>
    if remote.swResponse.isSome then none
    else
      let remote1 := { remote with cbHandle := ⟨none⟩ }
      let remote2 :=
        match cbData.response.status with
        | .OK => { remote1 with swResponse := some (.value cbData.response) }
        | .error c => { remote1 with swResponse := some (.error c) }
      match signalIfUnset s._notification with
      | none => none
      | some notification =>
        some { s with _remotes := s._remotes.set remoteIndex remote2,
                      _notification := notification }

/-- Why an execution of the model stops: a failed `invariant(...)` of the code,
an environment that breaks the executor contract (a callback for a slot
without a scheduled request) or takes the `catch` block of `next` on a set
`_interruptStatus`, or a call of `next` that never returns. -/
inductive Fault where
  | invariant
  | environment
  | blocked
deriving DecidableEq, Repr

/-- The executor runs the callback of slot `remoteIndex`; it does so only for
a request that is scheduled, that is while the handle of the slot is valid. -/
def callback (remoteIndex : Nat) (cbData : RemoteCommandCallbackArgs)
    (s : AsyncRequestsSender) : Except Fault AsyncRequestsSender :=
  match s._remotes[remoteIndex]? with
  | none => .error .environment
  | some remote =>
    if remote.cbHandle.isValid then
      match _handleResponse cbData remoteIndex s with
      | none => .error .invariant
      | some s1 => .ok s1
    else .error .environment

/-- The callbacks that run, in order, while the caller thread is waiting. -/
def deliver : List (Nat × RemoteCommandCallbackArgs) → AsyncRequestsSender →
    Except Fault AsyncRequestsSender
  | [], s => .ok s
  | (i, cbData) :: rest, s =>
    match callback i cbData s with
    | .error f => .error f
    | .ok s1 => deliver rest s1

/-- The `catch` block of `next`: the wait on an OK `_interruptStatus` threw. -/
def interruptedWait (code : ErrorCode) (s : AsyncRequestsSender) : AsyncRequestsSender :=
  _cancelPendingRequests { s with _interruptStatus := .error code }

/-- What happens while `next` waits on the notification: callbacks run, or the
operation context of the caller is interrupted.  The wait `_notification->get()`
of `next` on a set `_interruptStatus` takes no operation context: an
interruption does not end it, and it returns when the notification is set. -/
inductive Wait where
  | callbacks (arrivals : List (Nat × RemoteCommandCallbackArgs))
  | interrupted (code : ErrorCode)

/-- The environment of one iteration of the loop of `next`: the answers of the
collaborators during `_ready` and what happens during the wait that follows. -/
structure Tick where
  oracle : Nat → Answers
  wait : Wait

/-- The result of a call of `next` under a finite script of the environment:
the call returned, or it is still waiting when the script ends (the
notification is not signalled), or the execution stopped on a fault. -/
inductive NextResult where
  | returned (r : Response) (s : AsyncRequestsSender)
  | blocked (s : AsyncRequestsSender)
  | fault (f : Fault)

/-- The `while` loop of `next`. -/
def nextLoop (cfg : Config) : List Tick → AsyncRequestsSender → NextResult
  | [], s => .blocked s
  | tick :: script, s =>
    match _ready cfg tick.oracle s with
    | none => .fault .invariant
    | some (some r, s1) => .returned r s1
    | some (none, s1) =>
      match s1._interruptStatus, tick.wait with
      | .OK, .interrupted code => nextLoop cfg script (interruptedWait code s1)
      | .error _, .interrupted _ => if s1._notification then nextLoop cfg script s1 else .blocked s1
      | _, .callbacks arrivals =>
        match deliver arrivals s1 with
        | .error f => .fault f
        | .ok s2 => if s2._notification then nextLoop cfg script s2 else .blocked s2

/-- `next`. -/
def next (cfg : Config) (script : List Tick) (s : AsyncRequestsSender) : NextResult :=
  if (done s).1 then .fault .invariant else nextLoop cfg script (done s).2

/-- The steps of an execution: a callback of the executor, a whole call of
`next` under a script of the environment, `stopRetrying`, and, at a finer
grain, one `_ready` of the loop of `next`, an interrupted wait of `next` and
the `_cancelPendingRequests` of the destructor. -/
inductive Op where
  | handleResponse (remoteIndex : Nat) (cbData : RemoteCommandCallbackArgs)
  | next (script : List Tick)
  | stopRetrying
  | ready (oracle : Nat → Answers)
  | interrupted (code : ErrorCode)
  | cancelPendingRequests

/-- One step, with the response it hands to the caller, if any. -/
def step (cfg : Config) (s : AsyncRequestsSender) :
    Op → Except Fault (AsyncRequestsSender × Option Response)
  | .handleResponse i cbData =>
    match callback i cbData s with
    | .error f => .error f
    | .ok s1 => .ok (s1, none)
  | .next script =>
    match next cfg script s with
    | .returned r s1 => .ok (s1, some r)
    | .blocked _ => .error .blocked
    | .fault f => .error f
  | .stopRetrying => .ok (stopRetrying s, none)
  | .ready oracle =>
    match _ready cfg oracle s with
    | none => .error .invariant
    | some (r, s1) => .ok (s1, r)
  | .interrupted code =>
    match s._interruptStatus with
    | .OK => .ok (interruptedWait code s, none)
    | .error _ => .error .environment
  | .cancelPendingRequests => .ok (_cancelPendingRequests s, none)

/-- A sequence of steps, with the responses handed out, in order. -/
def run (cfg : Config) : AsyncRequestsSender → List Op →
    Except Fault (AsyncRequestsSender × List Response)
  | s, [] => .ok (s, [])
  | s, op :: ops =>
    match step cfg s op with
    | .error f => .error f
    | .ok (s1, r) =>
      match run cfg s1 ops with
      | .error f => .error f
      | .ok (s2, rs) => .ok (s2, r.toList ++ rs)

/-- The loop of the destructor, `while (!done()) next();`, with one script of
the environment for each call of `next`.  The responses the calls return,
which the destructor discards, are listed in order.  The loop is blocked when
the scripts end before the dispatcher is done. -/
def drain (cfg : Config) : List (List Tick) → AsyncRequestsSender →
    Except Fault (AsyncRequestsSender × List Response)
  | [], s => if (done s).1 then .ok ((done s).2, []) else .error .blocked
  | script :: scripts, s =>
    if (done s).1 then .ok ((done s).2, [])
    else
      match next cfg script (done s).2 with
      | .returned r s1 =>
        match drain cfg scripts s1 with
        | .error f => .error f
        | .ok (s2, rs) => .ok (s2, r :: rs)
      | .blocked _ => .error .blocked
      | .fault f => .error f

/-- The destructor: `_cancelPendingRequests` and then the loop that waits for
the remaining callbacks. -/
def destructor (cfg : Config) (scripts : List (List Tick)) (s : AsyncRequestsSender) :
    Except Fault (AsyncRequestsSender × List Response) :=
  drain cfg scripts (_cancelPendingRequests s)

/-- The number of `scheduleRemoteCommand` calls made for slot `i`. -/
def scheduleCount (i : Nat) (s : AsyncRequestsSender) : Nat :=
  s.calls.countP (Call.isSchedule i)

/-- The number of `findHostWithMaxWait` calls made for slot `i`. -/
def findHostCount (i : Nat) (s : AsyncRequestsSender) : Nat :=
  s.calls.countP (Call.isFindHost i)

/-! ## Relations and functions used to state the theorems -/

/-- A slot is idle when it has neither an outcome nor a valid handle. -/
def RemoteData.idle (remote : RemoteData) : Bool :=
  remote.swResponse.isNone && !remote.cbHandle.isValid

/-- A slot is ready when it has an outcome and is not done. -/
def RemoteData.ready (remote : RemoteData) : Bool :=
  remote.swResponse.isSome && !remote.done

/-- The outcomes of the retry check on a slot. -/
inductive Phase1 (a : Answers) (i : Nat) (r : RemoteData) : RemoteData → List Call → Prop where
  | keep (cs : List Call) (hcs : ∀ c ∈ cs, Call.isMonitor i c = true) : Phase1 a i r r cs
  | shardNotFound (hready : r.ready = true) (hshard : a.getShard = false) :
      Phase1 a i r { r with swResponse := some (.error ErrorCodes.ShardNotFound) } []
  | retry (cs : List Call) (hcs : ∀ c ∈ cs, Call.isMonitor i c = true)
      (hready : r.ready = true) (hshard : a.getShard = true)
      (hcount : r.retryCount < kMaxNumFailedHostRetryAttempts) :
      Phase1 a i r { r with retryCount := r.retryCount + 1, swResponse := none } cs

/-- The outcomes of the second half of the loop body on a slot. -/
inductive Phase2 (a : Answers) (i : Nat) (r : RemoteData) (n : Bool) :
    RemoteData → List Call → Bool → Prop where
  | skip (hidle : r.idle = false) : Phase2 a i r n r [] n
  | shardNotFound (hidle : r.idle = true) (hshard : a.getShardResolve = false) :
      Phase2 a i r n { r with swResponse := some (.error ErrorCodes.ShardNotFound) } [] true
  | findHostFailed (c : ErrorCode) (hidle : r.idle = true) (hshard : a.getShardResolve = true)
      (hfind : a.findHostWithMaxWait = .error c) :
      Phase2 a i r n { r with swResponse := some (.error c) } [.findHostWithMaxWait i] true
  | scheduleFailed (hp : HostAndPort) (c : ErrorCode) (hidle : r.idle = true)
      (hshard : a.getShardResolve = true) (hfind : a.findHostWithMaxWait = .value hp)
      (hsched : a.scheduleRemoteCommand = .error c) :
      Phase2 a i r n { r with shardHostAndPort := some hp, swResponse := some (.error c) }
        [.findHostWithMaxWait i, .scheduleRemoteCommand i hp] true
  | scheduled (hp : HostAndPort) (h : Nat) (hidle : r.idle = true)
      (hshard : a.getShardResolve = true) (hfind : a.findHostWithMaxWait = .value hp)
      (hsched : a.scheduleRemoteCommand = .value h) :
      Phase2 a i r n { r with shardHostAndPort := some hp, cbHandle := ⟨some h⟩ }
        [.findHostWithMaxWait i, .scheduleRemoteCommand i hp] n

/-- What one iteration of the loop of `_scheduleRequests` does to a slot: the
slot before, the slot after and the calls made. -/
def SlotPass (cfg : Config) (a : Answers) (i : Nat) (r r2 : RemoteData) (cs : List Call) : Prop :=
  ∃ r1 cs1 cs2 n n2, Phase1 a i r r1 cs1 ∧ Phase2 a i r1 n r2 cs2 n2 ∧ cs = cs1 ++ cs2 ∧
    r1 = (retryCheck cfg a i r).1 ∧ cs1 = (retryCheck cfg a i r).2

/-- The calls of the log made for slot `k`. -/
def slotCalls (k : Nat) (calls : List Call) : List Call :=
  calls.filter fun c => c.slot == k

/-- How `_ready` hands out a ready slot: the response and the slot afterwards. -/
inductive Emit (interruptStatus : Status) (r : RemoteData) : Response → RemoteData → Prop where
  | success (resp : RemoteCommandResponse) (hp : HostAndPort)
      (hsw : r.swResponse = some (.value resp)) (hhost : r.shardHostAndPort = some hp) :
      Emit interruptStatus r ⟨r.shardId, .value resp, some hp⟩ { r with done := true }
  | failure (code : ErrorCode) (hsw : r.swResponse = some (.error code)) :
      Emit interruptStatus r
        ⟨r.shardId, .error (promote interruptStatus code), r.shardHostAndPort⟩
        { r with done := true, swResponse := some (.error (promote interruptStatus code)) }

/-- What `_handleResponse` stores in the slot. -/
def RemoteData.store (cbData : RemoteCommandCallbackArgs) (r : RemoteData) : RemoteData :=
  match cbData.response.status with
  | .OK => { r with cbHandle := ⟨none⟩, swResponse := some (.value cbData.response) }
  | .error c => { r with cbHandle := ⟨none⟩, swResponse := some (.error c) }

/-- The state `_ready` looks for a ready slot in: the state after the
scheduling pass, or the state itself once `_stopRetrying` is set. -/
def afterPass (cfg : Config) (oracle : Nat → Answers) (s : AsyncRequestsSender) :
    Option AsyncRequestsSender :=
  if !s._stopRetrying then _scheduleRequests cfg oracle { s with _notification := false }
  else some { s with _notification := false }

/-- The answers of the collaborators a step consumes. -/
def Op.oracles : Op → List (Nat → Answers)
  | .next script => script.map fun tick => tick.oracle
  | .ready oracle => [oracle]
  | _ => []

/-- The slots whose callbacks run during a wait. -/
def Wait.slots : Wait → List Nat
  | .callbacks arrivals => arrivals.map fun x => x.1
  | .interrupted _ => []

/-- The slots whose callbacks run during a step. -/
def Op.callbacks : Op → List Nat
  | .handleResponse i _ => [i]
  | .next script => script.flatMap fun tick => tick.wait.slots
  | _ => []

/-- The states a call of `next` goes through before it returns: `_ready`
calls that find no ready slot, callbacks and an interrupted wait, under
answers of the collaborators that satisfy `A` and callbacks for slots that
satisfy `C`. -/
inductive Quiet (cfg : Config) (A : (Nat → Answers) → Prop) (C : Nat → Prop) :
    AsyncRequestsSender → AsyncRequestsSender → Prop where
  | refl (s : AsyncRequestsSender) : Quiet cfg A C s s
  | ready {s s1 s2 : AsyncRequestsSender} (o : Nat → Answers) (ho : A o)
      (h : Quiet cfg A C s s1) (hr : _ready cfg o s1 = some (none, s2)) : Quiet cfg A C s s2
  | callback {s s1 s2 : AsyncRequestsSender} (i : Nat) (cbData : RemoteCommandCallbackArgs)
      (hi : C i) (h : Quiet cfg A C s s1) (hc : callback i cbData s1 = .ok s2) :
      Quiet cfg A C s s2
  | interrupted {s s1 : AsyncRequestsSender} (code : ErrorCode) (h : Quiet cfg A C s s1)
      (hi : s1._interruptStatus = .OK) : Quiet cfg A C s (interruptedWait code s1)

/-- The slot the constructor creates for a request. -/
def RemoteData.fresh (request : Request) : RemoteData :=
  { shardId := request.shardId, cmdObj := request.cmdObj }

/-- The retry bound of a slot: at most three retries, and at most one
`scheduleRemoteCommand` call per retry and one for the first attempt, which an
idle slot has not used yet. -/
def RetryBound (k : Nat) (r : RemoteData) (l : List Call) : Prop :=
  r.retryCount ≤ kMaxNumFailedHostRetryAttempts ∧
    l.countP (Call.isSchedule k) + (if r.idle then 1 else 0) ≤ r.retryCount + 1

/-- A retry policy for the examples: network and not-master errors are retriable. -/
def exampleConfig : Config :=
  { isRetriableError := fun code =>
      code == ErrorCodes.HostUnreachable || code == ErrorCodes.NotMaster
    getStatusFromCommandResult := fun data => if data == 0 then .OK else .error data }

/-- Collaborators that know every shard, resolve it to host 100 and accept
every request. -/
def exampleAnswers : Answers :=
  { getShard := true, getShardResolve := true, findHostWithMaxWait := .value 100,
    scheduleRemoteCommand := .value 7 }

/-- A wait of `next` during which the executor replies to slot `i`. -/
def replyTick (i : Nat) (status : Status) (data : BSONObj) : Tick :=
  { oracle := fun _ => exampleAnswers, wait := .callbacks [(i, ⟨⟨status, data⟩⟩)] }

/-- The state after the constructor for one request to shard 1. -/
def exampleStart : AsyncRequestsSender :=
  { _remotes := [{ shardId := 1, cmdObj := 5, shardHostAndPort := some 100,
                   cbHandle := ⟨some 7⟩ }],
    calls := [.findHostWithMaxWait 0, .scheduleRemoteCommand 0 100] }

/-- The executor answers HostUnreachable four times: the retries are used up
and the error is handed out. -/
def exampleExhausted : AsyncRequestsSender :=
  { _remotes := [{ shardId := 1, cmdObj := 5, shardHostAndPort := some 100,
                   swResponse := some (.error ErrorCodes.HostUnreachable),
                   retryCount := 3, done := true }],
    calls := [.findHostWithMaxWait 0, .scheduleRemoteCommand 0 100,
      .updateReplSetMonitor 0 100 (.error ErrorCodes.HostUnreachable),
      .findHostWithMaxWait 0, .scheduleRemoteCommand 0 100,
      .updateReplSetMonitor 0 100 (.error ErrorCodes.HostUnreachable),
      .findHostWithMaxWait 0, .scheduleRemoteCommand 0 100,
      .updateReplSetMonitor 0 100 (.error ErrorCodes.HostUnreachable),
      .findHostWithMaxWait 0, .scheduleRemoteCommand 0 100,
      .updateReplSetMonitor 0 100 (.error ErrorCodes.HostUnreachable)] }

/-- The terminal flag and the shard of a slot. -/
def RemoteData.key (r : RemoteData) : Bool × ShardId := (r.done, r.shardId)

/-- The terminal flags and shards of the slots, in order. -/
def keys (s : AsyncRequestsSender) : List (Bool × ShardId) :=
  s._remotes.map RemoteData.key

/-- The shards of the slots that are terminal. -/
def handedOut (ks : List (Bool × ShardId)) : List ShardId :=
  (ks.filter fun k => k.1).map fun k => k.2

/-- Two requests, to shards 1 and 2. -/
def twoRequests : List Request := [⟨1, 5⟩, ⟨2, 5⟩]

/-- The state after the constructor for `twoRequests`: both slots in flight. -/
def twoStart : AsyncRequestsSender :=
  { _remotes := [{ shardId := 1, cmdObj := 5, shardHostAndPort := some 100,
                   cbHandle := ⟨some 7⟩ },
                 { shardId := 2, cmdObj := 5, shardHostAndPort := some 100,
                   cbHandle := ⟨some 7⟩ }],
    calls := [.findHostWithMaxWait 0, .scheduleRemoteCommand 0 100,
      .findHostWithMaxWait 1, .scheduleRemoteCommand 1 100] }

/-- The state after the reply of shard 2 has been handed out. -/
def twoMid : AsyncRequestsSender :=
  { twoStart with
    _remotes := [{ shardId := 1, cmdObj := 5, shardHostAndPort := some 100,
                   cbHandle := ⟨some 7⟩ },
                 { shardId := 2, cmdObj := 5, shardHostAndPort := some 100,
                   swResponse := some (.value ⟨.OK, 0⟩), done := true }] }

/-- The state after both replies have been handed out. -/
def twoDone : AsyncRequestsSender :=
  { twoStart with
    _remotes := [{ shardId := 1, cmdObj := 5, shardHostAndPort := some 100,
                   swResponse := some (.value ⟨.OK, 0⟩), done := true },
                 { shardId := 2, cmdObj := 5, shardHostAndPort := some 100,
                   swResponse := some (.value ⟨.OK, 0⟩), done := true }] }

/-- The response `_ready` builds for a ready slot and the slot afterwards; no
result when the slot holds an OK response without a host (the invariant of
`_ready` fails) or holds no outcome. -/
def RemoteData.emit (interruptStatus : Status) (r : RemoteData) :
    Option (Response × RemoteData) :=
  match r.swResponse with
  | some (.value resp) =>
    match r.shardHostAndPort with
    | some hp => some (⟨r.shardId, .value resp, some hp⟩, { r with done := true })
    | none => none
  | some (.error code) =>
    some (⟨r.shardId, .error (promote interruptStatus code), r.shardHostAndPort⟩,
      { r with done := true, swResponse := some (.error (promote interruptStatus code)) })
  | none => none

/-- Both slots hold an outcome: slot 0 the retriable error HostUnreachable,
slot 1 an OK reply. -/
def bothReady : AsyncRequestsSender :=
  { twoStart with
    _notification := true
    _remotes := [{ shardId := 1, cmdObj := 5, shardHostAndPort := some 100,
                   swResponse := some (.error ErrorCodes.HostUnreachable) },
                 { shardId := 2, cmdObj := 5, shardHostAndPort := some 100,
                   swResponse := some (.value ⟨.OK, 0⟩) }] }

/-- The state after `next` has retried slot 0 and handed out slot 1. -/
def bothReadyAfterNext : AsyncRequestsSender :=
  { _remotes := [{ shardId := 1, cmdObj := 5, shardHostAndPort := some 100,
                   cbHandle := ⟨some 7⟩, retryCount := 1 },
                 { shardId := 2, cmdObj := 5, shardHostAndPort := some 100,
                   swResponse := some (.value ⟨.OK, 0⟩), done := true }],
    calls := twoStart.calls ++
      [.updateReplSetMonitor 0 100 (.error ErrorCodes.HostUnreachable),
       .findHostWithMaxWait 0, .scheduleRemoteCommand 0 100] }

/-- The state after the scheduling pass on `bothReady`: slot 0 is in flight
again, slot 1 is still ready. -/
def bothReadyMid : AsyncRequestsSender :=
  { bothReadyAfterNext with
    _remotes := [{ shardId := 1, cmdObj := 5, shardHostAndPort := some 100,
                   cbHandle := ⟨some 7⟩, retryCount := 1 },
                 { shardId := 2, cmdObj := 5, shardHostAndPort := some 100,
                   swResponse := some (.value ⟨.OK, 0⟩) }] }

/-- The state after the second call of `next` has handed out slot 0. -/
def bothReadyDone : AsyncRequestsSender :=
  { bothReadyAfterNext with
    _remotes := [{ shardId := 1, cmdObj := 5, shardHostAndPort := some 100,
                   swResponse := some (.value ⟨.OK, 0⟩), retryCount := 1, done := true },
                 { shardId := 2, cmdObj := 5, shardHostAndPort := some 100,
                   swResponse := some (.value ⟨.OK, 0⟩), done := true }] }

/-- Collaborators whose targeter fails with HostUnreachable. -/
def failingAnswers : Answers :=
  { getShard := true, getShardResolve := true,
    findHostWithMaxWait := .error ErrorCodes.HostUnreachable, scheduleRemoteCommand := .value 7 }

/-- Answers under which the target resolution of slot 1 fails. -/
def slotOneFails : Nat → Answers :=
  fun i => if i == 1 then failingAnswers else exampleAnswers

/-- Three requests, to shards 1, 2 and 3. -/
def threeRequests : List Request := [⟨1, 5⟩, ⟨2, 5⟩, ⟨3, 5⟩]

/-- The state after the constructor under `slotOneFails` and OK replies to
slots 0 and 2. -/
def threeReplied : AsyncRequestsSender :=
  { _remotes := [{ shardId := 1, cmdObj := 5, shardHostAndPort := some 100,
                   swResponse := some (.value ⟨.OK, 0⟩) },
                 { shardId := 2, cmdObj := 5,
                   swResponse := some (.error ErrorCodes.HostUnreachable) },
                 { shardId := 3, cmdObj := 5, shardHostAndPort := some 100,
                   swResponse := some (.value ⟨.OK, 0⟩) }],
    _notification := true,
    calls := [.findHostWithMaxWait 0, .scheduleRemoteCommand 0 100, .findHostWithMaxWait 1,
      .findHostWithMaxWait 2, .scheduleRemoteCommand 2 100] }

/-- The outcome `_handleResponse` stores for a reply. -/
def stored (reply : RemoteCommandResponse) : StatusWith RemoteCommandResponse :=
  match reply.status with
  | .OK => .value reply
  | .error c => .error c

/-- The collaborators know the shard, resolve it to `hp` and accept the request. -/
def Resolves (hp : HostAndPort) (a : Answers) : Prop :=
  a.getShard = true ∧ a.getShardResolve = true ∧ a.findHostWithMaxWait = .value hp ∧
    a.scheduleRemoteCommand.isOK = true

/-- A dispatcher with a single slot. -/
def single (r : RemoteData) (interruptStatus : Status) (stop n : Bool) (l : List Call) :
    AsyncRequestsSender :=
  { _remotes := [r], _interruptStatus := interruptStatus, _stopRetrying := stop,
    _notification := n, calls := l }

/-- The stored reply is not retried by a scheduling pass: it is no error, or
its error is not retriable, or the retries are used up. -/
def NotRetried (cfg : Config) (retryCount : Nat) (sw : StatusWith RemoteCommandResponse) :
    Prop :=
  errorStatus cfg sw = .OK ∨
    ∃ c, errorStatus cfg sw = .error c ∧
      (cfg.isRetriableError c = false ∨ kMaxNumFailedHostRetryAttempts ≤ retryCount)

/-- The script of a call of `next` during which the executor replies to slot 0
once per wait: each entry gives the answers of the collaborators during
`_ready` and the reply delivered during the wait that follows. -/
def replyScript (replies : List ((Nat → Answers) × RemoteCommandResponse)) : List Tick :=
  replies.map fun p => { oracle := p.1, wait := .callbacks [(0, ⟨p.2⟩)] }

/-- The reply is an error the retry policy classifies as retriable: its
transport status when that is not OK, otherwise the status of the command
result. -/
def RetriableReply (cfg : Config) (reply : RemoteCommandResponse) : Prop :=
  ∃ c, errorStatus cfg (stored reply) = .error c ∧ cfg.isRetriableError c = true

/-- The executor answers four times with an OK transport status and the
command error NotMaster: the retries are used up and the reply is handed out. -/
def commandErrorExhausted : AsyncRequestsSender :=
  { _remotes := [{ shardId := 1, cmdObj := 5, shardHostAndPort := some 100,
                   swResponse := some (.value ⟨.OK, ErrorCodes.NotMaster⟩),
                   retryCount := 3, done := true }],
    calls := [.findHostWithMaxWait 0, .scheduleRemoteCommand 0 100,
      .updateReplSetMonitor 0 100 (.error ErrorCodes.NotMaster),
      .findHostWithMaxWait 0, .scheduleRemoteCommand 0 100,
      .updateReplSetMonitor 0 100 (.error ErrorCodes.NotMaster),
      .findHostWithMaxWait 0, .scheduleRemoteCommand 0 100,
      .updateReplSetMonitor 0 100 (.error ErrorCodes.NotMaster),
      .findHostWithMaxWait 0, .scheduleRemoteCommand 0 100,
      .updateReplSetMonitor 0 100 (.error ErrorCodes.NotMaster)] }

/-- The executor answers once with an OK transport status and the command
error Unauthorized: the reply is handed out without a retry. -/
def unauthorizedDone : AsyncRequestsSender :=
  { _remotes := [{ shardId := 1, cmdObj := 5, shardHostAndPort := some 100,
                   swResponse := some (.value ⟨.OK, ErrorCodes.Unauthorized⟩), done := true }],
    calls := [.findHostWithMaxWait 0, .scheduleRemoteCommand 0 100,
      .updateReplSetMonitor 0 100 (.error ErrorCodes.Unauthorized)] }

/-- A slot in flight, and a slot that holds an OK response, has a resolved host. -/
def HostKnown (r : RemoteData) : Prop :=
  (r.cbHandle.isValid = true → r.shardHostAndPort.isSome = true) ∧
    ∀ resp, r.swResponse = some (.value resp) → r.shardHostAndPort.isSome = true

/-- The shard registry does not know the shard of slot `i`. -/
def ShardUnknown (i : Nat) (o : Nat → Answers) : Prop :=
  (o i).getShard = false ∧ (o i).getShardResolve = false

/-- The state of a slot whose shard has never been known: the outcome
ShardNotFound, no host, no handle, and no call to the targeter or the executor. -/
def NeverResolved (request : Request) (r : RemoteData) (l : List Call) (i : Nat) : Prop :=
  r.shardHostAndPort = none ∧ r.cbHandle.isValid = false ∧
    r.swResponse = some (.error ErrorCodes.ShardNotFound) ∧
    l.countP (Call.isSchedule i) = 0 ∧ l.countP (Call.isFindHost i) = 0 ∧
    r.shardId = request.shardId

/-- A shard registry that does not know the shard. -/
def unknownAnswers : Answers :=
  { getShard := false, getShardResolve := false, findHostWithMaxWait := .value 100,
    scheduleRemoteCommand := .value 7 }

/-- The state after the constructor for one request to the unknown shard 9. -/
def unknownStart : AsyncRequestsSender :=
  { _remotes := [{ shardId := 9, cmdObj := 5,
                   swResponse := some (.error ErrorCodes.ShardNotFound) }],
    _notification := true }

/-- The state after the ShardNotFound failure has been handed out. -/
def unknownDone : AsyncRequestsSender :=
  { _remotes := [{ shardId := 9, cmdObj := 5,
                   swResponse := some (.error ErrorCodes.ShardNotFound), done := true }] }

/-- The calls to the replica-set monitor made by the retry check for a slot. -/
def monitorCalls (i : Nat) (r : RemoteData) (code : ErrorCode) : List Call :=
  match r.shardHostAndPort with
  | some hp => [.updateReplSetMonitor i hp (.error code)]
  | none => []

/-- The state after the constructor when the target resolution of the single
request fails with HostUnreachable. -/
def resolutionFailed : AsyncRequestsSender :=
  { _remotes := [{ shardId := 1, cmdObj := 5,
                   swResponse := some (.error ErrorCodes.HostUnreachable) }],
    _notification := true, calls := [.findHostWithMaxWait 0] }

/-- The state after a later scheduling pass on `resolutionFailed`. -/
def resolutionRetried : AsyncRequestsSender :=
  { _remotes := [{ shardId := 1, cmdObj := 5, shardHostAndPort := some 100,
                   cbHandle := ⟨some 7⟩, retryCount := 1 }],
    _notification := true,
    calls := [.findHostWithMaxWait 0, .findHostWithMaxWait 0, .scheduleRemoteCommand 0 100] }

/-- The state after the constructor when the executor refuses the single
request with Unauthorized. -/
def schedulingFailed : AsyncRequestsSender :=
  { _remotes := [{ shardId := 1, cmdObj := 5, shardHostAndPort := some 100,
                   swResponse := some (.error ErrorCodes.Unauthorized) }],
    _notification := true,
    calls := [.findHostWithMaxWait 0, .scheduleRemoteCommand 0 100] }

/-- The slots `rs2` come from the slots `rs` without a change of `retryCount`
and without the loss of a stored outcome. -/
def Kept (rs rs2 : List RemoteData) : Prop :=
  rs2.length = rs.length ∧
    ∀ (i : Nat) (r : RemoteData), rs[i]? = some r → ∃ r2, rs2[i]? = some r2 ∧
      r2.retryCount = r.retryCount ∧ (r.swResponse.isSome = true → r2.swResponse.isSome = true)

/-- What stays as it is once `_stopRetrying` is set. -/
def Stopped (s x : AsyncRequestsSender) : Prop :=
  x._stopRetrying = true ∧
    (∀ j, scheduleCount j x = scheduleCount j s ∧ findHostCount j x = findHostCount j s) ∧
    Kept s._remotes x._remotes

/-- The state after the wait of `next` was interrupted (interrupt status
Interrupted, pending request cancelled) and the executor has run the callback
of the cancelled request with CallbackCanceled. -/
def canceledReady : AsyncRequestsSender :=
  { _remotes := [{ shardId := 1, cmdObj := 5, shardHostAndPort := some 100,
                   swResponse := some (.error ErrorCodes.CallbackCanceled) }],
    _interruptStatus := .error ErrorCodes.Interrupted,
    _stopRetrying := true, _notification := true,
    calls := [.findHostWithMaxWait 0, .scheduleRemoteCommand 0 100, .cancel 0 7] }

/-- The state after `_ready` has handed out the slot of `canceledReady`. -/
def canceledDone : AsyncRequestsSender :=
  { canceledReady with
    _remotes := [{ shardId := 1, cmdObj := 5, shardHostAndPort := some 100,
                   swResponse := some (.error ErrorCodes.Interrupted), done := true }],
    _notification := false }

/-- The state after the wait of `next` on `twoStart` was interrupted: the
interrupt status is recorded, `_stopRetrying` is set and both requests are
cancelled. -/
def twoInterrupted : AsyncRequestsSender :=
  { twoStart with
    _interruptStatus := .error ErrorCodes.Interrupted, _stopRetrying := true,
    calls := twoStart.calls ++ [.cancel 0 7, .cancel 1 7] }

/-- The reply the executor gives for a cancelled request. -/
def canceledReply : RemoteCommandCallbackArgs :=
  ⟨⟨.error ErrorCodes.CallbackCanceled, 0⟩⟩

/-- The state `twoInterrupted` after the callback of the cancelled request
of slot 0 has run. -/
def twoCanceled : AsyncRequestsSender :=
  { twoInterrupted with
    _remotes := [{ shardId := 1, cmdObj := 5, shardHostAndPort := some 100,
                   swResponse := some (.error ErrorCodes.CallbackCanceled) },
                 { shardId := 2, cmdObj := 5, shardHostAndPort := some 100,
                   cbHandle := ⟨some 7⟩ }],
    _notification := true }

/-- The tick in which an interruption of the wait is replaced by a wait
during which nothing happens. -/
def Tick.uninterrupted (t : Tick) : Tick :=
  match t.wait with
  | .interrupted _ => { t with wait := .callbacks [] }
  | .callbacks _ => t

/-- The state after the interrupted call of `next` on `twoStart` has handed
out the failure of slot 0. -/
def twoFirstOut : AsyncRequestsSender :=
  { twoInterrupted with
    _remotes := [{ shardId := 1, cmdObj := 5, shardHostAndPort := some 100,
                   swResponse := some (.error ErrorCodes.Interrupted), done := true },
                 { shardId := 2, cmdObj := 5, shardHostAndPort := some 100,
                   swResponse := some (.error ErrorCodes.CallbackCanceled) }] }

/-- The state after the destructor has drained the failure of slot 1. -/
def twoBothOut : AsyncRequestsSender :=
  { twoInterrupted with
    _remotes := [{ shardId := 1, cmdObj := 5, shardHostAndPort := some 100,
                   swResponse := some (.error ErrorCodes.Interrupted), done := true },
                 { shardId := 2, cmdObj := 5, shardHostAndPort := some 100,
                   swResponse := some (.error ErrorCodes.Interrupted), done := true }] }

/-- A tick during which nothing happens. -/
def idleTick : Tick :=
  { oracle := fun _ => exampleAnswers, wait := .callbacks [] }

/-- A slot with a valid handle holds no outcome, and a terminal slot holds an
outcome. -/
def Exclusive (r : RemoteData) : Prop :=
  (r.cbHandle.isValid = true → r.swResponse = none) ∧
    (r.done = true → r.swResponse.isSome = true)

/-- A slot has a valid handle exactly when it holds no outcome, and a
terminal slot holds an outcome. -/
def Linked (r : RemoteData) : Prop :=
  (r.cbHandle.isValid = true ↔ r.swResponse = none) ∧
    (r.done = true → r.swResponse.isSome = true)

/-- Every slot of the state is linked and has a host when it needs one. -/
def Wf (s : AsyncRequestsSender) : Prop :=
  ∀ (k : Nat) (r : RemoteData), s._remotes[k]? = some r → HostKnown r ∧ Linked r

/-- The host of a `scheduleRemoteCommand` call made for slot `i`. -/
def callHost (i : Nat) : Call → Option HostAndPort
  | .scheduleRemoteCommand j hp => if j == i then some hp else none
  | _ => none

/-- The host of the last `scheduleRemoteCommand` call made for slot `i`: the
host of the last target resolution of the slot that succeeded. -/
def lastHost (i : Nat) (calls : List Call) : Option HostAndPort :=
  (calls.filterMap (callHost i)).getLast?

/-- Every slot holds the host of the last target resolution of the slot that
succeeded, and no host when there is none. -/
def HostLog (s : AsyncRequestsSender) : Prop :=
  ∀ (k : Nat) (r : RemoteData), s._remotes[k]? = some r →
    r.shardHostAndPort = lastHost k (slotCalls k s.calls)

/-- The number of slots that are not terminal. -/
def pending (s : AsyncRequestsSender) : Nat :=
  (keys s).countP fun k => !k.1

/-- The state after the destructor has run on `twoStart`: both requests were
cancelled and both failures were drained. -/
def twoDestroyed : AsyncRequestsSender :=
  { twoStart with
    _remotes := [{ shardId := 1, cmdObj := 5, shardHostAndPort := some 100,
                   swResponse := some (.error ErrorCodes.CallbackCanceled), done := true },
                 { shardId := 2, cmdObj := 5, shardHostAndPort := some 100,
                   swResponse := some (.error ErrorCodes.CallbackCanceled), done := true }],
    _stopRetrying := true,
    calls := twoStart.calls ++ [.cancel 0 7, .cancel 1 7] }

/-- A state with one slot that holds the error Unauthorized, which the retry
policy of the examples does not classify as retriable, and a resolved host. -/
def unauthorizedReady : AsyncRequestsSender :=
  { _remotes := [{ shardId := 1, cmdObj := 5, shardHostAndPort := some 100,
                   swResponse := some (.error ErrorCodes.Unauthorized) }],
    _notification := true,
    calls := [.findHostWithMaxWait 0, .scheduleRemoteCommand 0 100] }

/-- A state with one slot that holds the retriable error HostUnreachable, a
resolved host and a used-up retry budget. -/
def exhaustedReady : AsyncRequestsSender :=
  { _remotes := [{ shardId := 1, cmdObj := 5, shardHostAndPort := some 100,
                   swResponse := some (.error ErrorCodes.HostUnreachable), retryCount := 3 }],
    _notification := true }

/-- A state with one slot that holds the retriable error HostUnreachable, with
a resolved host and no retry so far. -/
def unreachableReady : AsyncRequestsSender :=
  { _remotes := [{ shardId := 1, cmdObj := 5, shardHostAndPort := some 100,
                   swResponse := some (.error ErrorCodes.HostUnreachable) }],
    _notification := true,
    calls := [.findHostWithMaxWait 0, .scheduleRemoteCommand 0 100] }

/-- The state after `_ready` has found the shard of `unreachableReady` gone
and has handed out the slot. -/
def unreachableGone : AsyncRequestsSender :=
  { unreachableReady with
    _remotes := [{ shardId := 1, cmdObj := 5, shardHostAndPort := some 100,
                   swResponse := some (.error ErrorCodes.ShardNotFound), done := true }],
    _notification := false }

/-- The state after `next` has handed out the slot of `resolutionFailed`: the
scheduling pass retried the slot, the target resolution failed again, and
the failure was handed out. -/
def resolutionFailedOut : AsyncRequestsSender :=
  { _remotes := [{ shardId := 1, cmdObj := 5,
                   swResponse := some (.error ErrorCodes.HostUnreachable), retryCount := 1,
                   done := true }],
    _notification := true, calls := [.findHostWithMaxWait 0, .findHostWithMaxWait 0] }

/-- The state `twoStart` after the callback of slot 0 has stored an OK reply:
the notification is signaled and slot 1 is still in flight. -/
def twoSignaled : AsyncRequestsSender :=
  { twoStart with
    _remotes := [{ shardId := 1, cmdObj := 5, shardHostAndPort := some 100,
                   swResponse := some (.value ⟨.OK, 0⟩) },
                 { shardId := 2, cmdObj := 5, shardHostAndPort := some 100,
                   cbHandle := ⟨some 7⟩ }],
    _notification := true }

/-- The executor replies only to the cancellation: every callback that runs
during the script carries CallbackCanceled. -/
def canceledOnly (script : List Tick) : Bool :=
  script.all fun t =>
    match t.wait with
    | .callbacks arrivals =>
      arrivals.all fun x => x.2.response.status == .error ErrorCodes.CallbackCanceled
    | .interrupted _ => true

/-- The shards of the slots that are not terminal. -/
def remaining (ks : List (Bool × ShardId)) : List ShardId :=
  (ks.filter fun k => !k.1).map fun k => k.2

/-- The interrupt `code` is recorded, `_stopRetrying` is set, and every slot
that is not terminal is in flight or holds CallbackCanceled. -/
def Canceled (code : ErrorCode) (s : AsyncRequestsSender) : Prop :=
  s._interruptStatus = .error code ∧ s._stopRetrying = true ∧
    ∀ r ∈ s._remotes, r.done = false →
      r.swResponse = none ∨ r.swResponse = some (.error ErrorCodes.CallbackCanceled)

/-- The interrupt `code` is recorded, `_stopRetrying` is set and the calls
made so far are `l`. -/
def Recorded (code : ErrorCode) (l : List Call) (s : AsyncRequestsSender) : Prop :=
  s._interruptStatus = .error code ∧ s._stopRetrying = true ∧ s.calls = l

/-- The state after the interrupted call of `next` on `twoStart` has handed
out the failure of slot 1, whose cancelled callback ran first. -/
def twoSecondOut : AsyncRequestsSender :=
  { twoInterrupted with
    _remotes := [{ shardId := 1, cmdObj := 5, shardHostAndPort := some 100,
                   cbHandle := ⟨some 7⟩ },
                 { shardId := 2, cmdObj := 5, shardHostAndPort := some 100,
                   swResponse := some (.error ErrorCodes.Interrupted), done := true }] }

/-- The state after the destructor has drained the failure of slot 0 from
`twoSecondOut`. -/
def twoSecondDrained : AsyncRequestsSender :=
  { twoBothOut with calls := twoInterrupted.calls ++ [.cancel 0 7] }

end AsyncRequestsSender

/-!
splitChunk (src/mongo/db/s/split_chunk.cpp).  The shard-side handler of the internal `splitChunk` command.  The
collaborators (distributed lock manager, config server, sharding state,
catalog, planner) are outside the file: what they answer is a field of `Env`,
and the calls made to them are listed in the result.  Log output and the
reason strings of statuses are left out; a status is its code.
-/

/-- The codes of `ErrorCodes` that `splitChunk` and `dropDatabase` name.  The
numbers identify the codes: distinct codes have distinct numbers, and nothing
else about them is used. -/
abbrev ErrorCodes.IllegalOperation : ErrorCode := 20

abbrev ErrorCodes.NamespaceNotFound : ErrorCode := 26

abbrev ErrorCodes.LockBusy : ErrorCode := 46

abbrev ErrorCodes.CannotSplit : ErrorCode := 86

abbrev ErrorCodes.StaleEpoch : ErrorCode := 150

abbrev ErrorCodes.PrimarySteppedDown : ErrorCode := 189

namespace SplitChunk

/-- The BSON types of the elements of a key; the check of `splitChunk` tells
`NumberLong` from every other type. -/
inductive BSONType where
  | NumberDouble
  | String
  | NumberInt
  | NumberLong
deriving DecidableEq, Repr

/-- An element of a key: its type and its value (field names are left out). -/
structure BSONElement where
  type : BSONType
  value : Int
deriving DecidableEq, Repr

/-- A key or key pattern (`BSONObj`): its elements in order.  Keys are compared
with `woCompare`, declared outside the file; two keys compare equal exactly
when they are equal element by element, so `a.woCompare(b) != 0` is `a != b`. -/
abbrev BSONObj := List BSONElement

/-- The bounds of a chunk: `ChunkType` as far as the file reads and writes it. -/
structure ChunkType where
  min : BSONObj
  max : BSONObj
deriving DecidableEq, Repr

/-- A `ChunkRange`. -/
structure ChunkRange where
  min : BSONObj
  max : BSONObj
deriving DecidableEq, Repr

/-- The collection metadata as the file uses it.  `getNextChunk(lookupKey,
&chunk)` is declared in collection_metadata.h, which is not among the sources:
the lookup is a parameter, and `none` is its result `false`. -/
structure CollectionMetadata where
  getNextChunk : BSONObj → Option ChunkType

/-- The `for` loop of `checkMetadataForSuccessfulSplitChunk` over the
remaining bounds, `startKey` being the running start key. -/
def checkBounds (metadataAfterSplit : CollectionMetadata) : BSONObj → List BSONObj → Bool
  | _, [] => true
  | startKey, endKey :: rest =>
    match metadataAfterSplit.getNextChunk startKey with
    | none => false
    | some nextChunk =>
      if nextChunk.max != endKey then false
      else checkBounds metadataAfterSplit endKey rest

/-- `checkMetadataForSuccessfulSplitChunk`; `metadataAfterSplit` is what
`getMetadata()` returned, `none` for a collection that is not sharded, and
`.error` is the exception of the `uassert`. -/
def checkMetadataForSuccessfulSplitChunk (metadataAfterSplit : Option CollectionMetadata)
    (chunkRange : ChunkRange) (splitKeys : List BSONObj) : Except ErrorCode Bool :=
  match metadataAfterSplit with
  | none => .error ErrorCodes.StaleEpoch
  | some metadata =>
    let newChunkBounds := splitKeys ++ [chunkRange.max]
    let startKey := chunkRange.min
    .ok (checkBounds metadata startKey newChunkBounds)

/-- The states `PlanExecutor::getNext` returns. -/
inductive ExecState where
  | ADVANCED
  | IS_EOF
  | DEAD
  | FAILURE
deriving DecidableEq, Repr

/-- `checkIfSingleDoc`; `exec k` is the state the call number `k` of
`exec->getNext` returns, and `none` is the failed `invariant`. -/
def checkIfSingleDoc (exec : Nat → ExecState) : Option Bool :=
  if exec 0 = .ADVANCED then
    if exec 1 = .IS_EOF then some true
    else if exec 1 = .ADVANCED ∨ exec 1 = .IS_EOF then some false
    else none
  else if exec 0 = .ADVANCED ∨ exec 0 = .IS_EOF then some false
  else none

/-- The reply of the config server to the commit: `Shard::CommandResponse` as
far as `splitChunk` reads it. -/
structure CommandResponse where
  commandStatus : Status
  writeConcernStatus : Status
deriving DecidableEq, Repr

/-- The collection found after the split: whether
`findShardKeyPrefixedIndex` finds an index for the key pattern, and the states
of the index scan over the range of a chunk. -/
structure Collection where
  findShardKeyPrefixedIndex : BSONObj → Bool
  indexScan : ChunkType → Nat → ExecState

/-- What the collaborators answer during one call of `splitChunk`. -/
structure Env where
  /-- the result of `getDistLockManager()->lock(...)` -/
  lock : Status
  /-- `KeyPattern::isHashedKeyPattern` -/
  isHashedKeyPattern : BSONObj → Bool
  /-- the result of `runCommandWithFixedRetryAttempts` -/
  runCommandWithFixedRetryAttempts : StatusWith CommandResponse
  /-- the result of `refreshMetadataNow` -/
  refreshMetadataNow : Status
  /-- the result of `getMetadata()` after the refresh -/
  getMetadata : Option CollectionMetadata
  /-- the result of `autoColl.getCollection()`, `none` for a null pointer -/
  getCollection : Option Collection
  /-- `KeyPattern::globalMin` -/
  globalMin : BSONObj → BSONObj
  /-- `KeyPattern::globalMax` -/
  globalMax : BSONObj → BSONObj

/-- The calls `splitChunk` makes that leave the shard. -/
inductive Action where
  | lock
  | commit (chunkRange : ChunkRange) (splitKeys : List BSONObj)
  | refresh
deriving DecidableEq, Repr

/-- How a call of `splitChunk` ends: it returns, it throws, an `invariant`
fails, or it calls `back()` on an empty vector of split keys. -/
inductive Result where
  | returned (r : StatusWith (Option ChunkRange))
  | thrown (code : ErrorCode)
  | invariant
  | undefined
deriving DecidableEq, Repr

/-- The conversion of a `Status` to the `StatusWith` that `splitChunk`
returns; it is applied to non-OK statuses, a `StatusWith` cannot be built from
`Status::OK()`. -/
def Result.ofStatus : Status → Result
  | .error code => .returned (.error code)
  | .OK => .invariant

/-- The end of `splitChunk`, from `AutoGetCollection autoColl` on: the
top-chunk check. -/
def topChunkCheck (env : Env) (keyPatternObj : BSONObj) (chunkRange : ChunkRange)
    (splitKeys : List BSONObj) : Result :=
  match env.getCollection with
  | none => .returned (.value none)
  | some collection =>
    if !collection.findShardKeyPrefixedIndex keyPatternObj then .returned (.value none)
    else
      match splitKeys.getLast?, splitKeys.head? with
      | some back, some front =>
        let backChunk : ChunkType := { min := back, max := chunkRange.max }
        let frontChunk : ChunkType := { min := chunkRange.min, max := front }
        match (if env.globalMax keyPatternObj = backChunk.max
            then checkIfSingleDoc (collection.indexScan backChunk) else some false) with
        | none => .invariant
        | some true => .returned (.value (some { min := backChunk.min, max := backChunk.max }))
        | some false =>
          match (if env.globalMin keyPatternObj = frontChunk.min
              then checkIfSingleDoc (collection.indexScan frontChunk) else some false) with
          | none => .invariant
          | some true =>
            .returned (.value (some { min := frontChunk.min, max := frontChunk.max }))
          | some false => .returned (.value none)
      | _, _ => .undefined

/-- `splitChunk`: how the call ends and the calls it made, in order. -/
def splitChunk (env : Env) (keyPatternObj : BSONObj) (chunkRange : ChunkRange)
    (splitKeys : List BSONObj) : Result × List Action :=
  match env.lock with
  | .error code => (.returned (.error code), [.lock])
  | .OK =>
    if env.isHashedKeyPattern keyPatternObj &&
        splitKeys.any (fun splitKey => splitKey.any fun splitKeyElement =>
          splitKeyElement.type != .NumberLong) then
      (.returned (.error ErrorCodes.CannotSplit), [.lock])
    else
      match env.runCommandWithFixedRetryAttempts with
      | .error code => (.returned (.error code), [.lock, .commit chunkRange splitKeys])
      | .value response =>
        let commandStatus := response.commandStatus
        let writeConcernStatus := response.writeConcernStatus
        if commandStatus = .error ErrorCodes.StaleEpoch then
          (Result.ofStatus commandStatus, [.lock, .commit chunkRange splitKeys])
        else if !commandStatus.isOK || !writeConcernStatus.isOK then
          match env.refreshMetadataNow with
          | .error _ =>
            let errorStatus := if commandStatus.isOK then writeConcernStatus else commandStatus
            (Result.ofStatus errorStatus, [.lock, .commit chunkRange splitKeys, .refresh])
          | .OK =>
            match checkMetadataForSuccessfulSplitChunk env.getMetadata chunkRange splitKeys with
            | .error code => (.thrown code, [.lock, .commit chunkRange splitKeys, .refresh])
            | .ok committed =>
              if committed then
                (topChunkCheck env keyPatternObj chunkRange splitKeys,
                  [.lock, .commit chunkRange splitKeys, .refresh])
              else if !commandStatus.isOK then
                (Result.ofStatus commandStatus, [.lock, .commit chunkRange splitKeys, .refresh])
              else if !writeConcernStatus.isOK then
                (Result.ofStatus writeConcernStatus,
                  [.lock, .commit chunkRange splitKeys, .refresh])
              else
                (topChunkCheck env keyPatternObj chunkRange splitKeys,
                  [.lock, .commit chunkRange splitKeys, .refresh])
        else
          (topChunkCheck env keyPatternObj chunkRange splitKeys,
            [.lock, .commit chunkRange splitKeys])

/-- A key with the single element `NumberLong(n)`. -/
def longKey (n : Int) : BSONObj := [{ type := .NumberLong, value := n }]

/-- The value of the first element of a key. -/
def firstValue : BSONObj → Int
  | [] => 0
  | e :: _ => e.value

/-- An example of collection metadata: the chunks of the shard in key order,
with a lookup that yields the first chunk whose upper bound is above the
lookup key, that is the chunk holding the key or else the next one. -/
def metadataOf (chunks : List ChunkType) : CollectionMetadata :=
  { getNextChunk := fun lookupKey =>
      chunks.find? fun chunk => decide (firstValue lookupKey < firstValue chunk.max) }

/-- Example metadata: the shard owns the chunks [-5, 10) and [10, 20). -/
def widerChunks : List ChunkType :=
  [{ min := longKey (-5), max := longKey 10 }, { min := longKey 10, max := longKey 20 }]

/-- Example metadata: the shard owns the chunks [0, 10) and [15, 20). -/
def gapChunks : List ChunkType :=
  [{ min := longKey 0, max := longKey 10 }, { min := longKey 15, max := longKey 20 }]

/-- Example environment: everything succeeds, the key pattern is not hashed,
and the collection is gone after the split. -/
def quietEnv : Env :=
  { lock := .OK, isHashedKeyPattern := fun _ => false,
    runCommandWithFixedRetryAttempts := .value { commandStatus := .OK, writeConcernStatus := .OK },
    refreshMetadataNow := .OK, getMetadata := none, getCollection := none,
    globalMin := fun _ => [], globalMax := fun _ => [] }

/-- Example metadata: the shard owns the whole chunk [0, 20), the split did
not happen. -/
def unsplitChunks : List ChunkType :=
  [{ min := longKey 0, max := longKey 20 }]

/-- Example metadata: the shard owns the two halves [0, 10) and [10, 20). -/
def splitChunks : List ChunkType :=
  [{ min := longKey 0, max := longKey 10 }, { min := longKey 10, max := longKey 20 }]

/-- Example environment: the commit fails with HostUnreachable, the refresh
succeeds, and the collection has no sharding metadata afterwards. -/
def unshardedEnv : Env :=
  { quietEnv with
    runCommandWithFixedRetryAttempts :=
      .value { commandStatus := .error ErrorCodes.HostUnreachable, writeConcernStatus := .OK } }

/-- Example environment: the commit fails with HostUnreachable, the refresh
succeeds, and the metadata holds the unsplit chunk [0, 20). -/
def notCommittedEnv : Env :=
  { unshardedEnv with getMetadata := some (metadataOf unsplitChunks) }

/-- Example environment: the distributed lock is busy and the key pattern is
hashed. -/
def lockBusyEnv : Env :=
  { quietEnv with lock := .error ErrorCodes.LockBusy, isHashedKeyPattern := fun _ => true }

/-- Example environment: everything succeeds and the key pattern is hashed. -/
def hashedEnv : Env :=
  { quietEnv with isHashedKeyPattern := fun _ => true }

/-- A key with the single element `NumberDouble(n)`. -/
def doubleKey (n : Int) : BSONObj := [{ type := .NumberDouble, value := n }]

end SplitChunk

/-!
dropDatabase (src/mongo/db/catalog/drop_database.cpp).  The operation on one
database name.  The state is the entry of the catalog for that name, `none`
when there is no such database; of a database the model keeps the
drop-pending flag and its collections.  The replication coordinator, the
storage parameters and `Database::dropDatabase` are outside the file: what
they answer is a field of `Env`.  `writeConflictRetry` runs its body again
after a write conflict, from the state the guards and the rolled-back unit of
work leave; the model has the attempt that goes through.
-/

namespace DropDatabase

/-- A `repl::OpTime`; 0 is the null optime. -/
abbrev OpTime := Nat

/-- What the loop of `dropDatabase` reads of one collection and of its
namespace, and the result of dropping it. -/
structure Collection where
  isDropPendingNamespace : Bool
  getDropPendingNamespaceOpTime : StatusWith OpTime
  isOplogDisabledFor : Bool
  isSystemDotIndexes : Bool
  dropCollectionEvenIfSystem : Status
deriving DecidableEq, Repr

/-- A `Database`: the drop-pending flag (`setDropPending`) and the
collections the loop visits.  What dropping does to a collection is left
out. -/
structure Database where
  dropPending : Bool
  collections : List Collection
deriving DecidableEq, Repr

/-- What the collaborators answer during one call of `dropDatabase`. -/
structure Env where
  /-- `storageGlobalParams.readOnly` -/
  readOnly : Bool
  /-- `opCtx->writesAreReplicated()` -/
  writesAreReplicated : Bool
  /-- `replCoord->isReplEnabled()` -/
  isReplEnabled : Bool
  /-- `canAcceptWritesForDatabase` in the first body -/
  canAcceptWritesFirst : Bool
  /-- the code of the exception `Database::dropDatabase` throws, if any -/
  dropDatabaseThrows : Option ErrorCode
  /-- the status of `awaitReplicationOfLastOpForClient` -/
  awaitReplicationOfLastOpForClient : Status
  /-- the status of `awaitReplication` for an optime -/
  awaitReplication : OpTime → Status
  /-- whether the database is still in the catalog after the wait, which
  holds no lock -/
  existsAfterWait : Bool
  /-- `canAcceptWritesForDatabase` in the second body -/
  canAcceptWritesSecond : Bool

/-- How a call ends: it returns a status, it throws, or the process is
terminated by a failed `fassert` or `invariant`. -/
inductive Outcome where
  | returned (status : Status)
  | thrown (code : ErrorCode)
  | aborted
deriving DecidableEq, Repr

/-- `_finishDropDatabase`: the outcome and the entry of the catalog
afterwards.  The guard resets the flag when `Database::dropDatabase` throws;
otherwise the database is gone. -/
def _finishDropDatabase (env : Env) (db : Database) : Outcome × Option Database :=
  match env.dropDatabaseThrows with
  | some code => (.thrown code, some { db with dropPending := false })
  | none => (.returned .OK, none)

/-- How the loop over the collections ends. -/
inductive LoopResult where
  | finished (latestDropPendingOpTime : OpTime) (numCollectionsToDrop : Nat)
  | thrown (code : ErrorCode)
  | aborted
deriving DecidableEq, Repr

/-- The loop `for (auto collection : *db)` of the first body. -/
def dropCollections (env : Env) : List Collection → OpTime → Nat → LoopResult
  | [], latestDropPendingOpTime, numCollectionsToDrop =>
    .finished latestDropPendingOpTime numCollectionsToDrop
  | collection :: rest, latestDropPendingOpTime, numCollectionsToDrop =>
    if collection.isDropPendingNamespace && env.isReplEnabled && env.writesAreReplicated then
      match collection.getDropPendingNamespaceOpTime with
      | .error code => .thrown code
      | .value opTime =>
        dropCollections env rest (max latestDropPendingOpTime opTime) numCollectionsToDrop
    else if collection.isOplogDisabledFor || collection.isSystemDotIndexes then
      dropCollections env rest latestDropPendingOpTime numCollectionsToDrop
    else
      match collection.dropCollectionEvenIfSystem with
      | .error _ => .aborted
      | .OK => dropCollections env rest latestDropPendingOpTime (numCollectionsToDrop + 1)

/-- The wait for the collection drops to replicate; `none` is the failed
`invariant`. -/
def awaitDrops (env : Env) (latestDropPendingOpTime : OpTime) (numCollectionsToDrop : Nat) :
    Option Status :=
  if numCollectionsToDrop > 0 then some env.awaitReplicationOfLastOpForClient
  else if latestDropPendingOpTime = 0 then none
  else some (env.awaitReplication latestDropPendingOpTime)

/-- `dropDatabase`: the outcome and the entry of the catalog afterwards. -/
def dropDatabase (env : Env) (catalog : Option Database) : Outcome × Option Database :=
  if env.readOnly then (.thrown ErrorCodes.IllegalOperation, catalog)
  else
    match catalog with
    | none => (.returned (.error ErrorCodes.NamespaceNotFound), none)
    | some db =>
      if env.writesAreReplicated && !env.canAcceptWritesFirst then
        (.returned (.error ErrorCodes.NotMaster), some db)
      else
        let db1 := { db with dropPending := true }
        match dropCollections env db1.collections 0 0 with
        | .thrown code => (.thrown code, some { db1 with dropPending := false })
        | .aborted => (.aborted, some db1)
        | .finished latestDropPendingOpTime numCollectionsToDrop =>
          if numCollectionsToDrop = 0 ∧ latestDropPendingOpTime = 0 then
            _finishDropDatabase env db1
          else
            match awaitDrops env latestDropPendingOpTime numCollectionsToDrop with
            | none => (.aborted, some db1)
            | some (.error code) =>
              (.returned (.error code),
                if env.existsAfterWait then some { db1 with dropPending := false } else none)
            | some .OK =>
              if env.writesAreReplicated && !env.canAcceptWritesSecond then
                (.returned (.error ErrorCodes.PrimarySteppedDown),
                  if env.existsAfterWait then some db1 else none)
              else if env.existsAfterWait then _finishDropDatabase env db1
              else (.returned (.error ErrorCodes.NamespaceNotFound), none)

/-- Example collection: an ordinary replicated collection whose drop succeeds. -/
def userCollection : Collection :=
  { isDropPendingNamespace := false, getDropPendingNamespaceOpTime := .error 2,
    isOplogDisabledFor := false, isSystemDotIndexes := false,
    dropCollectionEvenIfSystem := .OK }

/-- Example environment: a primary of a replica set, every collaborator
succeeds and the database stays in the catalog. -/
def primaryEnv : Env :=
  { readOnly := false, writesAreReplicated := true, isReplEnabled := true,
    canAcceptWritesFirst := true, dropDatabaseThrows := none,
    awaitReplicationOfLastOpForClient := .OK, awaitReplication := fun _ => .OK,
    existsAfterWait := true, canAcceptWritesSecond := true }

/-- Example environment: the node is primary when the collections are
dropped and has stepped down when the wait for replication is over. -/
def stepDownEnv : Env :=
  { primaryEnv with canAcceptWritesSecond := false }

/-- Example environment: the wait for replication fails. -/
def waitFailsEnv : Env :=
  { primaryEnv with awaitReplicationOfLastOpForClient := .error ErrorCodes.Interrupted }

end DropDatabase

/-! ## Theorems -/

namespace AsyncRequestsSender

/-- The guarded statement never calls `set` on a signaled notification, and
it leaves the notification signaled. -/
@[simp] theorem signalIfUnset_eq (n : Bool) : signalIfUnset n = some true := by
  cases n <;> rfl

theorem retryCheck_cases (cfg : Config) (a : Answers) (i : Nat) (r : RemoteData) :
    (∃ cs, retryCheck cfg a i r = (r, cs) ∧ ∀ c ∈ cs, Call.isMonitor i c = true) ∨
    (r.ready = true ∧ a.getShard = false ∧
      retryCheck cfg a i r =
        ({ r with swResponse := some (.error ErrorCodes.ShardNotFound) }, [])) ∨
    (r.ready = true ∧ a.getShard = true ∧ r.retryCount < kMaxNumFailedHostRetryAttempts ∧
      ∃ cs, retryCheck cfg a i r =
          ({ r with retryCount := r.retryCount + 1, swResponse := none }, cs) ∧
        ∀ c ∈ cs, Call.isMonitor i c = true) := by
  unfold retryCheck
  cases hsw : r.swResponse with
  | none => left; exact ⟨[], by simp⟩
  | some sw =>
    cases hd : r.done with
    | true => left; exact ⟨[], by simp⟩
    | false =>
      cases hst : errorStatus cfg sw with
      | OK => left; exact ⟨[], by simp [hst]⟩
      | error code =>
        cases hg : a.getShard with
        | false => right; left; simp [RemoteData.ready, hsw, hd, hst]
        | true =>
          have hmon : ∀ c ∈ (match r.shardHostAndPort with
              | some hp => [Call.updateReplSetMonitor i hp (.error code)]
              | none => []), Call.isMonitor i c = true := by
            cases r.shardHostAndPort <;> simp [Call.isMonitor]
          by_cases hretry : (cfg.isRetriableError code &&
              decide (r.retryCount < kMaxNumFailedHostRetryAttempts)) = true
          · right; right
            have hlt : r.retryCount < kMaxNumFailedHostRetryAttempts := by
              simp at hretry; exact hretry.2
            refine ⟨by simp [RemoteData.ready, hsw, hd], rfl, hlt, _, ?_, hmon⟩
            simp [hst, hretry]
          · left
            refine ⟨_, ?_, hmon⟩
            simp [hst, hretry]

theorem _scheduleRequest_cases (a : Answers) (i : Nat) (r : RemoteData)
    (hidle : r.idle = true) :
    (a.getShardResolve = false ∧
      _scheduleRequest a i r = some (.error ErrorCodes.ShardNotFound, r, [])) ∨
    (a.getShardResolve = true ∧ ∃ c, a.findHostWithMaxWait = .error c ∧
      _scheduleRequest a i r = some (.error c, r, [.findHostWithMaxWait i])) ∨
    (a.getShardResolve = true ∧ ∃ hp c, a.findHostWithMaxWait = .value hp ∧
      a.scheduleRemoteCommand = .error c ∧
      _scheduleRequest a i r = some (.error c, { r with shardHostAndPort := some hp },
        [.findHostWithMaxWait i, .scheduleRemoteCommand i hp])) ∨
    (a.getShardResolve = true ∧ ∃ hp h, a.findHostWithMaxWait = .value hp ∧
      a.scheduleRemoteCommand = .value h ∧
      _scheduleRequest a i r =
        some (.OK, { r with shardHostAndPort := some hp, cbHandle := ⟨some h⟩ },
          [.findHostWithMaxWait i, .scheduleRemoteCommand i hp])) := by
  simp only [RemoteData.idle, Bool.and_eq_true, Option.isNone_iff_eq_none,
    Bool.not_eq_true'] at hidle
  obtain ⟨hsw, hcb⟩ := hidle
  unfold _scheduleRequest RemoteData.resolveShardIdToHostAndPort
  cases hg : a.getShardResolve with
  | false => left; simp [hsw, hcb]
  | true =>
    cases hf : a.findHostWithMaxWait with
    | error c => right; left; simp [hsw, hcb]
    | value hp =>
      cases hs : a.scheduleRemoteCommand with
      | error c => right; right; left; simp [hsw, hcb]
      | value h => right; right; right; simp [hsw, hcb]

theorem retryCheck_phase1 (cfg : Config) (a : Answers) (i : Nat) (r : RemoteData) :
    Phase1 a i r (retryCheck cfg a i r).1 (retryCheck cfg a i r).2 := by
  rcases retryCheck_cases cfg a i r with ⟨cs, h, hcs⟩ | ⟨hr, hs, h⟩ | ⟨hr, hs, hc, cs, h, hcs⟩
  · rw [h]; exact .keep cs hcs
  · rw [h]; exact .shardNotFound hr hs
  · rw [h]; exact .retry cs hcs hr hs hc

/-- The loop body never aborts, and it is the retry check followed by the
scheduling of an idle slot. -/
theorem scheduleRemote_spec (cfg : Config) (a : Answers) (i : Nat) (r : RemoteData) (n : Bool) :
    ∃ r2 cs2 n2, Phase2 a i (retryCheck cfg a i r).1 n r2 cs2 n2 ∧
      scheduleRemote cfg a i r n = some (r2, (retryCheck cfg a i r).2 ++ cs2, n2) := by
  unfold scheduleRemote
  generalize retryCheck cfg a i r = p
  obtain ⟨r1, cs1⟩ := p
  cases hidle : r1.idle with
  | false =>
    refine ⟨r1, [], n, .skip hidle, ?_⟩
    have : (r1.swResponse.isNone && !r1.cbHandle.isValid) = false := hidle
    simp [this]
  | true =>
    have hc : (r1.swResponse.isNone && !r1.cbHandle.isValid) = true := hidle
    rcases _scheduleRequest_cases a i r1 hidle with
      ⟨hs, h⟩ | ⟨hs, c, hf, h⟩ | ⟨hs, hp, c, hf, hsc, h⟩ | ⟨hs, hp, hd, hf, hsc, h⟩
    · refine ⟨_, _, _, .shardNotFound hidle hs, ?_⟩
      simp [hc, h]
    · refine ⟨_, _, _, .findHostFailed c hidle hs hf, ?_⟩
      simp [hc, h]
    · refine ⟨_, _, _, .scheduleFailed hp c hidle hs hf hsc, ?_⟩
      simp [hc, h]
    · refine ⟨_, _, _, .scheduled hp hd hidle hs hf hsc, ?_⟩
      simp [hc, h]

theorem scheduleRemote_slotPass {cfg : Config} {a : Answers} {i : Nat} {r r2 : RemoteData}
    {n n2 : Bool} {cs : List Call} (h : scheduleRemote cfg a i r n = some (r2, cs, n2)) :
    SlotPass cfg a i r r2 cs := by
  obtain ⟨r2', cs2, n2', hp2, heq⟩ := scheduleRemote_spec cfg a i r n
  rw [heq] at h
  simp only [Option.some.injEq, Prod.mk.injEq] at h
  obtain ⟨rfl, rfl, rfl⟩ := h
  exact ⟨_, _, cs2, n, n2', retryCheck_phase1 cfg a i r, hp2, rfl, rfl, rfl⟩

theorem SlotPass.slot {cfg : Config} {a : Answers} {i : Nat} {r r2 : RemoteData}
    {cs : List Call} (h : SlotPass cfg a i r r2 cs) : ∀ c ∈ cs, c.slot = i := by
  obtain ⟨r1, cs1, cs2, n, n2, h1, h2, rfl, -⟩ := h
  have hmon : ∀ cs : List Call, (∀ c ∈ cs, Call.isMonitor i c = true) → ∀ c ∈ cs, c.slot = i := by
    intro cs hcs c hc
    have := hcs c hc
    cases c <;> simp_all [Call.isMonitor, Call.slot]
  intro c hc
  rw [List.mem_append] at hc
  rcases hc with hc | hc
  · cases h1 with
    | keep cs hcs => exact hmon _ hcs c hc
    | shardNotFound => simp at hc
    | retry cs hcs => exact hmon _ hcs c hc
  · cases h2 <;> simp at hc <;> (try rcases hc with rfl | rfl) <;> rfl

theorem slotCalls_append (k : Nat) (l1 l2 : List Call) :
    slotCalls k (l1 ++ l2) = slotCalls k l1 ++ slotCalls k l2 := by
  simp [slotCalls]

theorem slotCalls_of_slot {k : Nat} {cs : List Call} (h : ∀ c ∈ cs, c.slot = k) :
    slotCalls k cs = cs := by
  simp only [slotCalls, List.filter_eq_self]
  intro c hc
  simp [h c hc]

theorem slotCalls_of_ne {k : Nat} {cs : List Call} (h : ∀ c ∈ cs, c.slot ≠ k) :
    slotCalls k cs = [] := by
  simp only [slotCalls, List.filter_eq_nil_iff]
  intro c hc
  simp [h c hc]

/-- The loop of `_scheduleRequests` never aborts; it keeps the number of
slots and acts on each slot by its own iteration, whose calls are the calls
of the pass made for that slot. -/
theorem scheduleLoop_spec (cfg : Config) (oracle : Nat → Answers) :
    ∀ (rs : List RemoteData) (i : Nat) (n : Bool),
      ∃ rs2 cs n2, scheduleLoop cfg oracle i rs n = some (rs2, cs, n2) ∧
        rs2.length = rs.length ∧ (∀ c ∈ cs, i ≤ c.slot) ∧
        ∀ k r, rs[k]? = some r → ∃ r2, rs2[k]? = some r2 ∧
          SlotPass cfg (oracle (i + k)) (i + k) r r2 (slotCalls (i + k) cs) := by
  intro rs
  induction rs with
  | nil => intro i n; exact ⟨[], [], n, rfl, rfl, by simp, by simp⟩
  | cons r rest ih =>
    intro i n
    obtain ⟨r2, cs2, n2, hp2, heq⟩ := scheduleRemote_spec cfg (oracle i) i r n
    obtain ⟨rest2, cs3, n3, hloop, hlen, hslot, hget⟩ := ih (i + 1) n2
    have hpass := scheduleRemote_slotPass heq
    have hs1 := hpass.slot
    refine ⟨r2 :: rest2, ((retryCheck cfg (oracle i) i r).2 ++ cs2) ++ cs3, n3, ?_,
      by simp [hlen], ?_, ?_⟩
    · simp [scheduleLoop, heq, hloop]
    · intro c hc
      rw [List.mem_append] at hc
      rcases hc with hc | hc
      · exact (hs1 c hc).ge
      · exact Nat.le_of_succ_le (hslot c hc)
    · intro k rk hk
      cases k with
      | zero =>
        simp only [List.getElem?_cons_zero, Option.some.injEq] at hk
        subst hk
        refine ⟨r2, by simp, ?_⟩
        have h3 : slotCalls i cs3 = [] := slotCalls_of_ne fun c hc => by
          have := hslot c hc
          omega
        rw [Nat.add_zero, slotCalls_append, slotCalls_of_slot hs1, h3, List.append_nil]
        exact hpass
      | succ k =>
        simp only [List.getElem?_cons_succ] at hk
        obtain ⟨rk2, hrk2, hp⟩ := hget k rk hk
        refine ⟨rk2, by simpa using hrk2, ?_⟩
        have h1 : slotCalls (i + (k + 1)) ((retryCheck cfg (oracle i) i r).2 ++ cs2) = [] :=
          slotCalls_of_ne fun c hc => by
            have := hs1 c hc
            omega
        rw [slotCalls_append, h1, List.nil_append]
        have e : i + (k + 1) = i + 1 + k := by omega
        rw [e]
        exact hp

/-- `_scheduleRequests` aborts exactly when `_stopRetrying` is set. -/
theorem _scheduleRequests_spec (cfg : Config) (oracle : Nat → Answers) (s : AsyncRequestsSender)
    (hstop : s._stopRetrying = false) :
    ∃ rs2 cs n2, _scheduleRequests cfg oracle s =
        some { s with _remotes := rs2, calls := s.calls ++ cs, _notification := n2 } ∧
      rs2.length = s._remotes.length ∧
      ∀ k r, s._remotes[k]? = some r → ∃ r2, rs2[k]? = some r2 ∧
        SlotPass cfg (oracle k) k r r2 (slotCalls k cs) := by
  obtain ⟨rs2, cs, n2, hloop, hlen, -, hget⟩ := scheduleLoop_spec cfg oracle s._remotes 0 s._notification
  refine ⟨rs2, cs, n2, ?_, hlen, ?_⟩
  · simp [_scheduleRequests, hstop, hloop]
  · intro k r hk
    simpa using hget k r hk

/-- The loop of `_ready` looks for the first ready slot: it aborts when that
slot holds an OK response without a host, hands it out otherwise, and returns
nothing when no slot is ready. -/
theorem readyLoop_spec (interruptStatus : Status) : ∀ rs : List RemoteData,
    (readyLoop interruptStatus rs = some (none, rs) ∧ ∀ r ∈ rs, r.ready = false) ∨
    ∃ i r, rs[i]? = some r ∧ r.ready = true ∧
      (∀ j rj, j < i → rs[j]? = some rj → rj.ready = false) ∧
      ((readyLoop interruptStatus rs = none ∧ r.shardHostAndPort = none ∧
          ∃ resp, r.swResponse = some (.value resp)) ∨
        ∃ resp r2, Emit interruptStatus r resp r2 ∧
          readyLoop interruptStatus rs = some (some resp, rs.set i r2)) := by
  intro rs
  induction rs with
  | nil => left; simp [readyLoop]
  | cons r rest ih =>
    by_cases hr : r.ready = true
    · right
      refine ⟨0, r, by simp, hr, by simp, ?_⟩
      simp only [RemoteData.ready, Bool.and_eq_true, Option.isSome_iff_exists,
        Bool.not_eq_true'] at hr
      obtain ⟨⟨sw, hsw⟩, hd⟩ := hr
      cases sw with
      | value resp =>
        cases hh : r.shardHostAndPort with
        | none => left; simp [readyLoop, hsw, hd, hh]
        | some hp =>
          right
          exact ⟨_, _, .success resp hp hsw hh, by simp [readyLoop, hsw, hd, hh]⟩
      | error code =>
        right
        exact ⟨_, _, .failure code hsw, by simp [readyLoop, hsw, hd]⟩
    · have hr2 : r.ready = false := by simpa using hr
      have hstep : readyLoop interruptStatus (r :: rest) =
          match readyLoop interruptStatus rest with
          | none => none
          | some (x, rest1) => some (x, r :: rest1) := by
        simp only [RemoteData.ready] at hr2
        cases hsw : r.swResponse with
        | none => simp [readyLoop, hsw]
        | some sw =>
          have hd : r.done = true := by simpa [hsw] using hr2
          simp [readyLoop, hsw, hd]
      rcases ih with ⟨h1, h2⟩ | ⟨i, ri, hi, hri, hlt, hcase⟩
      · left
        refine ⟨by rw [hstep, h1], ?_⟩
        intro x hx
        rcases List.mem_cons.1 hx with rfl | hx
        · exact hr2
        · exact h2 x hx
      · right
        refine ⟨i + 1, ri, by simpa using hi, hri, ?_, ?_⟩
        · intro j rj hj hrj
          cases j with
          | zero => simp at hrj; subst hrj; exact hr2
          | succ j => exact hlt j rj (by omega) (by simpa using hrj)
        · rcases hcase with ⟨h1, h2, h3⟩ | ⟨resp, r2, he, h1⟩
          · left; exact ⟨by rw [hstep, h1], h2, h3⟩
          · right; exact ⟨resp, r2, he, by rw [hstep, h1]; simp⟩

theorem callback_spec {i : Nat} {cbData : RemoteCommandCallbackArgs}
    {s s2 : AsyncRequestsSender} (h : callback i cbData s = .ok s2) :
    ∃ r, s._remotes[i]? = some r ∧ r.cbHandle.isValid = true ∧ r.swResponse = none ∧
      s2 = { s with _remotes := s._remotes.set i (r.store cbData), _notification := true } := by
  unfold callback at h
  cases hr : s._remotes[i]? with
  | none => simp [hr] at h
  | some r =>
    simp only [hr] at h
    cases hv : r.cbHandle.isValid with
    | false => simp [hv] at h
    | true =>
      simp only [hv, if_true] at h
      cases hsw : r.swResponse with
      | some sw => simp [_handleResponse, hr, hsw] at h
      | none =>
        refine ⟨r, rfl, hv, hsw, ?_⟩
        cases hst : cbData.response.status <;>
          simp [_handleResponse, hr, hsw, hst, RemoteData.store] at h ⊢ <;>
          rw [← h]

/-- A callback for a slot in flight that holds no outcome is accepted. -/
theorem callback_ok {i : Nat} (cbData : RemoteCommandCallbackArgs) {s : AsyncRequestsSender}
    {r : RemoteData} (hr : s._remotes[i]? = some r) (hv : r.cbHandle.isValid = true)
    (hsw : r.swResponse = none) :
    callback i cbData s =
      .ok { s with _remotes := s._remotes.set i (r.store cbData), _notification := true } := by
  cases hst : cbData.response.status <;>
    simp [callback, _handleResponse, hr, hv, hsw, hst, RemoteData.store]

theorem cancelCalls_slot : ∀ (rs : List RemoteData) (i k : Nat),
    slotCalls (i + k) (cancelCalls i rs) =
      match rs[k]? with
      | some r => (match r.cbHandle.id with
        | some h => [Call.cancel (i + k) h]
        | none => [])
      | none => [] := by
  intro rs
  induction rs with
  | nil => intro i k; simp [cancelCalls, slotCalls]
  | cons r rest ih =>
    intro i k
    have hge : ∀ (l : List RemoteData) (j : Nat), ∀ c ∈ cancelCalls j l, j ≤ c.slot := by
      intro l
      induction l with
      | nil => intro j c hc; simp [cancelCalls] at hc
      | cons x l ihl =>
        intro j c hc
        unfold cancelCalls at hc
        cases hx : x.cbHandle.id with
        | none =>
          rw [hx] at hc
          exact Nat.le_of_succ_le (ihl (j + 1) c hc)
        | some h =>
          rw [hx] at hc
          rcases List.mem_cons.1 hc with rfl | hc
          · exact Nat.le_refl _
          · exact Nat.le_of_succ_le (ihl (j + 1) c hc)
    cases k with
    | zero =>
      have h0 : slotCalls i (cancelCalls (i + 1) rest) = [] :=
        slotCalls_of_ne fun c hc => by
          have := hge rest (i + 1) c hc
          omega
      unfold cancelCalls
      cases hx : r.cbHandle.id with
      | none => simpa [hx] using h0
      | some h =>
        have : slotCalls i (Call.cancel i h :: cancelCalls (i + 1) rest) =
            Call.cancel i h :: slotCalls i (cancelCalls (i + 1) rest) := by
          simp [slotCalls, Call.slot]
        simp [hx, this, h0]
    | succ k =>
      have e : i + (k + 1) = i + 1 + k := by omega
      have hrest := ih (i + 1) k
      unfold cancelCalls
      cases hx : r.cbHandle.id with
      | none => simpa [hx, e] using hrest
      | some h =>
        have : slotCalls (i + (k + 1)) (Call.cancel i h :: cancelCalls (i + 1) rest) =
            slotCalls (i + (k + 1)) (cancelCalls (i + 1) rest) := by
          simp [slotCalls, Call.slot]
        simp only [List.getElem?_cons_succ]
        rw [this, e]
        exact hrest

theorem _ready_eq (cfg : Config) (oracle : Nat → Answers) (s : AsyncRequestsSender) :
    _ready cfg oracle s =
      match afterPass cfg oracle s with
      | none => none
      | some s2 =>
        if s2._remotes.isEmpty then none
        else
          match readyLoop s2._interruptStatus s2._remotes with
          | none => none
          | some (r, remotes) => some (r, { s2 with _remotes := remotes }) := rfl

/-- The scheduling pass of `_ready` never aborts. -/
theorem afterPass_spec (cfg : Config) (oracle : Nat → Answers) (s : AsyncRequestsSender) :
    ∃ rs2 cs n2, afterPass cfg oracle s =
        some { s with _remotes := rs2, calls := s.calls ++ cs, _notification := n2 } ∧
      rs2.length = s._remotes.length ∧
      (s._stopRetrying = true → rs2 = s._remotes ∧ cs = []) ∧
      (s._stopRetrying = false → ∀ k r, s._remotes[k]? = some r → ∃ r2, rs2[k]? = some r2 ∧
        SlotPass cfg (oracle k) k r r2 (slotCalls k cs)) := by
  cases hstop : s._stopRetrying with
  | true =>
    refine ⟨s._remotes, [], false, ?_, rfl, fun _ => ⟨rfl, rfl⟩, fun h => by simp at h⟩
    simp [afterPass, hstop]
  | false =>
    obtain ⟨rs2, cs, n2, h, hlen, hget⟩ :=
      _scheduleRequests_spec cfg oracle { s with _notification := false } hstop
    refine ⟨rs2, cs, n2, ?_, hlen, fun h => by simp at h, fun _ => hget⟩
    simpa [afterPass, hstop] using h

theorem deliver_quiet {cfg : Config} {A : (Nat → Answers) → Prop} {C : Nat → Prop} :
    ∀ (arrivals : List (Nat × RemoteCommandCallbackArgs)) (s0 s1 s2 : AsyncRequestsSender),
      (∀ x ∈ arrivals, C x.1) →
      Quiet cfg A C s0 s1 → deliver arrivals s1 = .ok s2 → Quiet cfg A C s0 s2 := by
  intro arrivals
  induction arrivals with
  | nil =>
    intro s0 s1 s2 _ hq h
    simp only [deliver, Except.ok.injEq] at h
    subst h
    exact hq
  | cons x rest ih =>
    intro s0 s1 s2 hC hq h
    obtain ⟨i, cbData⟩ := x
    simp only [deliver] at h
    cases hc : callback i cbData s1 with
    | error f => simp [hc] at h
    | ok s3 =>
      simp only [hc] at h
      exact ih s0 s3 s2 (fun y hy => hC y (List.mem_cons_of_mem _ hy))
        (.callback i cbData (hC (i, cbData) (List.mem_cons_self _ _)) hq hc) h

/-- A call of `next` that returns ends with a `_ready` that hands out the
response, after steps that hand out nothing. -/
theorem nextLoop_returned {cfg : Config} {A : (Nat → Answers) → Prop} {C : Nat → Prop} :
    ∀ (script : List Tick) (s0 s : AsyncRequestsSender) (r : Response)
      (s2 : AsyncRequestsSender), (∀ t ∈ script, A t.oracle) →
      (∀ t ∈ script, ∀ i ∈ t.wait.slots, C i) → Quiet cfg A C s0 s →
      nextLoop cfg script s = .returned r s2 →
      ∃ s1 o, A o ∧ Quiet cfg A C s0 s1 ∧ _ready cfg o s1 = some (some r, s2) := by
  intro script
  induction script with
  | nil => intro s0 s r s2 _ _ _ h; simp [nextLoop] at h
  | cons tick script ih =>
    intro s0 s r s2 hA hC hq h
    have hAt : A tick.oracle := hA tick (List.mem_cons_self _ _)
    have hA2 : ∀ t ∈ script, A t.oracle := fun t ht => hA t (List.mem_cons_of_mem _ ht)
    have hCt : ∀ i ∈ tick.wait.slots, C i := hC tick (List.mem_cons_self _ _)
    have hC2 : ∀ t ∈ script, ∀ i ∈ t.wait.slots, C i :=
      fun t ht => hC t (List.mem_cons_of_mem _ ht)
    unfold nextLoop at h
    cases hr : _ready cfg tick.oracle s with
    | none => simp [hr] at h
    | some p =>
      obtain ⟨res, s1⟩ := p
      cases res with
      | some r1 =>
        simp only [hr, NextResult.returned.injEq] at h
        obtain ⟨rfl, rfl⟩ := h
        exact ⟨s, tick.oracle, hAt, hq, hr⟩
      | none =>
        simp only [hr] at h
        have hq1 : Quiet cfg A C s0 s1 := .ready tick.oracle hAt hq hr
        cases hw : tick.wait with
        | interrupted code =>
          cases hi : s1._interruptStatus with
          | OK =>
            simp only [hw, hi] at h
            exact ih s0 _ r s2 hA2 hC2 (.interrupted code hq1 hi) h
          | error c =>
            simp only [hw, hi] at h
            cases hn : s1._notification with
            | false => simp [hn] at h
            | true =>
              simp only [hn, if_true] at h
              exact ih s0 s1 r s2 hA2 hC2 hq1 h
        | callbacks arrivals =>
          have h2 : (match deliver arrivals s1 with
              | .error f => NextResult.fault f
              | .ok s3 => if s3._notification then nextLoop cfg script s3 else .blocked s3) =
              .returned r s2 := by
            cases hi : s1._interruptStatus <;> simpa [hw, hi] using h
          have hCa : ∀ x ∈ arrivals, C x.1 := by
            intro x hx
            exact hCt x.1 (by rw [hw]; exact List.mem_map_of_mem _ hx)
          cases hd : deliver arrivals s1 with
          | error f => simp [hd] at h2
          | ok s3 =>
            simp only [hd] at h2
            cases hn : s3._notification with
            | false => simp [hn] at h2
            | true =>
              simp only [hn, if_true] at h2
              exact ih s0 s3 r s2 hA2 hC2 (deliver_quiet arrivals s0 s1 s3 hCa hq1 hd) h2

theorem quiet_preserves {cfg : Config} {A : (Nat → Answers) → Prop} {C : Nat → Prop}
    {P : AsyncRequestsSender → Prop}
    (hcb : ∀ s i cbData s2, C i → P s → callback i cbData s = .ok s2 → P s2)
    (hready : ∀ s o s2, A o → P s → _ready cfg o s = some (none, s2) → P s2)
    (hint : ∀ s code, P s → s._interruptStatus = .OK → P (interruptedWait code s))
    {s s1 : AsyncRequestsSender} (h : Quiet cfg A C s s1) (hP : P s) : P s1 := by
  induction h with
  | refl => exact hP
  | ready o ho _ hr ih => exact hready _ o _ ho ih hr
  | callback i cbData hi _ hc ih => exact hcb _ i cbData _ hi ih hc
  | interrupted code _ hi ih => exact hint _ code ih hi

theorem next_of_done {cfg : Config} {script : List Tick} {s : AsyncRequestsSender}
    (h : (done s).1 = true) : next cfg script s = .fault .invariant := by
  unfold next
  rw [h]
  rfl

theorem next_of_not_done {cfg : Config} {script : List Tick} {s : AsyncRequestsSender}
    (h : (done s).1 = false) : next cfg script s = nextLoop cfg script s := by
  unfold next
  rw [h]
  rfl

/-- Induction over an execution: a property of the state kept by the
callbacks, by `_ready`, by the interrupted wait, by `stopRetrying` and by
`_cancelPendingRequests` holds after every step; `A` restricts the answers of
the collaborators and `C` the slots whose callbacks run. -/
theorem run_induction {cfg : Config} {A : (Nat → Answers) → Prop} {C : Nat → Prop}
    {P : AsyncRequestsSender → Prop}
    (hcb : ∀ s i cbData s2, C i → P s → callback i cbData s = .ok s2 → P s2)
    (hready : ∀ s o res s2, A o → P s → _ready cfg o s = some (res, s2) → P s2)
    (hint : ∀ s code, P s → s._interruptStatus = .OK → P (interruptedWait code s))
    (hstop : ∀ s, P s → P (stopRetrying s))
    (hcancel : ∀ s, P s → P (_cancelPendingRequests s)) :
    ∀ (ops : List Op) (s s2 : AsyncRequestsSender) (out : List Response),
      (∀ op ∈ ops, ∀ o ∈ op.oracles, A o) → (∀ op ∈ ops, ∀ i ∈ op.callbacks, C i) →
      P s → run cfg s ops = .ok (s2, out) → P s2 := by
  intro ops
  induction ops with
  | nil =>
    intro s s2 out _ _ hP h
    simp only [run, Except.ok.injEq, Prod.mk.injEq] at h
    rw [← h.1]
    exact hP
  | cons op ops ih =>
    intro s s2 out hA hC hP h
    have hA1 : ∀ o ∈ op.oracles, A o := hA op (List.mem_cons_self _ _)
    have hA2 : ∀ op2 ∈ ops, ∀ o ∈ op2.oracles, A o :=
      fun op2 h2 => hA op2 (List.mem_cons_of_mem _ h2)
    have hC1 : ∀ i ∈ op.callbacks, C i := hC op (List.mem_cons_self _ _)
    have hC2 : ∀ op2 ∈ ops, ∀ i ∈ op2.callbacks, C i :=
      fun op2 h2 => hC op2 (List.mem_cons_of_mem _ h2)
    simp only [run] at h
    cases hs : step cfg s op with
    | error f => simp [hs] at h
    | ok p =>
      obtain ⟨s1, res⟩ := p
      simp only [hs] at h
      cases hrun : run cfg s1 ops with
      | error f => simp [hrun] at h
      | ok q =>
        obtain ⟨s3, rs⟩ := q
        simp only [hrun, Except.ok.injEq, Prod.mk.injEq] at h
        obtain ⟨rfl, -⟩ := h
        refine ih s1 s3 rs hA2 hC2 ?_ hrun
        cases op with
        | handleResponse i cbData =>
          simp only [step] at hs
          cases hc : callback i cbData s with
          | error f => simp [hc] at hs
          | ok s4 =>
            simp only [hc, Except.ok.injEq, Prod.mk.injEq] at hs
            rw [← hs.1]
            exact hcb s i cbData s4 (hC1 i (by simp [Op.callbacks])) hP hc
        | next script =>
          simp only [step] at hs
          cases hd : (done s).1 with
          | true => simp [next_of_done hd] at hs
          | false =>
            rw [next_of_not_done hd] at hs
            cases hn : nextLoop cfg script s with
            | blocked s4 => simp [hn] at hs
            | fault f => simp [hn] at hs
            | returned r s4 =>
              simp [hn] at hs
              obtain ⟨rfl, -⟩ := hs
              have hAs : ∀ t ∈ script, A t.oracle := by
                intro t ht
                exact hA1 _ (by simpa [Op.oracles] using ⟨t, ht, rfl⟩)
              have hCs : ∀ t ∈ script, ∀ i ∈ t.wait.slots, C i := by
                intro t ht i hi
                exact hC1 i (by
                  simp only [Op.callbacks, List.mem_flatMap]
                  exact ⟨t, ht, hi⟩)
              obtain ⟨s5, o, ho, hq, hr⟩ :=
                nextLoop_returned script s s r s4 hAs hCs (.refl s) hn
              exact hready s5 o _ s4 ho
                (quiet_preserves hcb (fun s o s2 => hready s o none s2) hint hq hP) hr
        | stopRetrying =>
          simp only [step, Except.ok.injEq, Prod.mk.injEq] at hs
          rw [← hs.1]
          exact hstop s hP
        | ready o =>
          simp only [step] at hs
          cases hr : _ready cfg o s with
          | none => simp [hr] at hs
          | some p =>
            obtain ⟨res2, s4⟩ := p
            simp only [hr, Except.ok.injEq, Prod.mk.injEq] at hs
            rw [← hs.1]
            exact hready s o res2 s4 (hA1 o (by simp [Op.oracles])) hP hr
        | interrupted code =>
          simp only [step] at hs
          cases hi : s._interruptStatus with
          | error c => simp [hi] at hs
          | OK =>
            simp only [hi, Except.ok.injEq, Prod.mk.injEq] at hs
            rw [← hs.1]
            exact hint s code hP hi
        | cancelPendingRequests =>
          simp only [step, Except.ok.injEq, Prod.mk.injEq] at hs
          rw [← hs.1]
          exact hcancel s hP

/-- What a call of `_ready` that does not abort does: the scheduling pass
(unless `_stopRetrying` is set) gives the slots `mid`, and the first ready slot
of `mid`, if any, is handed out. -/
theorem _ready_spec {cfg : Config} {o : Nat → Answers} {s s2 : AsyncRequestsSender}
    {res : Option Response} (h : _ready cfg o s = some (res, s2)) :
    ∃ mid cs n, s2 = { s with _remotes := s2._remotes, calls := s.calls ++ cs,
                              _notification := n } ∧
      mid.length = s._remotes.length ∧ mid ≠ [] ∧
      (s._stopRetrying = true → mid = s._remotes ∧ cs = []) ∧
      (s._stopRetrying = false → ∀ k r, s._remotes[k]? = some r → ∃ r2, mid[k]? = some r2 ∧
        SlotPass cfg (o k) k r r2 (slotCalls k cs)) ∧
      ((res = none ∧ s2._remotes = mid ∧ ∀ r ∈ mid, r.ready = false) ∨
       (∃ i r resp r2, res = some resp ∧ mid[i]? = some r ∧ r.ready = true ∧
          (∀ j rj, j < i → mid[j]? = some rj → rj.ready = false) ∧
          Emit s._interruptStatus r resp r2 ∧ s2._remotes = mid.set i r2)) := by
  rw [_ready_eq] at h
  obtain ⟨mid, cs, n, hap, hlen, hstop, hpass⟩ := afterPass_spec cfg o s
  rw [hap] at h
  simp only at h
  cases hemp : mid.isEmpty with
  | true => simp [hemp] at h
  | false =>
    simp only [hemp] at h
    have hne : mid ≠ [] := by
      intro he
      simp [he] at hemp
    rcases readyLoop_spec s._interruptStatus mid with
      ⟨hrl, hnone⟩ | ⟨i, r, hi, hr, hlt, ⟨hrl, -, -⟩ | ⟨resp, r2, hem, hrl⟩⟩
    · rw [hrl] at h
      simp only [Bool.false_eq_true, if_false, Option.some.injEq, Prod.mk.injEq] at h
      obtain ⟨rfl, rfl⟩ := h
      exact ⟨mid, cs, n, rfl, hlen, hne, hstop, hpass, .inl ⟨rfl, rfl, hnone⟩⟩
    · rw [hrl] at h
      simp at h
    · rw [hrl] at h
      simp only [Bool.false_eq_true, if_false, Option.some.injEq, Prod.mk.injEq] at h
      obtain ⟨rfl, rfl⟩ := h
      exact ⟨mid, cs, n, rfl, hlen, hne, hstop, hpass,
        .inr ⟨i, r, resp, r2, rfl, hi, hr, hlt, hem, rfl⟩⟩

/-- A property of each slot and of the calls made for it that the loop body
of `_scheduleRequests`, the hand-out of `_ready`, the callback and `cancel`
keep, holds for every slot after every step of an execution. -/
theorem slot_invariant {cfg : Config} {A : (Nat → Answers) → Prop}
    {J : Nat → RemoteData → List Call → Prop}
    (hpass : ∀ o k r r2 cs l, A o → J k r l → SlotPass cfg (o k) k r r2 cs → J k r2 (l ++ cs))
    (hemit : ∀ intr k r resp r2 l, J k r l → r.ready = true → Emit intr r resp r2 → J k r2 l)
    (hcb : ∀ k r cbData l, J k r l → r.cbHandle.isValid = true → r.swResponse = none →
      J k (r.store cbData) l)
    (hcancel : ∀ k r h l, J k r l → r.cbHandle.id = some h → J k r (l ++ [.cancel k h]))
    (ops : List Op) (s s2 : AsyncRequestsSender) (out : List Response)
    (hA : ∀ op ∈ ops, ∀ o ∈ op.oracles, A o)
    (hs : ∀ k r, s._remotes[k]? = some r → J k r (slotCalls k s.calls))
    (hrun : run cfg s ops = .ok (s2, out)) :
    ∀ k r, s2._remotes[k]? = some r → J k r (slotCalls k s2.calls) := by
  have hcancel2 : ∀ s : AsyncRequestsSender,
      (∀ k r, s._remotes[k]? = some r → J k r (slotCalls k s.calls)) →
      ∀ k r, (_cancelPendingRequests s)._remotes[k]? = some r →
        J k r (slotCalls k (_cancelPendingRequests s).calls) := by
    intro s hP k r hk
    simp only [_cancelPendingRequests] at hk ⊢
    rw [slotCalls_append]
    have hc := cancelCalls_slot s._remotes 0 k
    simp only [Nat.zero_add, hk] at hc
    rw [hc]
    cases hid : r.cbHandle.id with
    | none => simpa using hP k r hk
    | some h => exact hcancel k r h _ (hP k r hk) hid
  refine run_induction (C := fun _ => True) (P := fun s => ∀ k r, s._remotes[k]? = some r →
    J k r (slotCalls k s.calls)) ?_ ?_ ?_ ?_ hcancel2 ops s s2 out hA
    (fun _ _ _ _ => trivial) hs hrun
  · intro s i cbData s2 _ hP hc k r hk
    obtain ⟨ri, hi, hv, hsw, rfl⟩ := callback_spec hc
    simp only at hk ⊢
    by_cases hik : i = k
    · subst hik
      rw [List.getElem?_set_eq_of_lt _ (by
        rcases List.getElem?_eq_some.1 hi with ⟨hlt, -⟩
        exact hlt)] at hk
      simp only [Option.some.injEq] at hk
      subst hk
      exact hcb i ri cbData _ (hP i ri hi) hv hsw
    · rw [List.getElem?_set_ne hik] at hk
      exact hP k r hk
  · intro s o res s2 ho hP hr k r hk
    obtain ⟨mid, cs, n, heq, hlen, -, hstop, hslots, hres⟩ := _ready_spec hr
    have hcalls : s2.calls = s.calls ++ cs := by rw [heq]
    have hmid : ∀ rm, mid[k]? = some rm → J k rm (slotCalls k s2.calls) := by
      intro rm hrm
      rw [hcalls, slotCalls_append]
      cases hst : s._stopRetrying with
      | true =>
        obtain ⟨rfl, rfl⟩ := hstop hst
        simpa [slotCalls] using hP k rm hrm
      | false =>
        have hlt : k < s._remotes.length := by
          rw [← hlen]
          exact (List.getElem?_eq_some.1 hrm).1
        obtain ⟨r2, hr2, hsp⟩ := hslots hst k _ (List.getElem?_eq_getElem hlt)
        rw [hrm] at hr2
        simp only [Option.some.injEq] at hr2
        subst hr2
        exact hpass o k _ _ _ _ ho (hP k _ (List.getElem?_eq_getElem hlt)) hsp
    rcases hres with ⟨-, hrem, -⟩ | ⟨i, ri, resp, r2, -, hi, hready, -, hem, hrem⟩
    · rw [hrem] at hk
      exact hmid r hk
    · rw [hrem] at hk
      by_cases hik : i = k
      · subst hik
        rw [List.getElem?_set_eq_of_lt _ (List.getElem?_eq_some.1 hi).1] at hk
        simp only [Option.some.injEq] at hk
        subst hk
        exact hemit _ i ri resp _ _ (hmid ri hi) hready hem
      · rw [List.getElem?_set_ne hik] at hk
        exact hmid r hk
  · intro s code hP _
    simpa [interruptedWait] using hcancel2 { s with _interruptStatus := .error code } hP
  · intro s hP
    simpa [stopRetrying] using hP

/-- The constructor never aborts: it creates one slot per request and runs
the loop body of `_scheduleRequests` once on each. -/
theorem construct_spec (cfg : Config) (oracle : Nat → Answers) (requests : List Request) :
    ∃ rs cs n, construct cfg oracle requests =
        some { _remotes := rs, calls := cs, _notification := n } ∧
      rs.length = requests.length ∧
      ∀ k request, requests[k]? = some request → ∃ r2, rs[k]? = some r2 ∧
        SlotPass cfg (oracle k) k (RemoteData.fresh request) r2 (slotCalls k cs) := by
  obtain ⟨rs, cs, n, h, hlen, hget⟩ := _scheduleRequests_spec cfg oracle
    { _remotes := requests.map fun request =>
        { shardId := request.shardId, cmdObj := request.cmdObj } } rfl
  refine ⟨rs, cs, n, ?_, by simpa using hlen, ?_⟩
  · simpa [construct] using h
  · intro k request hk
    have := hget k (RemoteData.fresh request) (by simp [hk, RemoteData.fresh])
    simpa using this

/-- A slot property that holds of every slot after the constructor and is kept
by every transition holds in every state an execution reaches from the
constructor. -/
theorem reachable_slot_invariant {cfg : Config} {A : (Nat → Answers) → Prop}
    {J : Nat → RemoteData → List Call → Prop}
    {oracle : Nat → Answers} {requests : List Request}
    (hinit : ∀ k request r2 cs, requests[k]? = some request →
      SlotPass cfg (oracle k) k (RemoteData.fresh request) r2 cs → J k r2 cs)
    (hpass : ∀ o k r r2 cs l, A o → J k r l → SlotPass cfg (o k) k r r2 cs → J k r2 (l ++ cs))
    (hemit : ∀ intr k r resp r2 l, J k r l → r.ready = true → Emit intr r resp r2 → J k r2 l)
    (hcb : ∀ k r cbData l, J k r l → r.cbHandle.isValid = true → r.swResponse = none →
      J k (r.store cbData) l)
    (hcancel : ∀ k r h l, J k r l → r.cbHandle.id = some h → J k r (l ++ [.cancel k h]))
    {s0 s : AsyncRequestsSender} {ops : List Op} {out : List Response}
    (hA : ∀ op ∈ ops, ∀ o ∈ op.oracles, A o)
    (hc : construct cfg oracle requests = some s0)
    (hrun : run cfg s0 ops = .ok (s, out)) :
    ∀ k r, s._remotes[k]? = some r → J k r (slotCalls k s.calls) := by
  refine slot_invariant hpass hemit hcb hcancel ops s0 s out hA ?_ hrun
  obtain ⟨rs, cs, n, hc2, hlen, hget⟩ := construct_spec cfg oracle requests
  rw [hc2] at hc
  simp only [Option.some.injEq] at hc
  subst hc
  intro k r hk
  simp only at hk ⊢
  have hlt : k < requests.length := by
    rw [← hlen]
    exact (List.getElem?_eq_some.1 hk).1
  obtain ⟨r2, hr2, hsp⟩ := hget k _ (List.getElem?_eq_getElem hlt)
  rw [hk] at hr2
  simp only [Option.some.injEq] at hr2
  subst hr2
  exact hinit k _ _ _ (List.getElem?_eq_getElem hlt) hsp

theorem countP_isSchedule_slotCalls (k : Nat) (l : List Call) :
    (slotCalls k l).countP (Call.isSchedule k) = l.countP (Call.isSchedule k) := by
  simp only [slotCalls, List.countP_filter]
  congr 1
  funext c
  cases c <;> simp [Call.isSchedule, Call.slot]

theorem ready_not_idle {r : RemoteData} (h : r.ready = true) : r.idle = false := by
  simp only [RemoteData.ready, Bool.and_eq_true] at h
  obtain ⟨sw, hsw⟩ := Option.isSome_iff_exists.1 h.1
  simp [RemoteData.idle, hsw]

theorem countP_isSchedule_monitor {k : Nat} {cs : List Call}
    (hcs : ∀ c ∈ cs, Call.isMonitor k c = true) : cs.countP (Call.isSchedule k) = 0 := by
  rw [List.countP_eq_zero]
  intro c hc
  have := hcs c hc
  cases c <;> simp_all [Call.isMonitor, Call.isSchedule]

theorem retryBound_pass {cfg : Config} {a : Answers} {k : Nat} {r r2 : RemoteData}
    {cs l : List Call} (hJ : RetryBound k r l) (hp : SlotPass cfg a k r r2 cs) :
    RetryBound k r2 (l ++ cs) := by
  obtain ⟨r1, cs1, cs2, n, n2, h1, h2, rfl, -⟩ := hp
  have step1 : RetryBound k r1 (l ++ cs1) := by
    obtain ⟨hJ1, hJ2⟩ := hJ
    cases h1 with
    | keep _ hcs =>
      exact ⟨hJ1, by rw [List.countP_append, countP_isSchedule_monitor hcs]; simpa using hJ2⟩
    | shardNotFound hready hshard =>
      refine ⟨hJ1, ?_⟩
      rw [ready_not_idle hready] at hJ2
      simpa [RemoteData.idle] using hJ2
    | retry _ hcs hready hshard hcount =>
      refine ⟨hcount, ?_⟩
      rw [ready_not_idle hready] at hJ2
      rw [List.countP_append, countP_isSchedule_monitor hcs]
      simp only [Bool.false_eq_true, if_false, Nat.add_zero] at hJ2
      simp only [Nat.add_zero]
      split <;> omega
  clear hJ h1
  obtain ⟨hK1, hK2⟩ := step1
  rw [← List.append_assoc]
  generalize l ++ cs1 = l1 at hK2 ⊢
  cases h2 with
  | skip hidle => simpa using ⟨hK1, hK2⟩
  | shardNotFound hidle hshard =>
    refine ⟨hK1, ?_⟩
    rw [hidle] at hK2
    simp only [if_true] at hK2
    simp [RemoteData.idle]
    omega
  | findHostFailed c hidle hshard hfind =>
    refine ⟨hK1, ?_⟩
    rw [hidle] at hK2
    simp only [if_true] at hK2
    simp [RemoteData.idle, List.countP_append, Call.isSchedule]
    omega
  | scheduleFailed hp c hidle hshard hfind hsched =>
    refine ⟨hK1, ?_⟩
    rw [hidle] at hK2
    simp only [if_true] at hK2
    simp [RemoteData.idle, List.countP_append, List.countP_cons, Call.isSchedule]
    omega
  | scheduled hp h hidle hshard hfind hsched =>
    refine ⟨hK1, ?_⟩
    rw [hidle] at hK2
    simp only [if_true] at hK2
    simp [RemoteData.idle, List.countP_append, List.countP_cons, Call.isSchedule,
      CallbackHandle.isValid]
    omega

theorem retryBound_emit {intr : Status} {k : Nat} {r r2 : RemoteData} {resp : Response}
    {l : List Call} (hJ : RetryBound k r l) (hr : r.ready = true) (he : Emit intr r resp r2) :
    RetryBound k r2 l := by
  have hidle := ready_not_idle hr
  obtain ⟨h1, h2⟩ := hJ
  rw [hidle] at h2
  cases he with
  | success resp hp hsw hhost => exact ⟨h1, by simpa [RemoteData.idle, hsw] using h2⟩
  | failure code hsw => exact ⟨h1, by simpa [RemoteData.idle] using h2⟩

theorem retryBound_store {k : Nat} {r : RemoteData} {cbData : RemoteCommandCallbackArgs}
    {l : List Call} (hJ : RetryBound k r l) (hv : r.cbHandle.isValid = true) :
    RetryBound k (r.store cbData) l := by
  obtain ⟨h1, h2⟩ := hJ
  have hidle : r.idle = false := by simp [RemoteData.idle, hv]
  rw [hidle] at h2
  unfold RemoteData.store
  cases cbData.response.status <;> exact ⟨h1, by simpa [RemoteData.idle] using h2⟩

theorem retryBound_reachable {cfg : Config} {oracle : Nat → Answers} {requests : List Request}
    {s0 s : AsyncRequestsSender} {ops : List Op} {out : List Response}
    (hc : construct cfg oracle requests = some s0) (hrun : run cfg s0 ops = .ok (s, out)) :
    ∀ k r, s._remotes[k]? = some r → RetryBound k r (slotCalls k s.calls) := by
  refine reachable_slot_invariant (A := fun _ => True) ?_ ?_ ?_ ?_ ?_
    (fun _ _ _ _ => trivial) hc hrun
  · intro k request r2 cs _ hp
    have h0 : RetryBound k (RemoteData.fresh request) [] := by
      simp [RetryBound, RemoteData.fresh, RemoteData.idle, CallbackHandle.isValid]
    simpa using retryBound_pass h0 hp
  · intro o k r r2 cs l _ hJ hp
    exact retryBound_pass hJ hp
  · intro intr k r resp r2 l hJ hr he
    exact retryBound_emit hJ hr he
  · intro k r cbData l hJ hv _
    exact retryBound_store hJ hv
  · intro k r h l hJ _
    obtain ⟨h1, h2⟩ := hJ
    exact ⟨h1, by simpa [List.countP_append, List.countP_cons, Call.isSchedule] using h2⟩

/-- C2 (retry bound): in every state an execution reaches from the
constructor, whatever the callbacks, `next` calls, resolver results and retry
policy, every slot has `retryCount ≤ 3`, and `scheduleRemoteCommand` has been
called for it at most `retryCount + 1` times, hence at most 4 times. -/
theorem C2_retry_bound (cfg : Config) (oracle : Nat → Answers) (requests : List Request)
    (s0 s : AsyncRequestsSender) (ops : List Op) (out : List Response)
    (hc : construct cfg oracle requests = some s0) (hrun : run cfg s0 ops = .ok (s, out))
    (i : Nat) (remote : RemoteData) (hi : s._remotes[i]? = some remote) :
    remote.retryCount ≤ kMaxNumFailedHostRetryAttempts ∧
      scheduleCount i s ≤ remote.retryCount + 1 ∧
      scheduleCount i s ≤ kMaxNumFailedHostRetryAttempts + 1 := by
  obtain ⟨h1, h2⟩ := retryBound_reachable hc hrun i remote hi
  rw [countP_isSchedule_slotCalls] at h2
  have h3 : scheduleCount i s ≤ remote.retryCount + 1 := by
    unfold scheduleCount
    omega
  exact ⟨h1, h3, by omega⟩

theorem C2_retry_bound_witness :
    construct exampleConfig (fun _ => exampleAnswers) [⟨1, 5⟩] = some exampleStart ∧
    run exampleConfig exampleStart
        [.next (List.replicate 5 (replyTick 0 (.error ErrorCodes.HostUnreachable) 0))] =
      .ok (exampleExhausted,
        [⟨1, .error ErrorCodes.HostUnreachable, some 100⟩]) ∧
    (3 ≤ kMaxNumFailedHostRetryAttempts ∧ scheduleCount 0 exampleExhausted ≤ 3 + 1 ∧
      scheduleCount 0 exampleExhausted ≤ kMaxNumFailedHostRetryAttempts + 1) :=
  ⟨rfl, rfl,
    C2_retry_bound exampleConfig (fun _ => exampleAnswers) [⟨1, 5⟩] exampleStart
      exampleExhausted
      [.next (List.replicate 5 (replyTick 0 (.error ErrorCodes.HostUnreachable) 0))]
      [⟨1, .error ErrorCodes.HostUnreachable, some 100⟩] rfl rfl 0 _ rfl⟩

theorem SlotPass.key {cfg : Config} {a : Answers} {i : Nat} {r r2 : RemoteData}
    {cs : List Call} (h : SlotPass cfg a i r r2 cs) : r2.key = r.key := by
  obtain ⟨r1, cs1, cs2, n, n2, h1, h2, -, -⟩ := h
  cases h1 <;> cases h2 <;> rfl

theorem map_eq_of_getElem? {α β : Type} (f : α → β) (l l2 : List α)
    (hlen : l2.length = l.length)
    (h : ∀ (k : Nat) (r : α), l[k]? = some r → ∃ r2, l2[k]? = some r2 ∧ f r2 = f r) :
    l2.map f = l.map f := by
  apply List.ext_getElem?
  intro k
  simp only [List.getElem?_map]
  cases hk : l[k]? with
  | none =>
    have : l2[k]? = none := by
      rw [List.getElem?_eq_none_iff] at hk ⊢
      omega
    simp [this]
  | some r =>
    obtain ⟨r2, hr2, hf⟩ := h k r hk
    simp [hr2, hf]

/-- What `_ready` does to the terminal flags: nothing when it returns no
response; otherwise it sets the flag of one slot that was not terminal, and
the response carries the shard of that slot. -/
theorem _ready_keys {cfg : Config} {o : Nat → Answers} {s s2 : AsyncRequestsSender}
    {res : Option Response} (h : _ready cfg o s = some (res, s2)) :
    (res = none ∧ keys s2 = keys s) ∨
    ∃ r i, res = some r ∧ (keys s)[i]? = some (false, r.shardId) ∧
      keys s2 = (keys s).set i (true, r.shardId) := by
  obtain ⟨mid, cs, n, -, hlen, -, hstop, hslots, hres⟩ := _ready_spec h
  have hmid : mid.map RemoteData.key = keys s := by
    cases hst : s._stopRetrying with
    | true => rw [(hstop hst).1]; rfl
    | false =>
      apply map_eq_of_getElem? _ _ _ hlen
      intro k r hk
      obtain ⟨r2, hr2, hp⟩ := hslots hst k r hk
      exact ⟨r2, hr2, hp.key⟩
  rcases hres with ⟨rfl, hrem, -⟩ | ⟨i, ri, resp, r2, rfl, hi, hready, -, hem, hrem⟩
  · left
    exact ⟨rfl, by rw [keys, hrem, hmid]⟩
  · right
    have hd : ri.done = false := by
      simp only [RemoteData.ready, Bool.and_eq_true, Bool.not_eq_true'] at hready
      exact hready.2
    have hk2 : r2.key = (true, resp.shardId) ∧ ri.key = (false, resp.shardId) := by
      cases hem <;> simp [RemoteData.key, hd]
    refine ⟨resp, i, rfl, ?_, ?_⟩
    · rw [← hmid, List.getElem?_map, hi]
      simp [hk2.2]
    · rw [keys, hrem, List.map_set, hmid, hk2.1]

theorem callback_keys {i : Nat} {cbData : RemoteCommandCallbackArgs}
    {s s2 : AsyncRequestsSender} (h : callback i cbData s = .ok s2) : keys s2 = keys s := by
  obtain ⟨r, hr, -, -, rfl⟩ := callback_spec h
  simp only [keys, List.map_set]
  have : (r.store cbData).key = r.key := by
    unfold RemoteData.store
    cases cbData.response.status <;> rfl
  rw [this]
  apply List.ext_getElem?
  intro k
  by_cases hik : i = k
  · subst hik
    rw [List.getElem?_set_eq_of_lt _ (by
      simpa using (List.getElem?_eq_some.1 hr).1)]
    simp [List.getElem?_map, hr]
  · rw [List.getElem?_set_ne hik]

theorem quiet_keys {cfg : Config} {A : (Nat → Answers) → Prop} {C : Nat → Prop}
    {s s1 : AsyncRequestsSender} (h : Quiet cfg A C s s1) : keys s1 = keys s := by
  refine quiet_preserves (P := fun x => keys x = keys s) ?_ ?_ ?_ h rfl
  · intro x i cbData x2 _ hP hc
    rw [callback_keys hc, hP]
  · intro x o x2 _ hP hr
    rcases _ready_keys hr with ⟨-, hk⟩ | ⟨r, i, hres, -⟩
    · rw [hk, hP]
    · simp at hres
  · intro x code hP _
    exact hP

/-- What a call of `next` that returns does to the terminal flags. -/
theorem next_keys {cfg : Config} {script : List Tick} {s s2 : AsyncRequestsSender}
    {r : Response} (h : next cfg script s = .returned r s2) :
    ∃ i, (keys s)[i]? = some (false, r.shardId) ∧
      keys s2 = (keys s).set i (true, r.shardId) := by
  cases hd : (done s).1 with
  | true => simp [next_of_done hd] at h
  | false =>
    rw [next_of_not_done hd] at h
    obtain ⟨s1, o, -, hq, hr⟩ :=
      nextLoop_returned (A := fun _ => True) (C := fun _ => True) script s s r s2
        (fun _ _ => trivial) (fun _ _ _ _ => trivial) (.refl s) h
    have hk := quiet_keys hq
    rcases _ready_keys hr with ⟨hres, -⟩ | ⟨r2, i, hres, hi, hset⟩
    · simp at hres
    · simp only [Option.some.injEq] at hres
      subst hres
      exact ⟨i, by rw [← hk]; exact hi, by rw [hset, hk]⟩

theorem handedOut_set : ∀ (ks : List (Bool × ShardId)) (i : Nat) (id : ShardId),
    ks[i]? = some (false, id) →
    (handedOut (ks.set i (true, id))).Perm (id :: handedOut ks) ∧
      (ks.set i (true, id)).map (fun k => k.2) = ks.map fun k => k.2 := by
  intro ks
  induction ks with
  | nil => intro i id h; simp at h
  | cons k rest ih =>
    intro i id h
    cases i with
    | zero =>
      simp only [List.getElem?_cons_zero, Option.some.injEq] at h
      subst h
      simp [handedOut]
    | succ i =>
      simp only [List.getElem?_cons_succ] at h
      obtain ⟨h1, h2⟩ := ih i id h
      refine ⟨?_, by simp [h2]⟩
      simp only [List.set_cons_succ]
      cases hk : k.1 with
      | false =>
        simpa [handedOut, hk] using h1
      | true =>
        have e1 : handedOut (k :: rest.set i (true, id)) =
            k.2 :: handedOut (rest.set i (true, id)) := by simp [handedOut, hk]
        have e2 : handedOut (k :: rest) = k.2 :: handedOut rest := by simp [handedOut, hk]
        rw [e1, e2]
        exact (List.Perm.cons _ h1).trans (List.Perm.swap _ _ _)

/-- What one step does to the terminal flags. -/
theorem step_keys {cfg : Config} {s s2 : AsyncRequestsSender} {op : Op}
    {res : Option Response} (h : step cfg s op = .ok (s2, res)) :
    (res = none ∧ keys s2 = keys s) ∨
    ∃ r i, res = some r ∧ (keys s)[i]? = some (false, r.shardId) ∧
      keys s2 = (keys s).set i (true, r.shardId) := by
  cases op with
  | handleResponse i cbData =>
    simp only [step] at h
    cases hc : callback i cbData s with
    | error f => simp [hc] at h
    | ok s4 =>
      simp only [hc, Except.ok.injEq, Prod.mk.injEq] at h
      obtain ⟨rfl, rfl⟩ := h
      exact .inl ⟨rfl, callback_keys hc⟩
  | next script =>
    simp only [step] at h
    cases hn : next cfg script s with
    | blocked s4 => simp [hn] at h
    | fault f => simp [hn] at h
    | returned r s4 =>
      simp only [hn, Except.ok.injEq, Prod.mk.injEq] at h
      obtain ⟨rfl, rfl⟩ := h
      obtain ⟨i, h1, h2⟩ := next_keys hn
      exact .inr ⟨r, i, rfl, h1, h2⟩
  | stopRetrying =>
    simp only [step, Except.ok.injEq, Prod.mk.injEq] at h
    obtain ⟨rfl, rfl⟩ := h
    exact .inl ⟨rfl, rfl⟩
  | ready o =>
    simp only [step] at h
    cases hr : _ready cfg o s with
    | none => simp [hr] at h
    | some p =>
      obtain ⟨res2, s4⟩ := p
      simp only [hr, Except.ok.injEq, Prod.mk.injEq] at h
      obtain ⟨rfl, rfl⟩ := h
      exact _ready_keys hr
  | interrupted code =>
    simp only [step] at h
    cases hi : s._interruptStatus with
    | error c => simp [hi] at h
    | OK =>
      simp only [hi, Except.ok.injEq, Prod.mk.injEq] at h
      obtain ⟨rfl, rfl⟩ := h
      exact .inl ⟨rfl, rfl⟩
  | cancelPendingRequests =>
    simp only [step, Except.ok.injEq, Prod.mk.injEq] at h
    obtain ⟨rfl, rfl⟩ := h
    exact .inl ⟨rfl, rfl⟩

/-- The responses of an execution account for the slots that became terminal. -/
theorem run_handedOut {cfg : Config} : ∀ (ops : List Op) (s s2 : AsyncRequestsSender)
    (out : List Response), run cfg s ops = .ok (s2, out) →
    (handedOut (keys s2)).Perm (out.map (fun r => r.shardId) ++ handedOut (keys s)) ∧
      (keys s2).map (fun k => k.2) = (keys s).map fun k => k.2 := by
  intro ops
  induction ops with
  | nil =>
    intro s s2 out h
    simp only [run, Except.ok.injEq, Prod.mk.injEq] at h
    obtain ⟨rfl, rfl⟩ := h
    simp
  | cons op ops ih =>
    intro s s2 out h
    simp only [run] at h
    cases hs : step cfg s op with
    | error f => simp [hs] at h
    | ok p =>
      obtain ⟨s1, res⟩ := p
      simp only [hs] at h
      cases hrun : run cfg s1 ops with
      | error f => simp [hrun] at h
      | ok q =>
        obtain ⟨s3, rs⟩ := q
        simp only [hrun, Except.ok.injEq, Prod.mk.injEq] at h
        obtain ⟨rfl, rfl⟩ := h
        obtain ⟨hperm, hids⟩ := ih s1 s3 rs hrun
        rcases step_keys hs with ⟨rfl, hk⟩ | ⟨r, i, rfl, hi, hset⟩
        · rw [hk] at hperm hids
          exact ⟨by simpa using hperm, hids⟩
        · obtain ⟨h1, h2⟩ := handedOut_set (keys s) i r.shardId hi
          rw [hset] at hperm hids
          refine ⟨?_, hids.trans h2⟩
          refine hperm.trans ?_
          simp only [Option.toList, List.map_append, List.map_cons, List.map_nil,
            List.singleton_append]
          exact (List.Perm.append_left _ h1).trans List.perm_middle

theorem construct_keys {cfg : Config} {oracle : Nat → Answers} {requests : List Request}
    {s0 : AsyncRequestsSender} (hc : construct cfg oracle requests = some s0) :
    keys s0 = requests.map fun request => (false, request.shardId) := by
  obtain ⟨rs, cs, n, hc2, hlen, hget⟩ := construct_spec cfg oracle requests
  rw [hc2] at hc
  simp only [Option.some.injEq] at hc
  subst hc
  simp only [keys]
  have := map_eq_of_getElem? RemoteData.key (requests.map RemoteData.fresh) rs
    (by simpa using hlen) (by
      intro k r hk
      simp only [List.getElem?_map, Option.map_eq_some'] at hk
      obtain ⟨request, hreq, rfl⟩ := hk
      obtain ⟨r2, hr2, hp⟩ := hget k request hreq
      exact ⟨r2, hr2, hp.key⟩)
  rw [this, List.map_map]
  rfl

theorem handedOut_all : ∀ ks : List (Bool × ShardId), (∀ k ∈ ks, k.1 = true) →
    handedOut ks = ks.map fun k => k.2 := by
  intro ks h
  unfold handedOut
  rw [List.filter_eq_self.2 h]

theorem handedOut_none : ∀ ks : List (Bool × ShardId), (∀ k ∈ ks, k.1 = false) →
    handedOut ks = [] := by
  intro ks h
  unfold handedOut
  rw [List.filter_eq_nil_iff.2 (fun k hk => by simp [h k hk])]
  rfl

/-- C1 (one response per request).  A call of `next` that returns marks
exactly one slot that was not terminal as terminal, leaves the terminal flags
of the other slots as they were, and returns a response with the shard id of
that slot.  And in every execution from the constructor that ends with
`done()` true, the shard ids of the responses handed out are, as a multiset,
the shard ids of the requests. -/
theorem C1_one_response_per_request (cfg : Config) :
    (∀ (script : List Tick) (s s2 : AsyncRequestsSender) (r : Response),
      next cfg script s = .returned r s2 →
      ∃ i remote, s._remotes[i]? = some remote ∧ remote.done = false ∧
        r.shardId = remote.shardId ∧
        s2._remotes.map (fun x => x.done) = (s._remotes.map fun x => x.done).set i true) ∧
    (∀ (oracle : Nat → Answers) (requests : List Request) (s0 s : AsyncRequestsSender)
      (ops : List Op) (out : List Response),
      construct cfg oracle requests = some s0 → run cfg s0 ops = .ok (s, out) →
      (done s).1 = true →
      (out.map fun r => r.shardId).Perm (requests.map fun request => request.shardId)) := by
  constructor
  · intro script s s2 r h
    obtain ⟨i, hi, hset⟩ := next_keys h
    simp only [keys, List.getElem?_map, Option.map_eq_some'] at hi
    obtain ⟨remote, hrem, hkey⟩ := hi
    simp only [RemoteData.key, Prod.mk.injEq] at hkey
    refine ⟨i, remote, hrem, hkey.1, hkey.2.symm, ?_⟩
    have := congrArg (List.map fun k : Bool × ShardId => k.1) hset
    simpa [keys, List.map_set, RemoteData.key, Function.comp_def] using this
  · intro oracle requests s0 s ops out hc hrun hdone
    obtain ⟨hperm, hids⟩ := run_handedOut ops s0 s out hrun
    have h0 := construct_keys hc
    have hall : ∀ k ∈ keys s, k.1 = true := by
      intro k hk
      simp only [keys, List.mem_map] at hk
      obtain ⟨r, hr, rfl⟩ := hk
      simp only [done, List.all_eq_true] at hdone
      exact hdone r hr
    rw [handedOut_all _ hall, hids, h0, handedOut_none _ (by simp)] at hperm
    simpa [Function.comp_def] using hperm.symm

/-- C3 (`done`): `done()` returns true exactly when the terminal flag of
every slot is set, it leaves the state as it is, and a dispatcher constructed
from an empty request list is done right after construction. -/
theorem C3_done (cfg : Config) (oracle : Nat → Answers) (s : AsyncRequestsSender) :
    ((done s).1 = true ↔ ∀ remote ∈ s._remotes, remote.done = true) ∧ (done s).2 = s ∧
    ∃ s0, construct cfg oracle [] = some s0 ∧ (done s0).1 = true := by
  refine ⟨by simp [done], rfl, ?_⟩
  exact ⟨_, rfl, rfl⟩

theorem C1_one_response_per_request_witness :
    next exampleConfig [replyTick 1 .OK 0, replyTick 1 .OK 0] twoStart =
      .returned ⟨2, .value ⟨.OK, 0⟩, some 100⟩ twoMid ∧
    construct exampleConfig (fun _ => exampleAnswers) twoRequests = some twoStart ∧
    run exampleConfig twoStart
        [.next [replyTick 1 .OK 0, replyTick 1 .OK 0],
         .next [replyTick 0 .OK 0, replyTick 0 .OK 0]] =
      .ok (twoDone, [⟨2, .value ⟨.OK, 0⟩, some 100⟩, ⟨1, .value ⟨.OK, 0⟩, some 100⟩]) ∧
    (done twoDone).1 = true ∧
    (∃ i remote, twoStart._remotes[i]? = some remote ∧ remote.done = false ∧
      (2 : ShardId) = remote.shardId ∧
      twoMid._remotes.map (fun x => x.done) =
        (twoStart._remotes.map fun x => x.done).set i true) ∧
    ([2, 1] : List ShardId).Perm [1, 2] :=
  ⟨rfl, rfl, rfl, rfl,
    (C1_one_response_per_request exampleConfig).1 [replyTick 1 .OK 0, replyTick 1 .OK 0]
      twoStart twoMid ⟨2, .value ⟨.OK, 0⟩, some 100⟩ rfl,
    (C1_one_response_per_request exampleConfig).2 (fun _ => exampleAnswers) twoRequests
      twoStart twoDone
      [.next [replyTick 1 .OK 0, replyTick 1 .OK 0],
       .next [replyTick 0 .OK 0, replyTick 0 .OK 0]]
      [⟨2, .value ⟨.OK, 0⟩, some 100⟩, ⟨1, .value ⟨.OK, 0⟩, some 100⟩] rfl rfl rfl⟩

theorem emit_of_Emit {intr : Status} {r r2 : RemoteData} {resp : Response}
    (h : Emit intr r resp r2) : r.emit intr = some (resp, r2) := by
  cases h with
  | success resp hp hsw hhost => simp [RemoteData.emit, hsw, hhost]
  | failure code hsw => simp [RemoteData.emit, hsw]

theorem readyLoop_none {intr : Status} {rs : List RemoteData}
    (h : ∀ r ∈ rs, r.ready = false) : readyLoop intr rs = some (none, rs) := by
  rcases readyLoop_spec intr rs with ⟨h1, -⟩ | ⟨i, r, hi, hr, -, -⟩
  · exact h1
  · have := h r (List.getElem?_mem hi)
    rw [hr] at this
    exact absurd this (by decide)

theorem readyLoop_least {intr : Status} {rs : List RemoteData} {i : Nat} {r : RemoteData}
    (hi : rs[i]? = some r) (hr : r.ready = true)
    (hlt : ∀ j rj, j < i → rs[j]? = some rj → rj.ready = false) :
    readyLoop intr rs = (r.emit intr).map fun p => (some p.1, rs.set i p.2) := by
  rcases readyLoop_spec intr rs with ⟨-, h2⟩ | ⟨i2, r2, hi2, hr2, hlt2, hcase⟩
  · have := h2 r (List.getElem?_mem hi)
    rw [hr] at this
    exact absurd this (by decide)
  · have hii : i2 = i := by
      rcases Nat.lt_trichotomy i2 i with hlt3 | heq | hgt
      · have := hlt i2 r2 hlt3 hi2
        rw [hr2] at this
        exact absurd this (by decide)
      · exact heq
      · have := hlt2 i r hgt hi
        rw [hr] at this
        exact absurd this (by decide)
    subst hii
    rw [hi] at hi2
    simp only [Option.some.injEq] at hi2
    subst hi2
    rcases hcase with ⟨h1, hhost, resp, hsw⟩ | ⟨resp, r3, hem, h1⟩
    · rw [h1]
      simp [RemoteData.emit, hsw, hhost]
    · rw [h1, emit_of_Emit hem]
      rfl

theorem afterPass_done {cfg : Config} {oracle : Nat → Answers} {s mid : AsyncRequestsSender}
    (h : afterPass cfg oracle s = some mid) :
    mid._remotes.map (fun x => x.done) = s._remotes.map fun x => x.done := by
  obtain ⟨rs2, cs, n2, hap, hlen, hstop, hslots⟩ := afterPass_spec cfg oracle s
  rw [hap] at h
  simp only [Option.some.injEq] at h
  subst h
  simp only
  cases hst : s._stopRetrying with
  | true => rw [(hstop hst).1]
  | false =>
    apply map_eq_of_getElem? _ _ _ hlen
    intro k r hk
    obtain ⟨r2, hr2, hp⟩ := hslots hst k r hk
    have := hp.key
    simp only [RemoteData.key, Prod.mk.injEq] at this
    exact ⟨r2, hr2, this.1⟩

/-- C4, as amended.  With `mid` the state after the scheduling pass of
`_ready` (the pass never aborts and changes no terminal flag): when no slot of
`mid` is ready, `_ready` returns no response and the state `mid` (it aborts on
an empty list of slots); when slot `i` is the ready slot of least index in
`mid`, `_ready` returns the response of that slot and marks it done, changing
no other slot (it aborts when the slot holds an OK response without a host);
so `_ready` returns no response exactly when no slot of `mid` is ready, and
the other ready slots of `mid` stay ready for later calls. -/
theorem C4_least_index_first (cfg : Config) (oracle : Nat → Answers) (s : AsyncRequestsSender) :
    ∃ mid, afterPass cfg oracle s = some mid ∧
      (mid._remotes.map (fun x => x.done) = s._remotes.map fun x => x.done) ∧
      ((∀ r ∈ mid._remotes, r.ready = false) →
        _ready cfg oracle s = if mid._remotes.isEmpty then none else some (none, mid)) ∧
      (∀ (i : Nat) (r : RemoteData), mid._remotes[i]? = some r → r.ready = true →
        (∀ (j : Nat) (rj : RemoteData), j < i → mid._remotes[j]? = some rj →
          rj.ready = false) →
        _ready cfg oracle s = (r.emit mid._interruptStatus).map fun p =>
          (some p.1, { mid with _remotes := mid._remotes.set i p.2 })) ∧
      (∀ s2, _ready cfg oracle s = some (none, s2) ↔
        (s2 = mid ∧ mid._remotes ≠ [] ∧ ∀ r ∈ mid._remotes, r.ready = false)) ∧
      (∀ (r r2 : RemoteData) (resp : Response),
        r.emit mid._interruptStatus = some (resp, r2) →
        resp.shardId = r.shardId ∧ r2.done = true ∧ r2.shardId = r.shardId) := by
  obtain ⟨rs2, cs, n2, hap, -, -, -⟩ := afterPass_spec cfg oracle s
  refine ⟨_, hap, afterPass_done hap, ?_, ?_, ?_, ?_⟩
  · intro hnone
    rw [_ready_eq, hap]
    simp only
    rw [readyLoop_none hnone]
  · intro i r hi hr hlt
    have hne : rs2.isEmpty = false := by
      cases rs2 with
      | nil => simp at hi
      | cons _ _ => rfl
    rw [_ready_eq, hap]
    simp only [hne]
    rw [readyLoop_least hi hr hlt]
    cases r.emit s._interruptStatus <;> rfl
  · intro s2
    constructor
    · intro h
      obtain ⟨mid, cs2, n3, heq, -, hne, -, -, hres⟩ := _ready_spec h
      rw [_ready_eq, hap] at h
      simp only at h
      rcases hres with ⟨-, hrem, hnone⟩ | ⟨i, ri, resp, r2, hres, -⟩
      · cases hemp : rs2.isEmpty with
        | true => simp [hemp] at h
        | false =>
          simp only [hemp] at h
          have hnone2 : ∀ r ∈ rs2, r.ready = false := by
            intro r hr
            by_contra hcon
            have hr1 : r.ready = true := by simpa using hcon
            rcases readyLoop_spec s._interruptStatus rs2 with ⟨-, h2⟩ | ⟨i, r3, hi, hr3, hlt, hcase⟩
            · rw [h2 r hr] at hr1
              exact absurd hr1 (by decide)
            · rw [readyLoop_least hi hr3 hlt] at h
              cases hem : r3.emit s._interruptStatus with
              | none => simp [hem] at h
              | some p => simp [hem] at h
          rw [readyLoop_none hnone2] at h
          simp only [Bool.false_eq_true, if_false, Option.some.injEq, Prod.mk.injEq,
            true_and] at h
          refine ⟨h.symm, ?_, hnone2⟩
          intro he
          have he2 : rs2 = [] := he
          rw [he2] at hemp
          exact absurd hemp (by decide)
      · simp at hres
    · rintro ⟨rfl, hne, hnone⟩
      rw [_ready_eq, hap]
      simp only
      rw [readyLoop_none hnone]
      cases rs2 with
      | nil => exact absurd rfl hne
      | cons _ _ => rfl
  · intro r r2 resp h
    unfold RemoteData.emit at h
    cases hsw : r.swResponse with
    | none => simp [hsw] at h
    | some sw =>
      cases sw with
      | value v =>
        cases hh : r.shardHostAndPort with
        | none => simp [hsw, hh] at h
        | some hp =>
          simp only [hsw, hh, Option.some.injEq, Prod.mk.injEq] at h
          obtain ⟨rfl, rfl⟩ := h
          exact ⟨rfl, rfl, rfl⟩
      | error c =>
        simp only [hsw, Option.some.injEq, Prod.mk.injEq] at h
        obtain ⟨rfl, rfl⟩ := h
        exact ⟨rfl, rfl, rfl⟩

/-- C4, counterexample to the last sentence.  First: after the callbacks of
both slots, slots 0 and 1 hold an outcome and are not terminal at the same
time, yet two successive calls of `next` return first the response of slot 1
(shard 2) and then that of slot 0 (shard 1), because the scheduling pass
retries slot 0 before `_ready` looks for a ready slot.  Second: with three
slots, all three are ready after the scheduling pass of the first call of
`next` (the target resolution of slot 1 has failed again with a retriable
error), yet the calls return the slots 0, 2, 1 in this order (shards 1, 3,
2), because the pass of the second call retries slot 1. -/
theorem C4_counterexample :
    (run exampleConfig twoStart
        [.handleResponse 0 ⟨⟨.error ErrorCodes.HostUnreachable, 0⟩⟩,
         .handleResponse 1 ⟨⟨.OK, 0⟩⟩] = .ok (bothReady, []) ∧
     bothReady._remotes.map (fun r => r.ready) = [true, true] ∧
     next exampleConfig [replyTick 0 .OK 0] bothReady =
       .returned ⟨2, .value ⟨.OK, 0⟩, some 100⟩ bothReadyAfterNext ∧
     next exampleConfig [replyTick 0 .OK 0, replyTick 0 .OK 0] bothReadyAfterNext =
       .returned ⟨1, .value ⟨.OK, 0⟩, some 100⟩ bothReadyDone) ∧
    ((construct exampleConfig slotOneFails threeRequests).map (fun s0 =>
        (run exampleConfig s0
          [.handleResponse 0 ⟨⟨.OK, 0⟩⟩, .handleResponse 2 ⟨⟨.OK, 0⟩⟩]).toOption.map
            fun p => p.1) = some (some threeReplied) ∧
     (afterPass exampleConfig slotOneFails threeReplied).map
        (fun (m : AsyncRequestsSender) => m._remotes.map fun r => r.ready) =
       some [true, true, true] ∧
     (run exampleConfig threeReplied
        [.next [⟨slotOneFails, .callbacks []⟩], .next [replyTick 1 .OK 0],
         .next [replyTick 1 .OK 0, replyTick 1 .OK 0]]).toOption.map
        (fun p => p.2.map fun r => r.shardId) = some [1, 3, 2]) :=
  ⟨⟨rfl, rfl, rfl, rfl⟩, rfl, rfl, rfl⟩

theorem C4_least_index_first_witness :
    afterPass exampleConfig (fun _ => exampleAnswers) bothReady = some bothReadyMid ∧
    bothReadyMid._remotes.map (fun r => r.ready) = [false, true] ∧
    _ready exampleConfig (fun _ => exampleAnswers) bothReady =
      some (some ⟨2, .value ⟨.OK, 0⟩, some 100⟩, bothReadyAfterNext) := by
  obtain ⟨mid, h1, -, -, h2, -, -⟩ :=
    C4_least_index_first exampleConfig (fun _ => exampleAnswers) bothReady
  have hmid : afterPass exampleConfig (fun _ => exampleAnswers) bothReady =
      some bothReadyMid := rfl
  rw [hmid] at h1
  simp only [Option.some.injEq] at h1
  subst h1
  refine ⟨hmid, rfl, ?_⟩
  rw [h2 1 _ rfl rfl (by
    intro j rj hj hrj
    have hj0 : j = 0 := by omega
    subst hj0
    simp [bothReadyMid, bothReadyAfterNext] at hrj
    subst hrj
    rfl)]
  rfl

theorem ready_inflight (cfg : Config) (o : Nat → Answers) (r : RemoteData) (intr : Status)
    (n : Bool) (l : List Call) (hsw : r.swResponse = none) (hv : r.cbHandle.isValid = true) :
    _ready cfg o (single r intr false n l) = some (none, single r intr false false l) := by
  simp [_ready, single, _scheduleRequests, scheduleLoop, scheduleRemote, retryCheck, hsw, hv,
    readyLoop]

theorem deliver_single (reply : RemoteCommandResponse) (r : RemoteData) (intr : Status)
    (stop n : Bool) (l : List Call) (hsw : r.swResponse = none)
    (hv : r.cbHandle.isValid = true) :
    deliver [(0, ⟨reply⟩)] (single r intr stop n l) =
      .ok (single { r with cbHandle := ⟨none⟩, swResponse := some (stored reply) }
        intr stop true l) := by
  simp only [deliver]
  rw [callback_ok (r := r) ⟨reply⟩ (by simp [single]) hv hsw]
  simp only [single, RemoteData.store, stored]
  cases reply.status <;> simp

theorem ready_retry (cfg : Config) (o : Nat → Answers) (r : RemoteData) (intr : Status)
    (n : Bool) (l : List Call) (sw : StatusWith RemoteCommandResponse) (c : ErrorCode)
    (hp0 hp : HostAndPort)
    (hsw : r.swResponse = some sw) (hd : r.done = false) (hv : r.cbHandle.isValid = false)
    (hh : r.shardHostAndPort = some hp0) (herr : errorStatus cfg sw = .error c)
    (hret : cfg.isRetriableError c = true)
    (hcount : r.retryCount < kMaxNumFailedHostRetryAttempts) (ho : Resolves hp (o 0)) :
    ∃ h, _ready cfg o (single r intr false n l) =
      some (none, single { r with retryCount := r.retryCount + 1, swResponse := none,
                                  shardHostAndPort := some hp, cbHandle := ⟨some h⟩ }
        intr false false
        (l ++ [.updateReplSetMonitor 0 hp0 (.error c), .findHostWithMaxWait 0,
          .scheduleRemoteCommand 0 hp])) := by
  obtain ⟨h1, h2, h3, h4⟩ := ho
  cases hs : (o 0).scheduleRemoteCommand with
  | error e => simp [hs, StatusWith.isOK] at h4
  | value h =>
    refine ⟨h, ?_⟩
    have hv2 : r.cbHandle.id = none := by
      simpa [CallbackHandle.isValid] using hv
    simp [_ready, single, _scheduleRequests, scheduleLoop, scheduleRemote, retryCheck, hsw, hd,
      hv, hv2, hh, herr, hret, hcount, h1, h2, h3, hs, readyLoop, _scheduleRequest,
      RemoteData.resolveShardIdToHostAndPort, CallbackHandle.isValid]

theorem ready_emit (cfg : Config) (o : Nat → Answers) (r : RemoteData)
    (n : Bool) (l : List Call) (sw : StatusWith RemoteCommandResponse) (hp0 : HostAndPort)
    (hsw : r.swResponse = some sw) (hd : r.done = false)
    (hh : r.shardHostAndPort = some hp0) (hnot : NotRetried cfg r.retryCount sw)
    (ho : (o 0).getShard = true) :
    ∃ l2, l2.countP (Call.isSchedule 0) = l.countP (Call.isSchedule 0) ∧
      _ready cfg o (single r .OK false n l) =
        some (some ⟨r.shardId, sw, some hp0⟩, single { r with done := true } .OK false false l2) := by
  have hready : readyLoop .OK [r] = some (some ⟨r.shardId, sw, some hp0⟩,
      [{ r with done := true }]) := by
    cases sw with
    | value resp => simp [readyLoop, hsw, hd, hh]
    | error c =>
      simp only [readyLoop, hsw, hd, hh, promote]
      simp
  rcases hnot with hok | ⟨c, herr, hc⟩
  · refine ⟨l, rfl, ?_⟩
    simp [_ready, single, _scheduleRequests, scheduleLoop, scheduleRemote, retryCheck, hsw, hd,
      hok, hready]
  · refine ⟨l ++ [.updateReplSetMonitor 0 hp0 (.error c)], by
      simp [List.countP_append, List.countP_cons, Call.isSchedule], ?_⟩
    have hno : (cfg.isRetriableError c &&
        decide (r.retryCount < kMaxNumFailedHostRetryAttempts)) = false := by
      rcases hc with hc | hc
      · simp [hc]
      · simp [Nat.not_lt.2 hc]
    simp [_ready, single, _scheduleRequests, scheduleLoop, scheduleRemote, retryCheck, hsw, hd,
      herr, ho, hh, hno, hready]

theorem nextLoop_step_callbacks (cfg : Config) (o : Nat → Answers)
    (arrivals : List (Nat × RemoteCommandCallbackArgs)) (ts : List Tick)
    {s s1 s2 : AsyncRequestsSender}
    (hr : _ready cfg o s = some (none, s1))
    (hd : deliver arrivals s1 = .ok s2) (hn : s2._notification = true) :
    nextLoop cfg ({ oracle := o, wait := .callbacks arrivals } :: ts) s =
      nextLoop cfg ts s2 := by
  rw [nextLoop, hr]
  cases s1._interruptStatus <;> simp [hd, hn]

theorem nextLoop_step_return (cfg : Config) (t : Tick) (ts : List Tick)
    {s s1 : AsyncRequestsSender} {r : Response}
    (hr : _ready cfg t.oracle s = some (some r, s1)) :
    nextLoop cfg (t :: ts) s = .returned r s1 := by
  rw [nextLoop, hr]

theorem chain_last (cfg : Config) (hp : HostAndPort) (last : Tick)
    (final : RemoteCommandResponse) (r : RemoteData) (n : Bool) (l : List Call)
    (hsw : r.swResponse = none) (hd : r.done = false) (hv : r.cbHandle.isValid = true)
    (hh : r.shardHostAndPort = some hp) (o : Nat → Answers)
    (hlast : (last.oracle 0).getShard = true)
    (hnot : NotRetried cfg r.retryCount (stored final)) :
    ∃ s, nextLoop cfg (replyScript [(o, final)] ++ [last]) (single r .OK false n l) =
        .returned ⟨r.shardId, stored final, some hp⟩ s ∧
      s._remotes.map (fun x => x.retryCount) = [r.retryCount] ∧ (done s).1 = true ∧
      s.calls.countP (Call.isSchedule 0) = l.countP (Call.isSchedule 0) := by
  obtain ⟨l2, hl2, hre⟩ := ready_emit cfg last.oracle
    { r with cbHandle := ⟨none⟩, swResponse := some (stored final) } true l (stored final) hp
    rfl hd hh hnot hlast
  refine ⟨single { r with cbHandle := ⟨none⟩, swResponse := some (stored final), done := true }
    .OK false false l2, ?_, by simp [single], by simp [single, done], by simpa [single] using hl2⟩
  simp only [replyScript, List.map_cons, List.map_nil, List.cons_append, List.nil_append]
  rw [nextLoop_step_callbacks cfg o [(0, ⟨final⟩)] [last]
    (ready_inflight cfg o r .OK n l hsw hv)
    (deliver_single final r .OK false false l hsw hv) (by simp [single])]
  exact nextLoop_step_return cfg last [] hre

theorem chain_stored (cfg : Config) (hp : HostAndPort) (last : Tick)
    (final : (Nat → Answers) × RemoteCommandResponse) :
    ∀ (errors : List ((Nat → Answers) × RemoteCommandResponse)) (r : RemoteData) (n : Bool)
      (l : List Call) (sw : StatusWith RemoteCommandResponse),
      r.swResponse = some sw → r.done = false → r.cbHandle.isValid = false →
      r.shardHostAndPort = some hp →
      (∃ c, errorStatus cfg sw = .error c ∧ cfg.isRetriableError c = true) →
      r.retryCount + 1 + errors.length ≤ kMaxNumFailedHostRetryAttempts →
      (∀ p ∈ errors, Resolves hp (p.1 0) ∧ RetriableReply cfg p.2) →
      Resolves hp (final.1 0) → (last.oracle 0).getShard = true →
      NotRetried cfg (r.retryCount + 1 + errors.length) (stored final.2) →
      ∃ s, nextLoop cfg (replyScript (errors ++ [final]) ++ [last]) (single r .OK false n l) =
          .returned ⟨r.shardId, stored final.2, some hp⟩ s ∧
        s._remotes.map (fun x => x.retryCount) = [r.retryCount + 1 + errors.length] ∧
        (done s).1 = true ∧
        s.calls.countP (Call.isSchedule 0) =
          l.countP (Call.isSchedule 0) + 1 + errors.length := by
  intro errors
  induction errors with
  | nil =>
    intro r n l sw hsw hd hv hh ⟨c, herr, hret⟩ hcount _ hfinal hlast hnot
    obtain ⟨h, hrr⟩ := ready_retry cfg final.1 r .OK n l sw c hp hp hsw hd hv hh herr hret
      (by simp at hcount; omega) hfinal
    obtain ⟨l2, hl2, hre⟩ := ready_emit cfg last.oracle
      { r with retryCount := r.retryCount + 1, swResponse := some (stored final.2),
               shardHostAndPort := some hp, cbHandle := ⟨none⟩ }
      true (l ++ [.updateReplSetMonitor 0 hp (.error c), .findHostWithMaxWait 0,
          .scheduleRemoteCommand 0 hp]) (stored final.2) hp rfl hd rfl (by simpa using hnot) hlast
    refine ⟨single { r with retryCount := r.retryCount + 1,
                            swResponse := some (stored final.2),
                            shardHostAndPort := some hp, cbHandle := ⟨none⟩, done := true }
      .OK false false l2, ?_, by simp [single], by simp [single, done], ?_⟩
    · simp only [replyScript, List.nil_append, List.map_cons, List.map_nil, List.cons_append]
      rw [nextLoop_step_callbacks cfg final.1 [(0, ⟨final.2⟩)] [last] hrr
        (deliver_single final.2 _ .OK false false _ rfl rfl) (by simp [single])]
      exact nextLoop_step_return cfg last [] hre
    · simp only [single]
      rw [hl2]
      simp [List.countP_append, List.countP_cons, Call.isSchedule]
  | cons e es ih =>
    intro r n l sw hsw hd hv hh ⟨c, herr, hret⟩ hcount herrs hfinal hlast hnot
    have he := herrs e (List.mem_cons_self _ _)
    obtain ⟨h, hrr⟩ := ready_retry cfg e.1 r .OK n l sw c hp hp hsw hd hv hh herr hret
      (by simp at hcount; omega) he.1
    obtain ⟨s, hs1, hs2, hs3, hs4⟩ := ih
      { r with retryCount := r.retryCount + 1, swResponse := some (stored e.2),
               shardHostAndPort := some hp, cbHandle := ⟨none⟩ }
      true (l ++ [.updateReplSetMonitor 0 hp (.error c), .findHostWithMaxWait 0,
          .scheduleRemoteCommand 0 hp]) (stored e.2) rfl hd rfl rfl he.2
      (by simp only [List.length_cons] at hcount ⊢; omega)
      (fun p hp2 => herrs p (List.mem_cons_of_mem _ hp2)) hfinal hlast
      (by
        have e1 : r.retryCount + 1 + 1 + es.length = r.retryCount + 1 + (e :: es).length := by
          simp only [List.length_cons]; omega
        simpa [e1] using hnot)
    refine ⟨s, ?_, ?_, hs3, ?_⟩
    · simp only [replyScript, List.cons_append, List.map_cons] at hs1 ⊢
      rw [nextLoop_step_callbacks cfg e.1 [(0, ⟨e.2⟩)] _ hrr
        (deliver_single e.2 _ .OK false false _ rfl rfl) (by simp [single])]
      exact hs1
    · rw [hs2]
      simp only [List.length_cons]
      congr 1
      omega
    · rw [hs4]
      simp [List.countP_append, List.countP_cons, Call.isSchedule]
      omega

theorem construct_single (cfg : Config) (oracle : Nat → Answers) (request : Request)
    (hp : HostAndPort) (h0 : Resolves hp (oracle 0)) :
    ∃ h, construct cfg oracle [request] =
      some (single { shardId := request.shardId, cmdObj := request.cmdObj,
                     shardHostAndPort := some hp, cbHandle := ⟨some h⟩ }
        .OK false false [.findHostWithMaxWait 0, .scheduleRemoteCommand 0 hp]) := by
  obtain ⟨h1, h2, h3, h4⟩ := h0
  cases hs : (oracle 0).scheduleRemoteCommand with
  | error e => simp [hs, StatusWith.isOK] at h4
  | value h =>
    refine ⟨h, ?_⟩
    simp [construct, single, _scheduleRequests, scheduleLoop, scheduleRemote, retryCheck,
      _scheduleRequest, RemoteData.resolveShardIdToHostAndPort, CallbackHandle.isValid,
      h2, h3, hs]

/-- A single request whose shard is known and whose resolution and scheduling
always succeed, without `stopRetrying` and without interrupt: when the executor
answers with the retriable errors `errors`, at most three, and then with a
reply that is not retried, the call of `next` returns that reply as it is
stored, with the resolved host; `scheduleRemoteCommand` has been called once
per reply and `retryCount` is the number of errors. -/
theorem single_request (cfg : Config) (request : Request) (hp : HostAndPort)
    (oracle : Nat → Answers) (errors : List ((Nat → Answers) × RemoteCommandResponse))
    (final : (Nat → Answers) × RemoteCommandResponse) (last : Tick)
    (h0 : Resolves hp (oracle 0))
    (herrs : ∀ p ∈ errors, Resolves hp (p.1 0) ∧ RetriableReply cfg p.2)
    (hfinal : Resolves hp (final.1 0)) (hlast : (last.oracle 0).getShard = true)
    (hlen : errors.length ≤ kMaxNumFailedHostRetryAttempts)
    (hnot : NotRetried cfg errors.length (stored final.2)) :
    ∃ s0 s, construct cfg oracle [request] = some s0 ∧
      next cfg (replyScript (errors ++ [final]) ++ [last]) s0 =
        .returned ⟨request.shardId, stored final.2, some hp⟩ s ∧
      scheduleCount 0 s = errors.length + 1 ∧
      s._remotes.map (fun x => x.retryCount) = [errors.length] ∧ (done s).1 = true := by
  obtain ⟨h, hc⟩ := construct_single cfg oracle request hp h0
  refine ⟨single { shardId := request.shardId, cmdObj := request.cmdObj,
                   shardHostAndPort := some hp, cbHandle := ⟨some h⟩ }
    .OK false false [.findHostWithMaxWait 0, .scheduleRemoteCommand 0 hp], ?_⟩
  cases errors with
  | nil =>
    obtain ⟨s, hs1, hs2, hs3, hs4⟩ := chain_last cfg hp last final.2
      { shardId := request.shardId, cmdObj := request.cmdObj,
        shardHostAndPort := some hp, cbHandle := ⟨some h⟩ }
      false [.findHostWithMaxWait 0, .scheduleRemoteCommand 0 hp] rfl rfl rfl rfl final.1
      hlast hnot
    refine ⟨s, hc, ?_, ?_, hs2, hs3⟩
    · rw [next_of_not_done (by simp [done, single])]
      exact hs1
    · rw [scheduleCount, hs4]
      simp [List.countP_cons, Call.isSchedule]
  | cons e es =>
    have he := herrs e (List.mem_cons_self _ _)
    obtain ⟨s, hs1, hs2, hs3, hs4⟩ := chain_stored cfg hp last final es
      { shardId := request.shardId, cmdObj := request.cmdObj,
        shardHostAndPort := some hp, cbHandle := ⟨none⟩, swResponse := some (stored e.2) }
      true [.findHostWithMaxWait 0, .scheduleRemoteCommand 0 hp] (stored e.2) rfl rfl rfl rfl
      he.2 (by simp only [List.length_cons] at hlen; simp only; omega)
      (fun p hp2 => herrs p (List.mem_cons_of_mem _ hp2)) hfinal hlast
      (by
        simp only [List.length_cons] at hnot
        have e1 : 0 + 1 + es.length = es.length + 1 := by omega
        simpa [e1] using hnot)
    refine ⟨s, hc, ?_, ?_, ?_, hs3⟩
    · rw [next_of_not_done (by simp [done, single])]
      simp only [replyScript, List.cons_append, List.map_cons] at hs1 ⊢
      rw [nextLoop_step_callbacks cfg e.1 [(0, ⟨e.2⟩)] _
        (ready_inflight cfg e.1
          { shardId := request.shardId, cmdObj := request.cmdObj,
            shardHostAndPort := some hp, cbHandle := ⟨some h⟩ }
          .OK false [.findHostWithMaxWait 0, .scheduleRemoteCommand 0 hp] rfl rfl)
        (deliver_single e.2
          { shardId := request.shardId, cmdObj := request.cmdObj,
            shardHostAndPort := some hp, cbHandle := ⟨some h⟩ }
          .OK false false [.findHostWithMaxWait 0, .scheduleRemoteCommand 0 hp] rfl rfl)
        (by simp [single])]
      exact hs1
    · rw [scheduleCount, hs4]
      simp [List.countP_cons, Call.isSchedule]
      omega
    · rw [hs2]
      simp only [List.length_cons]
      congr 1
      omega

/-- C5 (retriable failures, then success).  For every `k ≤ 3`: a single
request whose shard is known and whose target resolution and scheduling always
succeed, without `stopRetrying` and without interrupt; when the first `k`
replies of the executor are errors the retry policy classifies as retriable
(the transport status when it is not OK, otherwise the status of the command
result) and reply `k + 1` is OK with an OK command result, the call of `next`
returns one Success response with that reply and the resolved host,
`scheduleRemoteCommand` has been called `k + 1` times, `retryCount` is `k`,
and the dispatcher is done. -/
theorem C5_retry_then_success (cfg : Config) (request : Request) (hp : HostAndPort)
    (oracle finalOracle : Nat → Answers)
    (errors : List ((Nat → Answers) × RemoteCommandResponse)) (data : BSONObj) (last : Tick)
    (k : Nat) (hk : k ≤ 3) (hlen : errors.length = k)
    (h0 : Resolves hp (oracle 0))
    (herrs : ∀ p ∈ errors, Resolves hp (p.1 0) ∧ RetriableReply cfg p.2)
    (hfinal : Resolves hp (finalOracle 0)) (hlast : (last.oracle 0).getShard = true)
    (hok : cfg.getStatusFromCommandResult data = .OK) :
    ∃ s0 s, construct cfg oracle [request] = some s0 ∧
      next cfg (replyScript (errors ++ [(finalOracle, ⟨.OK, data⟩)]) ++ [last]) s0 =
        .returned ⟨request.shardId, .value ⟨.OK, data⟩, some hp⟩ s ∧
      scheduleCount 0 s = k + 1 ∧
      s._remotes.map (fun x => x.retryCount) = [k] ∧ (done s).1 = true := by
  subst hlen
  exact single_request cfg request hp oracle errors (finalOracle, ⟨.OK, data⟩) last h0 herrs
    hfinal hlast hk (.inl hok)

theorem C5_retry_then_success_witness :
    (1 ≤ 3) ∧ Resolves 100 exampleAnswers ∧
    RetriableReply exampleConfig ⟨.error ErrorCodes.HostUnreachable, 0⟩ ∧
    exampleConfig.getStatusFromCommandResult 0 = .OK ∧
    ∃ s0 s, construct exampleConfig (fun _ => exampleAnswers) [⟨1, 5⟩] = some s0 ∧
      next exampleConfig
          (replyScript ([(fun _ => exampleAnswers, ⟨.error ErrorCodes.HostUnreachable, 0⟩)] ++
            [(fun _ => exampleAnswers, ⟨.OK, 0⟩)]) ++ [replyTick 0 .OK 0]) s0 =
        .returned ⟨1, .value ⟨.OK, 0⟩, some 100⟩ s ∧
      scheduleCount 0 s = 1 + 1 ∧
      s._remotes.map (fun x => x.retryCount) = [1] ∧ (done s).1 = true :=
  ⟨by decide, ⟨rfl, rfl, rfl, rfl⟩, ⟨ErrorCodes.HostUnreachable, rfl, rfl⟩, rfl,
    C5_retry_then_success exampleConfig ⟨1, 5⟩ 100 (fun _ => exampleAnswers)
      (fun _ => exampleAnswers)
      [(fun _ => exampleAnswers, ⟨.error ErrorCodes.HostUnreachable, 0⟩)] 0
      (replyTick 0 .OK 0) 1 (by decide) rfl ⟨rfl, rfl, rfl, rfl⟩
      (by
        intro p hp
        simp only [List.mem_singleton] at hp
        subst hp
        exact ⟨⟨rfl, rfl, rfl, rfl⟩, ErrorCodes.HostUnreachable, rfl, rfl⟩)
      ⟨rfl, rfl, rfl, rfl⟩ rfl rfl⟩

/-- C6, as amended.  A single request whose shard is known and whose target
resolution and scheduling always succeed, without `stopRetrying` and without
interrupt: when every reply of the executor is the same retriable error,
`scheduleRemoteCommand` is called exactly 4 times and the call of `next`
returns one response, which is the reply as `_handleResponse` stored it: a
Failure with that error when the error is the transport status of the reply,
and the reply itself, as an OK response whose command result holds the error,
when the transport status is OK. -/
theorem C6_persistent_retriable_error (cfg : Config) (request : Request) (hp : HostAndPort)
    (oracle o1 o2 o3 o4 : Nat → Answers) (last : Tick) (reply : RemoteCommandResponse)
    (h0 : Resolves hp (oracle 0)) (h1 : Resolves hp (o1 0)) (h2 : Resolves hp (o2 0))
    (h3 : Resolves hp (o3 0)) (h4 : Resolves hp (o4 0))
    (hlast : (last.oracle 0).getShard = true) (hreply : RetriableReply cfg reply) :
    ∃ s0 s, construct cfg oracle [request] = some s0 ∧
      next cfg (replyScript [(o1, reply), (o2, reply), (o3, reply), (o4, reply)] ++ [last]) s0 =
        .returned ⟨request.shardId, stored reply, some hp⟩ s ∧
      scheduleCount 0 s = kMaxNumFailedHostRetryAttempts + 1 ∧ (done s).1 = true ∧
      (∀ c, reply.status = .error c → stored reply = .error c) ∧
      (reply.status = .OK → stored reply = .value reply) := by
  obtain ⟨c, hc1, hc2⟩ := hreply
  obtain ⟨s0, s, hs0, hs1, hs2, -, hs4⟩ := single_request cfg request hp oracle
    [(o1, reply), (o2, reply), (o3, reply)] (o4, reply) last h0
    (by
      intro p hp2
      simp only [List.mem_cons, List.mem_singleton, List.not_mem_nil, or_false] at hp2
      rcases hp2 with rfl | rfl | rfl
      · exact ⟨h1, c, hc1, hc2⟩
      · exact ⟨h2, c, hc1, hc2⟩
      · exact ⟨h3, c, hc1, hc2⟩)
    h4 hlast (Nat.le_refl 3) (.inr ⟨c, hc1, .inr (Nat.le_refl 3)⟩)
  refine ⟨s0, s, hs0, hs1, hs2, hs4, ?_, ?_⟩
  · intro c2 h
    simp [stored, h]
  · intro h
    simp [stored, h]

/-- C6, counterexample: every reply is the retriable error NotMaster, carried
by the command result of a reply with OK transport status; after 4 calls of
`scheduleRemoteCommand` the response handed out is not a Failure: its
`swResponse` is OK and holds the reply. -/
theorem C6_counterexample :
    errorStatus exampleConfig (stored ⟨.OK, ErrorCodes.NotMaster⟩) =
      .error ErrorCodes.NotMaster ∧
    exampleConfig.isRetriableError ErrorCodes.NotMaster = true ∧
    construct exampleConfig (fun _ => exampleAnswers) [⟨1, 5⟩] = some exampleStart ∧
    next exampleConfig (List.replicate 5 (replyTick 0 .OK ErrorCodes.NotMaster)) exampleStart =
      .returned ⟨1, .value ⟨.OK, ErrorCodes.NotMaster⟩, some 100⟩ commandErrorExhausted ∧
    scheduleCount 0 commandErrorExhausted = 4 ∧
    (StatusWith.value ⟨.OK, ErrorCodes.NotMaster⟩ :
      StatusWith RemoteCommandResponse).isOK = true :=
  ⟨rfl, rfl, rfl, rfl, rfl, rfl⟩

theorem C6_persistent_retriable_error_witness :
    Resolves 100 exampleAnswers ∧
    RetriableReply exampleConfig ⟨.error ErrorCodes.HostUnreachable, 0⟩ ∧
    ∃ s0 s, construct exampleConfig (fun _ => exampleAnswers) [⟨1, 5⟩] = some s0 ∧
      next exampleConfig
          (replyScript [(fun _ => exampleAnswers, ⟨.error ErrorCodes.HostUnreachable, 0⟩),
            (fun _ => exampleAnswers, ⟨.error ErrorCodes.HostUnreachable, 0⟩),
            (fun _ => exampleAnswers, ⟨.error ErrorCodes.HostUnreachable, 0⟩),
            (fun _ => exampleAnswers, ⟨.error ErrorCodes.HostUnreachable, 0⟩)] ++
            [replyTick 0 .OK 0]) s0 =
        .returned ⟨1, stored ⟨.error ErrorCodes.HostUnreachable, 0⟩, some 100⟩ s ∧
      scheduleCount 0 s = kMaxNumFailedHostRetryAttempts + 1 ∧ (done s).1 = true ∧
      (∀ c, (⟨.error ErrorCodes.HostUnreachable, 0⟩ : RemoteCommandResponse).status =
          .error c → stored ⟨.error ErrorCodes.HostUnreachable, 0⟩ = .error c) ∧
      ((⟨.error ErrorCodes.HostUnreachable, 0⟩ : RemoteCommandResponse).status = .OK →
        stored ⟨.error ErrorCodes.HostUnreachable, 0⟩ =
          .value ⟨.error ErrorCodes.HostUnreachable, 0⟩) :=
  ⟨⟨rfl, rfl, rfl, rfl⟩, ⟨ErrorCodes.HostUnreachable, rfl, rfl⟩,
    C6_persistent_retriable_error exampleConfig ⟨1, 5⟩ 100 (fun _ => exampleAnswers)
      (fun _ => exampleAnswers) (fun _ => exampleAnswers) (fun _ => exampleAnswers)
      (fun _ => exampleAnswers) (replyTick 0 .OK 0) ⟨.error ErrorCodes.HostUnreachable, 0⟩
      ⟨rfl, rfl, rfl, rfl⟩ ⟨rfl, rfl, rfl, rfl⟩ ⟨rfl, rfl, rfl, rfl⟩ ⟨rfl, rfl, rfl, rfl⟩
      ⟨rfl, rfl, rfl, rfl⟩ rfl ⟨ErrorCodes.HostUnreachable, rfl, rfl⟩⟩

/-- C7, as amended.  A single request whose shard is known and whose target
resolution and scheduling succeed: when the reply of the executor has an OK
transport status and a command result with an error that is not retriable,
`scheduleRemoteCommand` is called exactly once and the call of `next` returns
the reply as an OK response with the resolved host; the command error stays
in the body of the reply. -/
theorem C7_command_error (cfg : Config) (request : Request) (hp : HostAndPort)
    (oracle finalOracle : Nat → Answers) (last : Tick) (data : BSONObj) (c : ErrorCode)
    (h0 : Resolves hp (oracle 0)) (hfinal : Resolves hp (finalOracle 0))
    (hlast : (last.oracle 0).getShard = true)
    (hcmd : cfg.getStatusFromCommandResult data = .error c)
    (hnr : cfg.isRetriableError c = false) :
    ∃ s0 s, construct cfg oracle [request] = some s0 ∧
      next cfg (replyScript [(finalOracle, ⟨.OK, data⟩)] ++ [last]) s0 =
        .returned ⟨request.shardId, .value ⟨.OK, data⟩, some hp⟩ s ∧
      scheduleCount 0 s = 1 ∧ (done s).1 = true := by
  obtain ⟨s0, s, hs0, hs1, hs2, -, hs4⟩ := single_request cfg request hp oracle []
    (finalOracle, ⟨.OK, data⟩) last h0 (by simp) hfinal hlast (by simp)
    (.inr ⟨c, hcmd, .inl hnr⟩)
  exact ⟨s0, s, hs0, hs1, hs2, hs4⟩

/-- C7, counterexample: the reply has an OK transport status and the command
error Unauthorized, which is not retriable; `scheduleRemoteCommand` is called
once, but the response handed out is not a Failure with Unauthorized: its
`swResponse` is OK and holds the reply. -/
theorem C7_counterexample :
    exampleConfig.getStatusFromCommandResult ErrorCodes.Unauthorized =
      .error ErrorCodes.Unauthorized ∧
    exampleConfig.isRetriableError ErrorCodes.Unauthorized = false ∧
    construct exampleConfig (fun _ => exampleAnswers) [⟨1, 5⟩] = some exampleStart ∧
    next exampleConfig
        [replyTick 0 .OK ErrorCodes.Unauthorized, replyTick 0 .OK ErrorCodes.Unauthorized]
        exampleStart =
      .returned ⟨1, .value ⟨.OK, ErrorCodes.Unauthorized⟩, some 100⟩ unauthorizedDone ∧
    scheduleCount 0 unauthorizedDone = 1 ∧
    (StatusWith.value ⟨.OK, ErrorCodes.Unauthorized⟩ :
      StatusWith RemoteCommandResponse).isOK = true :=
  ⟨rfl, rfl, rfl, rfl, rfl, rfl⟩

theorem C7_command_error_witness :
    Resolves 100 exampleAnswers ∧
    exampleConfig.getStatusFromCommandResult 13 = .error 13 ∧
    exampleConfig.isRetriableError 13 = false ∧
    ∃ s0 s, construct exampleConfig (fun _ => exampleAnswers) [⟨4, 9⟩] = some s0 ∧
      next exampleConfig
          (replyScript [(fun _ => exampleAnswers, ⟨.OK, 13⟩)] ++ [replyTick 0 .OK 0]) s0 =
        .returned ⟨4, .value ⟨.OK, 13⟩, some 100⟩ s ∧
      scheduleCount 0 s = 1 ∧ (done s).1 = true :=
  ⟨⟨rfl, rfl, rfl, rfl⟩, rfl, rfl,
    C7_command_error exampleConfig ⟨4, 9⟩ 100 (fun _ => exampleAnswers)
      (fun _ => exampleAnswers) (replyTick 0 .OK 0) 13 13 ⟨rfl, rfl, rfl, rfl⟩
      ⟨rfl, rfl, rfl, rfl⟩ rfl rfl rfl⟩

/-- What a call of `_ready` does to slot `i`: the loop body of the scheduling
pass (nothing once `_stopRetrying` is set), and then either nothing more, or
the hand-out of the slot, which was ready after the pass. -/
theorem _ready_slot {cfg : Config} {o : Nat → Answers} {s s2 : AsyncRequestsSender}
    {res : Option Response} (h : _ready cfg o s = some (res, s2)) {i : Nat} {r : RemoteData}
    (hi : s._remotes[i]? = some r) :
    s2._stopRetrying = s._stopRetrying ∧ s2._interruptStatus = s._interruptStatus ∧
    ∃ rm cs, (s._stopRetrying = true → rm = r ∧ cs = []) ∧
      (s._stopRetrying = false → SlotPass cfg (o i) i r rm cs) ∧
      slotCalls i s2.calls = slotCalls i s.calls ++ cs ∧
      (res = none → rm.ready = false) ∧
      (s2._remotes[i]? = some rm ∨
        (rm.ready = true ∧ ∃ resp r2, res = some resp ∧
          Emit s._interruptStatus rm resp r2 ∧ s2._remotes[i]? = some r2)) := by
  obtain ⟨mid, cs, n, heq, hlen, -, hstop, hslots, hres⟩ := _ready_spec h
  have hg1 : s2._stopRetrying = s._stopRetrying := by rw [heq]
  have hg2 : s2._interruptStatus = s._interruptStatus := by rw [heq]
  have hcalls : s2.calls = s.calls ++ cs := by rw [heq]
  refine ⟨hg1, hg2, ?_⟩
  have hmid : ∃ rm, mid[i]? = some rm ∧ (s._stopRetrying = true → rm = r ∧ cs = []) ∧
      (s._stopRetrying = false → SlotPass cfg (o i) i r rm (slotCalls i cs)) := by
    cases hst : s._stopRetrying with
    | true =>
      obtain ⟨rfl, rfl⟩ := hstop hst
      exact ⟨r, hi, fun _ => ⟨rfl, rfl⟩, fun h => by simp at h⟩
    | false =>
      obtain ⟨r2, hr2, hp⟩ := hslots hst i r hi
      exact ⟨r2, hr2, fun h => by simp at h, fun _ => hp⟩
  obtain ⟨rm, hrm, hm1, hm2⟩ := hmid
  refine ⟨rm, slotCalls i cs, ?_, hm2, by rw [hcalls, slotCalls_append], ?_, ?_⟩
  · intro hst
    obtain ⟨h1, h2⟩ := hm1 hst
    exact ⟨h1, by rw [h2]; rfl⟩
  · intro hnone
    rcases hres with ⟨-, -, hall⟩ | ⟨j, rj, resp, r2, hresp, -⟩
    · exact hall rm (List.getElem?_mem hrm)
    · rw [hnone] at hresp
      exact absurd hresp (by simp)
  · rcases hres with ⟨-, hrem, -⟩ | ⟨j, rj, resp, r2, hresp, hj, hready, -, hem, hrem⟩
    · left
      rw [hrem]
      exact hrm
    · by_cases hji : j = i
      · subst hji
        rw [hrm] at hj
        simp only [Option.some.injEq] at hj
        subst hj
        right
        refine ⟨hready, resp, r2, hresp, hem, ?_⟩
        rw [hrem, List.getElem?_set_eq_of_lt _ (List.getElem?_eq_some.1 hrm).1]
      · left
        rw [hrem, List.getElem?_set_ne hji]
        exact hrm

/-- When `_ready` marks a slot terminal, the response it returns is the one
of that slot. -/
theorem _ready_marks {cfg : Config} {o : Nat → Answers} {s s2 : AsyncRequestsSender}
    {res : Option Response} (h : _ready cfg o s = some (res, s2)) {i : Nat}
    {r r2 : RemoteData} (hi : s._remotes[i]? = some r) (hd : r.done = false)
    (hi2 : s2._remotes[i]? = some r2) (hd2 : r2.done = true) :
    ∃ rm cs resp, (s._stopRetrying = true → rm = r ∧ cs = []) ∧
      (s._stopRetrying = false → SlotPass cfg (o i) i r rm cs) ∧
      res = some resp ∧ Emit s._interruptStatus rm resp r2 := by
  obtain ⟨-, -, rm, cs, h1, h2, -, -, h4⟩ := _ready_slot h hi
  have hrmd : rm.done = false := by
    cases hst : s._stopRetrying with
    | true => rw [(h1 hst).1]; exact hd
    | false =>
      have := (h2 hst).key
      simp only [RemoteData.key, Prod.mk.injEq] at this
      rw [this.1]; exact hd
  rcases h4 with h4 | ⟨-, resp, r3, hres, hem, h5⟩
  · rw [hi2] at h4
    simp only [Option.some.injEq] at h4
    subst h4
    rw [hrmd] at hd2
    exact absurd hd2 (by decide)
  · rw [hi2] at h5
    simp only [Option.some.injEq] at h5
    subst h5
    exact ⟨rm, cs, resp, h1, h2, hres, hem⟩

theorem hostKnown_pass {cfg : Config} {a : Answers} {k : Nat} {r r2 : RemoteData}
    {cs : List Call} (hJ : HostKnown r) (hp : SlotPass cfg a k r r2 cs) : HostKnown r2 := by
  obtain ⟨r1, cs1, cs2, n, n2, h1, h2, -, -⟩ := hp
  have step1 : HostKnown r1 := by
    cases h1 with
    | keep _ _ => exact hJ
    | shardNotFound _ _ => exact ⟨hJ.1, fun resp h => by simp at h⟩
    | retry _ _ _ _ _ => exact ⟨hJ.1, fun resp h => by simp at h⟩
  cases h2 with
  | skip _ => exact step1
  | shardNotFound _ _ => exact ⟨step1.1, fun resp h => by simp at h⟩
  | findHostFailed c _ _ _ => exact ⟨step1.1, fun resp h => by simp at h⟩
  | scheduleFailed hp c _ _ _ _ => exact ⟨fun _ => rfl, fun _ _ => rfl⟩
  | scheduled hp h _ _ _ _ => exact ⟨fun _ => rfl, fun _ _ => rfl⟩

theorem hostKnown_emit {intr : Status} {r r2 : RemoteData} {resp : Response}
    (hJ : HostKnown r) (he : Emit intr r resp r2) : HostKnown r2 := by
  cases he with
  | success resp hp hsw hhost => exact hJ
  | failure code hsw => exact ⟨hJ.1, fun resp h => by simp at h⟩

theorem hostKnown_store {r : RemoteData} (cbData : RemoteCommandCallbackArgs)
    (hJ : HostKnown r) (hv : r.cbHandle.isValid = true) : HostKnown (r.store cbData) := by
  have hh := hJ.1 hv
  unfold RemoteData.store
  cases cbData.response.status with
  | OK => exact ⟨fun h => by simp [CallbackHandle.isValid] at h, fun _ _ => hh⟩
  | error c => exact ⟨fun h => by simp [CallbackHandle.isValid] at h, fun _ _ => hh⟩

/-- In every state an execution reaches from the constructor, every slot in
flight and every slot that holds an OK response has a resolved host. -/
theorem hostKnown_reachable {cfg : Config} {oracle : Nat → Answers} {requests : List Request}
    {s0 s : AsyncRequestsSender} {ops : List Op} {out : List Response}
    (hc : construct cfg oracle requests = some s0) (hrun : run cfg s0 ops = .ok (s, out)) :
    ∀ (k : Nat) (r : RemoteData), s._remotes[k]? = some r → HostKnown r := by
  refine reachable_slot_invariant (A := fun _ => True) (J := fun _ r _ => HostKnown r)
    ?_ ?_ ?_ ?_ ?_ (fun _ _ _ _ => trivial) hc hrun
  · intro k request r2 cs _ hp
    have h0 : HostKnown (RemoteData.fresh request) :=
      ⟨fun h => by simp [RemoteData.fresh, CallbackHandle.isValid] at h,
        fun resp h => by simp [RemoteData.fresh] at h⟩
    exact hostKnown_pass h0 hp
  · intro o k r r2 cs l _ hJ hp
    exact hostKnown_pass hJ hp
  · intro intr k r resp r2 l hJ _ he
    exact hostKnown_emit hJ he
  · intro k r cbData l hJ hv _
    exact hostKnown_store cbData hJ hv
  · intro k r h l hJ _
    exact hJ

/-- `_ready` on a state with at least one slot in which every slot with an OK
response has a host does not abort: after the scheduling pass it returns
nothing when no slot is ready, and hands out the ready slot of least index
otherwise. -/
theorem _ready_total (cfg : Config) (o : Nat → Answers) (s : AsyncRequestsSender)
    (hne : s._remotes ≠ [])
    (hhost : ∀ (k : Nat) (r : RemoteData), s._remotes[k]? = some r → HostKnown r) :
    ∃ mid cs n, mid.length = s._remotes.length ∧
      (s._stopRetrying = true → mid = s._remotes ∧ cs = []) ∧
      (s._stopRetrying = false → ∀ (k : Nat) (r : RemoteData), s._remotes[k]? = some r →
        ∃ r2, mid[k]? = some r2 ∧ SlotPass cfg (o k) k r r2 (slotCalls k cs)) ∧
      (((∀ r ∈ mid, r.ready = false) ∧
          _ready cfg o s = some (none, { s with _remotes := mid, calls := s.calls ++ cs,
                                                _notification := n })) ∨
        ∃ j rj resp r2, mid[j]? = some rj ∧ rj.ready = true ∧
          (∀ (k : Nat) (rk : RemoteData), k < j → mid[k]? = some rk → rk.ready = false) ∧
          Emit s._interruptStatus rj resp r2 ∧
          _ready cfg o s = some (some resp, { s with _remotes := mid.set j r2,
                                                     calls := s.calls ++ cs,
                                                     _notification := n })) := by
  obtain ⟨mid, cs, n, hap, hlen, hstop, hslots⟩ := afterPass_spec cfg o s
  have hmid : ∀ (k : Nat) (r : RemoteData), mid[k]? = some r → HostKnown r := by
    intro k r hk
    cases hst : s._stopRetrying with
    | true =>
      rw [(hstop hst).1] at hk
      exact hhost k r hk
    | false =>
      have hlt : k < s._remotes.length := by
        rw [← hlen]
        exact (List.getElem?_eq_some.1 hk).1
      obtain ⟨r2, hr2, hp⟩ := hslots hst k _ (List.getElem?_eq_getElem hlt)
      rw [hk] at hr2
      simp only [Option.some.injEq] at hr2
      subst hr2
      exact hostKnown_pass (hhost k _ (List.getElem?_eq_getElem hlt)) hp
  have hemp : mid.isEmpty = false := by
    cases mid with
    | nil =>
      have : s._remotes.length = 0 := by simpa using hlen.symm
      exact absurd (List.length_eq_zero.1 this) hne
    | cons _ _ => rfl
  refine ⟨mid, cs, n, hlen, hstop, hslots, ?_⟩
  rw [_ready_eq, hap]
  simp only [hemp]
  rcases readyLoop_spec s._interruptStatus mid with
    ⟨hrl, hnone⟩ | ⟨j, rj, hj, hr, hlt, ⟨-, hh, resp, hsw⟩ | ⟨resp, r2, hem, hrl⟩⟩
  · left
    exact ⟨hnone, by rw [hrl]; rfl⟩
  · have := (hmid j rj hj).2 resp hsw
    rw [hh] at this
    exact absurd this (by decide)
  · right
    exact ⟨j, rj, resp, r2, hj, hr, hlt, hem, by rw [hrl]; rfl⟩

theorem countP_isFindHost_slotCalls (k : Nat) (l : List Call) :
    (slotCalls k l).countP (Call.isFindHost k) = l.countP (Call.isFindHost k) := by
  simp only [slotCalls, List.countP_filter]
  congr 1
  funext c
  cases c <;> simp [Call.isFindHost, Call.slot]

theorem countP_isFindHost_monitor {k : Nat} {cs : List Call}
    (hcs : ∀ c ∈ cs, Call.isMonitor k c = true) : cs.countP (Call.isFindHost k) = 0 := by
  rw [List.countP_eq_zero]
  intro c hc
  have := hcs c hc
  cases c <;> simp_all [Call.isMonitor, Call.isFindHost]

theorem neverResolved_init {cfg : Config} {a : Answers} {i : Nat} {request : Request}
    {r2 : RemoteData} {cs : List Call} (ha : a.getShard = false ∧ a.getShardResolve = false)
    (hp : SlotPass cfg a i (RemoteData.fresh request) r2 cs) :
    NeverResolved request r2 cs i := by
  obtain ⟨r1, cs1, cs2, n, n2, h1, h2, rfl, -⟩ := hp
  cases h1 with
  | keep _ hcs =>
    cases h2 with
    | skip hidle => simp [RemoteData.fresh, RemoteData.idle, CallbackHandle.isValid] at hidle
    | shardNotFound hidle hshard =>
      exact ⟨rfl, rfl, rfl, by simp [countP_isSchedule_monitor hcs],
        by simp [countP_isFindHost_monitor hcs], rfl⟩
    | findHostFailed c hidle hshard hfind => rw [ha.2] at hshard; exact absurd hshard (by decide)
    | scheduleFailed hp c hidle hshard => rw [ha.2] at hshard; exact absurd hshard (by decide)
    | scheduled hp h hidle hshard => rw [ha.2] at hshard; exact absurd hshard (by decide)
  | shardNotFound hready hshard => simp [RemoteData.fresh, RemoteData.ready] at hready
  | retry _ hcs hready hshard hcount => simp [RemoteData.fresh, RemoteData.ready] at hready

theorem neverResolved_pass {cfg : Config} {a : Answers} {i : Nat} {request : Request}
    {r r2 : RemoteData} {l cs : List Call} (ha : a.getShard = false ∧ a.getShardResolve = false)
    (hJ : NeverResolved request r l i) (hp : SlotPass cfg a i r r2 cs) :
    NeverResolved request r2 (l ++ cs) i := by
  obtain ⟨hh, hv, hsw, hc1, hc2, hid⟩ := hJ
  obtain ⟨r1, cs1, cs2, n, n2, h1, h2, rfl, -⟩ := hp
  have step1 : NeverResolved request r1 (l ++ cs1) i := by
    cases h1 with
    | keep _ hcs =>
      exact ⟨hh, hv, hsw, by simp [List.countP_append, hc1, countP_isSchedule_monitor hcs],
        by simp [List.countP_append, hc2, countP_isFindHost_monitor hcs], hid⟩
    | shardNotFound hready hshard =>
      exact ⟨hh, hv, rfl, by simpa using hc1, by simpa using hc2, hid⟩
    | retry _ hcs hready hshard hcount => rw [ha.1] at hshard; exact absurd hshard (by decide)
  obtain ⟨hh1, hv1, hsw1, hc3, hc4, hid1⟩ := step1
  have hidle : r1.idle = false := by simp [RemoteData.idle, hsw1]
  rw [← List.append_assoc]
  cases h2 with
  | skip _ => exact ⟨hh1, hv1, hsw1, by simpa using hc3, by simpa using hc4, hid1⟩
  | shardNotFound h => rw [hidle] at h; exact absurd h (by decide)
  | findHostFailed c h => rw [hidle] at h; exact absurd h (by decide)
  | scheduleFailed hp c h => rw [hidle] at h; exact absurd h (by decide)
  | scheduled hp h2 h => rw [hidle] at h; exact absurd h (by decide)

theorem neverResolved_emit {intr : Status} {i : Nat} {request : Request} {r r2 : RemoteData}
    {resp : Response} {l : List Call} (hJ : NeverResolved request r l i)
    (he : Emit intr r resp r2) :
    NeverResolved request r2 l i ∧
      resp = ⟨request.shardId, .error ErrorCodes.ShardNotFound, none⟩ := by
  obtain ⟨hh, hv, hsw, hc1, hc2, hid⟩ := hJ
  have hprom : promote intr ErrorCodes.ShardNotFound = ErrorCodes.ShardNotFound := by
    cases intr <;> simp [promote]
  cases he with
  | success resp hp hsw2 hhost => rw [hsw] at hsw2; simp at hsw2
  | failure code hsw2 =>
    rw [hsw] at hsw2
    simp only [Option.some.injEq, StatusWith.error.injEq] at hsw2
    subst hsw2
    rw [hprom]
    exact ⟨⟨hh, hv, rfl, hc1, hc2, hid⟩, by rw [hid, hh]⟩

theorem neverResolved_reachable {cfg : Config} {oracle : Nat → Answers}
    {requests : List Request} {s0 s : AsyncRequestsSender} {ops : List Op}
    {out : List Response} {i : Nat} {request : Request}
    (hreq : requests[i]? = some request) (hunknown0 : ShardUnknown i oracle)
    (hunknown : ∀ op ∈ ops, ∀ o ∈ op.oracles, ShardUnknown i o)
    (hc : construct cfg oracle requests = some s0) (hrun : run cfg s0 ops = .ok (s, out)) :
    ∀ k r, s._remotes[k]? = some r → k = i → NeverResolved request r (slotCalls k s.calls) i := by
  refine reachable_slot_invariant (A := ShardUnknown i)
    (J := fun k r l => k = i → NeverResolved request r l i) ?_ ?_ ?_ ?_ ?_ hunknown hc hrun
  · intro k req r2 cs hk hp hki
    subst hki
    rw [hreq] at hk
    simp only [Option.some.injEq] at hk
    subst hk
    exact neverResolved_init hunknown0 hp
  · intro o k r r2 cs l ho hJ hp hki
    subst hki
    exact neverResolved_pass ho (hJ rfl) hp
  · intro intr k r resp r2 l hJ _ he hki
    exact (neverResolved_emit (hJ hki) he).1
  · intro k r cbData l hJ hv _ hki
    have := (hJ hki).2.1
    rw [hv] at this
    exact absurd this (by decide)
  · intro k r h l hJ hid hki
    have := (hJ hki).2.1
    simp [CallbackHandle.isValid, hid] at this

/-- C8 (unknown shard).  Let the shard of request `i` be unknown to the shard
registry in the constructor and in every later scheduling pass.  Then in
every state an execution reaches, `scheduleRemoteCommand` and the targeter
have never been called for slot `i`, and the slot holds the outcome
ShardNotFound, no host and no handle.  While the slot is not terminal, a call
of `next` returns without waiting: either the Failure with the shard id of the
request, status ShardNotFound and no host, marking slot `i` terminal, or the
response of a slot of smaller index, which it marks terminal, leaving slot `i`
as it is.  And whenever a call of `_ready` marks slot `i` terminal, the
response it returns is that Failure. -/
theorem C8_unknown_shard (cfg : Config) (oracle : Nat → Answers) (requests : List Request)
    (s0 s : AsyncRequestsSender) (ops : List Op) (out : List Response) (i : Nat)
    (request : Request) (hreq : requests[i]? = some request)
    (hunknown0 : ShardUnknown i oracle)
    (hunknown : ∀ op ∈ ops, ∀ o ∈ op.oracles, ShardUnknown i o)
    (hc : construct cfg oracle requests = some s0) (hrun : run cfg s0 ops = .ok (s, out)) :
    scheduleCount i s = 0 ∧ findHostCount i s = 0 ∧
    (∃ remote, s._remotes[i]? = some remote ∧
      remote.swResponse = some (.error ErrorCodes.ShardNotFound) ∧
      remote.shardHostAndPort = none ∧ remote.cbHandle.isValid = false ∧
      (∀ (tick : Tick) (script : List Tick), ShardUnknown i tick.oracle →
        remote.done = false →
        ∃ resp s2, next cfg (tick :: script) s = .returned resp s2 ∧
          ((resp = ⟨request.shardId, .error ErrorCodes.ShardNotFound, none⟩ ∧
              (s2._remotes[i]?).map (fun x => x.done) = some true) ∨
            (∃ j, j < i ∧ (s._remotes[j]?).map (fun x => x.done) = some false ∧
              (s2._remotes[j]?).map (fun x => x.done) = some true ∧
              s2._remotes[i]? = some remote))) ∧
      ∀ o res s2, ShardUnknown i o → _ready cfg o s = some (res, s2) → remote.done = false →
        ∀ remote2, s2._remotes[i]? = some remote2 → remote2.done = true →
          res = some ⟨request.shardId, .error ErrorCodes.ShardNotFound, none⟩) := by
  have hinv := neverResolved_reachable hreq hunknown0 hunknown hc hrun
  have hhost := hostKnown_reachable hc hrun
  have hlen : i < s._remotes.length := by
    have h1 := (run_handedOut ops s0 s out hrun).2
    have h2 := construct_keys hc
    have h3 := congrArg List.length h1
    rw [h2] at h3
    simp only [keys, List.length_map] at h3
    rw [h3]
    exact (List.getElem?_eq_some.1 hreq).1
  have hi : s._remotes[i]? = some s._remotes[i] := List.getElem?_eq_getElem hlen
  obtain ⟨hh, hv, hsw, hc1, hc2, hid⟩ := hinv i _ hi rfl
  rw [countP_isSchedule_slotCalls] at hc1
  rw [countP_isFindHost_slotCalls] at hc2
  have hJ : NeverResolved request s._remotes[i] (slotCalls i s.calls) i := hinv i _ hi rfl
  have hmid : ∀ (o : Nat → Answers), ShardUnknown i o → s._remotes[i].done = false →
      ∀ rm cs, (s._stopRetrying = true → rm = s._remotes[i] ∧ cs = []) →
      (s._stopRetrying = false → SlotPass cfg (o i) i s._remotes[i] rm cs) →
      NeverResolved request rm (slotCalls i s.calls ++ cs) i ∧ rm.done = false ∧
        (s._stopRetrying = true → rm = s._remotes[i]) ∧
        (s._stopRetrying = false → rm = s._remotes[i]) := by
    intro o ho hd rm cs h1 h2
    cases hst : s._stopRetrying with
    | true =>
      obtain ⟨rfl, rfl⟩ := h1 hst
      exact ⟨by simpa using hJ, hd, fun _ => rfl, fun h => by simp at h⟩
    | false =>
      have hk := (h2 hst).key
      simp only [RemoteData.key, Prod.mk.injEq] at hk
      refine ⟨neverResolved_pass ho hJ (h2 hst), by rw [hk.1]; exact hd, fun h => by simp at h,
        fun _ => ?_⟩
      obtain ⟨r1, cs1, cs2, n, n2, -, hp2, -, hr1, -⟩ := h2 hst
      have hrc : retryCheck cfg (o i) i s._remotes[i] =
          (s._remotes[i], []) := by
        have hsw2 := hsw
        have hd2 := hd
        generalize s._remotes[i] = r0 at hsw2 hd2
        cases r0 with
        | mk sid cmd sw hp cb rc dn =>
          simp only at hsw2 hd2
          subst hsw2
          subst hd2
          simp [retryCheck, errorStatus, ho.1]
      rw [hrc] at hr1
      simp only at hr1
      subst hr1
      have hidle : s._remotes[i].idle = false := by simp [RemoteData.idle, hsw]
      cases hp2 with
      | skip _ => rfl
      | shardNotFound h => rw [hidle] at h; exact absurd h (by decide)
      | findHostFailed c h => rw [hidle] at h; exact absurd h (by decide)
      | scheduleFailed hp c h => rw [hidle] at h; exact absurd h (by decide)
      | scheduled hp h3 h => rw [hidle] at h; exact absurd h (by decide)
  refine ⟨hc1, hc2, _, hi, hsw, hh, hv, ?_, ?_⟩
  · intro tick script ho hd
    have hnd : (done s).1 = false := by
      simp only [done, List.all_eq_false]
      exact ⟨_, List.getElem?_mem hi, by simp [hd]⟩
    have hne : s._remotes ≠ [] := by
      intro he
      rw [he] at hlen
      simp at hlen
    obtain ⟨mid, cs, n, hl, hstop, hslots, hcase⟩ := _ready_total cfg tick.oracle s hne hhost
    have hmi : ∃ rm, mid[i]? = some rm ∧ rm = s._remotes[i] := by
      cases hst : s._stopRetrying with
      | true =>
        rw [(hstop hst).1]
        exact ⟨_, hi, rfl⟩
      | false =>
        obtain ⟨r2, hr2, hp⟩ := hslots hst i _ hi
        exact ⟨r2, hr2, (hmid tick.oracle ho hd r2 _ (fun h => by simp [hst] at h)
          (fun _ => hp)).2.2.2 hst⟩
    obtain ⟨rm, hrm, rfl⟩ := hmi
    have hmready : s._remotes[i].ready = true := by simp [RemoteData.ready, hsw, hd]
    have hkeys : ∀ (k : Nat) (rk : RemoteData), mid[k]? = some rk →
        (s._remotes[k]?).map (fun x => x.done) = some rk.done := by
      intro k rk hk
      cases hst : s._stopRetrying with
      | true =>
        rw [(hstop hst).1] at hk
        simp [hk]
      | false =>
        have hlt : k < s._remotes.length := by
          rw [← hl]
          exact (List.getElem?_eq_some.1 hk).1
        obtain ⟨r2, hr2, hp⟩ := hslots hst k _ (List.getElem?_eq_getElem hlt)
        rw [hk] at hr2
        simp only [Option.some.injEq] at hr2
        subst hr2
        have := hp.key
        simp only [RemoteData.key, Prod.mk.injEq] at this
        simp [List.getElem?_eq_getElem hlt, this.1]
    rw [next_of_not_done hnd]
    rcases hcase with ⟨hnone, -⟩ | ⟨j, rj, resp, r2, hj, hrj, hlt, hem, hr⟩
    · have := hnone _ (List.getElem?_mem hrm)
      rw [hmready] at this
      exact absurd this (by decide)
    · refine ⟨resp, _, nextLoop_step_return cfg tick script hr, ?_⟩
      rcases Nat.lt_trichotomy j i with hji | hji | hji
      · right
        have hjd : rj.done = false := by
          simp only [RemoteData.ready, Bool.and_eq_true, Bool.not_eq_true'] at hrj
          exact hrj.2
        have hr2d : r2.done = true := by cases hem <;> rfl
        refine ⟨j, hji, ?_, ?_, ?_⟩
        · rw [hkeys j rj hj, hjd]
        · simp only
          rw [List.getElem?_set_eq_of_lt _ (List.getElem?_eq_some.1 hj).1]
          simp [hr2d]
        · simp only
          rw [List.getElem?_set_ne (Nat.ne_of_lt hji)]
          exact hrm
      · subst hji
        left
        rw [hrm] at hj
        simp only [Option.some.injEq] at hj
        subst hj
        have hr2d : r2.done = true := by cases hem <;> rfl
        refine ⟨(neverResolved_emit hJ hem).2, ?_⟩
        simp only
        rw [List.getElem?_set_eq_of_lt _ (List.getElem?_eq_some.1 hrm).1]
        simp [hr2d]
      · have := hlt i _ hji hrm
        rw [hmready] at this
        exact absurd this (by decide)
  · intro o res s2 ho hr hd remote2 hi2 hd2
    obtain ⟨rm, cs, resp, h1, h2, hres, hem⟩ := _ready_marks hr hi hd hi2 hd2
    obtain ⟨hN, -⟩ := hmid o ho hd rm cs h1 h2
    rw [hres, (neverResolved_emit hN hem).2]

theorem C8_unknown_shard_witness :
    ([⟨9, 5⟩] : List Request)[0]? = some ⟨9, 5⟩ ∧
    ShardUnknown 0 (fun _ => unknownAnswers) ∧
    construct exampleConfig (fun _ => unknownAnswers) [⟨9, 5⟩] = some unknownStart ∧
    run exampleConfig unknownStart [.next [⟨fun _ => unknownAnswers, .callbacks []⟩]] =
      .ok (unknownDone, [⟨9, .error ErrorCodes.ShardNotFound, none⟩]) ∧
    scheduleCount 0 unknownDone = 0 ∧ findHostCount 0 unknownDone = 0 := by
  have h := C8_unknown_shard exampleConfig (fun _ => unknownAnswers) [⟨9, 5⟩] unknownStart
    unknownDone [.next [⟨fun _ => unknownAnswers, .callbacks []⟩]]
    [⟨9, .error ErrorCodes.ShardNotFound, none⟩] 0 ⟨9, 5⟩ rfl ⟨rfl, rfl⟩
    (by
      intro op hop o ho
      simp only [List.mem_singleton] at hop
      subst hop
      simp only [Op.oracles, List.map_cons, List.map_nil, List.mem_singleton] at ho
      subst ho
      exact ⟨rfl, rfl⟩)
    rfl rfl
  exact ⟨rfl, ⟨rfl, rfl⟩, rfl, rfl, h.1, h.2.1⟩

theorem retryCheck_kept (cfg : Config) (a : Answers) (i : Nat) (r : RemoteData)
    (code : ErrorCode) (hsw : r.swResponse = some (.error code)) (hd : r.done = false)
    (hshard : a.getShard = true)
    (hnot : cfg.isRetriableError code = false ∨ kMaxNumFailedHostRetryAttempts ≤ r.retryCount) :
    retryCheck cfg a i r = (r, monitorCalls i r code) := by
  have hno : (cfg.isRetriableError code &&
      decide (r.retryCount < kMaxNumFailedHostRetryAttempts)) = false := by
    rcases hnot with h | h
    · simp [h]
    · simp [Nat.not_lt.2 h]
  simp [retryCheck, hsw, hd, errorStatus, hshard, hno, monitorCalls]

theorem retryCheck_retried (cfg : Config) (a : Answers) (i : Nat) (r : RemoteData)
    (code : ErrorCode) (hsw : r.swResponse = some (.error code)) (hd : r.done = false)
    (hshard : a.getShard = true) (hret : cfg.isRetriableError code = true)
    (hcount : r.retryCount < kMaxNumFailedHostRetryAttempts) :
    retryCheck cfg a i r =
      ({ r with retryCount := r.retryCount + 1, swResponse := none }, monitorCalls i r code) := by
  simp [retryCheck, hsw, hd, errorStatus, hshard, hret, hcount, monitorCalls]

theorem monitorCalls_counts (i : Nat) (r : RemoteData) (code : ErrorCode) :
    (monitorCalls i r code).countP (Call.isSchedule i) = 0 ∧
      (monitorCalls i r code).countP (Call.isFindHost i) = 0 := by
  unfold monitorCalls
  cases r.shardHostAndPort <;> simp [Call.isSchedule, Call.isFindHost]

/-- C9, as amended.  In a scheduling pass, a slot that is not terminal and
holds an error status (such as the error of a failed target resolution or
scheduling) whose shard is known is treated by its error code alone: when the
retry policy classifies the code as not retriable, or `retryCount` has reached
3, the pass leaves the slot as it is and calls neither the targeter nor the
executor for it, and the response `_ready` builds for the slot is the Failure
with that error (CallbackCanceled being replaced by a set interrupt status);
when the code is retriable and `retryCount < 3`, the pass increments
`retryCount` and, for a slot without a handle whose shard is still known,
calls the targeter again. -/
theorem C9_stored_error (cfg : Config) (oracle : Nat → Answers) (s : AsyncRequestsSender)
    (i : Nat) (r : RemoteData) (code : ErrorCode) (hstop : s._stopRetrying = false)
    (hi : s._remotes[i]? = some r) (hsw : r.swResponse = some (.error code))
    (hd : r.done = false) (hshard : (oracle i).getShard = true) :
    ∃ s2, _scheduleRequests cfg oracle s = some s2 ∧
      ((cfg.isRetriableError code = false ∨ kMaxNumFailedHostRetryAttempts ≤ r.retryCount) →
        s2._remotes[i]? = some r ∧ scheduleCount i s2 = scheduleCount i s ∧
        findHostCount i s2 = findHostCount i s ∧
        (r.emit s2._interruptStatus).map (fun p => p.1) =
          some ⟨r.shardId, .error (promote s._interruptStatus code), r.shardHostAndPort⟩ ∧
        (s._interruptStatus = .OK ∨ code ≠ ErrorCodes.CallbackCanceled →
          promote s._interruptStatus code = code)) ∧
      ((cfg.isRetriableError code = true ∧ r.retryCount < kMaxNumFailedHostRetryAttempts) →
        ∃ r2, s2._remotes[i]? = some r2 ∧ r2.retryCount = r.retryCount + 1 ∧
          (r.cbHandle.isValid = false → (oracle i).getShardResolve = true →
            findHostCount i s2 = findHostCount i s + 1)) := by
  obtain ⟨rs2, cs, n2, heq, -, hget⟩ := _scheduleRequests_spec cfg oracle s hstop
  obtain ⟨r2, hr2, hp⟩ := hget i r hi
  obtain ⟨r1, cs1, cs2, n, n3, -, h2, hcs, hr1, hcs1⟩ := hp
  refine ⟨_, heq, ?_, ?_⟩
  · intro hnot
    have hrc := retryCheck_kept cfg (oracle i) i r code hsw hd hshard hnot
    rw [hrc] at hr1 hcs1
    simp only at hr1 hcs1
    subst hr1
    have hidle : r1.idle = false := by simp [RemoteData.idle, hsw]
    have h3 : r2 = r1 ∧ cs2 = [] := by
      cases h2 with
      | skip _ => exact ⟨rfl, rfl⟩
      | shardNotFound h => rw [hidle] at h; exact absurd h (by decide)
      | findHostFailed c h => rw [hidle] at h; exact absurd h (by decide)
      | scheduleFailed hp c h => rw [hidle] at h; exact absurd h (by decide)
      | scheduled hp h3 h => rw [hidle] at h; exact absurd h (by decide)
    obtain ⟨rfl, rfl⟩ := h3
    have hcalls : slotCalls i cs = monitorCalls i r2 code := by
      rw [hcs, hcs1, List.append_nil]
    refine ⟨hr2, ?_, ?_, ?_, ?_⟩
    · unfold scheduleCount
      simp only
      rw [← countP_isSchedule_slotCalls, slotCalls_append, List.countP_append, hcalls,
        (monitorCalls_counts i r2 code).1, countP_isSchedule_slotCalls]
      rfl
    · unfold findHostCount
      simp only
      rw [← countP_isFindHost_slotCalls, slotCalls_append, List.countP_append, hcalls,
        (monitorCalls_counts i r2 code).2, countP_isFindHost_slotCalls]
      rfl
    · simp [RemoteData.emit, hsw]
    · intro h
      rcases h with h | h
      · simp [promote, h]
      · unfold promote
        cases s._interruptStatus with
        | OK => rfl
        | error ic =>
          have : (ErrorCodes.CallbackCanceled == code) = false := by
            simpa using fun e => h e.symm
          simp [this]
  · rintro ⟨hret, hcount⟩
    have hrc := retryCheck_retried cfg (oracle i) i r code hsw hd hshard hret hcount
    rw [hrc] at hr1 hcs1
    simp only at hr1 hcs1
    subst hr1
    refine ⟨r2, hr2, ?_, ?_⟩
    · cases h2 <;> rfl
    · intro hv hres
      have hidle : RemoteData.idle
          { r with retryCount := r.retryCount + 1, swResponse := none } = true := by
        simp [RemoteData.idle, hv]
      have hfind : cs2.countP (Call.isFindHost i) = 1 := by
        cases h2 with
        | skip h => rw [hidle] at h; exact absurd h (by decide)
        | shardNotFound _ h => rw [hres] at h; exact absurd h (by decide)
        | findHostFailed c _ _ _ => simp [Call.isFindHost]
        | scheduleFailed hp c _ _ _ _ => simp [List.countP_cons, Call.isFindHost]
        | scheduled hp h3 _ _ _ _ => simp [List.countP_cons, Call.isFindHost]
      unfold findHostCount
      simp only
      rw [← countP_isFindHost_slotCalls, slotCalls_append, List.countP_append, hcs, hcs1,
        List.countP_append, (monitorCalls_counts i r code).2, hfind,
        countP_isFindHost_slotCalls]

/-- C9, counterexample: the target resolution of the constructor fails with
HostUnreachable, which the retry policy classifies as retriable; the next
scheduling pass clears the stored resolution error, increments `retryCount`
and calls the targeter and the executor for the slot. -/
theorem C9_counterexample :
    construct exampleConfig (fun _ => failingAnswers) [⟨1, 5⟩] = some resolutionFailed ∧
    resolutionFailed._remotes.map (fun r => r.swResponse) =
      [some (.error ErrorCodes.HostUnreachable)] ∧
    exampleConfig.isRetriableError ErrorCodes.HostUnreachable = true ∧
    _scheduleRequests exampleConfig (fun _ => exampleAnswers) resolutionFailed =
      some resolutionRetried ∧
    resolutionRetried._remotes.map (fun r => r.swResponse) = [none] ∧
    resolutionRetried._remotes.map (fun r => r.retryCount) = [1] ∧
    findHostCount 0 resolutionFailed = 1 ∧ findHostCount 0 resolutionRetried = 2 ∧
    scheduleCount 0 resolutionFailed = 0 ∧ scheduleCount 0 resolutionRetried = 1 :=
  ⟨rfl, rfl, rfl, rfl, rfl, rfl, rfl, rfl, rfl, rfl⟩

theorem C9_stored_error_witness :
    schedulingFailed._stopRetrying = false ∧
    schedulingFailed._remotes[0]? =
      some { shardId := 1, cmdObj := 5, shardHostAndPort := some 100,
             swResponse := some (.error ErrorCodes.Unauthorized) } ∧
    exampleAnswers.getShard = true ∧
    ∃ s2, _scheduleRequests exampleConfig (fun _ => exampleAnswers) schedulingFailed = some s2 ∧
      s2._remotes[0]? = some { shardId := 1, cmdObj := 5, shardHostAndPort := some 100,
                               swResponse := some (.error ErrorCodes.Unauthorized) } ∧
      scheduleCount 0 s2 = scheduleCount 0 schedulingFailed := by
  obtain ⟨s2, h1, h2, -⟩ := C9_stored_error exampleConfig (fun _ => exampleAnswers)
    schedulingFailed 0
    { shardId := 1, cmdObj := 5, shardHostAndPort := some 100,
      swResponse := some (.error ErrorCodes.Unauthorized) }
    ErrorCodes.Unauthorized rfl rfl rfl rfl rfl
  obtain ⟨h3, h4, -⟩ := h2 (.inl rfl)
  exact ⟨rfl, rfl, rfl, s2, h1, h3, h4⟩

theorem Kept.refl (rs : List RemoteData) : Kept rs rs :=
  ⟨rfl, fun _ r h => ⟨r, h, rfl, fun h2 => h2⟩⟩

theorem Kept.set {rs rs2 : List RemoteData} (h : Kept rs rs2) {i : Nat} {r r2 : RemoteData}
    (hi : rs2[i]? = some r) (hc : r2.retryCount = r.retryCount)
    (hs : r.swResponse.isSome = true → r2.swResponse.isSome = true) :
    Kept rs (rs2.set i r2) := by
  refine ⟨by simp [h.1], ?_⟩
  intro k rk hk
  obtain ⟨rk2, hrk2, h1, h2⟩ := h.2 k rk hk
  by_cases hik : i = k
  · subst hik
    rw [hi] at hrk2
    simp only [Option.some.injEq] at hrk2
    subst hrk2
    refine ⟨r2, ?_, hc.trans h1, fun h3 => hs (h2 h3)⟩
    rw [List.getElem?_set_eq_of_lt _ (List.getElem?_eq_some.1 hi).1]
  · exact ⟨rk2, by rw [List.getElem?_set_ne hik]; exact hrk2, h1, h2⟩

/-- `_ready` once `_stopRetrying` is set: no scheduling pass runs, no call is
made, and at most the first ready slot is handed out. -/
theorem _ready_stopped {cfg : Config} {o : Nat → Answers} {s s2 : AsyncRequestsSender}
    {res : Option Response} (hstop : s._stopRetrying = true)
    (h : _ready cfg o s = some (res, s2)) :
    s2.calls = s.calls ∧ s2._stopRetrying = true ∧ s2._interruptStatus = s._interruptStatus ∧
    ((res = none ∧ s2._remotes = s._remotes) ∨
      ∃ i r resp r2, res = some resp ∧ s._remotes[i]? = some r ∧ r.ready = true ∧
        Emit s._interruptStatus r resp r2 ∧ s2._remotes = s._remotes.set i r2) := by
  obtain ⟨mid, cs, n, heq, -, -, hst, -, hres⟩ := _ready_spec h
  obtain ⟨rfl, rfl⟩ := hst hstop
  refine ⟨by rw [heq]; simp, by rw [heq]; exact hstop, by rw [heq], ?_⟩
  rcases hres with ⟨h1, h2, -⟩ | ⟨i, r, resp, r2, h1, h2, h3, -, h4, h5⟩
  · exact .inl ⟨h1, h2⟩
  · exact .inr ⟨i, r, resp, r2, h1, h2, h3, h4, h5⟩

theorem cancelCalls_counts (j : Nat) : ∀ (rs : List RemoteData) (i : Nat),
    (cancelCalls i rs).countP (Call.isSchedule j) = 0 ∧
      (cancelCalls i rs).countP (Call.isFindHost j) = 0 := by
  intro rs
  induction rs with
  | nil => intro i; simp [cancelCalls]
  | cons r rest ih =>
    intro i
    unfold cancelCalls
    cases r.cbHandle.id with
    | none => exact ih (i + 1)
    | some h => simpa [List.countP_cons, Call.isSchedule, Call.isFindHost] using ih (i + 1)

theorem Emit.kept {intr : Status} {r r2 : RemoteData} {resp : Response}
    (h : Emit intr r resp r2) :
    r2.retryCount = r.retryCount ∧ r2.swResponse.isSome = true := by
  cases h with
  | success resp hp hsw hhost => exact ⟨rfl, by simp [hsw]⟩
  | failure code hsw => exact ⟨rfl, rfl⟩

theorem store_kept (cbData : RemoteCommandCallbackArgs) (r : RemoteData) :
    (r.store cbData).retryCount = r.retryCount ∧ (r.store cbData).swResponse.isSome = true := by
  unfold RemoteData.store
  cases cbData.response.status <;> exact ⟨rfl, rfl⟩

theorem stopped_run {cfg : Config} {s s2 : AsyncRequestsSender} {ops : List Op}
    {out : List Response} (hstop : s._stopRetrying = true)
    (hrun : run cfg s ops = .ok (s2, out)) : Stopped s s2 := by
  have hcancel : ∀ x, Stopped s x → Stopped s (_cancelPendingRequests x) := by
    intro x ⟨_, h2, h3⟩
    refine ⟨rfl, ?_, h3⟩
    intro j
    obtain ⟨c1, c2⟩ := cancelCalls_counts j x._remotes 0
    constructor
    · rw [← (h2 j).1]
      simp [scheduleCount, _cancelPendingRequests, List.countP_append, c1]
    · rw [← (h2 j).2]
      simp [findHostCount, _cancelPendingRequests, List.countP_append, c2]
  refine run_induction (A := fun _ => True) (C := fun _ => True) (P := Stopped s)
    ?_ ?_ ?_ ?_ hcancel ops s s2 out (fun _ _ _ _ => trivial) (fun _ _ _ _ => trivial)
    ⟨hstop, fun _ => ⟨rfl, rfl⟩, Kept.refl _⟩ hrun
  · intro x i cbData x2 _ ⟨h1, h2, h3⟩ hc
    obtain ⟨r, hr, -, -, rfl⟩ := callback_spec hc
    exact ⟨h1, h2, h3.set hr (store_kept cbData r).1 (fun _ => (store_kept cbData r).2)⟩
  · intro x o res x2 _ ⟨h1, h2, h3⟩ hr
    obtain ⟨hcalls, hst, -, hres⟩ := _ready_stopped h1 hr
    refine ⟨hst, ?_, ?_⟩
    · intro j
      simpa [scheduleCount, findHostCount, hcalls] using h2 j
    · rcases hres with ⟨-, hrem⟩ | ⟨i, r, resp, r2, -, hi, -, hem, hrem⟩
      · rw [hrem]; exact h3
      · rw [hrem]
        exact h3.set hi hem.kept.1 (fun _ => hem.kept.2)
  · intro x code hP _
    have := hcancel { x with _interruptStatus := .error code }
      ⟨hP.1, by simpa [scheduleCount, findHostCount] using hP.2.1, hP.2.2⟩
    simpa [interruptedWait] using this
  · intro x ⟨_, h2, h3⟩
    exact ⟨rfl, by simpa [scheduleCount, findHostCount, stopRetrying] using h2, h3⟩

theorem stopped_inflight {cfg : Config} {s s2 : AsyncRequestsSender} {ops : List Op}
    {out : List Response} (hstop : s._stopRetrying = true)
    (hrun : run cfg s ops = .ok (s2, out)) {i : Nat} {r : RemoteData}
    (hi : s._remotes[i]? = some r) (hsw : r.swResponse = none)
    (hops : ∀ op ∈ ops, ∀ j ∈ op.callbacks, j ≠ i) : s2._remotes[i]? = some r := by
  refine (run_induction (A := fun _ => True) (C := fun j => j ≠ i)
    (P := fun x => x._stopRetrying = true ∧ x._remotes[i]? = some r)
    ?_ ?_ ?_ ?_ ?_ ops s s2 out (fun _ _ _ _ => trivial) hops ⟨hstop, hi⟩ hrun).2
  · intro x j cbData x2 hj ⟨h1, h2⟩ hc
    obtain ⟨rj, hr, -, -, rfl⟩ := callback_spec hc
    exact ⟨h1, by simp only; rw [List.getElem?_set_ne hj]; exact h2⟩
  · intro x o res x2 _ ⟨h1, h2⟩ hr
    obtain ⟨-, hst, -, hres⟩ := _ready_stopped h1 hr
    refine ⟨hst, ?_⟩
    rcases hres with ⟨-, hrem⟩ | ⟨k, rk, resp, r2, -, hk, hready, -, hrem⟩
    · rw [hrem]; exact h2
    · rw [hrem]
      have hki : k ≠ i := by
        intro e
        subst e
        rw [h2] at hk
        simp only [Option.some.injEq] at hk
        subst hk
        simp [RemoteData.ready, hsw] at hready
      rw [List.getElem?_set_ne hki]
      exact h2
  · intro x code ⟨h1, h2⟩ _
    exact ⟨rfl, h2⟩
  · intro x ⟨_, h2⟩
    exact ⟨rfl, h2⟩
  · intro x ⟨_, h2⟩
    exact ⟨rfl, h2⟩

theorem promote_eq {intr : Status} {code : ErrorCode}
    (h : intr = .OK ∨ code ≠ ErrorCodes.CallbackCanceled) : promote intr code = code := by
  rcases h with h | h
  · simp [promote, h]
  · unfold promote
    cases intr with
    | OK => rfl
    | error ic =>
      have : (ErrorCodes.CallbackCanceled == code) = false := by
        simpa using fun e => h e.symm
      simp [this]

/-- C10, as amended.  `stopRetrying` and `_cancelPendingRequests` set
`_stopRetrying`.  In an execution that starts with `_stopRetrying` set, the
flag stays set, no step calls the targeter or `scheduleRemoteCommand`, no
`retryCount` changes and no slot loses its stored outcome; a slot without an
outcome stays as it is as long as its callback does not run; and a slot that
is ready with an error, retriable or not, is handed out with that error,
except that CallbackCanceled is replaced by the interrupt status when that is
set: `_ready` returns that response when no slot of smaller index is ready,
and whenever it marks the slot terminal. -/
theorem C10_after_stop (cfg : Config) (s s2 : AsyncRequestsSender) (ops : List Op)
    (out : List Response) (hstop : s._stopRetrying = true)
    (hrun : run cfg s ops = .ok (s2, out)) :
    (∀ x : AsyncRequestsSender, (stopRetrying x)._stopRetrying = true ∧
      (_cancelPendingRequests x)._stopRetrying = true) ∧
    s2._stopRetrying = true ∧
    (∀ i, scheduleCount i s2 = scheduleCount i s ∧ findHostCount i s2 = findHostCount i s) ∧
    s2._remotes.map (fun r => r.retryCount) = s._remotes.map (fun r => r.retryCount) ∧
    (∀ (i : Nat) (r : RemoteData), s._remotes[i]? = some r → r.swResponse.isSome = true →
      ∃ r2, s2._remotes[i]? = some r2 ∧ r2.swResponse.isSome = true) ∧
    (∀ (i : Nat) (r : RemoteData), s._remotes[i]? = some r → r.swResponse = none →
      (∀ op ∈ ops, ∀ j ∈ op.callbacks, j ≠ i) → s2._remotes[i]? = some r) ∧
    (∀ (o : Nat → Answers) (i : Nat) (r : RemoteData) (code : ErrorCode),
      s2._remotes[i]? = some r → r.done = false → r.swResponse = some (.error code) →
      (∀ (j : Nat) (rj : RemoteData), j < i → s2._remotes[j]? = some rj → rj.ready = false) →
      ∃ s3, _ready cfg o s2 =
        some (some ⟨r.shardId, .error (promote s2._interruptStatus code), r.shardHostAndPort⟩,
          s3)) ∧
    (∀ (o : Nat → Answers) (res : Option Response) (s3 : AsyncRequestsSender) (i : Nat)
      (r r3 : RemoteData) (code : ErrorCode),
      _ready cfg o s2 = some (res, s3) → s2._remotes[i]? = some r → r.done = false →
      r.swResponse = some (.error code) → s3._remotes[i]? = some r3 → r3.done = true →
      res = some ⟨r.shardId, .error (promote s2._interruptStatus code), r.shardHostAndPort⟩ ∧
      (s2._interruptStatus = .OK ∨ code ≠ ErrorCodes.CallbackCanceled →
        promote s2._interruptStatus code = code)) := by
  obtain ⟨h1, h2, h3⟩ := stopped_run hstop hrun
  refine ⟨fun _ => ⟨rfl, rfl⟩, h1, h2, ?_, ?_, ?_, ?_, ?_⟩
  · exact map_eq_of_getElem? _ _ _ h3.1 (fun k r hk => by
      obtain ⟨r2, hr2, hc, -⟩ := h3.2 k r hk
      exact ⟨r2, hr2, hc⟩)
  · intro i r hi hsw
    obtain ⟨r2, hr2, -, hs⟩ := h3.2 i r hi
    exact ⟨r2, hr2, hs hsw⟩
  · intro i r hi hsw hops
    exact stopped_inflight hstop hrun hi hsw hops
  · intro o i r code hi hd hsw hlt
    have hr : r.ready = true := by simp [RemoteData.ready, hsw, hd]
    have hne : s2._remotes.isEmpty = false := by
      cases hrs : s2._remotes with
      | nil => rw [hrs] at hi; simp at hi
      | cons x xs => rfl
    have hl : readyLoop s2._interruptStatus s2._remotes =
        (r.emit s2._interruptStatus).map fun p => (some p.1, s2._remotes.set i p.2) :=
      readyLoop_least hi hr hlt
    have hem : r.emit s2._interruptStatus =
        some (⟨r.shardId, .error (promote s2._interruptStatus code), r.shardHostAndPort⟩,
          { r with done := true,
                   swResponse := some (.error (promote s2._interruptStatus code)) }) := by
      simp [RemoteData.emit, hsw]
    rw [hem] at hl
    rw [_ready_eq]
    simp only [afterPass, h1, Bool.not_true, Bool.false_eq_true, if_false, hne, hl,
      Option.map_some']
    exact ⟨_, rfl⟩
  · intro o res s3 i r r3 code hr hi hd hsw hi3 hd3
    obtain ⟨rm, cs, resp, hm1, -, hres, hem⟩ := _ready_marks hr hi hd hi3 hd3
    obtain ⟨rfl, -⟩ := hm1 h1
    refine ⟨?_, promote_eq⟩
    rw [hres]
    cases hem with
    | success resp hp hsw2 hhost => rw [hsw] at hsw2; simp at hsw2
    | failure code2 hsw2 =>
      rw [hsw] at hsw2
      simp only [Option.some.injEq, StatusWith.error.injEq] at hsw2
      subst hsw2
      rfl

/-- C10, counterexample: after `_cancelPendingRequests` has run on an
interrupted wait, the slot is ready with the stored error CallbackCanceled,
but `_ready` hands it out with the status Interrupted and replaces the stored
outcome. -/
theorem C10_counterexample :
    run exampleConfig exampleStart
        [.interrupted ErrorCodes.Interrupted,
         .handleResponse 0 ⟨⟨.error ErrorCodes.CallbackCanceled, 0⟩⟩] =
      .ok (canceledReady, []) ∧
    canceledReady._stopRetrying = true ∧
    canceledReady._remotes.map (fun r => r.swResponse) =
      [some (.error ErrorCodes.CallbackCanceled)] ∧
    _ready exampleConfig (fun _ => exampleAnswers) canceledReady =
      some (some ⟨1, .error ErrorCodes.Interrupted, some 100⟩, canceledDone) ∧
    ErrorCodes.Interrupted ≠ ErrorCodes.CallbackCanceled :=
  ⟨rfl, rfl, rfl, rfl, by decide⟩

theorem C10_after_stop_witness :
    canceledReady._stopRetrying = true ∧
    run exampleConfig canceledReady [.ready (fun _ => exampleAnswers)] =
      .ok (canceledDone, [⟨1, .error ErrorCodes.Interrupted, some 100⟩]) ∧
    canceledDone._stopRetrying = true ∧
    (∀ i, scheduleCount i canceledDone = scheduleCount i canceledReady ∧
      findHostCount i canceledDone = findHostCount i canceledReady) :=
  have h := C10_after_stop exampleConfig canceledReady canceledDone
    [.ready (fun _ => exampleAnswers)] [⟨1, .error ErrorCodes.Interrupted, some 100⟩] rfl rfl
  ⟨rfl, rfl, h.2.1, h.2.2.1⟩

theorem _ready_flags {cfg : Config} {o : Nat → Answers} {s s2 : AsyncRequestsSender}
    {res : Option Response} (h : _ready cfg o s = some (res, s2)) :
    s2._interruptStatus = s._interruptStatus ∧ s2._stopRetrying = s._stopRetrying ∧
      s2._remotes.length = s._remotes.length ∧ ∃ cs, s2.calls = s.calls ++ cs := by
  obtain ⟨mid, cs, n, heq, hlen, -, -, -, hres⟩ := _ready_spec h
  refine ⟨by rw [heq], by rw [heq], ?_, cs, by rw [heq]⟩
  rcases hres with ⟨-, hrem, -⟩ | ⟨i, r, resp, r2, -, -, -, -, -, hrem⟩
  · rw [hrem, hlen]
  · rw [hrem, List.length_set, hlen]

theorem callback_flags {i : Nat} {cbData : RemoteCommandCallbackArgs}
    {s s2 : AsyncRequestsSender} (h : callback i cbData s = .ok s2) :
    s2._interruptStatus = s._interruptStatus ∧ s2._stopRetrying = s._stopRetrying ∧
      s2._remotes.length = s._remotes.length ∧ s2.calls = s.calls := by
  obtain ⟨r, -, -, -, rfl⟩ := callback_spec h
  exact ⟨rfl, rfl, by simp, rfl⟩

theorem deliver_flags : ∀ (arrivals : List (Nat × RemoteCommandCallbackArgs))
    (s s2 : AsyncRequestsSender), deliver arrivals s = .ok s2 →
    s2._interruptStatus = s._interruptStatus ∧ s2._stopRetrying = s._stopRetrying ∧
      s2.calls = s.calls := by
  intro arrivals
  induction arrivals with
  | nil =>
    intro s s2 h
    simp only [deliver, Except.ok.injEq] at h
    subst h
    exact ⟨rfl, rfl, rfl⟩
  | cons x rest ih =>
    intro s s2 h
    obtain ⟨i, cbData⟩ := x
    simp only [deliver] at h
    cases hc : callback i cbData s with
    | error f => simp [hc] at h
    | ok s3 =>
      simp only [hc] at h
      obtain ⟨h1, h2, h3⟩ := ih s3 s2 h
      obtain ⟨g1, g2, -, g3⟩ := callback_flags hc
      exact ⟨h1.trans g1, h2.trans g2, h3.trans g3⟩

/-- Once `_interruptStatus` is set, an interruption during a wait of `next`
has no effect: the call behaves as if nothing had happened during that wait. -/
theorem nextLoop_uninterrupted (cfg : Config) : ∀ (script : List Tick) (s : AsyncRequestsSender)
    (code : ErrorCode), s._interruptStatus = .error code →
    nextLoop cfg script s = nextLoop cfg (script.map Tick.uninterrupted) s := by
  intro script
  induction script with
  | nil => intro s code _; rfl
  | cons tick script ih =>
    intro s code hs
    have ho : (Tick.uninterrupted tick).oracle = tick.oracle := by
      unfold Tick.uninterrupted
      cases tick.wait <;> rfl
    simp only [List.map_cons]
    unfold nextLoop
    rw [ho]
    cases hr : _ready cfg tick.oracle s with
    | none => rfl
    | some p =>
      obtain ⟨res, s1⟩ := p
      cases res with
      | some r => rfl
      | none =>
        have hs1 : s1._interruptStatus = .error code := by
          rw [(_ready_flags hr).1, hs]
        cases hw : tick.wait with
        | interrupted c =>
          have hu : (Tick.uninterrupted tick).wait = .callbacks [] := by
            simp [Tick.uninterrupted, hw]
          simp only [hs1, hu, deliver]
          cases s1._notification with
          | false => rfl
          | true => simpa using ih s1 code hs1
        | callbacks arrivals =>
          have hu : (Tick.uninterrupted tick).wait = .callbacks arrivals := by
            simp [Tick.uninterrupted, hw]
          simp only [hs1, hu]
          cases hd : deliver arrivals s1 with
          | error f => rfl
          | ok s2 =>
            have hs2 : s2._interruptStatus = .error code := by
              rw [(deliver_flags arrivals s1 s2 hd).1, hs1]
            show (if s2._notification = true then nextLoop cfg script s2
                else NextResult.blocked s2) =
              (if s2._notification = true then nextLoop cfg (script.map Tick.uninterrupted) s2
                else NextResult.blocked s2)
            rw [ih s2 code hs2]

/-- A set `_interruptStatus` and a set `_stopRetrying` are kept by every step
of an execution, and the log of collaborator calls only grows. -/
theorem run_flags {cfg : Config} {s s2 : AsyncRequestsSender} {ops : List Op}
    {out : List Response} (hrun : run cfg s ops = .ok (s2, out)) :
    (∀ code, s._interruptStatus = .error code → s2._interruptStatus = .error code) ∧
    (s._stopRetrying = true → s2._stopRetrying = true) ∧
    s2._remotes.length = s._remotes.length ∧ ∃ cs, s2.calls = s.calls ++ cs := by
  refine run_induction (A := fun _ => True) (C := fun _ => True)
    (P := fun x => (∀ code, s._interruptStatus = .error code →
        x._interruptStatus = .error code) ∧
      (s._stopRetrying = true → x._stopRetrying = true) ∧
      x._remotes.length = s._remotes.length ∧ ∃ cs, x.calls = s.calls ++ cs)
    ?_ ?_ ?_ ?_ ?_ ops s s2 out (fun _ _ _ _ => trivial) (fun _ _ _ _ => trivial)
    ⟨fun _ h => h, fun h => h, rfl, [], by simp⟩ hrun
  · intro x i cbData x2 _ ⟨h1, h2, h3, h4⟩ hc
    obtain ⟨g1, g2, g3, g4⟩ := callback_flags hc
    exact ⟨fun code h => by rw [g1]; exact h1 code h, fun h => by rw [g2]; exact h2 h,
      g3.trans h3, by rw [g4]; exact h4⟩
  · intro x o res x2 _ ⟨h1, h2, h3, cs, h4⟩ hr
    obtain ⟨g1, g2, g3, cs2, g4⟩ := _ready_flags hr
    exact ⟨fun code h => by rw [g1]; exact h1 code h, fun h => by rw [g2]; exact h2 h,
      g3.trans h3, cs ++ cs2, by rw [g4, h4, List.append_assoc]⟩
  · intro x code ⟨h1, h2, h3, cs, h4⟩ hok
    refine ⟨fun c h => ?_, fun _ => rfl, h3, cs ++ cancelCalls 0 x._remotes, ?_⟩
    · rw [h1 c h] at hok
      exact absurd hok (by simp)
    · simp [interruptedWait, _cancelPendingRequests, h4]
  · intro x ⟨h1, h2, h3, h4⟩
    exact ⟨h1, fun _ => rfl, h3, h4⟩
  · intro x ⟨h1, h2, h3, cs, h4⟩
    exact ⟨h1, fun _ => rfl, h3, cs ++ cancelCalls 0 x._remotes,
      by simp [_cancelPendingRequests, h4]⟩

/-- A call of `next` on a set `_interruptStatus` leaves it as it is, whether
the call returns or is still waiting when the script ends. -/
theorem nextLoop_status (cfg : Config) : ∀ (script : List Tick) (s : AsyncRequestsSender)
    (code : ErrorCode), s._interruptStatus = .error code →
    match nextLoop cfg script s with
    | .returned _ s2 => s2._interruptStatus = .error code
    | .blocked s2 => s2._interruptStatus = .error code
    | .fault _ => True := by
  intro script
  induction script with
  | nil => intro s code hs; simpa [nextLoop] using hs
  | cons tick script ih =>
    intro s code hs
    unfold nextLoop
    cases hr : _ready cfg tick.oracle s with
    | none => trivial
    | some p =>
      obtain ⟨res, s1⟩ := p
      have hs1 : s1._interruptStatus = .error code := by
        rw [(_ready_flags hr).1, hs]
      cases res with
      | some r => exact hs1
      | none =>
        cases hw : tick.wait with
        | interrupted c =>
          simp only [hs1]
          cases hn : s1._notification with
          | false => simpa using hs1
          | true => simpa using ih s1 code hs1
        | callbacks arrivals =>
          simp only [hs1]
          cases hd : deliver arrivals s1 with
          | error f => trivial
          | ok s2 =>
            have hs2 : s2._interruptStatus = .error code := by
              rw [(deliver_flags arrivals s1 s2 hd).1, hs1]
            show match (if s2._notification = true then nextLoop cfg script s2
                else NextResult.blocked s2) with
              | .returned _ s3 => s3._interruptStatus = .error code
              | .blocked s3 => s3._interruptStatus = .error code
              | .fault _ => True
            cases hn : s2._notification with
            | false => simpa using hs2
            | true => simpa using ih s2 code hs2

/-- C11 (stopRetrying is idempotent).  For every dispatcher state, calling
`stopRetrying` twice gives the state that calling it once gives, as a function
and as steps of an execution; the call sets `_stopRetrying` and leaves the
slots, the interrupt status, the notification and the log of collaborator
calls as they are, and it hands out no response. -/
theorem C11_stopRetrying_idempotent (cfg : Config) (s : AsyncRequestsSender) :
    stopRetrying (stopRetrying s) = stopRetrying s ∧
    run cfg s [.stopRetrying, .stopRetrying] = run cfg s [.stopRetrying] ∧
    run cfg s [.stopRetrying] = .ok (stopRetrying s, []) ∧
    (stopRetrying s)._stopRetrying = true ∧
    (stopRetrying s)._remotes = s._remotes ∧
    (stopRetrying s)._interruptStatus = s._interruptStatus ∧
    (stopRetrying s)._notification = s._notification ∧
    (stopRetrying s).calls = s.calls :=
  ⟨rfl, rfl, rfl, rfl, rfl, rfl, rfl, rfl⟩

theorem cancelCalls_isCancel : ∀ (rs : List RemoteData) (i : Nat),
    ∀ c ∈ cancelCalls i rs, ∃ j h, c = Call.cancel j h := by
  intro rs
  induction rs with
  | nil => intro i c hc; simp [cancelCalls] at hc
  | cons r rest ih =>
    intro i c hc
    unfold cancelCalls at hc
    cases hx : r.cbHandle.id with
    | none =>
      rw [hx] at hc
      exact ih (i + 1) c hc
    | some h =>
      rw [hx] at hc
      rcases List.mem_cons.1 hc with rfl | hc
      · exact ⟨i, h, rfl⟩
      · exact ih (i + 1) c hc

/-- A call of `next` that returns keeps a set `_interruptStatus` and a set
`_stopRetrying`. -/
theorem nextLoop_returned_flags {cfg : Config} {script : List Tick}
    {s s2 : AsyncRequestsSender} {r : Response} {code : ErrorCode}
    (h : nextLoop cfg script s = .returned r s2) (hs : s._interruptStatus = .error code)
    (hstop : s._stopRetrying = true) :
    s2._interruptStatus = .error code ∧ s2._stopRetrying = true := by
  obtain ⟨s1, o, -, hq, hr⟩ :=
    nextLoop_returned (A := fun _ => True) (C := fun _ => True) script s s r s2
      (fun _ _ => trivial) (fun _ _ _ _ => trivial) (.refl s) h
  have h1 : s1._interruptStatus = .error code ∧ s1._stopRetrying = true := by
    refine quiet_preserves
      (P := fun x => x._interruptStatus = .error code ∧ x._stopRetrying = true) ?_ ?_ ?_ hq
      ⟨hs, hstop⟩
    · intro x i cbData x2 _ hP hc
      obtain ⟨g1, g2, -, -⟩ := callback_flags hc
      exact ⟨g1.trans hP.1, g2.trans hP.2⟩
    · intro x o x2 _ hP hr
      obtain ⟨g1, g2, -, -⟩ := _ready_flags hr
      exact ⟨g1.trans hP.1, g2.trans hP.2⟩
    · intro x c hP hok
      rw [hP.1] at hok
      exact absurd hok (by simp)
  obtain ⟨g1, g2, -, -⟩ := _ready_flags hr
  exact ⟨g1.trans h1.1, g2.trans h1.2⟩

/-- C13, counterexample: two shards in flight, the wait of `next` is
interrupted, and the executor then runs the callbacks of the two cancelled
requests.  The interrupted call of `next` returns the Failure of the first
shard, with the interrupt status; the destructor is left with one Failure to
drain.  When the callbacks do not run, the call keeps waiting. -/
theorem C13_counterexample :
    construct exampleConfig (fun _ => exampleAnswers) twoRequests = some twoStart ∧
    next exampleConfig
        [⟨fun _ => exampleAnswers, .interrupted ErrorCodes.Interrupted⟩,
         ⟨fun _ => exampleAnswers, .callbacks [(0, canceledReply), (1, canceledReply)]⟩,
         idleTick] twoStart =
      .returned ⟨1, .error ErrorCodes.Interrupted, some 100⟩ twoFirstOut ∧
    destructor exampleConfig [[idleTick]] twoFirstOut =
      .ok (twoBothOut, [⟨2, .error ErrorCodes.Interrupted, some 100⟩]) ∧
    next exampleConfig
        [⟨fun _ => exampleAnswers, .interrupted ErrorCodes.Interrupted⟩, idleTick]
        twoStart = .blocked twoInterrupted :=
  ⟨rfl, rfl, rfl, rfl⟩

/-- C14 (status of a Failure).  Whenever `_ready` hands out a response with a
non-OK status, the response is that of a slot which, when the loop of `_ready`
reaches it (after the scheduling pass of that call, which does nothing once
`_stopRetrying` is set), is not terminal and holds a non-OK status `stored`;
the call marks that slot terminal, and the status handed out is
`_interruptStatus` when that is not OK and `stored` is CallbackCanceled, and
`stored` otherwise: while `_interruptStatus` is OK a CallbackCanceled is
handed out as it is, and a status other than CallbackCanceled is handed out
as it is whatever `_interruptStatus` holds.  `stored` is the status the slot
held before the call when `_stopRetrying` is set, and also when the slot held
an error that the scheduling pass does not retry while the shard is known. -/
theorem C14_failure_status (cfg : Config) (o : Nat → Answers) (s s2 : AsyncRequestsSender)
    (resp : Response) (c : ErrorCode) (h : _ready cfg o s = some (some resp, s2))
    (hf : resp.swResponse = .error c) :
    ∃ (i : Nat) (r rm : RemoteData) (stored : ErrorCode),
      s._remotes[i]? = some r ∧ (s._stopRetrying = true → rm = r) ∧
      (s._stopRetrying = false → ∃ cs, SlotPass cfg (o i) i r rm cs) ∧
      rm.swResponse = some (.error stored) ∧ rm.done = false ∧
      resp.shardId = rm.shardId ∧ resp.shardHostAndPort = rm.shardHostAndPort ∧
      (s2._remotes[i]?).map (fun x => x.done) = some true ∧
      c = promote s._interruptStatus stored ∧
      (∀ ic, s._interruptStatus = .error ic → stored = ErrorCodes.CallbackCanceled → c = ic) ∧
      (s._interruptStatus = .OK → c = stored) ∧
      (stored ≠ ErrorCodes.CallbackCanceled → c = stored) ∧
      (∀ code0, r.swResponse = some (.error code0) →
        (s._stopRetrying = true ∨ ((o i).getShard = true ∧
          (cfg.isRetriableError code0 = false ∨
            kMaxNumFailedHostRetryAttempts ≤ r.retryCount))) →
        stored = code0) := by
  obtain ⟨mid, cs, n, -, hlen, -, hstop, hslots, hres⟩ := _ready_spec h
  rcases hres with ⟨hnone, -⟩ | ⟨i, rm, resp2, r2, hresp, hi, hready, -, hem, hrem⟩
  · exact absurd hnone (by simp)
  · simp only [Option.some.injEq] at hresp
    subst hresp
    have hlt : i < s._remotes.length := by
      rw [← hlen]
      exact (List.getElem?_eq_some.1 hi).1
    have hr : s._remotes[i]? = some s._remotes[i] := List.getElem?_eq_getElem hlt
    have hd : rm.done = false := by
      simp only [RemoteData.ready, Bool.and_eq_true, Bool.not_eq_true'] at hready
      exact hready.2
    cases hem with
    | success rp hp hsw hhost => simp at hf
    | failure stored hsw =>
      simp only [StatusWith.error.injEq] at hf
      have hkeep : s._stopRetrying = true → rm = s._remotes[i] := by
        intro hst
        obtain ⟨h1, -⟩ := hstop hst
        rw [h1] at hi
        rw [hr] at hi
        simp only [Option.some.injEq] at hi
        exact hi.symm
      have hpass : s._stopRetrying = false →
          ∃ cs, SlotPass cfg (o i) i s._remotes[i] rm cs := by
        intro hst
        obtain ⟨r3, hr3, hp⟩ := hslots hst i _ hr
        rw [hi] at hr3
        simp only [Option.some.injEq] at hr3
        subst hr3
        exact ⟨_, hp⟩
      refine ⟨i, s._remotes[i], rm, stored, hr, hkeep, hpass, hsw, hd, rfl, rfl, ?_, hf.symm,
        ?_, ?_, ?_, ?_⟩
      · rw [hrem, List.getElem?_set_eq_of_lt _ (List.getElem?_eq_some.1 hi).1]
        rfl
      · intro ic hic hcc
        rw [← hf, hic, hcc]
        simp [promote]
      · intro hok
        rw [← hf, hok]
        rfl
      · intro hne
        rw [← hf]
        exact promote_eq (.inr hne)
      · intro code0 hsw0 hcase
        have hsame : rm = s._remotes[i] := by
          cases hst : s._stopRetrying with
          | true => exact hkeep hst
          | false =>
            rcases hcase with h | ⟨hshard, hnot⟩
            · rw [hst] at h
              exact absurd h (by decide)
            · obtain ⟨cs2, hp⟩ := hpass hst
              have hd0 : (s._remotes[i]).done = false := by
                have := hp.key
                simp only [RemoteData.key, Prod.mk.injEq] at this
                rw [← this.1]
                exact hd
              obtain ⟨r1, cs1, cs3, n1, n2, -, h2, -, hr1, -⟩ := hp
              rw [retryCheck_kept cfg (o i) i _ code0 hsw0 hd0 hshard hnot] at hr1
              simp only at hr1
              subst hr1
              have hidle : (s._remotes[i]).idle = false := by simp [RemoteData.idle, hsw0]
              cases h2 with
              | skip _ => rfl
              | shardNotFound hx => rw [hidle] at hx; exact absurd hx (by decide)
              | findHostFailed c2 hx => rw [hidle] at hx; exact absurd hx (by decide)
              | scheduleFailed hp2 c2 hx => rw [hidle] at hx; exact absurd hx (by decide)
              | scheduled hp2 h3 hx => rw [hidle] at hx; exact absurd hx (by decide)
        rw [hsame, hsw0] at hsw
        simp only [Option.some.injEq, StatusWith.error.injEq] at hsw
        exact hsw.symm

theorem C14_failure_status_witness :
    _ready exampleConfig (fun _ => exampleAnswers) canceledReady =
      some (some ⟨1, .error ErrorCodes.Interrupted, some 100⟩, canceledDone) ∧
    ∃ (i : Nat) (r rm : RemoteData) (stored : ErrorCode),
      canceledReady._remotes[i]? = some r ∧ (canceledReady._stopRetrying = true → rm = r) ∧
      rm.swResponse = some (.error stored) ∧
      ErrorCodes.Interrupted = promote canceledReady._interruptStatus stored := by
  refine ⟨rfl, ?_⟩
  obtain ⟨i, r, rm, stored, h1, h2, -, h4, -, -, -, -, h9, -⟩ :=
    C14_failure_status exampleConfig (fun _ => exampleAnswers) canceledReady canceledDone
      ⟨1, .error ErrorCodes.Interrupted, some 100⟩ ErrorCodes.Interrupted rfl rfl
  exact ⟨i, r, rm, stored, h1, h2, h4, h9⟩

/-- C15 (interrupt monotonicity).  `_interruptStatus` is OK after the
constructor.  In every execution from a state the constructor reaches, a set
`_interruptStatus` is kept by every step (calls of `next`, `_ready`, callbacks,
`stopRetrying`, cancellation), so the status changes only from OK, and at most
once; a call of `next` on a set status keeps it also while it is still
waiting, and the `catch` block of `next` assigns the status of the
interruption. -/
theorem C15_interrupt_monotone (cfg : Config) (oracle : Nat → Answers)
    (requests : List Request) (s0 s s2 : AsyncRequestsSender) (ops ops2 : List Op)
    (out out2 : List Response) (hc : construct cfg oracle requests = some s0)
    (hrun : run cfg s0 ops = .ok (s, out)) (hrun2 : run cfg s ops2 = .ok (s2, out2)) :
    s0._interruptStatus = .OK ∧
    (∀ code, s._interruptStatus = .error code → s2._interruptStatus = .error code) ∧
    (s2._interruptStatus ≠ s._interruptStatus → s._interruptStatus = .OK) ∧
    (∀ code script, s._interruptStatus = .error code →
      match next cfg script s with
      | .returned _ s3 => s3._interruptStatus = .error code
      | .blocked s3 => s3._interruptStatus = .error code
      | .fault _ => True) ∧
    (∀ code, (interruptedWait code s)._interruptStatus = .error code) ∧
    (∀ code c, s._interruptStatus = .error c →
      step cfg s (.interrupted code) = .error .environment) := by
  have hmono := (run_flags hrun2).1
  refine ⟨?_, hmono, ?_, ?_, fun _ => rfl, ?_⟩
  · obtain ⟨rs, cs, n, hc2, -, -⟩ := construct_spec cfg oracle requests
    rw [hc2] at hc
    simp only [Option.some.injEq] at hc
    subst hc
    rfl
  · intro hne
    cases hs : s._interruptStatus with
    | OK => rfl
    | error code =>
      rw [hmono code hs, hs] at hne
      exact absurd rfl hne
  · intro code script hs
    cases hd : (done s).1 with
    | true => rw [next_of_done hd]; trivial
    | false =>
      rw [next_of_not_done hd]
      exact nextLoop_status cfg script s code hs
  · intro code c hs
    simp [step, hs]

theorem C15_interrupt_monotone_witness :
    construct exampleConfig (fun _ => exampleAnswers) twoRequests = some twoStart ∧
    run exampleConfig twoStart [.interrupted ErrorCodes.Interrupted] =
      .ok (twoInterrupted, []) ∧
    run exampleConfig twoInterrupted
        [.handleResponse 0 canceledReply, .stopRetrying, .cancelPendingRequests] =
      .ok ({ twoCanceled with calls := twoCanceled.calls ++ [.cancel 1 7] }, []) ∧
    twoStart._interruptStatus = .OK ∧
    twoInterrupted._interruptStatus = .error ErrorCodes.Interrupted ∧
    ({ twoCanceled with calls := twoCanceled.calls ++ [.cancel 1 7] } :
      AsyncRequestsSender)._interruptStatus = .error ErrorCodes.Interrupted :=
  have h := C15_interrupt_monotone exampleConfig (fun _ => exampleAnswers) twoRequests
    twoStart twoInterrupted { twoCanceled with calls := twoCanceled.calls ++ [.cancel 1 7] }
    [.interrupted ErrorCodes.Interrupted]
    [.handleResponse 0 canceledReply, .stopRetrying, .cancelPendingRequests] [] []
    rfl rfl rfl
  ⟨rfl, rfl, rfl, h.1, rfl, h.2.1 ErrorCodes.Interrupted rfl⟩

theorem Linked.exclusive {r : RemoteData} (h : Linked r) : Exclusive r :=
  ⟨h.1.1, h.2⟩

theorem exclusive_fresh (request : Request) : Exclusive (RemoteData.fresh request) :=
  ⟨fun h => by simp [RemoteData.fresh, CallbackHandle.isValid] at h,
    fun h => by simp [RemoteData.fresh] at h⟩

theorem ready_fields {r : RemoteData} (h : r.ready = true) :
    r.swResponse.isSome = true ∧ r.done = false := by
  simpa [RemoteData.ready] using h

theorem idle_fields {r : RemoteData} (h : r.idle = true) :
    r.swResponse = none ∧ r.cbHandle.isValid = false := by
  simpa [RemoteData.idle] using h

/-- The loop body of `_scheduleRequests` leaves a slot linked. -/
theorem linked_pass {cfg : Config} {a : Answers} {k : Nat} {r r2 : RemoteData}
    {cs : List Call} (hJ : Exclusive r) (hp : SlotPass cfg a k r r2 cs) : Linked r2 := by
  obtain ⟨r1, cs1, cs2, n, n2, h1, h2, -, -, -⟩ := hp
  have step1 : Exclusive r1 := by
    cases h1 with
    | keep _ _ => exact hJ
    | shardNotFound hr _ =>
      obtain ⟨hs, -⟩ := ready_fields hr
      refine ⟨fun hv => ?_, fun _ => rfl⟩
      have := hJ.1 hv
      rw [this] at hs
      exact absurd hs (by simp)
    | retry _ _ hr _ _ =>
      obtain ⟨-, hd⟩ := ready_fields hr
      refine ⟨fun _ => rfl, fun hd2 => ?_⟩
      have hd3 : r.done = true := hd2
      rw [hd] at hd3
      exact absurd hd3 (by decide)
  have hidle : r1.idle = true → r1.swResponse = none ∧ r1.cbHandle.isValid = false ∧
      r1.done = false := by
    intro hi
    obtain ⟨hs, hv⟩ := idle_fields hi
    refine ⟨hs, hv, ?_⟩
    cases hd : r1.done with
    | false => rfl
    | true =>
      have := step1.2 hd
      rw [hs] at this
      exact absurd this (by simp)
  cases h2 with
  | skip hi =>
    refine ⟨⟨step1.1, fun hs => ?_⟩, step1.2⟩
    simpa [RemoteData.idle, hs] using hi
  | shardNotFound hi _ =>
    obtain ⟨-, hv, -⟩ := hidle hi
    refine ⟨⟨fun h => ?_, fun h => by simp at h⟩, fun _ => rfl⟩
    have h2 : r1.cbHandle.isValid = true := h
    rw [hv] at h2
    exact absurd h2 (by decide)
  | findHostFailed c hi _ _ =>
    obtain ⟨-, hv, -⟩ := hidle hi
    refine ⟨⟨fun h => ?_, fun h => by simp at h⟩, fun _ => rfl⟩
    have h2 : r1.cbHandle.isValid = true := h
    rw [hv] at h2
    exact absurd h2 (by decide)
  | scheduleFailed hp c hi _ _ _ =>
    obtain ⟨-, hv, -⟩ := hidle hi
    refine ⟨⟨fun h => ?_, fun h => by simp at h⟩, fun _ => rfl⟩
    have h2 : r1.cbHandle.isValid = true := h
    rw [hv] at h2
    exact absurd h2 (by decide)
  | scheduled hp h hi _ _ _ =>
    obtain ⟨hs, -, hd⟩ := hidle hi
    refine ⟨⟨fun _ => hs, fun _ => rfl⟩, fun hd2 => ?_⟩
    have hd3 : r1.done = true := hd2
    rw [hd] at hd3
    exact absurd hd3 (by decide)

theorem linked_emit {intr : Status} {r r2 : RemoteData} {resp : Response}
    (hJ : Linked r) (he : Emit intr r resp r2) : Linked r2 := by
  cases he with
  | success resp hp hsw hhost => exact ⟨hJ.1, fun _ => by simp [hsw]⟩
  | failure code hsw =>
    refine ⟨⟨fun hv => ?_, fun h => by simp at h⟩, fun _ => rfl⟩
    have := hJ.1.1 hv
    rw [hsw] at this
    exact absurd this (by simp)

theorem linked_store (cbData : RemoteCommandCallbackArgs) (r : RemoteData) :
    Linked (r.store cbData) := by
  unfold RemoteData.store
  cases cbData.response.status with
  | OK =>
    exact ⟨⟨fun h => by simp [CallbackHandle.isValid] at h, fun h => by simp at h⟩,
      fun _ => rfl⟩
  | error c =>
    exact ⟨⟨fun h => by simp [CallbackHandle.isValid] at h, fun h => by simp at h⟩,
      fun _ => rfl⟩

/-- Every step of an execution keeps the slots linked and with a host when
they need one. -/
theorem wf_run {cfg : Config} {s s2 : AsyncRequestsSender} {ops : List Op}
    {out : List Response} (hs : Wf s) (hrun : run cfg s ops = .ok (s2, out)) : Wf s2 := by
  refine slot_invariant (A := fun _ => True) (J := fun _ r _ => HostKnown r ∧ Linked r)
    ?_ ?_ ?_ ?_ ops s s2 out (fun _ _ _ _ => trivial) hs hrun
  · intro o k r r2 cs l _ hJ hp
    exact ⟨hostKnown_pass hJ.1 hp, linked_pass hJ.2.exclusive hp⟩
  · intro intr k r resp r2 l hJ _ he
    exact ⟨hostKnown_emit hJ.1 he, linked_emit hJ.2 he⟩
  · intro k r cbData l hJ hv _
    exact ⟨hostKnown_store cbData hJ.1 hv, linked_store cbData r⟩
  · intro k r h l hJ _
    exact hJ

/-- In every state an execution reaches from the constructor the slots are
linked and have a host when they need one. -/
theorem wf_reachable {cfg : Config} {oracle : Nat → Answers} {requests : List Request}
    {s0 s : AsyncRequestsSender} {ops : List Op} {out : List Response}
    (hc : construct cfg oracle requests = some s0) (hrun : run cfg s0 ops = .ok (s, out)) :
    Wf s := by
  intro k r hk
  refine ⟨hostKnown_reachable hc hrun k r hk, ?_⟩
  refine reachable_slot_invariant (A := fun _ => True) (J := fun _ r _ => Linked r)
    ?_ ?_ ?_ ?_ ?_ (fun _ _ _ _ => trivial) hc hrun k r hk
  · intro k request r2 cs _ hp
    exact linked_pass (exclusive_fresh request) hp
  · intro o k r r2 cs l _ hJ hp
    exact linked_pass hJ.exclusive hp
  · intro intr k r resp r2 l hJ _ he
    exact linked_emit hJ he
  · intro k r cbData l hJ hv _
    exact linked_store cbData r
  · intro k r h l hJ _
    exact hJ

theorem wf_ready {cfg : Config} {o : Nat → Answers} {s s1 : AsyncRequestsSender}
    {res : Option Response} (hs : Wf s) (h : _ready cfg o s = some (res, s1)) : Wf s1 := by
  have hrun : run cfg s [.ready o] = .ok (s1, res.toList ++ []) := by
    simp [run, step, h]
  exact wf_run hs hrun

theorem wf_callback {i : Nat} {cbData : RemoteCommandCallbackArgs}
    {s s1 : AsyncRequestsSender} (hs : Wf s) (h : callback i cbData s = .ok s1) : Wf s1 := by
  obtain ⟨r, hr, hv, -, rfl⟩ := callback_spec h
  intro k rk hk
  simp only at hk
  by_cases hik : i = k
  · subst hik
    rw [List.getElem?_set_eq_of_lt _ (List.getElem?_eq_some.1 hr).1] at hk
    simp only [Option.some.injEq] at hk
    subst hk
    exact ⟨hostKnown_store cbData (hs i r hr).1 hv, linked_store cbData r⟩
  · rw [List.getElem?_set_ne hik] at hk
    exact hs k rk hk

theorem wf_deliver : ∀ (arrivals : List (Nat × RemoteCommandCallbackArgs))
    (s s2 : AsyncRequestsSender), Wf s → deliver arrivals s = .ok s2 →
    Wf s2 ∧ s2._remotes.length = s._remotes.length := by
  intro arrivals
  induction arrivals with
  | nil =>
    intro s s2 hs h
    simp only [deliver, Except.ok.injEq] at h
    subst h
    exact ⟨hs, rfl⟩
  | cons x rest ih =>
    intro s s2 hs h
    obtain ⟨i, cbData⟩ := x
    simp only [deliver] at h
    cases hc : callback i cbData s with
    | error f => simp [hc] at h
    | ok s3 =>
      simp only [hc] at h
      obtain ⟨h1, h2⟩ := ih s3 s2 (wf_callback hs hc) h
      exact ⟨h1, h2.trans (callback_flags hc).2.2.1⟩

/-- The executor's callback of a slot in flight passes the assertion of
`_handleResponse`. -/
theorem callback_safe {s : AsyncRequestsSender} (hs : Wf s) (i : Nat)
    (cbData : RemoteCommandCallbackArgs) :
    (∃ s2, callback i cbData s = .ok s2) ∨ callback i cbData s = .error .environment := by
  cases hr : s._remotes[i]? with
  | none => right; simp [callback, hr]
  | some r =>
    cases hv : r.cbHandle.isValid with
    | false => right; simp [callback, hr, hv]
    | true =>
      left
      have hsw := (hs i r hr).2.1.1 hv
      exact ⟨_, callback_ok cbData hr hv hsw⟩

theorem deliver_safe : ∀ (arrivals : List (Nat × RemoteCommandCallbackArgs))
    (s : AsyncRequestsSender), Wf s →
    (∃ s2, deliver arrivals s = .ok s2) ∨ deliver arrivals s = .error .environment := by
  intro arrivals
  induction arrivals with
  | nil => intro s _; left; exact ⟨s, rfl⟩
  | cons x rest ih =>
    intro s hs
    obtain ⟨i, cbData⟩ := x
    rcases callback_safe hs i cbData with ⟨s2, h⟩ | h
    · have hs2 : Wf s2 := wf_callback hs h
      rcases ih s2 hs2 with ⟨s3, h3⟩ | h3
      · left; exact ⟨s3, by simp [deliver, h, h3]⟩
      · right; simp [deliver, h, h3]
    · right; simp [deliver, h]

theorem ready_total_wf (cfg : Config) (o : Nat → Answers) {s : AsyncRequestsSender}
    (hs : Wf s) (hne : s._remotes ≠ []) : ∃ res s1, _ready cfg o s = some (res, s1) := by
  obtain ⟨mid, cs, n, -, -, -, hcase⟩ := _ready_total cfg o s hne (fun k r hk => (hs k r hk).1)
  rcases hcase with ⟨-, h⟩ | ⟨j, rj, resp, r2, -, -, -, -, h⟩
  · exact ⟨_, _, h⟩
  · exact ⟨_, _, h⟩

/-- On a state with at least one slot whose slots are linked and have a host
when they need one, no assertion fails during the loop of `next`. -/
theorem nextLoop_safe (cfg : Config) : ∀ (script : List Tick) (s : AsyncRequestsSender),
    Wf s → s._remotes ≠ [] → nextLoop cfg script s ≠ .fault .invariant := by
  intro script
  induction script with
  | nil => intro s _ _; simp [nextLoop]
  | cons tick script ih =>
    intro s hs hne
    obtain ⟨res, s1, hr⟩ := ready_total_wf cfg tick.oracle hs hne
    have hs1 : Wf s1 := wf_ready hs hr
    have hne1 : s1._remotes ≠ [] := by
      intro he
      have := (_ready_flags hr).2.2.1
      rw [he] at this
      exact hne (List.length_eq_zero.1 this.symm)
    unfold nextLoop
    rw [hr]
    cases res with
    | some r => simp
    | none =>
      cases hw : tick.wait with
      | interrupted code =>
        cases hi : s1._interruptStatus with
        | OK =>
          simp only [hi]
          exact ih _ (fun k r hk => hs1 k r hk) hne1
        | error c =>
          simp only [hi]
          cases hn : s1._notification with
          | false => simp
          | true =>
            simp only [if_true]
            exact ih s1 hs1 hne1
      | callbacks arrivals =>
        have key : (match deliver arrivals s1 with
            | .error f => NextResult.fault f
            | .ok s2 => if s2._notification then nextLoop cfg script s2 else .blocked s2) ≠
            .fault .invariant := by
          rcases deliver_safe arrivals s1 hs1 with ⟨s2, hd⟩ | hd
          · obtain ⟨hs2, hl2⟩ := wf_deliver arrivals s1 s2 hs1 hd
            have hne2 : s2._remotes ≠ [] := by
              intro he
              rw [he] at hl2
              exact hne1 (List.length_eq_zero.1 hl2.symm)
            rw [hd]
            show (if s2._notification = true then nextLoop cfg script s2
              else NextResult.blocked s2) ≠ .fault .invariant
            cases hn : s2._notification with
            | false => simp
            | true =>
              simp only [if_true]
              exact ih s2 hs2 hne2
          · rw [hd]
            simp
        cases hi : s1._interruptStatus <;> simp only [hi] <;> exact key

/-- On a state whose slots are linked and have a host when they need one, the
only assertions that can fail are `invariant(!done())` of `next`, when it is
called on a dispatcher that is done, and `invariant(!_remotes.empty())`. -/
theorem step_safe {cfg : Config} {s : AsyncRequestsSender} (hs : Wf s) (op : Op)
    (h : step cfg s op = .error .invariant) :
    (∃ script, op = .next script ∧ (done s).1 = true) ∨
      (∃ o, op = .ready o ∧ s._remotes = []) := by
  cases op with
  | handleResponse i cbData =>
    rcases callback_safe hs i cbData with ⟨s2, hc⟩ | hc <;> simp [step, hc] at h
  | next script =>
    left
    refine ⟨script, rfl, ?_⟩
    cases hd : (done s).1 with
    | true => rfl
    | false =>
      have hne : s._remotes ≠ [] := by
        intro he
        simp [done, he] at hd
      have hsafe := nextLoop_safe cfg script s hs hne
      simp only [step, next_of_not_done hd] at h
      cases hn : nextLoop cfg script s with
      | returned r s2 => simp [hn] at h
      | blocked s2 => simp [hn] at h
      | fault f =>
        simp only [hn, Except.error.injEq] at h
        subst h
        exact absurd hn hsafe
  | stopRetrying => simp [step] at h
  | ready o =>
    right
    refine ⟨o, rfl, ?_⟩
    by_contra hne
    obtain ⟨res, s1, hr⟩ := ready_total_wf cfg o hs hne
    simp [step, hr] at h
  | interrupted code =>
    cases hi : s._interruptStatus <;> simp [step, hi] at h
  | cancelPendingRequests => simp [step] at h

/-- What the constructor makes of the slot of a request, by the answers of
the collaborators for that slot. -/
theorem fresh_pass {cfg : Config} {a : Answers} {k : Nat} {request : Request}
    {r2 : RemoteData} {cs : List Call}
    (hp : SlotPass cfg a k (RemoteData.fresh request) r2 cs) :
    r2.shardId = request.shardId ∧ r2.cmdObj = request.cmdObj ∧ r2.retryCount = 0 ∧
    r2.done = false ∧
    ((r2.cbHandle.isValid = true ∧ r2.swResponse = none ∧ a.getShardResolve = true ∧
        a.findHostWithMaxWait.isOK = true ∧ a.scheduleRemoteCommand.isOK = true) ∨
      (r2.cbHandle.isValid = false ∧ ∃ c, r2.swResponse = some (.error c) ∧
        ((a.getShardResolve = false ∧ c = ErrorCodes.ShardNotFound) ∨
          (a.getShardResolve = true ∧ a.findHostWithMaxWait = .error c) ∨
          (a.getShardResolve = true ∧ a.findHostWithMaxWait.isOK = true ∧
            a.scheduleRemoteCommand = .error c)))) := by
  obtain ⟨r1, cs1, cs2, n, n2, h1, h2, -, -, -⟩ := hp
  have hr1 : r1 = RemoteData.fresh request := by
    cases h1 with
    | keep _ _ => rfl
    | shardNotFound hr _ => simp [RemoteData.ready, RemoteData.fresh] at hr
    | retry _ _ hr _ _ => simp [RemoteData.ready, RemoteData.fresh] at hr
  subst hr1
  cases h2 with
  | skip hi => simp [RemoteData.idle, RemoteData.fresh, CallbackHandle.isValid] at hi
  | shardNotFound _ hs =>
    exact ⟨rfl, rfl, rfl, rfl, .inr ⟨rfl, _, rfl, .inl ⟨hs, rfl⟩⟩⟩
  | findHostFailed c _ hs hf =>
    exact ⟨rfl, rfl, rfl, rfl, .inr ⟨rfl, _, rfl, .inr (.inl ⟨hs, hf⟩)⟩⟩
  | scheduleFailed hp c _ hs hf hsc =>
    exact ⟨rfl, rfl, rfl, rfl, .inr ⟨rfl, _, rfl, .inr (.inr ⟨hs, by rw [hf]; rfl, hsc⟩)⟩⟩
  | scheduled hp h _ hs hf hsc =>
    exact ⟨rfl, rfl, rfl, rfl, .inl ⟨rfl, rfl, hs, by rw [hf]; rfl, by rw [hsc]; rfl⟩⟩

/-- C18 (no idle slot).  The constructor does not abort.  It creates one slot
per request, in the order of the requests, with the shard id and the command
of the request, `retryCount` 0 and not terminal; the slot is in flight (valid
handle, no outcome) when target resolution and scheduling succeed, and
otherwise it has no valid handle and holds the error of the failed target
resolution (ShardNotFound, or the error of the targeter) or of the failed
scheduling.  In every state an execution reaches from there, by calls of
`next`, callbacks, `stopRetrying` and cancellation, every slot that is not
terminal has a valid handle or an outcome. -/
theorem C18_no_idle_slot (cfg : Config) (oracle : Nat → Answers) (requests : List Request) :
    ∃ s0, construct cfg oracle requests = some s0 ∧
      s0._remotes.length = requests.length ∧
      (∀ (k : Nat) (request : Request), requests[k]? = some request →
        ∃ r, s0._remotes[k]? = some r ∧ r.shardId = request.shardId ∧
          r.cmdObj = request.cmdObj ∧ r.retryCount = 0 ∧ r.done = false ∧
          ((r.cbHandle.isValid = true ∧ r.swResponse = none ∧
              (oracle k).getShardResolve = true ∧
              (oracle k).findHostWithMaxWait.isOK = true ∧
              (oracle k).scheduleRemoteCommand.isOK = true) ∨
            (r.cbHandle.isValid = false ∧ ∃ c, r.swResponse = some (.error c) ∧
              (((oracle k).getShardResolve = false ∧ c = ErrorCodes.ShardNotFound) ∨
                ((oracle k).getShardResolve = true ∧
                  (oracle k).findHostWithMaxWait = .error c) ∨
                ((oracle k).getShardResolve = true ∧
                  (oracle k).findHostWithMaxWait.isOK = true ∧
                  (oracle k).scheduleRemoteCommand = .error c))))) ∧
      ∀ (ops : List Op) (s : AsyncRequestsSender) (out : List Response),
        run cfg s0 ops = .ok (s, out) →
        s._remotes.length = requests.length ∧
        ∀ (k : Nat) (r : RemoteData), s._remotes[k]? = some r → r.done = false →
          r.idle = false ∧ (r.cbHandle.isValid = true ∨ r.swResponse.isSome = true) := by
  obtain ⟨rs, cs, n, hc, hlen, hget⟩ := construct_spec cfg oracle requests
  refine ⟨_, hc, hlen, ?_, ?_⟩
  · intro k request hk
    obtain ⟨r2, hr2, hp⟩ := hget k request hk
    exact ⟨r2, hr2, fresh_pass hp⟩
  · intro ops s out hrun
    refine ⟨(run_flags hrun).2.2.1.trans hlen, ?_⟩
    intro k r hk hd
    obtain ⟨-, hl, -⟩ := wf_reachable hc hrun k r hk
    cases hsw : r.swResponse with
    | none =>
      have hv := hl.2 hsw
      exact ⟨by simp [RemoteData.idle, hv], .inl hv⟩
    | some sw => exact ⟨by simp [RemoteData.idle, hsw], .inr rfl⟩

/-- `_scheduleRequest` passes its assertions only on a slot without a valid
handle and without an outcome; it stores no outcome, and it records a handle
exactly when it returns OK. -/
theorem _scheduleRequest_handle {a : Answers} {i : Nat} {r r2 : RemoteData} {st : Status}
    {cs : List Call} (h : _scheduleRequest a i r = some (st, r2, cs)) :
    r.cbHandle.isValid = false ∧ r.swResponse = none ∧ r2.swResponse = none ∧
      (r2.cbHandle.isValid = true ↔ st = .OK) := by
  cases hv : r.cbHandle.isValid with
  | true => simp [_scheduleRequest, hv] at h
  | false =>
    cases hsw : r.swResponse with
    | some sw => simp [_scheduleRequest, hv, hsw] at h
    | none =>
      have hidle : r.idle = true := by simp [RemoteData.idle, hv, hsw]
      have hv2 : r.cbHandle.id = none := by simpa [CallbackHandle.isValid] using hv
      refine ⟨rfl, rfl, ?_⟩
      rcases _scheduleRequest_cases a i r hidle with
        ⟨-, h2⟩ | ⟨-, c, -, h2⟩ | ⟨-, hp, c, -, -, h2⟩ | ⟨-, hp, hd, -, -, h2⟩ <;>
      · rw [h2] at h
        simp only [Option.some.injEq, Prod.mk.injEq] at h
        obtain ⟨rfl, rfl, rfl⟩ := h
        simp [hsw, hv2, CallbackHandle.isValid]

/-- C19 (invariant I1).  In every state an execution reaches from the
constructor no slot has both a valid handle and an outcome.  `_scheduleRequest`
records a handle only for a slot that has neither a valid handle nor an
outcome, and stores no outcome with it.  The callback of a slot runs on a
slot with a valid handle and no outcome, clears the handle and stores the
outcome in the same step, after which the executor has no callback left for
the slot.  The assertions do not fail: the callback of a slot in flight passes
the assertion of `_handleResponse`, `_scheduleRequests` does not abort unless
`_stopRetrying` is set, and the only assertions a step of an execution can
fail are `invariant(!done())` of `next` called on a dispatcher that is done
and `invariant(!_remotes.empty())`. -/
theorem C19_handle_or_outcome (cfg : Config) (oracle : Nat → Answers)
    (requests : List Request) (s0 s : AsyncRequestsSender) (ops : List Op)
    (out : List Response) (hc : construct cfg oracle requests = some s0)
    (hrun : run cfg s0 ops = .ok (s, out)) :
    (∀ (k : Nat) (r : RemoteData), s._remotes[k]? = some r →
      ¬(r.cbHandle.isValid = true ∧ r.swResponse.isSome = true)) ∧
    (∀ (a : Answers) (i : Nat) (r r2 : RemoteData) (st : Status) (cs : List Call),
      _scheduleRequest a i r = some (st, r2, cs) →
      r.cbHandle.isValid = false ∧ r.swResponse = none ∧ r2.swResponse = none ∧
        (r2.cbHandle.isValid = true ↔ st = .OK)) ∧
    (∀ (i : Nat) (cbData : RemoteCommandCallbackArgs) (s2 : AsyncRequestsSender),
      callback i cbData s = .ok s2 →
      ∃ r r2, s._remotes[i]? = some r ∧ r.cbHandle.isValid = true ∧ r.swResponse = none ∧
        s2._remotes[i]? = some r2 ∧ r2.cbHandle.isValid = false ∧
        r2.swResponse.isSome = true ∧
        ∀ cbData2, callback i cbData2 s2 = .error .environment) ∧
    (∀ (i : Nat) (cbData : RemoteCommandCallbackArgs) (r : RemoteData),
      s._remotes[i]? = some r → r.cbHandle.isValid = true →
      ∃ s2, _handleResponse cbData i s = some s2 ∧ callback i cbData s = .ok s2) ∧
    (∀ o, s._stopRetrying = false → ∃ s2, _scheduleRequests cfg o s = some s2) ∧
    (∀ op, step cfg s op = .error .invariant →
      (∃ script, op = .next script ∧ (done s).1 = true) ∨
        (∃ o, op = .ready o ∧ s._remotes = [])) := by
  have hwf : Wf s := wf_reachable hc hrun
  refine ⟨?_, fun a i r r2 st cs h => _scheduleRequest_handle h, ?_, ?_, ?_,
    fun op h => step_safe hwf op h⟩
  · intro k r hk ⟨hv, hsw⟩
    have := (hwf k r hk).2.1.1 hv
    rw [this] at hsw
    exact absurd hsw (by simp)
  · intro i cbData s2 h
    obtain ⟨r, hr, hv, hsw, rfl⟩ := callback_spec h
    have hlt := (List.getElem?_eq_some.1 hr).1
    have hst : (r.store cbData).cbHandle.isValid = false ∧
        (r.store cbData).swResponse.isSome = true := by
      unfold RemoteData.store
      cases cbData.response.status <;> exact ⟨rfl, rfl⟩
    refine ⟨r, r.store cbData, hr, hv, hsw, ?_, hst.1, hst.2, ?_⟩
    · simp only
      rw [List.getElem?_set_eq_of_lt _ hlt]
    · intro cbData2
      simp [callback, List.getElem?_set_eq_of_lt _ hlt, hst.1]
  · intro i cbData r hr hv
    have hsw := (hwf i r hr).2.1.1 hv
    have hcb := callback_ok cbData hr hv hsw
    refine ⟨_, ?_, hcb⟩
    cases hst : cbData.response.status <;>
      simp [_handleResponse, hr, hsw, hst, RemoteData.store]
  · intro o hstop
    obtain ⟨rs2, cs, n2, h, -, -⟩ := _scheduleRequests_spec cfg o s hstop
    exact ⟨_, h⟩

theorem C19_handle_or_outcome_witness :
    construct exampleConfig (fun _ => exampleAnswers) twoRequests = some twoStart ∧
    run exampleConfig twoStart [.interrupted ErrorCodes.Interrupted,
        .handleResponse 0 canceledReply] = .ok (twoCanceled, []) ∧
    ∀ (k : Nat) (r : RemoteData), twoCanceled._remotes[k]? = some r →
      ¬(r.cbHandle.isValid = true ∧ r.swResponse.isSome = true) :=
  ⟨rfl, rfl,
    (C19_handle_or_outcome exampleConfig (fun _ => exampleAnswers) twoRequests twoStart
      twoCanceled [.interrupted ErrorCodes.Interrupted, .handleResponse 0 canceledReply] []
      rfl rfl).1⟩

/-- The loop body of `_scheduleRequests` leaves a terminal slot that holds an
outcome as it is and makes no call for it. -/
theorem slotPass_done {cfg : Config} {a : Answers} {k : Nat} {r r2 : RemoteData}
    {cs : List Call} (hd : r.done = true) (hsw : r.swResponse.isSome = true)
    (hp : SlotPass cfg a k r r2 cs) : r2 = r ∧ cs = [] := by
  obtain ⟨r1, cs1, cs2, n, n2, -, h2, rfl, hr1, hcs1⟩ := hp
  obtain ⟨sw, hsw2⟩ := Option.isSome_iff_exists.1 hsw
  have hrc : retryCheck cfg a k r = (r, []) := by
    simp [retryCheck, hsw2, hd]
  rw [hrc] at hr1 hcs1
  simp only at hr1 hcs1
  subst hr1
  subst hcs1
  have hidle : r1.idle = false := by simp [RemoteData.idle, hsw2]
  cases h2 with
  | skip _ => exact ⟨rfl, rfl⟩
  | shardNotFound h => rw [hidle] at h; exact absurd h (by decide)
  | findHostFailed c h => rw [hidle] at h; exact absurd h (by decide)
  | scheduleFailed hp c h => rw [hidle] at h; exact absurd h (by decide)
  | scheduled hp h3 h => rw [hidle] at h; exact absurd h (by decide)

/-- C20 (invariant I2, terminality).  Let a slot be terminal in a state an
execution reaches from the constructor.  Then the slot holds an outcome and
no valid handle, so the executor has no callback left for it (a callback for
the slot is outside the executor's contract).  In every execution from that
state the slot stays exactly as it is, terminal flag, outcome and handle
included, and no call is made to a collaborator for the slot: it is not
resolved, not scheduled and not cancelled again. -/
theorem C20_terminal_slot (cfg : Config) (oracle : Nat → Answers) (requests : List Request)
    (s0 s s2 : AsyncRequestsSender) (ops ops2 : List Op) (out out2 : List Response)
    (i : Nat) (r : RemoteData) (hc : construct cfg oracle requests = some s0)
    (hrun : run cfg s0 ops = .ok (s, out)) (hi : s._remotes[i]? = some r)
    (hd : r.done = true) (hrun2 : run cfg s ops2 = .ok (s2, out2)) :
    r.swResponse.isSome = true ∧ r.cbHandle.isValid = false ∧
    (∀ cbData, callback i cbData s = .error .environment) ∧
    s2._remotes[i]? = some r ∧
    (∀ cbData, callback i cbData s2 = .error .environment) ∧
    slotCalls i s2.calls = slotCalls i s.calls ∧
    scheduleCount i s2 = scheduleCount i s ∧ findHostCount i s2 = findHostCount i s := by
  obtain ⟨-, hl⟩ := wf_reachable hc hrun i r hi
  have hsw : r.swResponse.isSome = true := hl.2 hd
  have hv : r.cbHandle.isValid = false := by
    cases hv : r.cbHandle.isValid with
    | false => rfl
    | true =>
      have := hl.1.1 hv
      rw [this] at hsw
      exact absurd hsw (by simp)
  have hinv : ∀ (k : Nat) (x : RemoteData), s2._remotes[k]? = some x → k = i →
      x = r ∧ slotCalls k s2.calls = slotCalls i s.calls := by
    refine slot_invariant (A := fun _ => True)
      (J := fun k x l => k = i → x = r ∧ l = slotCalls i s.calls)
      ?_ ?_ ?_ ?_ ops2 s s2 out2 (fun _ _ _ _ => trivial) ?_ hrun2
    · intro o k x x2 cs l _ hJ hp hk
      obtain ⟨rfl, rfl⟩ := hJ hk
      obtain ⟨h1, h2⟩ := slotPass_done hd hsw hp
      exact ⟨h1, by rw [h2, List.append_nil]⟩
    · intro intr k x resp x2 l hJ hready _ hk
      obtain ⟨rfl, -⟩ := hJ hk
      have := (ready_fields hready).2
      rw [hd] at this
      exact absurd this (by decide)
    · intro k x cbData l hJ hvx _ hk
      obtain ⟨rfl, -⟩ := hJ hk
      rw [hv] at hvx
      exact absurd hvx (by decide)
    · intro k x h l hJ hid hk
      obtain ⟨rfl, -⟩ := hJ hk
      simp [CallbackHandle.isValid, hid] at hv
    · intro k x hk hki
      subst hki
      rw [hi] at hk
      simp only [Option.some.injEq] at hk
      exact ⟨hk.symm, rfl⟩
  have hlt : i < s2._remotes.length := by
    rw [(run_flags hrun2).2.2.1]
    exact (List.getElem?_eq_some.1 hi).1
  obtain ⟨h1, h2⟩ := hinv i _ (List.getElem?_eq_getElem hlt) rfl
  have hi2 : s2._remotes[i]? = some r := by
    rw [List.getElem?_eq_getElem hlt, h1]
  refine ⟨hsw, hv, ?_, hi2, ?_, h2, ?_, ?_⟩
  · intro cbData
    simp [callback, hi, hv]
  · intro cbData
    simp [callback, hi2, hv]
  · unfold scheduleCount
    rw [← countP_isSchedule_slotCalls, h2, countP_isSchedule_slotCalls]
  · unfold findHostCount
    rw [← countP_isFindHost_slotCalls, h2, countP_isFindHost_slotCalls]

theorem C20_terminal_slot_witness :
    construct exampleConfig (fun _ => exampleAnswers) twoRequests = some twoStart ∧
    run exampleConfig twoStart [.next [replyTick 1 .OK 0, replyTick 1 .OK 0]] =
      .ok (twoMid, [⟨2, .value ⟨.OK, 0⟩, some 100⟩]) ∧
    run exampleConfig twoMid [.next [replyTick 0 .OK 0, replyTick 0 .OK 0]] =
      .ok (twoDone, [⟨1, .value ⟨.OK, 0⟩, some 100⟩]) ∧
    twoDone._remotes[1]? = twoMid._remotes[1]? ∧
    scheduleCount 1 twoDone = scheduleCount 1 twoMid :=
  have h := C20_terminal_slot exampleConfig (fun _ => exampleAnswers) twoRequests twoStart
    twoMid twoDone [.next [replyTick 1 .OK 0, replyTick 1 .OK 0]]
    [.next [replyTick 0 .OK 0, replyTick 0 .OK 0]] [⟨2, .value ⟨.OK, 0⟩, some 100⟩]
    [⟨1, .value ⟨.OK, 0⟩, some 100⟩] 1
    { shardId := 2, cmdObj := 5, shardHostAndPort := some 100,
      swResponse := some (.value ⟨.OK, 0⟩), done := true } rfl rfl rfl rfl rfl
  ⟨rfl, rfl, rfl, h.2.2.2.1, h.2.2.2.2.2.2.1⟩

theorem callHost_isSchedule (i : Nat) (c : Call) :
    (callHost i c).isSome = Call.isSchedule i c := by
  cases c with
  | scheduleRemoteCommand j hp =>
    by_cases h : j = i <;> simp [callHost, Call.isSchedule, h]
  | _ => rfl

theorem callHost_slot {i : Nat} {c : Call} (h : c.slot ≠ i) : callHost i c = none := by
  cases c with
  | scheduleRemoteCommand j hp =>
    have : j ≠ i := h
    simp [callHost, this]
  | _ => rfl

theorem lastHost_slotCalls (k : Nat) (l : List Call) :
    lastHost k (slotCalls k l) = lastHost k l := by
  have : (slotCalls k l).filterMap (callHost k) = l.filterMap (callHost k) := by
    induction l with
    | nil => rfl
    | cons c rest ih =>
      by_cases hc : c.slot = k
      · have e : slotCalls k (c :: rest) = c :: slotCalls k rest := by
          simp [slotCalls, hc]
        rw [e, List.filterMap_cons, List.filterMap_cons, ih]
      · have e : slotCalls k (c :: rest) = slotCalls k rest := by
          simp [slotCalls, hc]
        rw [e, List.filterMap_cons, callHost_slot hc, ih]
  unfold lastHost
  rw [this]

theorem lastHost_append_none {k : Nat} {cs : List Call} (l : List Call)
    (h : ∀ c ∈ cs, Call.isSchedule k c = false) : lastHost k (l ++ cs) = lastHost k l := by
  have : cs.filterMap (callHost k) = [] := by
    rw [List.filterMap_eq_nil_iff]
    intro c hc
    have h1 := callHost_isSchedule k c
    rw [h c hc] at h1
    cases hh : callHost k c with
    | none => rfl
    | some hp => rw [hh] at h1; exact absurd h1 (by simp)
  unfold lastHost
  rw [List.filterMap_append, this, List.append_nil]

theorem lastHost_append_schedule (k : Nat) (hp : HostAndPort) (l : List Call) :
    lastHost k (l ++ [.findHostWithMaxWait k, .scheduleRemoteCommand k hp]) = some hp := by
  unfold lastHost
  rw [List.filterMap_append]
  simp [callHost]

theorem lastHost_isSome (k : Nat) (l : List Call) :
    (lastHost k l).isSome = true ↔ 0 < l.countP (Call.isSchedule k) := by
  unfold lastHost
  rw [List.countP_pos_iff]
  constructor
  · intro h
    cases hf : l.filterMap (callHost k) with
    | nil => rw [hf] at h; simp at h
    | cons x rest =>
      have hx : x ∈ l.filterMap (callHost k) := by rw [hf]; exact List.mem_cons_self _ _
      obtain ⟨c, hc, hcx⟩ := List.mem_filterMap.1 hx
      refine ⟨c, hc, ?_⟩
      rw [← callHost_isSchedule, hcx]
      rfl
  · intro ⟨c, hc, hs⟩
    rw [← callHost_isSchedule] at hs
    obtain ⟨hp, hhp⟩ := Option.isSome_iff_exists.1 hs
    have hx : hp ∈ l.filterMap (callHost k) := List.mem_filterMap.2 ⟨c, hc, hhp⟩
    cases hf : l.filterMap (callHost k) with
    | nil => rw [hf] at hx; simp at hx
    | cons x rest => simp [List.getLast?_cons]

theorem monitor_not_schedule {k : Nat} {cs : List Call}
    (h : ∀ c ∈ cs, Call.isMonitor k c = true) : ∀ c ∈ cs, Call.isSchedule k c = false := by
  intro c hc
  have := h c hc
  cases c <;> simp_all [Call.isMonitor, Call.isSchedule]

/-- The loop body of `_scheduleRequests` sets the host of a slot when its
target resolution succeeds and leaves it as it is otherwise. -/
theorem hostLog_pass {cfg : Config} {a : Answers} {k : Nat} {r r2 : RemoteData}
    {cs l : List Call} (hJ : r.shardHostAndPort = lastHost k l)
    (hp : SlotPass cfg a k r r2 cs) : r2.shardHostAndPort = lastHost k (l ++ cs) := by
  obtain ⟨r1, cs1, cs2, n, n2, h1, h2, rfl, -, -⟩ := hp
  have step1 : r1.shardHostAndPort = lastHost k (l ++ cs1) := by
    cases h1 with
    | keep cs hcs => rw [lastHost_append_none l (monitor_not_schedule hcs)]; exact hJ
    | shardNotFound _ _ => rw [List.append_nil]; exact hJ
    | retry cs hcs _ _ _ => rw [lastHost_append_none l (monitor_not_schedule hcs)]; exact hJ
  rw [← List.append_assoc]
  cases h2 with
  | skip _ => rw [List.append_nil]; exact step1
  | shardNotFound _ _ => rw [List.append_nil]; exact step1
  | findHostFailed c _ _ _ =>
    rw [lastHost_append_none (l ++ cs1) (by simp [Call.isSchedule])]
    exact step1
  | scheduleFailed hp c _ _ _ _ => rw [lastHost_append_schedule]
  | scheduled hp h _ _ _ _ => rw [lastHost_append_schedule]

theorem hostLog_emit {intr : Status} {r r2 : RemoteData} {resp : Response}
    (he : Emit intr r resp r2) :
    r2.shardHostAndPort = r.shardHostAndPort ∧
      (∀ c, resp.swResponse = .error c → resp.shardHostAndPort = r.shardHostAndPort) := by
  cases he with
  | success rp hp hsw hhost => exact ⟨rfl, fun c h => by simp at h⟩
  | failure code hsw => exact ⟨rfl, fun _ _ => rfl⟩

theorem hostLog_store (cbData : RemoteCommandCallbackArgs) (r : RemoteData) :
    (r.store cbData).shardHostAndPort = r.shardHostAndPort := by
  unfold RemoteData.store
  cases cbData.response.status <;> rfl

theorem hostLog_run {cfg : Config} {s s2 : AsyncRequestsSender} {ops : List Op}
    {out : List Response} (hs : HostLog s) (hrun : run cfg s ops = .ok (s2, out)) :
    HostLog s2 := by
  refine slot_invariant (A := fun _ => True)
    (J := fun k r l => r.shardHostAndPort = lastHost k l)
    ?_ ?_ ?_ ?_ ops s s2 out (fun _ _ _ _ => trivial) hs hrun
  · intro o k r r2 cs l _ hJ hp
    exact hostLog_pass hJ hp
  · intro intr k r resp r2 l hJ _ he
    rw [(hostLog_emit he).1]
    exact hJ
  · intro k r cbData l hJ _ _
    rw [hostLog_store]
    exact hJ
  · intro k r h l hJ _
    rw [lastHost_append_none l (by simp [Call.isSchedule])]
    exact hJ

theorem hostLog_reachable {cfg : Config} {oracle : Nat → Answers} {requests : List Request}
    {s0 s : AsyncRequestsSender} {ops : List Op} {out : List Response}
    (hc : construct cfg oracle requests = some s0) (hrun : run cfg s0 ops = .ok (s, out)) :
    HostLog s := by
  refine reachable_slot_invariant (A := fun _ => True)
    (J := fun k r l => r.shardHostAndPort = lastHost k l)
    ?_ ?_ ?_ ?_ ?_ (fun _ _ _ _ => trivial) hc hrun
  · intro k request r2 cs _ hp
    have h0 : (RemoteData.fresh request).shardHostAndPort = lastHost k [] := rfl
    simpa using hostLog_pass h0 hp
  · intro o k r r2 cs l _ hJ hp
    exact hostLog_pass hJ hp
  · intro intr k r resp r2 l hJ _ he
    rw [(hostLog_emit he).1]
    exact hJ
  · intro k r cbData l hJ _ _
    rw [hostLog_store]
    exact hJ
  · intro k r h l hJ _
    rw [lastHost_append_none l (by simp [Call.isSchedule])]
    exact hJ

/-- What `resolveShardIdToHostAndPort` does to the host of the slot. -/
theorem resolve_host (a : Answers) (i : Nat) (r : RemoteData) :
    ((RemoteData.resolveShardIdToHostAndPort a i r).1 = .OK →
      ∃ hp, a.findHostWithMaxWait = .value hp ∧
        (RemoteData.resolveShardIdToHostAndPort a i r).2.1.shardHostAndPort = some hp) ∧
    ((RemoteData.resolveShardIdToHostAndPort a i r).1 ≠ .OK →
      (RemoteData.resolveShardIdToHostAndPort a i r).2.1 = r) := by
  unfold RemoteData.resolveShardIdToHostAndPort
  cases hg : a.getShardResolve with
  | false => simp
  | true =>
    cases hf : a.findHostWithMaxWait with
    | error c => simp
    | value hp => simp

/-- `_scheduleRequest` calls `scheduleRemoteCommand` exactly when the target
resolution succeeds, with the resolved host, which the slot then holds; when
the resolution fails the host of the slot stays as it is. -/
theorem _scheduleRequest_host {a : Answers} {i : Nat} {r r2 : RemoteData} {st : Status}
    {cs : List Call} (h : _scheduleRequest a i r = some (st, r2, cs)) :
    ((RemoteData.resolveShardIdToHostAndPort a i r).1 = .OK ↔
      ∃ hp, Call.scheduleRemoteCommand i hp ∈ cs) ∧
    (∀ hp, Call.scheduleRemoteCommand i hp ∈ cs → r2.shardHostAndPort = some hp) ∧
    ((RemoteData.resolveShardIdToHostAndPort a i r).1 ≠ .OK →
      r2.shardHostAndPort = r.shardHostAndPort) := by
  obtain ⟨hv, hsw, -, -⟩ := _scheduleRequest_handle h
  have hidle : r.idle = true := by simp [RemoteData.idle, hv, hsw]
  rcases _scheduleRequest_cases a i r hidle with
    ⟨hg, h2⟩ | ⟨hg, c, hf, h2⟩ | ⟨hg, hp, c, hf, hsc, h2⟩ | ⟨hg, hp, hd, hf, hsc, h2⟩
  · rw [h2] at h
    simp only [Option.some.injEq, Prod.mk.injEq] at h
    obtain ⟨rfl, rfl, rfl⟩ := h
    simp [RemoteData.resolveShardIdToHostAndPort, hg]
  · rw [h2] at h
    simp only [Option.some.injEq, Prod.mk.injEq] at h
    obtain ⟨rfl, rfl, rfl⟩ := h
    simp [RemoteData.resolveShardIdToHostAndPort, hg, hf]
  · rw [h2] at h
    simp only [Option.some.injEq, Prod.mk.injEq] at h
    obtain ⟨rfl, rfl, rfl⟩ := h
    simp [RemoteData.resolveShardIdToHostAndPort, hg, hf]
  · rw [h2] at h
    simp only [Option.some.injEq, Prod.mk.injEq] at h
    obtain ⟨rfl, rfl, rfl⟩ := h
    simp [RemoteData.resolveShardIdToHostAndPort, hg, hf]

/-- C17 (resolved host).  In every state an execution reaches from the
constructor, the host of a slot is set exactly when `scheduleRemoteCommand`
has been called for the slot, which `_scheduleRequest` does exactly when the
target resolution succeeds, with the resolved host; a failed resolution leaves
the slot as it is.  A slot that is not terminal holds the host of the last
target resolution of the slot that succeeded.  In every later state a host
that is set is still set, and while the slot is not terminal it is the same
host unless the slot was scheduled again.  A response with a non-OK status that `_ready`
hands out carries the host of the last successful resolution of its slot, and
no host exactly when `scheduleRemoteCommand` was never called for the slot. -/
theorem C17_resolved_host (cfg : Config) (oracle : Nat → Answers) (requests : List Request)
    (s0 s : AsyncRequestsSender) (ops : List Op) (out : List Response)
    (hc : construct cfg oracle requests = some s0) (hrun : run cfg s0 ops = .ok (s, out)) :
    (∀ (k : Nat) (r : RemoteData), s._remotes[k]? = some r →
      (r.done = false → r.shardHostAndPort = lastHost k s.calls) ∧
        (r.shardHostAndPort.isSome = true ↔ 0 < scheduleCount k s)) ∧
    (∀ (a : Answers) (i : Nat) (r : RemoteData),
      ((RemoteData.resolveShardIdToHostAndPort a i r).1 = .OK →
        ∃ hp, a.findHostWithMaxWait = .value hp ∧
          (RemoteData.resolveShardIdToHostAndPort a i r).2.1.shardHostAndPort = some hp) ∧
      ((RemoteData.resolveShardIdToHostAndPort a i r).1 ≠ .OK →
        (RemoteData.resolveShardIdToHostAndPort a i r).2.1 = r)) ∧
    (∀ (a : Answers) (i : Nat) (r r2 : RemoteData) (st : Status) (cs : List Call),
      _scheduleRequest a i r = some (st, r2, cs) →
      ((RemoteData.resolveShardIdToHostAndPort a i r).1 = .OK ↔
        ∃ hp, Call.scheduleRemoteCommand i hp ∈ cs) ∧
      (∀ hp, Call.scheduleRemoteCommand i hp ∈ cs → r2.shardHostAndPort = some hp) ∧
      ((RemoteData.resolveShardIdToHostAndPort a i r).1 ≠ .OK →
        r2.shardHostAndPort = r.shardHostAndPort)) ∧
    (∀ (ops2 : List Op) (s2 : AsyncRequestsSender) (out2 : List Response),
      run cfg s ops2 = .ok (s2, out2) →
      ∀ (k : Nat) (r : RemoteData), s._remotes[k]? = some r →
        ∃ r2, s2._remotes[k]? = some r2 ∧
          (r.shardHostAndPort.isSome = true → r2.shardHostAndPort.isSome = true) ∧
          (r2.done = false → scheduleCount k s2 = scheduleCount k s →
            r2.shardHostAndPort = r.shardHostAndPort)) ∧
    (∀ (o : Nat → Answers) (resp : Response) (s2 : AsyncRequestsSender) (c : ErrorCode),
      _ready cfg o s = some (some resp, s2) → resp.swResponse = .error c →
      ∃ i r2, s2._remotes[i]? = some r2 ∧ r2.done = true ∧ r2.shardId = resp.shardId ∧
        resp.shardHostAndPort = lastHost i s2.calls ∧
        (resp.shardHostAndPort = none ↔ scheduleCount i s2 = 0)) := by
  have hlog : HostLog s := hostLog_reachable hc hrun
  have hslot : ∀ (x : AsyncRequestsSender), HostLog x → ∀ (k : Nat) (r : RemoteData),
      x._remotes[k]? = some r → r.shardHostAndPort = lastHost k x.calls ∧
        (r.shardHostAndPort.isSome = true ↔ 0 < scheduleCount k x) := by
    intro x hx k r hk
    have h1 : r.shardHostAndPort = lastHost k x.calls := by
      rw [hx k r hk, lastHost_slotCalls]
    exact ⟨h1, by rw [h1]; exact lastHost_isSome k x.calls⟩
  refine ⟨fun k r hk => ⟨fun _ => (hslot s hlog k r hk).1, (hslot s hlog k r hk).2⟩,
    resolve_host, fun a i r r2 st cs h => _scheduleRequest_host h, ?_, ?_⟩
  · intro ops2 s2 out2 hrun2 k r hk
    have hlog2 : HostLog s2 := hostLog_run hlog hrun2
    obtain ⟨-, -, hlen, cs, hcalls⟩ := run_flags hrun2
    have hlt : k < s2._remotes.length := by
      rw [hlen]
      exact (List.getElem?_eq_some.1 hk).1
    have hk2 : s2._remotes[k]? = some s2._remotes[k] := List.getElem?_eq_getElem hlt
    obtain ⟨g1, g2⟩ := hslot s hlog k r hk
    obtain ⟨g3, g4⟩ := hslot s2 hlog2 k _ hk2
    have hcount : scheduleCount k s2 = scheduleCount k s + cs.countP (Call.isSchedule k) := by
      simp [scheduleCount, hcalls, List.countP_append]
    refine ⟨_, hk2, ?_, ?_⟩
    · intro hs
      rw [g4, hcount]
      have := g2.1 hs
      omega
    · intro _ he
      have h0 : cs.countP (Call.isSchedule k) = 0 := by omega
      rw [g3, g1, hcalls]
      refine lastHost_append_none _ ?_
      intro c hcm
      cases hb : Call.isSchedule k c with
      | false => rfl
      | true =>
        have : 0 < cs.countP (Call.isSchedule k) := List.countP_pos_iff.2 ⟨c, hcm, hb⟩
        omega
  · intro o resp s2 c hr hf
    have hrun2 : run cfg s [.ready o] = .ok (s2, [resp]) := by
      simp [run, step, hr]
    have hlog2 : HostLog s2 := hostLog_run hlog hrun2
    obtain ⟨mid, cs, n, -, -, -, -, -, hres⟩ := _ready_spec hr
    rcases hres with ⟨hnone, -⟩ | ⟨i, rm, resp2, r2, hresp, hi, -, -, hem, hrem⟩
    · exact absurd hnone (by simp)
    · simp only [Option.some.injEq] at hresp
      subst hresp
      have hi2 : s2._remotes[i]? = some r2 := by
        rw [hrem, List.getElem?_set_eq_of_lt _ (List.getElem?_eq_some.1 hi).1]
      obtain ⟨g1, g2⟩ := hslot s2 hlog2 i r2 hi2
      obtain ⟨e1, e2⟩ := hostLog_emit hem
      have hhost : resp.shardHostAndPort = r2.shardHostAndPort := by
        rw [e1]
        exact e2 c hf
      have hd : r2.done = true ∧ r2.shardId = resp.shardId := by
        cases hem <;> exact ⟨rfl, rfl⟩
      refine ⟨i, r2, hi2, hd.1, hd.2, by rw [hhost, g1], ?_⟩
      rw [hhost]
      constructor
      · intro hn
        rw [hn] at g2
        cases h0 : scheduleCount i s2 with
        | zero => rfl
        | succ m =>
          have := g2.2 (by omega)
          simp at this
      · intro h0
        cases hh : r2.shardHostAndPort with
        | none => rfl
        | some hp =>
          have := g2.1 (by simp [hh])
          omega

theorem C17_resolved_host_witness :
    construct exampleConfig (fun _ => exampleAnswers) twoRequests = some twoStart ∧
    run exampleConfig twoStart [.interrupted ErrorCodes.Interrupted,
        .handleResponse 0 canceledReply] = .ok (twoCanceled, []) ∧
    ∀ (k : Nat) (r : RemoteData), twoCanceled._remotes[k]? = some r →
      (r.done = false → r.shardHostAndPort = lastHost k twoCanceled.calls) ∧
        (r.shardHostAndPort.isSome = true ↔ 0 < scheduleCount k twoCanceled) :=
  ⟨rfl, rfl,
    (C17_resolved_host exampleConfig (fun _ => exampleAnswers) twoRequests twoStart
      twoCanceled [.interrupted ErrorCodes.Interrupted, .handleResponse 0 canceledReply] []
      rfl rfl).1⟩

theorem done_snd (s : AsyncRequestsSender) : (done s).2 = s := rfl

theorem run_append {cfg : Config} : ∀ (ops1 ops2 : List Op) (s s1 s2 : AsyncRequestsSender)
    (out1 out2 : List Response), run cfg s ops1 = .ok (s1, out1) →
    run cfg s1 ops2 = .ok (s2, out2) → run cfg s (ops1 ++ ops2) = .ok (s2, out1 ++ out2) := by
  intro ops1
  induction ops1 with
  | nil =>
    intro ops2 s s1 s2 out1 out2 h1 h2
    simp only [run, Except.ok.injEq, Prod.mk.injEq] at h1
    obtain ⟨rfl, rfl⟩ := h1
    simpa using h2
  | cons op ops ih =>
    intro ops2 s s1 s2 out1 out2 h1 h2
    simp only [run] at h1
    cases hs : step cfg s op with
    | error f => simp [hs] at h1
    | ok p =>
      obtain ⟨s3, res⟩ := p
      simp only [hs] at h1
      cases hr : run cfg s3 ops with
      | error f => simp [hr] at h1
      | ok q =>
        obtain ⟨s4, rs⟩ := q
        simp only [hr, Except.ok.injEq, Prod.mk.injEq] at h1
        obtain ⟨rfl, rfl⟩ := h1
        have := ih ops2 s3 s4 s2 rs out2 hr h2
        simp [run, hs, this]

/-- A destructor loop that finishes is an execution of calls of `next` that
all return, and it ends on a dispatcher that is done. -/
theorem drain_run {cfg : Config} : ∀ (scripts : List (List Tick))
    (s s2 : AsyncRequestsSender) (out : List Response), drain cfg scripts s = .ok (s2, out) →
    (done s2).1 = true ∧
      ∃ scripts2 : List (List Tick), run cfg s (scripts2.map Op.next) = .ok (s2, out) := by
  intro scripts
  induction scripts with
  | nil =>
    intro s s2 out h
    cases hd : (done s).1 with
    | false => simp [drain, hd] at h
    | true =>
      simp only [drain, hd, if_true, Except.ok.injEq, Prod.mk.injEq] at h
      obtain ⟨rfl, rfl⟩ := h
      exact ⟨hd, [], rfl⟩
  | cons script scripts ih =>
    intro s s2 out h
    cases hd : (done s).1 with
    | true =>
      simp only [drain, hd, if_true, Except.ok.injEq, Prod.mk.injEq] at h
      obtain ⟨rfl, rfl⟩ := h
      exact ⟨hd, [], rfl⟩
    | false =>
      simp only [drain, hd, Bool.false_eq_true, if_false] at h
      have hds : (done s).2 = s := rfl
      rw [hds] at h
      cases hn : next cfg script s with
      | blocked s3 => simp [hn] at h
      | fault f => simp [hn] at h
      | returned r s1 =>
        simp only [hn] at h
        cases hdr : drain cfg scripts s1 with
        | error f => simp [hdr] at h
        | ok q =>
          obtain ⟨s3, rs⟩ := q
          simp only [hdr, Except.ok.injEq, Prod.mk.injEq] at h
          obtain ⟨rfl, rfl⟩ := h
          obtain ⟨h1, scripts2, h2⟩ := ih s1 s3 rs hdr
          refine ⟨h1, script :: scripts2, ?_⟩
          simp [run, step, hn, h2]

theorem next_wf {cfg : Config} {script : List Tick} {s s1 : AsyncRequestsSender}
    {r : Response} (hs : Wf s) (h : next cfg script s = .returned r s1) : Wf s1 := by
  have hrun : run cfg s [.next script] = .ok (s1, [r]) := by
    simp [run, step, h]
  exact wf_run hs hrun

/-- No assertion fails in the loop of the destructor. -/
theorem drain_safe (cfg : Config) : ∀ (scripts : List (List Tick)) (s : AsyncRequestsSender),
    Wf s → drain cfg scripts s ≠ .error .invariant := by
  intro scripts
  induction scripts with
  | nil =>
    intro s _
    cases hd : (done s).1 <;> simp [drain, hd]
  | cons script scripts ih =>
    intro s hs
    cases hd : (done s).1 with
    | true => simp [drain, hd]
    | false =>
      have hne : s._remotes ≠ [] := by
        intro he
        simp [done, he] at hd
      have hsafe := nextLoop_safe cfg script s hs hne
      have hds : (done s).2 = s := rfl
      simp only [drain, hd, Bool.false_eq_true, if_false, hds]
      cases hn : next cfg script s with
      | blocked s3 => simp
      | fault f =>
        rw [next_of_not_done hd] at hn
        simp only
        intro he
        simp only [Except.error.injEq] at he
        subst he
        exact hsafe hn
      | returned r s1 =>
        have := ih s1 (next_wf hs hn)
        simp only
        cases hdr : drain cfg scripts s1 with
        | error f =>
          rw [hdr] at this
          simpa using this
        | ok q => simp

theorem countP_set_done : ∀ (ks : List (Bool × ShardId)) (i : Nat) (id : ShardId),
    ks[i]? = some (false, id) →
    ((ks.set i (true, id)).countP fun k => !k.1) + 1 = ks.countP fun k => !k.1 := by
  intro ks
  induction ks with
  | nil => intro i id h; simp at h
  | cons k rest ih =>
    intro i id h
    cases i with
    | zero =>
      simp only [List.getElem?_cons_zero, Option.some.injEq] at h
      subst h
      simp [List.countP_cons]
    | succ i =>
      simp only [List.getElem?_cons_succ] at h
      have := ih i id h
      simp only [List.set_cons_succ, List.countP_cons]
      omega

theorem pending_zero {s : AsyncRequestsSender} (h : pending s = 0) : (done s).1 = true := by
  simp only [pending, keys, List.countP_eq_zero, List.mem_map, forall_exists_index,
    and_imp, forall_apply_eq_imp_iff₂, RemoteData.key] at h
  simp only [done, List.all_eq_true]
  intro r hr
  simpa using h r hr

/-- `_ready` once `_stopRetrying` is set, on a state with at least one slot
whose slots are linked and have a host when they need one: it hands out a
slot, or no slot is ready and the slots stay as they are. -/
theorem ready_stopped_cases (cfg : Config) (o : Nat → Answers) {s : AsyncRequestsSender}
    (hs : Wf s) (hstop : s._stopRetrying = true) (hne : s._remotes ≠ []) :
    (∃ resp s1, _ready cfg o s = some (some resp, s1)) ∨
    (∃ s1, _ready cfg o s = some (none, s1) ∧ s1._remotes = s._remotes ∧
      s1._stopRetrying = true ∧ ∀ r ∈ s._remotes, r.ready = false) := by
  obtain ⟨res, s1, hr⟩ := ready_total_wf cfg o hs hne
  cases res with
  | some resp => exact .inl ⟨resp, s1, hr⟩
  | none =>
    right
    obtain ⟨mid, cs, n, -, -, -, hst, -, hres⟩ := _ready_spec hr
    obtain ⟨rfl, rfl⟩ := hst hstop
    rcases hres with ⟨-, h2, h3⟩ | ⟨i, r, resp, r2, h1, -⟩
    · exact ⟨s1, hr, h2, (_ready_flags hr).2.1.trans hstop, h3⟩
    · exact absurd h1 (by simp)

/-- Once `_stopRetrying` is set, a call of `next` on a dispatcher that is not
done returns when the executor runs the callback of a slot in flight. -/
theorem next_returns (cfg : Config) (o : Nat → Answers) (cbData : RemoteCommandCallbackArgs)
    {s : AsyncRequestsSender} (hs : Wf s) (hstop : s._stopRetrying = true)
    (hd : (done s).1 = false) :
    ∃ script r s1, next cfg script s = .returned r s1 := by
  have hne : s._remotes ≠ [] := by
    intro he
    simp [done, he] at hd
  rcases ready_stopped_cases cfg o hs hstop hne with ⟨resp, s1, hr⟩ | ⟨s1, hr, hrem, hst1, hnone⟩
  · refine ⟨[⟨o, .callbacks []⟩], resp, s1, ?_⟩
    rw [next_of_not_done hd]
    exact nextLoop_step_return cfg ⟨o, .callbacks []⟩ [] hr
  · obtain ⟨rj, hmem, hdj⟩ : ∃ r ∈ s._remotes, r.done = false := by
      simpa [done] using hd
    obtain ⟨j, hj⟩ := List.getElem?_of_mem hmem
    have hsw : rj.swResponse = none := by
      have := hnone rj hmem
      simp only [RemoteData.ready, hdj, Bool.not_false, Bool.and_true] at this
      cases h : rj.swResponse with
      | none => rfl
      | some sw => rw [h] at this; exact absurd this (by simp)
    have hv : rj.cbHandle.isValid = true := (hs j rj hj).2.1.2 hsw
    have hs1 : Wf s1 := wf_ready hs hr
    have hj1 : s1._remotes[j]? = some rj := by rw [hrem]; exact hj
    have hcb := callback_ok cbData hj1 hv hsw
    have hdel : deliver [(j, cbData)] s1 =
        .ok { s1 with _remotes := s1._remotes.set j (rj.store cbData), _notification := true } := by
      simp only [deliver, hcb]
    have hs2 := wf_callback hs1 hcb
    have hstep := nextLoop_step_callbacks cfg o [(j, cbData)] [⟨o, .callbacks []⟩] hr hdel rfl
    have hlt := (List.getElem?_eq_some.1 hj1).1
    have hne2 : s1._remotes.set j (rj.store cbData) ≠ [] := by
      intro he
      have := congrArg List.length he
      rw [List.length_set, List.length_nil] at this
      omega
    rcases ready_stopped_cases cfg o hs2 hst1 hne2 with
      ⟨resp, s3, hr2⟩ | ⟨s3, -, -, -, hnone2⟩
    · refine ⟨[⟨o, .callbacks [(j, cbData)]⟩, ⟨o, .callbacks []⟩], resp, s3, ?_⟩
      rw [next_of_not_done hd, hstep]
      exact nextLoop_step_return cfg ⟨o, .callbacks []⟩ [] hr2
    · have hmem2 : rj.store cbData ∈ s1._remotes.set j (rj.store cbData) :=
        List.getElem?_mem (by rw [List.getElem?_set_eq_of_lt _ hlt])
      have := hnone2 _ hmem2
      have hready : (rj.store cbData).ready = true := by
        unfold RemoteData.store
        cases cbData.response.status <;> simp [RemoteData.ready, hdj]
      rw [hready] at this
      exact absurd this (by decide)

/-- Once `_stopRetrying` is set, the loop of the destructor finishes when the
executor runs the callbacks of the slots in flight. -/
theorem drain_finishes (cfg : Config) (o : Nat → Answers) (cbData : RemoteCommandCallbackArgs) :
    ∀ (m : Nat) (s : AsyncRequestsSender), Wf s → s._stopRetrying = true → pending s = m →
    ∃ scripts s2 out, drain cfg scripts s = .ok (s2, out) := by
  intro m
  induction m with
  | zero =>
    intro s _ _ hp
    exact ⟨[], s, [], by simp [drain, pending_zero hp, done_snd]⟩
  | succ m ih =>
    intro s hs hstop hp
    cases hd : (done s).1 with
    | true => exact ⟨[], s, [], by simp [drain, hd, done_snd]⟩
    | false =>
      obtain ⟨script, r, s1, hn⟩ := next_returns cfg o cbData hs hstop hd
      obtain ⟨i, hi, hset⟩ := next_keys hn
      have hp1 : pending s1 = m := by
        have := countP_set_done (keys s) i r.shardId hi
        unfold pending at hp ⊢
        rw [hset]
        omega
      have hrun : run cfg s [.next script] = .ok (s1, [r]) := by
        simp [run, step, hn]
      obtain ⟨scripts, s2, out, hdr⟩ := ih s1 (next_wf hs hn) ((run_flags hrun).2.1 hstop) hp1
      refine ⟨script :: scripts, s2, r :: out, ?_⟩
      have hds : (done s).2 = s := rfl
      simp [drain, hd, hds, hn, hdr]

theorem cancelCalls_mem {rs : List RemoteData} {i h : Nat} {r : RemoteData}
    (hi : rs[i]? = some r) (hh : r.cbHandle.id = some h) :
    Call.cancel i h ∈ cancelCalls 0 rs := by
  have := cancelCalls_slot rs 0 i
  simp only [Nat.zero_add, hi, hh] at this
  have hm : Call.cancel i h ∈ slotCalls i (cancelCalls 0 rs) := by
    rw [this]
    exact List.mem_singleton.2 rfl
  exact (List.mem_filter.1 hm).1

/-- C16 (destructor).  Let the destructor run on a state an execution reaches
from the constructor.  No assertion fails in it, and it finishes when the
executor runs the callbacks of the slots in flight.  When it finishes,
`_stopRetrying` is set, `cancel` has been called, by the destructor, for the
handle of every slot that had a valid handle when the destructor started,
the dispatcher is done, and every slot is terminal, holds an outcome and has
no valid handle. -/
theorem C16_destructor (cfg : Config) (oracle : Nat → Answers) (requests : List Request)
    (s0 s : AsyncRequestsSender) (ops : List Op) (out : List Response)
    (hc : construct cfg oracle requests = some s0) (hrun : run cfg s0 ops = .ok (s, out)) :
    (∃ scripts s2 out2, destructor cfg scripts s = .ok (s2, out2)) ∧
    (∀ scripts, destructor cfg scripts s ≠ .error .invariant) ∧
    (∀ scripts s2 out2, destructor cfg scripts s = .ok (s2, out2) →
      s2._stopRetrying = true ∧ (done s2).1 = true ∧
      s2._remotes.length = s._remotes.length ∧
      (∀ r ∈ s2._remotes, r.done = true ∧ r.cbHandle.isValid = false ∧
        r.swResponse.isSome = true) ∧
      (∃ cs, s2.calls = s.calls ++ cancelCalls 0 s._remotes ++ cs) ∧
      (∀ (i : Nat) (r : RemoteData) (h : Nat), s._remotes[i]? = some r →
        r.cbHandle.id = some h → Call.cancel i h ∈ s2.calls)) := by
  have hwf : Wf s := wf_reachable hc hrun
  have hwfc : Wf (_cancelPendingRequests s) := fun k r hk => hwf k r hk
  refine ⟨?_, fun scripts => drain_safe cfg scripts _ hwfc, ?_⟩
  · exact drain_finishes cfg oracle ⟨⟨.error ErrorCodes.CallbackCanceled, 0⟩⟩ _
      (_cancelPendingRequests s) hwfc rfl rfl
  · intro scripts s2 out2 hd
    obtain ⟨hdone, scripts2, hrun2⟩ := drain_run scripts _ s2 out2 hd
    obtain ⟨-, hstop, hlen, cs, hcalls⟩ := run_flags hrun2
    have hwf2 : Wf s2 := wf_run hwfc hrun2
    have hcalls2 : s2.calls = s.calls ++ cancelCalls 0 s._remotes ++ cs := hcalls
    refine ⟨hstop rfl, hdone, hlen, ?_, ⟨cs, hcalls2⟩, ?_⟩
    · intro r hr
      obtain ⟨k, hk⟩ := List.getElem?_of_mem hr
      have hdr : r.done = true := by
        have := hdone
        simp only [done, List.all_eq_true] at this
        exact this r hr
      obtain ⟨-, hl⟩ := hwf2 k r hk
      have hsw := hl.2 hdr
      refine ⟨hdr, ?_, hsw⟩
      cases hv : r.cbHandle.isValid with
      | false => rfl
      | true =>
        have := hl.1.1 hv
        rw [this] at hsw
        exact absurd hsw (by simp)
    · intro i r h hi hh
      rw [hcalls2]
      exact List.mem_append_left _ (List.mem_append_right _ (cancelCalls_mem hi hh))

theorem C16_destructor_witness :
    construct exampleConfig (fun _ => exampleAnswers) twoRequests = some twoStart ∧
    destructor exampleConfig
        [[⟨fun _ => exampleAnswers, .callbacks [(0, canceledReply), (1, canceledReply)]⟩,
          idleTick], [idleTick]] twoStart =
      .ok (twoDestroyed, [⟨1, .error ErrorCodes.CallbackCanceled, some 100⟩,
        ⟨2, .error ErrorCodes.CallbackCanceled, some 100⟩]) ∧
    twoDestroyed._stopRetrying = true ∧ (done twoDestroyed).1 = true :=
  have h := (C16_destructor exampleConfig (fun _ => exampleAnswers) twoRequests twoStart
    twoStart [] [] rfl rfl).2.2
    [[⟨fun _ => exampleAnswers, .callbacks [(0, canceledReply), (1, canceledReply)]⟩,
      idleTick], [idleTick]] twoDestroyed
    [⟨1, .error ErrorCodes.CallbackCanceled, some 100⟩,
      ⟨2, .error ErrorCodes.CallbackCanceled, some 100⟩] rfl
  ⟨rfl, rfl, h.1, h.2.1⟩

/-- C22 (frame of `_cancelPendingRequests`).  `_cancelPendingRequests` sets
`_stopRetrying` and leaves the slots (terminal flag, outcome, handle, host,
`retryCount` and all other fields), the interrupt status and the notification
as they are.  The calls it makes are calls of the executor's `cancel`: one,
with its handle, for each slot whose handle is valid, and none for the other
slots.  In every execution from the state after the call, a slot without an
outcome stays exactly as it is as long as its callback does not run. -/
theorem C22_cancel_frame (cfg : Config) (s : AsyncRequestsSender) :
    (_cancelPendingRequests s)._stopRetrying = true ∧
    (_cancelPendingRequests s)._remotes = s._remotes ∧
    (_cancelPendingRequests s)._interruptStatus = s._interruptStatus ∧
    (_cancelPendingRequests s)._notification = s._notification ∧
    (_cancelPendingRequests s).calls = s.calls ++ cancelCalls 0 s._remotes ∧
    (∀ c ∈ cancelCalls 0 s._remotes, ∃ j h, c = Call.cancel j h) ∧
    (∀ i, slotCalls i (cancelCalls 0 s._remotes) =
      match s._remotes[i]? with
      | some r => (match r.cbHandle.id with
        | some h => [Call.cancel i h]
        | none => [])
      | none => []) ∧
    (∀ (ops : List Op) (s2 : AsyncRequestsSender) (out : List Response) (i : Nat)
      (r : RemoteData), run cfg (_cancelPendingRequests s) ops = .ok (s2, out) →
      s._remotes[i]? = some r → r.swResponse = none →
      (∀ op ∈ ops, ∀ j ∈ op.callbacks, j ≠ i) → s2._remotes[i]? = some r) := by
  refine ⟨rfl, rfl, rfl, rfl, rfl, cancelCalls_isCancel _ 0, ?_, ?_⟩
  · intro i
    simpa using cancelCalls_slot s._remotes 0 i
  · intro ops s2 out i r hrun hi hsw hops
    exact stopped_inflight rfl hrun hi hsw hops

/-- C24 (a Success carries a host).  In every state an execution reaches
from the constructor, a slot that holds an OK response of the executor has a
host, so the assertion `invariant(remote.shardHostAndPort)` of `_ready` does
not fail: `_ready` on a dispatcher with at least one slot does not abort, and
a call of `next` on a dispatcher that is not done fails no assertion.  Every
response with an OK status that `_ready` or `next` hands out carries a host. -/
theorem C24_success_has_host (cfg : Config) (oracle : Nat → Answers)
    (requests : List Request) (s0 s : AsyncRequestsSender) (ops : List Op)
    (out : List Response) (hc : construct cfg oracle requests = some s0)
    (hrun : run cfg s0 ops = .ok (s, out)) :
    (∀ (k : Nat) (r : RemoteData) (resp : RemoteCommandResponse), s._remotes[k]? = some r →
      r.swResponse = some (.value resp) → r.shardHostAndPort.isSome = true) ∧
    (∀ o, s._remotes ≠ [] → ∃ res s2, _ready cfg o s = some (res, s2)) ∧
    (∀ script, (done s).1 = false → next cfg script s ≠ .fault .invariant) ∧
    (∀ (o : Nat → Answers) (resp : Response) (s2 : AsyncRequestsSender)
      (rp : RemoteCommandResponse), _ready cfg o s = some (some resp, s2) →
      resp.swResponse = .value rp → resp.shardHostAndPort.isSome = true) ∧
    (∀ (script : List Tick) (resp : Response) (s2 : AsyncRequestsSender)
      (rp : RemoteCommandResponse), next cfg script s = .returned resp s2 →
      resp.swResponse = .value rp → resp.shardHostAndPort.isSome = true) ∧
    (∀ resp ∈ out, ∀ rp, resp.swResponse = .value rp → resp.shardHostAndPort.isSome = true) := by
  have hwf : Wf s := wf_reachable hc hrun
  have hemit : ∀ (o : Nat → Answers) (x x2 : AsyncRequestsSender) (resp : Response)
      (rp : RemoteCommandResponse), _ready cfg o x = some (some resp, x2) →
      resp.swResponse = .value rp → resp.shardHostAndPort.isSome = true := by
    intro o x x2 resp rp hr hv
    obtain ⟨mid, cs, n, -, -, -, -, -, hres⟩ := _ready_spec hr
    rcases hres with ⟨hnone, -⟩ | ⟨i, rm, resp2, r2, hresp, -, -, -, hem, -⟩
    · exact absurd hnone (by simp)
    · simp only [Option.some.injEq] at hresp
      subst hresp
      cases hem with
      | success rp2 hp hsw hhost => rfl
      | failure code hsw => simp at hv
  have hnext : ∀ (script : List Tick) (x x2 : AsyncRequestsSender) (resp : Response)
      (rp : RemoteCommandResponse), next cfg script x = .returned resp x2 →
      resp.swResponse = .value rp → resp.shardHostAndPort.isSome = true := by
    intro script x x2 resp rp hn hv
    cases hd : (done x).1 with
    | true => simp [next_of_done hd] at hn
    | false =>
      rw [next_of_not_done hd] at hn
      obtain ⟨x1, o, -, -, hr⟩ :=
        nextLoop_returned (A := fun _ => True) (C := fun _ => True) script x x resp x2
          (fun _ _ => trivial) (fun _ _ _ _ => trivial) (.refl x) hn
      exact hemit o x1 x2 resp rp hr hv
  refine ⟨fun k r resp hk hsw => (hwf k r hk).1.2 resp hsw,
    fun o hne => ready_total_wf cfg o hwf hne, ?_, fun o resp s2 rp => hemit o s s2 resp rp,
    fun script resp s2 rp => hnext script s s2 resp rp, ?_⟩
  · intro script hd
    have hne : s._remotes ≠ [] := by
      intro he
      simp [done, he] at hd
    rw [next_of_not_done hd]
    exact nextLoop_safe cfg script s hwf hne
  · have key : ∀ (l : List Op) (x x2 : AsyncRequestsSender) (rs : List Response),
        run cfg x l = .ok (x2, rs) →
        ∀ resp ∈ rs, ∀ rp, resp.swResponse = .value rp →
          resp.shardHostAndPort.isSome = true := by
      intro l
      induction l with
      | nil =>
        intro x x2 rs h resp hm
        simp only [run, Except.ok.injEq, Prod.mk.injEq] at h
        rw [← h.2] at hm
        simp at hm
      | cons op l ih =>
        intro x x2 rs h resp hm rp hv
        simp only [run] at h
        cases hs : step cfg x op with
        | error f => simp [hs] at h
        | ok p =>
          obtain ⟨x1, res⟩ := p
          simp only [hs] at h
          cases hr : run cfg x1 l with
          | error f => simp [hr] at h
          | ok q =>
            obtain ⟨x3, rs2⟩ := q
            simp only [hr, Except.ok.injEq, Prod.mk.injEq] at h
            obtain ⟨-, rfl⟩ := h
            rcases List.mem_append.1 hm with hm1 | hm2
            · cases res with
              | none => simp at hm1
              | some r1 =>
                simp only [Option.toList_some, List.mem_singleton] at hm1
                subst hm1
                cases op with
                | handleResponse i cbData =>
                  simp only [step] at hs
                  cases hcb : callback i cbData x <;> simp [hcb] at hs
                | next script =>
                  simp only [step] at hs
                  cases hn : next cfg script x with
                  | blocked x4 => simp [hn] at hs
                  | fault f => simp [hn] at hs
                  | returned r4 x4 =>
                    simp only [hn, Except.ok.injEq, Prod.mk.injEq, Option.some.injEq] at hs
                    obtain ⟨-, rfl⟩ := hs
                    exact hnext script x x4 r4 rp hn hv
                | stopRetrying => simp [step] at hs
                | ready o =>
                  simp only [step] at hs
                  cases hrd : _ready cfg o x with
                  | none => simp [hrd] at hs
                  | some p2 =>
                    obtain ⟨res2, x4⟩ := p2
                    simp only [hrd, Except.ok.injEq, Prod.mk.injEq] at hs
                    obtain ⟨-, rfl⟩ := hs
                    exact hemit o x x4 resp rp hrd hv
                | interrupted code =>
                  simp only [step] at hs
                  cases hi : x._interruptStatus <;> simp [hi] at hs
                | cancelPendingRequests => simp [step] at hs
            · exact ih x1 x3 rs2 hr resp hm2 rp hv
    exact key ops s0 s out hrun

theorem C24_success_has_host_witness :
    construct exampleConfig (fun _ => exampleAnswers) twoRequests = some twoStart ∧
    run exampleConfig twoStart [.next [replyTick 1 .OK 0, replyTick 1 .OK 0]] =
      .ok (twoMid, [⟨2, .value ⟨.OK, 0⟩, some 100⟩]) ∧
    ∀ (k : Nat) (r : RemoteData) (resp : RemoteCommandResponse), twoMid._remotes[k]? = some r →
      r.swResponse = some (.value resp) → r.shardHostAndPort.isSome = true :=
  ⟨rfl, rfl,
    (C24_success_has_host exampleConfig (fun _ => exampleAnswers) twoRequests twoStart twoMid
      [.next [replyTick 1 .OK 0, replyTick 1 .OK 0]] [⟨2, .value ⟨.OK, 0⟩, some 100⟩]
      rfl rfl).1⟩

/-- The calls of the retry check, case by case. -/
theorem retryCheck_calls (cfg : Config) (a : Answers) (i : Nat) (r : RemoteData) :
    (retryCheck cfg a i r).2 =
      match r.swResponse, r.shardHostAndPort with
      | some sw, some hp =>
        if r.done then []
        else
          match errorStatus cfg sw with
          | .OK => []
          | .error code => if a.getShard then [.updateReplSetMonitor i hp (.error code)] else []
      | _, _ => [] := by
  unfold retryCheck
  cases hsw : r.swResponse with
  | none => rfl
  | some sw =>
    cases hd : r.done with
    | true => cases r.shardHostAndPort <;> simp
    | false =>
      cases hst : errorStatus cfg sw with
      | OK => cases r.shardHostAndPort <;> simp [hst]
      | error code =>
        cases hg : a.getShard with
        | false => cases r.shardHostAndPort <;> simp [hst, hg]
        | true =>
          by_cases hret : (cfg.isRetriableError code &&
              decide (r.retryCount < kMaxNumFailedHostRetryAttempts)) = true
          · cases hh : r.shardHostAndPort <;> simp [hst, hg, hret]
          · cases hh : r.shardHostAndPort <;> simp [hst, hg, hret]

/-- C23, counterexample: a slot with a resolved host whose error is not
retriable, and a slot with a retriable error whose retry budget is used up:
in both cases the scheduling pass informs the replica-set monitor. -/
theorem C23_counterexample :
    exampleConfig.isRetriableError ErrorCodes.Unauthorized = false ∧
    _scheduleRequests exampleConfig (fun _ => exampleAnswers) unauthorizedReady =
      some { unauthorizedReady with
        calls := unauthorizedReady.calls ++
          [.updateReplSetMonitor 0 100 (.error ErrorCodes.Unauthorized)] } ∧
    exampleConfig.isRetriableError ErrorCodes.HostUnreachable = true ∧
    _scheduleRequests exampleConfig (fun _ => exampleAnswers) exhaustedReady =
      some { exhaustedReady with
        calls := [.updateReplSetMonitor 0 100 (.error ErrorCodes.HostUnreachable)] } :=
  ⟨rfl, rfl, rfl, rfl⟩

/-- C23, as amended.  In the loop body of the scheduling pass the replica-set
monitor is informed of the failure of a slot, once and with the host of the
slot and the error, exactly when the slot holds an outcome, is not terminal,
the outcome is an error (a non-OK status, or an OK response whose command
result is an error), the shard registry knows the shard, and the slot has a
resolved host; whether the retry policy classifies the error as retriable and
whether `retryCount` has reached 3 play no part.  The second half of the loop
body makes no call to the monitor. -/
theorem C23_monitor_informed (cfg : Config) (a : Answers) (i : Nat) (r : RemoteData) :
    (∀ (hp : HostAndPort) (st : Status),
      Call.updateReplSetMonitor i hp st ∈ (retryCheck cfg a i r).2 ↔
        ∃ sw code, r.swResponse = some sw ∧ r.done = false ∧
          errorStatus cfg sw = .error code ∧ a.getShard = true ∧
          r.shardHostAndPort = some hp ∧ st = .error code) ∧
    (∀ sw code hp, r.swResponse = some sw → r.done = false →
      errorStatus cfg sw = .error code → a.getShard = true → r.shardHostAndPort = some hp →
      (retryCheck cfg a i r).2 = [.updateReplSetMonitor i hp (.error code)]) ∧
    ((∀ hp st, Call.updateReplSetMonitor i hp st ∉ (retryCheck cfg a i r).2) →
      (retryCheck cfg a i r).2 = []) ∧
    (∀ n r2 cs n2, scheduleRemote cfg a i r n = some (r2, cs, n2) →
      cs.filter (Call.isMonitor i) = (retryCheck cfg a i r).2) := by
  have hcalls := retryCheck_calls cfg a i r
  refine ⟨?_, ?_, ?_, ?_⟩
  · intro hp st
    rw [hcalls]
    cases hsw : r.swResponse with
    | none => simp
    | some sw =>
      cases hh : r.shardHostAndPort with
      | none => simp
      | some hp2 =>
        cases hd : r.done with
        | true => simp
        | false =>
          cases hst : errorStatus cfg sw with
          | OK => simp [hst]
          | error code =>
            cases hg : a.getShard with
            | false => simp [hst, hg]
            | true =>
              simp only [hst, Bool.false_eq_true, if_false, if_true, List.mem_singleton,
                Call.updateReplSetMonitor.injEq, true_and, Option.some.injEq,
                Status.error.injEq, exists_and_left, exists_eq_left', and_true]
              constructor
              · rintro ⟨rfl, rfl⟩
                exact ⟨rfl, rfl⟩
              · rintro ⟨rfl, rfl⟩
                exact ⟨rfl, rfl⟩
  · intro sw code hp hsw hd hst hg hh
    rw [hcalls, hsw, hh]
    simp [hd, hst, hg]
  · intro hno
    rw [hcalls] at hno ⊢
    cases hsw : r.swResponse with
    | none => rfl
    | some sw =>
      cases hh : r.shardHostAndPort with
      | none => rfl
      | some hp2 =>
        cases hd : r.done with
        | true => simp
        | false =>
          cases hst : errorStatus cfg sw with
          | OK => simp [hst]
          | error code =>
            cases hg : a.getShard with
            | false => simp [hst, hg]
            | true =>
              have := hno hp2 (.error code)
              simp [hsw, hh, hd, hst, hg] at this
  · intro n r2 cs n2 h
    obtain ⟨r3, cs2, n3, hp2, heq⟩ := scheduleRemote_spec cfg a i r n
    rw [heq] at h
    simp only [Option.some.injEq, Prod.mk.injEq] at h
    obtain ⟨-, rfl, -⟩ := h
    have h1 : ∀ c ∈ (retryCheck cfg a i r).2, Call.isMonitor i c = true := by
      rcases retryCheck_cases cfg a i r with ⟨cs, h, hcs⟩ | ⟨-, -, h⟩ | ⟨-, -, -, cs, h, hcs⟩
      · rw [h]; exact hcs
      · rw [h]; simp
      · rw [h]; exact hcs
    have h2 : cs2.filter (Call.isMonitor i) = [] := by
      cases hp2 <;> simp [Call.isMonitor]
    rw [List.filter_append, h2, List.append_nil, List.filter_eq_self]
    exact h1

/-- C25 (the shard is gone).  Let a slot that is not terminal hold an error (a
non-OK status, or an OK response whose command result is an error) and let
the shard registry not know its shard in the retry check of a scheduling
pass.  Then the loop body replaces the outcome by the status ShardNotFound,
leaves `retryCount`, the handle, the host and the notification as they are
and calls no collaborator: not the targeter, not the executor and not the
replica-set monitor, whether the error is retriable or not.  The `_ready` call
of that pass makes no call for the slot; when it hands out the slot, the
response is the Failure with ShardNotFound and the host of the slot, and
otherwise the slot holds ShardNotFound afterwards. -/
theorem C25_shard_gone (cfg : Config) (a : Answers) (i : Nat) (r : RemoteData)
    (sw : StatusWith RemoteCommandResponse) (code : ErrorCode)
    (hsw : r.swResponse = some sw) (hd : r.done = false)
    (herr : errorStatus cfg sw = .error code) (hshard : a.getShard = false) :
    retryCheck cfg a i r = ({ r with swResponse := some (.error ErrorCodes.ShardNotFound) }, []) ∧
    (∀ n, scheduleRemote cfg a i r n =
      some ({ r with swResponse := some (.error ErrorCodes.ShardNotFound) }, [], n)) ∧
    (∀ (o : Nat → Answers) (s s2 : AsyncRequestsSender) (res : Option Response),
      s._stopRetrying = false → s._remotes[i]? = some r → o i = a →
      _ready cfg o s = some (res, s2) →
      slotCalls i s2.calls = slotCalls i s.calls ∧
      (s2._remotes[i]? =
          some { r with swResponse := some (.error ErrorCodes.ShardNotFound) } ∨
        (res = some ⟨r.shardId, .error ErrorCodes.ShardNotFound, r.shardHostAndPort⟩ ∧
          s2._remotes[i]? = some { r with swResponse := some (.error ErrorCodes.ShardNotFound),
                                          done := true }))) := by
  have hrc : retryCheck cfg a i r =
      ({ r with swResponse := some (.error ErrorCodes.ShardNotFound) }, []) := by
    simp [retryCheck, hsw, hd, herr, hshard]
  have hidle : ({ r with swResponse := some (.error ErrorCodes.ShardNotFound) } :
      RemoteData).idle = false := by simp [RemoteData.idle]
  have hpass : ∀ (rm : RemoteData) (cs : List Call), SlotPass cfg a i r rm cs →
      rm = { r with swResponse := some (.error ErrorCodes.ShardNotFound) } ∧ cs = [] := by
    intro rm cs hp
    obtain ⟨r1, cs1, cs2, n, n2, -, h2, rfl, hr1, hcs1⟩ := hp
    rw [hrc] at hr1 hcs1
    simp only at hr1 hcs1
    subst hr1
    subst hcs1
    cases h2 with
    | skip _ => exact ⟨rfl, rfl⟩
    | shardNotFound hx => exact absurd (hx.symm.trans hidle) (by decide)
    | findHostFailed c hx => exact absurd (hx.symm.trans hidle) (by decide)
    | scheduleFailed hp c hx => exact absurd (hx.symm.trans hidle) (by decide)
    | scheduled hp h3 hx => exact absurd (hx.symm.trans hidle) (by decide)
  refine ⟨hrc, ?_, ?_⟩
  · intro n
    obtain ⟨r2, cs2, n2, hp2, heq⟩ := scheduleRemote_spec cfg a i r n
    obtain ⟨h1, h2⟩ := hpass _ _ (scheduleRemote_slotPass heq)
    rw [heq, h1, h2]
    rw [hrc] at hp2
    cases hp2 with
    | skip _ => rfl
    | shardNotFound hx => exact absurd (hx.symm.trans hidle) (by decide)
    | findHostFailed c hx => exact absurd (hx.symm.trans hidle) (by decide)
    | scheduleFailed hp c hx => exact absurd (hx.symm.trans hidle) (by decide)
    | scheduled hp h3 hx => exact absurd (hx.symm.trans hidle) (by decide)
  · intro o s s2 res hstop hi ho hr
    subst ho
    obtain ⟨-, -, rm, cs, -, h2, hcalls, -, hcase⟩ := _ready_slot hr hi
    obtain ⟨hrm, hcs⟩ := hpass rm cs (h2 hstop)
    subst hrm
    subst hcs
    refine ⟨by simp [hcalls], ?_⟩
    rcases hcase with h | ⟨-, resp, r2, hres, hem, h3⟩
    · exact .inl h
    · right
      cases hem with
      | success rp hp hsw2 hhost => simp at hsw2
      | failure c2 hsw2 =>
        simp only [Option.some.injEq, StatusWith.error.injEq] at hsw2
        subst hsw2
        have hpr : promote s._interruptStatus ErrorCodes.ShardNotFound =
            ErrorCodes.ShardNotFound := promote_eq (.inr (by decide))
        rw [hpr] at hres h3
        exact ⟨hres, h3⟩

theorem C25_shard_gone_witness :
    _ready exampleConfig (fun _ => unknownAnswers) unreachableReady =
      some (some ⟨1, .error ErrorCodes.ShardNotFound, some 100⟩, unreachableGone) ∧
    exampleConfig.isRetriableError ErrorCodes.HostUnreachable = true ∧
    ∀ n, scheduleRemote exampleConfig unknownAnswers 0
        { shardId := 1, cmdObj := 5, shardHostAndPort := some 100,
          swResponse := some (.error ErrorCodes.HostUnreachable) } n =
      some ({ shardId := 1, cmdObj := 5, shardHostAndPort := some 100,
              swResponse := some (.error ErrorCodes.ShardNotFound) }, [], n) :=
  ⟨rfl, rfl,
    (C25_shard_gone exampleConfig unknownAnswers 0
      { shardId := 1, cmdObj := 5, shardHostAndPort := some 100,
        swResponse := some (.error ErrorCodes.HostUnreachable) }
      (.error ErrorCodes.HostUnreachable) ErrorCodes.HostUnreachable rfl rfl rfl rfl).2.1⟩

/-- C26, counterexample: the targeter fails with HostUnreachable, which the
retry policy classifies as retriable, in the constructor and again in the
scheduling pass of the first call of `next`.  That call returns the Failure
with HostUnreachable although `_stopRetrying` is not set, the shard is known
and `retryCount` is 1. -/
theorem C26_counterexample :
    construct exampleConfig (fun _ => failingAnswers) [⟨1, 5⟩] = some resolutionFailed ∧
    next exampleConfig [⟨fun _ => failingAnswers, .callbacks []⟩] resolutionFailed =
      .returned ⟨1, .error ErrorCodes.HostUnreachable, none⟩ resolutionFailedOut ∧
    exampleConfig.isRetriableError ErrorCodes.HostUnreachable = true ∧
    failingAnswers.getShard = true ∧ failingAnswers.getShardResolve = true ∧
    resolutionFailedOut._stopRetrying = false ∧
    resolutionFailedOut._remotes.map (fun r => r.retryCount) = [1] ∧
    1 < kMaxNumFailedHostRetryAttempts :=
  ⟨rfl, rfl, rfl, rfl, rfl, rfl, rfl, by decide⟩

/-- C26, as amended.  Let `_stopRetrying` be false and let a slot that is not
terminal hold, before a call of `_ready`, an error that the retry policy
classifies as retriable, with the shard known and `retryCount < 3`.  Then the
scheduling pass of the call clears that outcome and counts a retry, whatever
the index of the slot and wherever the error came from, so the outcome is
not handed out as it stood.  When target resolution and scheduling succeed
the slot is in flight after the call and is not handed out by it.  The call
hands out the slot only when the slot had no valid handle and the
re-scheduling failed in that pass: the response is then the Failure with the
error of the failed target resolution or of the failed scheduling (with
CallbackCanceled replaced by a set interrupt status), which may again be a
retriable error. -/
theorem C26_retriable_outcome (cfg : Config) (o : Nat → Answers) (s s2 : AsyncRequestsSender)
    (res : Option Response) (i : Nat) (r : RemoteData)
    (sw : StatusWith RemoteCommandResponse) (code : ErrorCode)
    (hstop : s._stopRetrying = false) (hi : s._remotes[i]? = some r)
    (hsw : r.swResponse = some sw) (hd : r.done = false)
    (herr : errorStatus cfg sw = .error code) (hret : cfg.isRetriableError code = true)
    (hshard : (o i).getShard = true) (hcount : r.retryCount < kMaxNumFailedHostRetryAttempts)
    (hr : _ready cfg o s = some (res, s2)) :
    ∃ r2, s2._remotes[i]? = some r2 ∧ r2.retryCount = r.retryCount + 1 ∧
      (r2.done = false →
        (r2.swResponse = none ∨ ∃ c, r2.swResponse = some (.error c))) ∧
      ((r.cbHandle.isValid = true ∨ ((o i).getShardResolve = true ∧
          (o i).findHostWithMaxWait.isOK = true ∧ (o i).scheduleRemoteCommand.isOK = true)) →
        r2.done = false ∧ r2.swResponse = none ∧ r2.cbHandle.isValid = true) ∧
      (r2.done = true →
        r.cbHandle.isValid = false ∧
        ∃ c host, res = some ⟨r.shardId, .error (promote s._interruptStatus c), host⟩ ∧
          (((o i).getShardResolve = false ∧ c = ErrorCodes.ShardNotFound ∧
              host = r.shardHostAndPort) ∨
            ((o i).getShardResolve = true ∧ (o i).findHostWithMaxWait = .error c ∧
              host = r.shardHostAndPort) ∨
            ((o i).getShardResolve = true ∧ ∃ hp, (o i).findHostWithMaxWait = .value hp ∧
              (o i).scheduleRemoteCommand = .error c ∧ host = some hp))) := by
  obtain ⟨-, -, rm, cs, -, h2, -, -, hcase⟩ := _ready_slot hr hi
  obtain ⟨r1, cs1, cs2, n, n2, -, hp2, -, hr1, -⟩ := h2 hstop
  have hrc : retryCheck cfg (o i) i r =
      ({ r with retryCount := r.retryCount + 1, swResponse := none }, monitorCalls i r code) := by
    simp [retryCheck, hsw, hd, herr, hshard, hret, hcount, monitorCalls]
  rw [hrc] at hr1
  simp only at hr1
  subst hr1
  have hrm : rm.retryCount = r.retryCount + 1 ∧ rm.done = false ∧ rm.shardId = r.shardId ∧
      ((rm.swResponse = none ∧ rm.cbHandle.isValid = true ∧
          (r.cbHandle.isValid = true ∨ ((o i).getShardResolve = true ∧
            (o i).findHostWithMaxWait.isOK = true ∧
            (o i).scheduleRemoteCommand.isOK = true))) ∨
        (r.cbHandle.isValid = false ∧ ∃ c, rm.swResponse = some (.error c) ∧
          (((o i).getShardResolve = false ∧ c = ErrorCodes.ShardNotFound ∧
              rm.shardHostAndPort = r.shardHostAndPort) ∨
            ((o i).getShardResolve = true ∧ (o i).findHostWithMaxWait = .error c ∧
              rm.shardHostAndPort = r.shardHostAndPort) ∨
            ((o i).getShardResolve = true ∧ ∃ hp, (o i).findHostWithMaxWait = .value hp ∧
              (o i).scheduleRemoteCommand = .error c ∧ rm.shardHostAndPort = some hp)))) := by
    cases hp2 with
    | skip hidle =>
      have hv : r.cbHandle.isValid = true := by simpa [RemoteData.idle] using hidle
      exact ⟨rfl, hd, rfl, .inl ⟨rfl, hv, .inl hv⟩⟩
    | shardNotFound hidle hs =>
      have hv : r.cbHandle.isValid = false := by simpa [RemoteData.idle] using hidle
      exact ⟨rfl, hd, rfl, .inr ⟨hv, _, rfl, .inl ⟨hs, rfl, rfl⟩⟩⟩
    | findHostFailed c hidle hs hf =>
      have hv : r.cbHandle.isValid = false := by simpa [RemoteData.idle] using hidle
      exact ⟨rfl, hd, rfl, .inr ⟨hv, _, rfl, .inr (.inl ⟨hs, hf, rfl⟩)⟩⟩
    | scheduleFailed hp c hidle hs hf hsc =>
      have hv : r.cbHandle.isValid = false := by simpa [RemoteData.idle] using hidle
      exact ⟨rfl, hd, rfl, .inr ⟨hv, _, rfl, .inr (.inr ⟨hs, hp, hf, hsc, rfl⟩)⟩⟩
    | scheduled hp h hidle hs hf hsc =>
      exact ⟨rfl, hd, rfl, .inl ⟨rfl, rfl, .inr ⟨hs, by rw [hf]; rfl, by rw [hsc]; rfl⟩⟩⟩
  obtain ⟨hcnt, hdone, hid, hkind⟩ := hrm
  have hfail : ∀ c, rm.swResponse = some (.error c) →
      ¬(r.cbHandle.isValid = true ∨ ((o i).getShardResolve = true ∧
        (o i).findHostWithMaxWait.isOK = true ∧ (o i).scheduleRemoteCommand.isOK = true)) := by
    intro c hc hcond
    rcases hkind with ⟨hnone, -⟩ | ⟨hv, c2, -, hwhy⟩
    · rw [hnone] at hc
      exact absurd hc (by simp)
    · rcases hcond with hv2 | ⟨g1, g2, g3⟩
      · rw [hv] at hv2
        exact absurd hv2 (by decide)
      · rcases hwhy with ⟨e1, -⟩ | ⟨-, e2, -⟩ | ⟨-, hp, -, e3, -⟩
        · rw [e1] at g1
          exact absurd g1 (by decide)
        · rw [e2] at g2
          exact absurd g2 (by simp [StatusWith.isOK])
        · rw [e3] at g3
          exact absurd g3 (by simp [StatusWith.isOK])
  rcases hcase with hsame | ⟨hready, resp, r2, hres, hem, h3⟩
  · refine ⟨rm, hsame, hcnt, ?_, ?_, ?_⟩
    · intro _
      rcases hkind with ⟨hnone, -⟩ | ⟨-, c, hc, -⟩
      · exact .inl hnone
      · exact .inr ⟨c, hc⟩
    · intro hcond
      rcases hkind with ⟨hnone, hv, -⟩ | ⟨-, c, hc, -⟩
      · exact ⟨hdone, hnone, hv⟩
      · exact absurd hcond (hfail c hc)
    · intro hd2
      rw [hdone] at hd2
      exact absurd hd2 (by decide)
  · obtain ⟨hsome, -⟩ := ready_fields hready
    rcases hkind with ⟨hnone, -⟩ | ⟨hv, c, hc, hwhy⟩
    · rw [hnone] at hsome
      exact absurd hsome (by simp)
    · cases hem with
      | success rp hp hsw2 hhost =>
        rw [hc] at hsw2
        exact absurd hsw2 (by simp)
      | failure c2 hsw2 =>
        rw [hc] at hsw2
        simp only [Option.some.injEq, StatusWith.error.injEq] at hsw2
        subst hsw2
        refine ⟨_, h3, hcnt, ?_, ?_, ?_⟩
        · intro hd2
          exact absurd hd2 (by simp)
        · intro hcond
          exact absurd hcond (hfail c hc)
        · intro _
          refine ⟨hv, c, rm.shardHostAndPort, by rw [hres, hid], ?_⟩
          rcases hwhy with ⟨e1, e2, e3⟩ | ⟨e1, e2, e3⟩ | ⟨e1, hp, e2, e3, e4⟩
          · exact .inl ⟨e1, e2, e3⟩
          · exact .inr (.inl ⟨e1, e2, e3⟩)
          · exact .inr (.inr ⟨e1, hp, e2, e3, e4⟩)

theorem C26_retriable_outcome_witness :
    resolutionFailed._stopRetrying = false ∧
    _ready exampleConfig (fun _ => failingAnswers) resolutionFailed =
      some (some ⟨1, .error ErrorCodes.HostUnreachable, none⟩,
        { resolutionFailedOut with _notification := true }) ∧
    ∃ r2, ({ resolutionFailedOut with _notification := true } :
        AsyncRequestsSender)._remotes[0]? = some r2 ∧ r2.retryCount = 0 + 1 := by
  obtain ⟨r2, h1, h2, -⟩ := C26_retriable_outcome exampleConfig (fun _ => failingAnswers)
    resolutionFailed { resolutionFailedOut with _notification := true }
    (some ⟨1, .error ErrorCodes.HostUnreachable, none⟩) 0
    { shardId := 1, cmdObj := 5, swResponse := some (.error ErrorCodes.HostUnreachable) }
    (.error ErrorCodes.HostUnreachable) ErrorCodes.HostUnreachable rfl rfl rfl rfl rfl rfl rfl
    (by decide) rfl
  exact ⟨rfl, rfl, r2, h1, h2⟩

theorem retryCheck_done (cfg : Config) (a : Answers) (i : Nat) (r : RemoteData) :
    (retryCheck cfg a i r).1.done = r.done := by
  rcases retryCheck_cases cfg a i r with ⟨cs, h, -⟩ | ⟨-, -, h⟩ | ⟨-, -, -, cs, h, -⟩ <;>
    rw [h]

/-- The second half of the loop body leaves the notification as it is, or
sets it when the scheduling of an idle slot fails. -/
theorem phase2_notification {a : Answers} {i : Nat} {r1 r2 : RemoteData} {n n2 : Bool}
    {cs : List Call} (h : Phase2 a i r1 n r2 cs n2) :
    n2 = n ∨ (n2 = true ∧ r1.idle = true ∧ r2.swResponse.isSome = true ∧
      r2.done = r1.done) := by
  cases h with
  | skip _ => exact .inl rfl
  | shardNotFound hi _ => exact .inr ⟨rfl, hi, rfl, rfl⟩
  | findHostFailed c hi _ _ => exact .inr ⟨rfl, hi, rfl, rfl⟩
  | scheduleFailed hp c hi _ _ _ => exact .inr ⟨rfl, hi, rfl, rfl⟩
  | scheduled hp h hi _ _ _ => exact .inl rfl

/-- The scheduling pass leaves the notification as it is, or sets it when
the scheduling of some slot that is idle after its retry check fails; that
slot then holds an outcome. -/
theorem scheduleLoop_notification (cfg : Config) (oracle : Nat → Answers) :
    ∀ (rs : List RemoteData) (i : Nat) (n : Bool) (rs2 : List RemoteData) (cs : List Call)
      (n2 : Bool), scheduleLoop cfg oracle i rs n = some (rs2, cs, n2) →
      n2 = n ∨ (n2 = true ∧ ∃ (k : Nat) (r r2 : RemoteData), rs[k]? = some r ∧
        rs2[k]? = some r2 ∧ (retryCheck cfg (oracle (i + k)) (i + k) r).1.idle = true ∧
        r2.swResponse.isSome = true ∧ r2.done = r.done) := by
  intro rs
  induction rs with
  | nil =>
    intro i n rs2 cs n2 h
    simp only [scheduleLoop, Option.some.injEq, Prod.mk.injEq] at h
    exact .inl h.2.2.symm
  | cons r rest ih =>
    intro i n rs2 cs n2 h
    obtain ⟨r1, cs1, n1, hp2, heq⟩ := scheduleRemote_spec cfg (oracle i) i r n
    simp only [scheduleLoop, heq] at h
    cases hl : scheduleLoop cfg oracle (i + 1) rest n1 with
    | none => simp [hl] at h
    | some q =>
      obtain ⟨rest2, cs3, n3⟩ := q
      simp only [hl, Option.some.injEq, Prod.mk.injEq] at h
      obtain ⟨rfl, -, rfl⟩ := h
      rcases ih (i + 1) n1 rest2 cs3 n3 hl with h3 | ⟨h3, k, rk, rk2, g1, g2, g3, g4, g5⟩
      · rcases phase2_notification hp2 with h1 | ⟨h1, g3, g4, g5⟩
        · exact .inl (h3.trans h1)
        · right
          refine ⟨h3.trans h1, 0, r, r1, by simp, by simp, by simpa using g3, g4, ?_⟩
          rw [g5, retryCheck_done]
      · right
        refine ⟨h3, k + 1, rk, rk2, by simpa using g1, by simpa using g2, ?_, g4, g5⟩
        have e : i + (k + 1) = i + 1 + k := by omega
        rw [e]
        exact g3

/-- The scheduling pass of `_ready`, when `_stopRetrying` is not set, runs on
a fresh notification. -/
theorem _ready_pass {cfg : Config} {o : Nat → Answers} {s s2 : AsyncRequestsSender}
    {res : Option Response} (h : _ready cfg o s = some (res, s2))
    (hstop : s._stopRetrying = false) :
    ∃ rs2 cs, scheduleLoop cfg o 0 s._remotes false = some (rs2, cs, s2._notification) ∧
      (res = none → s2._remotes = rs2) := by
  simp only [_ready, hstop, Bool.not_false, if_true, _scheduleRequests, Bool.false_eq_true,
    if_false] at h
  cases hl : scheduleLoop cfg o 0 s._remotes false with
  | none => simp [hl] at h
  | some q =>
    obtain ⟨rs2, cs, n2⟩ := q
    simp only [hl] at h
    cases hemp : rs2.isEmpty with
    | true => simp [hemp] at h
    | false =>
      simp only [hemp, Bool.false_eq_true, if_false] at h
      cases hrl : readyLoop s._interruptStatus rs2 with
      | none => simp [hrl] at h
      | some p =>
        obtain ⟨res2, rem⟩ := p
        simp only [hrl, Option.some.injEq, Prod.mk.injEq] at h
        obtain ⟨rfl, rfl⟩ := h
        refine ⟨rs2, cs, rfl, ?_⟩
        intro hnone
        subst hnone
        rcases readyLoop_spec s._interruptStatus rs2 with
          ⟨h1, -⟩ | ⟨j, rj, -, -, -, ⟨h1, -, -⟩ | ⟨resp, r2, -, h1⟩⟩
        · rw [h1] at hrl
          simp only [Option.some.injEq, Prod.mk.injEq, true_and] at hrl
          exact hrl.symm
        · rw [h1] at hrl
          exact absurd hrl (by simp)
        · rw [h1] at hrl
          simp at hrl

/-- When `_ready` returns nothing on a state whose slots are linked, the
notification it leaves is not signaled. -/
theorem _ready_unsignaled {cfg : Config} {o : Nat → Answers} {s s1 : AsyncRequestsSender}
    (hs : Wf s) (h : _ready cfg o s = some (none, s1)) : s1._notification = false := by
  cases hstop : s._stopRetrying with
  | true =>
    obtain ⟨mid, cs, n, heq, -, -, -, -, -⟩ := _ready_spec h
    simp only [_ready, hstop, Bool.not_true, Bool.false_eq_true, if_false] at h
    cases hemp : s._remotes.isEmpty with
    | true => simp [hemp] at h
    | false =>
      simp only [hemp, Bool.false_eq_true, if_false] at h
      cases hrl : readyLoop s._interruptStatus s._remotes with
      | none => simp [hrl] at h
      | some p =>
        obtain ⟨res2, rem⟩ := p
        simp only [hrl, Option.some.injEq, Prod.mk.injEq] at h
        rw [← h.2]
  | false =>
    obtain ⟨rs2, cs, hl, hrem⟩ := _ready_pass h hstop
    have hrem2 := hrem rfl
    rcases scheduleLoop_notification cfg o s._remotes 0 false rs2 cs _ hl with
      h1 | ⟨-, k, r, r2, g1, g2, g3, g4, g5⟩
    · exact h1
    · exfalso
      have hd : r.done = false := by
        cases hd : r.done with
        | false => rfl
        | true =>
          obtain ⟨sw, hsw⟩ := Option.isSome_iff_exists.1 ((hs k r g1).2.2 hd)
          have hrc : retryCheck cfg (o (0 + k)) (0 + k) r = (r, []) := by
            simp [retryCheck, hsw, hd]
          rw [hrc] at g3
          simp [RemoteData.idle, hsw] at g3
      obtain ⟨mid, cs2, n, -, -, -, -, -, hres⟩ := _ready_spec h
      rcases hres with ⟨-, hmid, hall⟩ | ⟨j, rj, resp, r3, hresp, -⟩
      · rw [hrem2] at hmid
        have hready : r2.ready = true := by
          simp [RemoteData.ready, g4, g5, hd]
        have := hall r2 (by rw [← hmid]; exact List.getElem?_mem g2)
        rw [hready] at this
        exact absurd this (by decide)
      · exact absurd hresp (by simp)

/-- C21 (no double signal).  `set` is legal on an unsignaled notification
only, and the guarded statement `if (!*_notification) _notification->set()`
never calls it on a signaled one.  The loop body of `_scheduleRequests` never
aborts, whatever the notification holds: it leaves the notification as it is
or, when the scheduling of the slot failed, runs the guarded statement.  In
every reachable state the callback of a slot in flight is accepted by
`_handleResponse`, also when the notification is signaled already, and the
notification afterwards is the result of the guarded statement; no `_ready`
aborts.  `stopRetrying`, the cancellation and the `catch` block of `next` do
not touch the notification.  So an instance goes from unsignaled to signaled
at most once and `set` is never called twice on it.  `_ready` installs a
fresh unsignaled notification before anything else (its result does not
depend on the old one), and in every reachable state a `_ready` that hands
out nothing leaves the notification the caller then waits on unsignaled. -/
theorem C21_no_double_signal (cfg : Config) (oracle : Nat → Answers)
    (requests : List Request) (s0 s : AsyncRequestsSender) (ops : List Op)
    (out : List Response) (hc : construct cfg oracle requests = some s0)
    (hrun : run cfg s0 ops = .ok (s, out)) :
    (Notification.set false = some true ∧ Notification.set true = none) ∧
    (∀ n : Bool, signalIfUnset n = some true) ∧
    (∀ (a : Answers) (i : Nat) (r : RemoteData) (n : Bool),
      ∃ (r2 : RemoteData) (cs : List Call) (n2 : Bool),
        scheduleRemote cfg a i r n = some (r2, cs, n2) ∧
        (n2 = n ∨ (some n2 = signalIfUnset n ∧ (retryCheck cfg a i r).1.idle = true ∧
          r2.swResponse.isSome = true))) ∧
    (∀ (i : Nat) (r : RemoteData) (cbData : RemoteCommandCallbackArgs),
      s._remotes[i]? = some r → r.cbHandle.isValid = true →
      ∃ s2, _handleResponse cbData i s = some s2 ∧ callback i cbData s = .ok s2 ∧
        some s2._notification = signalIfUnset s._notification) ∧
    (s._remotes ≠ [] → ∀ o : Nat → Answers, ∃ res s1, _ready cfg o s = some (res, s1)) ∧
    (∀ (x : AsyncRequestsSender) (code : ErrorCode),
      (stopRetrying x)._notification = x._notification ∧
      (_cancelPendingRequests x)._notification = x._notification ∧
      (interruptedWait code x)._notification = x._notification) ∧
    (∀ (o : Nat → Answers) (x : AsyncRequestsSender),
      _ready cfg o x = _ready cfg o { x with _notification := false }) ∧
    (∀ (o : Nat → Answers) (s1 : AsyncRequestsSender),
      _ready cfg o s = some (none, s1) → s1._notification = false) := by
  have hwf : Wf s := wf_reachable hc hrun
  refine ⟨⟨rfl, rfl⟩, signalIfUnset_eq, ?_, ?_, ?_, ?_, ?_, ?_⟩
  · intro a i r n
    obtain ⟨r3, cs3, n3, hp2, heq⟩ := scheduleRemote_spec cfg a i r n
    refine ⟨r3, _, n3, heq, ?_⟩
    rcases phase2_notification hp2 with h1 | ⟨h1, g3, g4, -⟩
    · exact .inl h1
    · exact .inr ⟨by rw [signalIfUnset_eq, h1], g3, g4⟩
  · intro i r cbData hr hv
    have hsw := (hwf i r hr).2.1.1 hv
    have hcb := callback_ok cbData hr hv hsw
    refine ⟨_, ?_, hcb, by rw [signalIfUnset_eq]⟩
    cases hst : cbData.response.status <;>
      simp [_handleResponse, hr, hsw, hst, RemoteData.store]
  · intro hne o
    exact ready_total_wf cfg o hwf hne
  · intro x code
    exact ⟨rfl, rfl, rfl⟩
  · intro o x
    rfl
  · intro o s1 h
    exact _ready_unsignaled hwf h

theorem C21_no_double_signal_witness :
    construct exampleConfig (fun _ => exampleAnswers) twoRequests = some twoStart ∧
    run exampleConfig twoStart [.handleResponse 0 ⟨⟨.OK, 0⟩⟩] = .ok (twoSignaled, []) ∧
    twoSignaled._notification = true ∧
    Notification.set twoSignaled._notification = none ∧
    (∃ s, construct exampleConfig (fun _ => failingAnswers) twoRequests = some s ∧
      s._notification = true) ∧
    ∀ (i : Nat) (r : RemoteData) (cbData : RemoteCommandCallbackArgs),
      twoSignaled._remotes[i]? = some r → r.cbHandle.isValid = true →
      ∃ s2, _handleResponse cbData i twoSignaled = some s2 ∧
        callback i cbData twoSignaled = .ok s2 ∧
        some s2._notification = signalIfUnset twoSignaled._notification :=
  ⟨rfl, rfl, rfl, rfl, ⟨_, rfl, rfl⟩,
    (C21_no_double_signal exampleConfig (fun _ => exampleAnswers) twoRequests twoStart
      twoSignaled [.handleResponse 0 ⟨⟨.OK, 0⟩⟩] [] rfl rfl).2.2.2.1⟩

theorem canceled_callback {code : ErrorCode} {i : Nat} {cbData : RemoteCommandCallbackArgs}
    {s s2 : AsyncRequestsSender} (hs : Canceled code s) (h : callback i cbData s = .ok s2)
    (hst : cbData.response.status = .error ErrorCodes.CallbackCanceled) : Canceled code s2 := by
  obtain ⟨r, hr, hv, hsw, rfl⟩ := callback_spec h
  refine ⟨hs.1, hs.2.1, ?_⟩
  intro x hx hd
  rcases List.mem_or_eq_of_mem_set hx with hx | rfl
  · exact hs.2.2 x hx hd
  · right
    simp [RemoteData.store, hst]

theorem canceled_deliver {code : ErrorCode} :
    ∀ (arrivals : List (Nat × RemoteCommandCallbackArgs)) (s s2 : AsyncRequestsSender),
      Canceled code s →
      (arrivals.all fun x =>
        x.2.response.status == .error ErrorCodes.CallbackCanceled) = true →
      deliver arrivals s = .ok s2 → Canceled code s2 := by
  intro arrivals
  induction arrivals with
  | nil =>
    intro s s2 hs _ h
    simp only [deliver, Except.ok.injEq] at h
    subst h
    exact hs
  | cons x rest ih =>
    intro s s2 hs hall h
    obtain ⟨i, cbData⟩ := x
    simp only [List.all_cons, Bool.and_eq_true, beq_iff_eq] at hall
    simp only [deliver] at h
    cases hc : callback i cbData s with
    | error f => simp [hc] at h
    | ok s1 =>
      simp only [hc] at h
      refine ih s1 s2 (canceled_callback hs hc hall.1) ?_ h
      simpa using hall.2

/-- Once the interrupt is recorded and the executor replies only to the
cancellation, every response `_ready` hands out is the Failure with the
interrupt status. -/
theorem canceled_ready {cfg : Config} {o : Nat → Answers} {code : ErrorCode}
    {s s2 : AsyncRequestsSender} {res : Option Response} (hs : Canceled code s)
    (h : _ready cfg o s = some (res, s2)) :
    Canceled code s2 ∧ ∀ resp, res = some resp → resp.swResponse = .error code := by
  obtain ⟨-, hstop, hint, hcase⟩ := _ready_stopped hs.2.1 h
  rcases hcase with ⟨hres, hrem⟩ | ⟨i, r, resp, r2, hres, hi, hready, hemit, hrem⟩
  · refine ⟨⟨hint.trans hs.1, hstop, ?_⟩, ?_⟩
    · rw [hrem]
      exact hs.2.2
    · intro resp hr
      rw [hres] at hr
      exact absurd hr (by simp)
  · obtain ⟨hsome, hd⟩ := ready_fields hready
    have hmem : r ∈ s._remotes := List.getElem?_mem hi
    have hsw : r.swResponse = some (.error ErrorCodes.CallbackCanceled) := by
      rcases hs.2.2 r hmem hd with h0 | h0
      · rw [h0] at hsome
        exact absurd hsome (by simp)
      · exact h0
    have hpr : promote s._interruptStatus ErrorCodes.CallbackCanceled = code := by
      rw [hs.1]
      simp [promote]
    cases hemit with
    | success resp0 hp hsw2 _ =>
      rw [hsw] at hsw2
      exact absurd hsw2 (by simp)
    | failure c hsw2 =>
      rw [hsw] at hsw2
      simp only [Option.some.injEq, StatusWith.error.injEq] at hsw2
      subst hsw2
      refine ⟨⟨hint.trans hs.1, hstop, ?_⟩, ?_⟩
      · intro x hx hdx
        rw [hrem] at hx
        rcases List.mem_or_eq_of_mem_set hx with hx | rfl
        · exact hs.2.2 x hx hdx
        · exact absurd hdx (by simp)
      · intro resp2 hr2
        rw [hres] at hr2
        simp only [Option.some.injEq] at hr2
        subst hr2
        simp [hpr]

theorem canceled_nextLoop (cfg : Config) {code : ErrorCode} :
    ∀ (script : List Tick) (s : AsyncRequestsSender) (r : Response) (s2 : AsyncRequestsSender),
      Canceled code s → canceledOnly script = true → nextLoop cfg script s = .returned r s2 →
      r.swResponse = .error code ∧ Canceled code s2 := by
  intro script
  induction script with
  | nil => intro s r s2 _ _ h; simp [nextLoop] at h
  | cons tick script ih =>
    intro s r s2 hs hco h
    simp only [canceledOnly, List.all_cons, Bool.and_eq_true] at hco
    obtain ⟨ht, hrest⟩ := hco
    unfold nextLoop at h
    cases hr : _ready cfg tick.oracle s with
    | none => simp [hr] at h
    | some p =>
      obtain ⟨res, s1⟩ := p
      obtain ⟨hs1, hresp⟩ := canceled_ready hs hr
      cases res with
      | some resp =>
        simp only [hr, NextResult.returned.injEq] at h
        obtain ⟨rfl, rfl⟩ := h
        exact ⟨hresp _ rfl, hs1⟩
      | none =>
        simp only [hr, hs1.1] at h
        cases hw : tick.wait with
        | interrupted c =>
          simp only [hw] at h
          cases hn : s1._notification with
          | true =>
            simp only [hn, if_true] at h
            exact ih s1 r s2 hs1 hrest h
          | false => simp [hn] at h
        | callbacks arrivals =>
          simp only [hw] at h ht
          cases hd : deliver arrivals s1 with
          | error f => simp [hd] at h
          | ok s3 =>
            simp only [hd] at h
            have hs3 := canceled_deliver arrivals s1 s3 hs1 ht hd
            cases hn : s3._notification with
            | true =>
              simp only [hn, if_true] at h
              exact ih s3 r s2 hs3 hrest h
            | false => simp [hn] at h

/-- Once the interrupt is recorded and the executor replies only to the
cancellation, every response the loop of the destructor drains is the Failure
with the interrupt status. -/
theorem canceled_drain (cfg : Config) {code : ErrorCode} :
    ∀ (scripts : List (List Tick)) (s s2 : AsyncRequestsSender) (out : List Response),
      Canceled code s → (∀ sc ∈ scripts, canceledOnly sc = true) →
      drain cfg scripts s = .ok (s2, out) → ∀ x ∈ out, x.swResponse = .error code := by
  intro scripts
  induction scripts with
  | nil =>
    intro s s2 out _ _ h
    cases hd : (done s).1 with
    | false => simp [drain, hd] at h
    | true =>
      simp only [drain, hd, if_true, Except.ok.injEq, Prod.mk.injEq] at h
      obtain ⟨-, rfl⟩ := h
      intro x hx
      simp at hx
  | cons script scripts ih =>
    intro s s2 out hs hall h
    cases hd : (done s).1 with
    | true =>
      simp only [drain, hd, if_true, Except.ok.injEq, Prod.mk.injEq] at h
      obtain ⟨-, rfl⟩ := h
      intro x hx
      simp at hx
    | false =>
      simp only [drain, hd, Bool.false_eq_true, if_false] at h
      have hds : (done s).2 = s := rfl
      rw [hds] at h
      cases hn : next cfg script s with
      | blocked s3 => simp [hn] at h
      | fault f => simp [hn] at h
      | returned r s1 =>
        simp only [hn] at h
        cases hdr : drain cfg scripts s1 with
        | error f => simp [hdr] at h
        | ok q =>
          obtain ⟨s3, rs⟩ := q
          simp only [hdr, Except.ok.injEq, Prod.mk.injEq] at h
          obtain ⟨rfl, rfl⟩ := h
          rw [next_of_not_done hd] at hn
          obtain ⟨hr, hs1⟩ := canceled_nextLoop cfg script s r s1 hs
            (hall script (List.mem_cons_self _ _)) hn
          intro x hx
          rcases List.mem_cons.1 hx with rfl | hx
          · exact hr
          · exact ih s1 s3 rs hs1 (fun sc hsc => hall sc (List.mem_cons_of_mem _ hsc)) hdr x hx

theorem remaining_set : ∀ (ks : List (Bool × ShardId)) (i : Nat) (id : ShardId),
    ks[i]? = some (false, id) →
    (remaining ks).Perm (id :: remaining (ks.set i (true, id))) := by
  intro ks
  induction ks with
  | nil => intro i id h; simp at h
  | cons k rest ih =>
    intro i id h
    cases i with
    | zero =>
      simp only [List.getElem?_cons_zero, Option.some.injEq] at h
      subst h
      simp [remaining]
    | succ i =>
      simp only [List.getElem?_cons_succ] at h
      have h1 := ih i id h
      simp only [List.set_cons_succ]
      cases hk : k.1 with
      | true =>
        simpa [remaining, hk] using h1
      | false =>
        have e1 : remaining (k :: rest.set i (true, id)) =
            k.2 :: remaining (rest.set i (true, id)) := by simp [remaining, hk]
        have e2 : remaining (k :: rest) = k.2 :: remaining rest := by simp [remaining, hk]
        rw [e1, e2]
        exact (List.Perm.cons _ h1).trans (List.Perm.swap _ _ _)

theorem remaining_done {s : AsyncRequestsSender} (h : (done s).1 = true) :
    remaining (keys s) = [] := by
  simp only [done, List.all_eq_true] at h
  simp only [remaining, keys, List.map_eq_nil_iff, List.filter_eq_nil_iff, List.mem_map,
    forall_exists_index, and_imp, forall_apply_eq_imp_iff₂, RemoteData.key]
  intro r hr
  simp [h r hr]

theorem remaining_length (s : AsyncRequestsSender) :
    (remaining (keys s)).length = pending s := by
  simp [remaining, pending, List.countP_eq_length_filter]

/-- The responses the loop of the destructor drains are those of the slots
that were not terminal. -/
theorem drain_remaining (cfg : Config) :
    ∀ (scripts : List (List Tick)) (s s2 : AsyncRequestsSender) (out : List Response),
      drain cfg scripts s = .ok (s2, out) →
      (out.map fun r => r.shardId).Perm (remaining (keys s)) := by
  intro scripts
  induction scripts with
  | nil =>
    intro s s2 out h
    cases hd : (done s).1 with
    | false => simp [drain, hd] at h
    | true =>
      simp only [drain, hd, if_true, Except.ok.injEq, Prod.mk.injEq] at h
      obtain ⟨-, rfl⟩ := h
      rw [remaining_done hd]
      exact List.Perm.refl _
  | cons script scripts ih =>
    intro s s2 out h
    cases hd : (done s).1 with
    | true =>
      simp only [drain, hd, if_true, Except.ok.injEq, Prod.mk.injEq] at h
      obtain ⟨-, rfl⟩ := h
      rw [remaining_done hd]
      exact List.Perm.refl _
    | false =>
      simp only [drain, hd, Bool.false_eq_true, if_false] at h
      have hds : (done s).2 = s := rfl
      rw [hds] at h
      cases hn : next cfg script s with
      | blocked s3 => simp [hn] at h
      | fault f => simp [hn] at h
      | returned r s1 =>
        simp only [hn] at h
        cases hdr : drain cfg scripts s1 with
        | error f => simp [hdr] at h
        | ok q =>
          obtain ⟨s3, rs⟩ := q
          simp only [hdr, Except.ok.injEq, Prod.mk.injEq] at h
          obtain ⟨rfl, rfl⟩ := h
          obtain ⟨i, hi, hset⟩ := next_keys hn
          have h1 := ih s1 s3 rs hdr
          rw [hset] at h1
          simp only [List.map_cons]
          exact (List.Perm.cons _ h1).trans (remaining_set (keys s) i r.shardId hi).symm

/-- The loop of `next` once the interrupt is recorded, on a state whose slots
are linked: it returns, or it is still waiting when the script ends, or the
script runs a callback for a slot that is not in flight; the interrupt status,
`_stopRetrying` and the calls stay as they are. -/
theorem nextLoop_recorded (cfg : Config) {code : ErrorCode} :
    ∀ (script : List Tick) (s : AsyncRequestsSender), Wf s → s._remotes ≠ [] →
      s._stopRetrying = true → s._interruptStatus = .error code →
      (∃ r s2, nextLoop cfg script s = .returned r s2 ∧ Recorded code s.calls s2) ∨
      (∃ s2, nextLoop cfg script s = .blocked s2 ∧ Recorded code s.calls s2) ∨
      nextLoop cfg script s = .fault .environment := by
  intro script
  induction script with
  | nil =>
    intro s _ _ hstop hint
    exact .inr (.inl ⟨s, rfl, hint, hstop, rfl⟩)
  | cons tick script ih =>
    intro s hs hne hstop hint
    obtain ⟨res, s1, hr⟩ := ready_total_wf cfg tick.oracle hs hne
    obtain ⟨hcalls, hstop1, hint1, -⟩ := _ready_stopped hstop hr
    have hint2 : s1._interruptStatus = .error code := hint1.trans hint
    have hs1 : Wf s1 := wf_ready hs hr
    have hne1 : s1._remotes ≠ [] := by
      intro he
      have := (_ready_flags hr).2.2.1
      rw [he] at this
      exact hne (List.length_eq_zero.1 this.symm)
    unfold nextLoop
    cases res with
    | some resp =>
      simp only [hr]
      exact .inl ⟨resp, s1, rfl, hint2, hstop1, hcalls⟩
    | none =>
      simp only [hr, hint2]
      have hback : ∀ (x : AsyncRequestsSender), Wf x → x._remotes ≠ [] →
          Recorded code s1.calls x →
          (∃ r s2, nextLoop cfg script x = .returned r s2 ∧ Recorded code s.calls s2) ∨
          (∃ s2, nextLoop cfg script x = .blocked s2 ∧ Recorded code s.calls s2) ∨
          nextLoop cfg script x = .fault .environment := by
        intro x hx hnx ⟨g1, g2, g3⟩
        have := ih x hx hnx g2 g1
        rw [g3, hcalls] at this
        exact this
      cases hw : tick.wait with
      | interrupted c =>
        simp only []
        cases hn : s1._notification with
        | true =>
          simp only [if_true]
          exact hback s1 hs1 hne1 ⟨hint2, hstop1, rfl⟩
        | false =>
          simp only [Bool.false_eq_true, if_false]
          exact .inr (.inl ⟨s1, rfl, hint2, hstop1, hcalls⟩)
      | callbacks arrivals =>
        simp only []
        rcases deliver_safe arrivals s1 hs1 with ⟨s3, hd⟩ | hd
        · obtain ⟨f1, f2, f3⟩ := deliver_flags arrivals s1 s3 hd
          obtain ⟨hs3, hlen⟩ := wf_deliver arrivals s1 s3 hs1 hd
          have hne3 : s3._remotes ≠ [] := by
            intro he
            rw [he] at hlen
            exact hne1 (List.length_eq_zero.1 hlen.symm)
          simp only [hd]
          cases hn : s3._notification with
          | true =>
            simp only [if_true]
            exact hback s3 hs3 hne3 ⟨f1.trans hint2, f2.trans hstop1, f3⟩
          | false =>
            simp only [Bool.false_eq_true, if_false]
            exact .inr (.inl ⟨s3, rfl, f1.trans hint2, f2.trans hstop1, f3.trans hcalls⟩)
        · simp [hd]

/-- With no slot ready and an executor that runs no callback, the loop of
`next` on a recorded interrupt keeps waiting. -/
theorem nextLoop_waits (cfg : Config) {code : ErrorCode} (script : List Tick)
    {s : AsyncRequestsSender} (hs : Wf s) (hne : s._remotes ≠ [])
    (hstop : s._stopRetrying = true) (hint : s._interruptStatus = .error code)
    (hnone : ∀ r ∈ s._remotes, r.ready = false) (hquiet : ∀ t ∈ script, t.wait.slots = []) :
    ∃ s2, nextLoop cfg script s = .blocked s2 := by
  cases script with
  | nil => exact ⟨s, rfl⟩
  | cons tick script =>
    rcases ready_stopped_cases cfg tick.oracle hs hstop hne with
      ⟨resp, s1, hr⟩ | ⟨s1, hr, -, -, -⟩
    · obtain ⟨-, -, -, hcase⟩ := _ready_stopped hstop hr
      rcases hcase with ⟨hres, -⟩ | ⟨i, r, resp2, r2, -, hi, hready, -, -⟩
      · exact absurd hres (by simp)
      · have := hnone r (List.getElem?_mem hi)
        rw [hready] at this
        exact absurd this (by decide)
    · have hn : s1._notification = false := _ready_unsignaled hs hr
      have hint1 : s1._interruptStatus = .error code := (_ready_flags hr).1.trans hint
      have hq := hquiet tick (List.mem_cons_self _ _)
      unfold nextLoop
      simp only [hr, hint1]
      cases hw : tick.wait with
      | interrupted c =>
        simp only [hn, Bool.false_eq_true, if_false]
        exact ⟨s1, rfl⟩
      | callbacks arrivals =>
        rw [hw] at hq
        simp only [Wait.slots, List.map_eq_nil_iff] at hq
        subst hq
        simp only [deliver, hn, Bool.false_eq_true, if_false]
        exact ⟨s1, rfl⟩

theorem done_keys (s : AsyncRequestsSender) : (done s).1 = (keys s).all fun k => k.1 := by
  simp only [done, keys]
  generalize s._remotes = rs
  induction rs with
  | nil => rfl
  | cons r rest ih => simp [List.all_cons, RemoteData.key, ih]

/-- The state in which `next` goes on after an interrupted wait: its slots
are those the last `_ready` left, none of them ready. -/
theorem interruptedWait_state {cfg : Config} {o : Nat → Answers} {s s1 : AsyncRequestsSender}
    (code : ErrorCode) (hs : Wf s) (hd : (done s).1 = false)
    (hr : _ready cfg o s = some (none, s1)) :
    Wf (interruptedWait code s1) ∧ (interruptedWait code s1)._remotes ≠ [] ∧
    (done (interruptedWait code s1)).1 = false ∧
    (∀ r ∈ (interruptedWait code s1)._remotes, r.ready = false) ∧
    Canceled code (interruptedWait code s1) := by
  have hs1 : Wf s1 := wf_ready hs hr
  have hne : s._remotes ≠ [] := by
    intro he
    simp [done, he] at hd
  have hne1 : s1._remotes ≠ [] := by
    intro he
    have := (_ready_flags hr).2.2.1
    rw [he] at this
    exact hne (List.length_eq_zero.1 this.symm)
  have hk : keys s1 = keys s := by
    rcases _ready_keys hr with ⟨-, hk⟩ | ⟨r, i, hres, -⟩
    · exact hk
    · exact absurd hres (by simp)
  have hd1 : (done (interruptedWait code s1)).1 = false := by
    rw [done_keys]
    have : keys (interruptedWait code s1) = keys s1 := rfl
    rw [this, hk, ← done_keys]
    exact hd
  have hnone : ∀ r ∈ s1._remotes, r.ready = false := by
    obtain ⟨mid, cs, n, -, -, -, -, -, hres⟩ := _ready_spec hr
    rcases hres with ⟨-, hrem, hall⟩ | ⟨i, r, resp, r2, hresp, -⟩
    · rw [hrem]
      exact hall
    · exact absurd hresp (by simp)
  refine ⟨hs1, hne1, hd1, hnone, rfl, rfl, ?_⟩
  intro r hr2 hdr
  left
  have := hnone r hr2
  simp only [RemoteData.ready, hdr, Bool.not_false, Bool.and_true] at this
  cases hsw : r.swResponse with
  | none => rfl
  | some sw => rw [hsw] at this; exact absurd this (by simp)

/-- C12 (interrupted wait).  In a reachable state that is not done, let `next`
wait (its `_ready` found no ready slot) with no interrupt recorded, and let
the wait be interrupted with status `code`.  Then the call is, right after the
`catch` block, in the state in which `_interruptStatus` is that status,
`_stopRetrying` is set, the slots are as they were and the executor's `cancel`
has been called once, with its handle, for each slot that has a valid handle
and for no other slot; it goes on with its loop from that state.  Whatever
the environment does next, the call returns a response or is still waiting,
in both cases with the interrupt status recorded, `_stopRetrying` set and no
call made beyond those cancels, or the environment runs a callback for a slot
that is not in flight; and there is an environment under which the call
returns.  From then on an interruption has no effect on a wait: the rest of
this call, and every call of `next` in every execution from the state this
call returns, behaves as if nothing had happened during an interrupted wait;
the interrupt status and `_stopRetrying` stay as they are. -/
theorem C12_interrupted_wait (cfg : Config) (oracle : Nat → Answers) (requests : List Request)
    (s0 s : AsyncRequestsSender) (ops : List Op) (out0 : List Response)
    (o : Nat → Answers) (code : ErrorCode) (s1 : AsyncRequestsSender)
    (hc : construct cfg oracle requests = some s0) (hrun : run cfg s0 ops = .ok (s, out0))
    (hd : (done s).1 = false) (hr : _ready cfg o s = some (none, s1))
    (hok : s._interruptStatus = .OK) :
    next cfg [⟨o, .interrupted code⟩] s = .blocked (interruptedWait code s1) ∧
    (∀ script, next cfg (⟨o, .interrupted code⟩ :: script) s =
      nextLoop cfg script (interruptedWait code s1)) ∧
    (interruptedWait code s1)._interruptStatus = .error code ∧
    (interruptedWait code s1)._stopRetrying = true ∧
    (interruptedWait code s1)._remotes = s1._remotes ∧
    (interruptedWait code s1).calls = s1.calls ++ cancelCalls 0 s1._remotes ∧
    (∀ c ∈ cancelCalls 0 s1._remotes, ∃ j h, c = Call.cancel j h) ∧
    (∀ i, slotCalls i (cancelCalls 0 s1._remotes) =
      match s1._remotes[i]? with
      | some r => (match r.cbHandle.id with
        | some h => [Call.cancel i h]
        | none => [])
      | none => []) ∧
    (∀ script,
      (∃ r s2, next cfg (⟨o, .interrupted code⟩ :: script) s = .returned r s2 ∧
        Recorded code (s1.calls ++ cancelCalls 0 s1._remotes) s2) ∨
      (∃ s2, next cfg (⟨o, .interrupted code⟩ :: script) s = .blocked s2 ∧
        Recorded code (s1.calls ++ cancelCalls 0 s1._remotes) s2) ∨
      next cfg (⟨o, .interrupted code⟩ :: script) s = .fault .environment) ∧
    (∃ script r s2, next cfg (⟨o, .interrupted code⟩ :: script) s = .returned r s2) ∧
    (∀ script, next cfg (⟨o, .interrupted code⟩ :: script) s =
      next cfg (⟨o, .interrupted code⟩ :: script.map Tick.uninterrupted) s) ∧
    (∀ script r s2, next cfg (⟨o, .interrupted code⟩ :: script) s = .returned r s2 →
      ∀ ops2 s3 out, run cfg s2 ops2 = .ok (s3, out) →
        s3._interruptStatus = .error code ∧ s3._stopRetrying = true ∧
        ∀ script2, next cfg script2 s3 = next cfg (script2.map Tick.uninterrupted) s3) := by
  have hwf : Wf s := wf_reachable hc hrun
  have hs1 : s1._interruptStatus = .OK := by rw [(_ready_flags hr).1, hok]
  obtain ⟨hwi, hnei, hdi, -, -⟩ := interruptedWait_state code hwf hd hr
  have hmain : ∀ script, next cfg (⟨o, .interrupted code⟩ :: script) s =
      nextLoop cfg script (interruptedWait code s1) := by
    intro script
    rw [next_of_not_done hd, nextLoop]
    simp only [hr, hs1]
  refine ⟨by rw [hmain]; rfl, hmain, rfl, rfl, rfl, rfl, cancelCalls_isCancel _ 0, ?_, ?_, ?_,
    ?_, ?_⟩
  · intro i
    simpa using cancelCalls_slot s1._remotes 0 i
  · intro script
    rw [hmain]
    exact nextLoop_recorded cfg script (interruptedWait code s1) hwi hnei rfl rfl
  · obtain ⟨script, r, s2, hn⟩ :=
      next_returns cfg o ⟨⟨.error ErrorCodes.CallbackCanceled, 0⟩⟩ hwi rfl hdi
    rw [next_of_not_done hdi] at hn
    exact ⟨script, r, s2, by rw [hmain]; exact hn⟩
  · intro script
    rw [hmain, hmain]
    exact nextLoop_uninterrupted cfg script _ code rfl
  · intro script r s2 hn ops2 s3 out hrun2
    rw [hmain] at hn
    obtain ⟨h1, h2⟩ := nextLoop_returned_flags hn rfl rfl
    obtain ⟨g1, g2, -, -⟩ := run_flags hrun2
    refine ⟨g1 code h1, g2 h2, ?_⟩
    intro script2
    cases hd3 : (done s3).1 with
    | true => rw [next_of_done hd3, next_of_done hd3]
    | false =>
      rw [next_of_not_done hd3, next_of_not_done hd3]
      exact nextLoop_uninterrupted cfg script2 s3 code (g1 code h1)

theorem C12_interrupted_wait_witness :
    construct exampleConfig (fun _ => exampleAnswers) twoRequests = some twoStart ∧
    (done twoStart).1 = false ∧
    _ready exampleConfig (fun _ => exampleAnswers) twoStart = some (none, twoStart) ∧
    twoStart._interruptStatus = .OK ∧
    interruptedWait ErrorCodes.Interrupted twoStart = twoInterrupted ∧
    next exampleConfig [⟨fun _ => exampleAnswers, .interrupted ErrorCodes.Interrupted⟩]
        twoStart = .blocked (interruptedWait ErrorCodes.Interrupted twoStart) :=
  ⟨rfl, rfl, rfl, rfl, rfl,
    (C12_interrupted_wait exampleConfig (fun _ => exampleAnswers) twoRequests twoStart
      twoStart [] [] (fun _ => exampleAnswers) ErrorCodes.Interrupted twoStart
      rfl rfl rfl rfl rfl).1⟩

/-- C13, as amended.  In a reachable state that is not done, let the wait of
`next` be interrupted with status `code`, no interrupt being recorded before.
The call does not raise the interrupt: it goes on with its loop from the state
in which the interrupt is recorded and the pending requests are cancelled, so
that it returns a response, is still waiting, or the environment runs a
callback for a slot that is not in flight.  With an executor that runs no
callback the call keeps waiting.  With an executor that replies only to the
cancellation, with CallbackCanceled: when the interrupted call returns, it
returns a Failure with the interrupt status for one slot that was not
terminal, and the destructor then drains, as Failures with the interrupt
status, exactly the other slots that were not terminal; with two shards in
flight that is one Failure, of the other shard. -/
theorem C13_interrupt_not_raised (cfg : Config) (oracle : Nat → Answers)
    (requests : List Request) (s0 s : AsyncRequestsSender) (ops : List Op)
    (out0 : List Response) (o : Nat → Answers) (code : ErrorCode) (s1 : AsyncRequestsSender)
    (hc : construct cfg oracle requests = some s0) (hrun : run cfg s0 ops = .ok (s, out0))
    (hd : (done s).1 = false) (hr : _ready cfg o s = some (none, s1))
    (hok : s._interruptStatus = .OK) :
    (∀ script, next cfg (⟨o, .interrupted code⟩ :: script) s =
      nextLoop cfg script (interruptedWait code s1)) ∧
    (∀ script,
      (∃ r s2, next cfg (⟨o, .interrupted code⟩ :: script) s = .returned r s2) ∨
      (∃ s2, next cfg (⟨o, .interrupted code⟩ :: script) s = .blocked s2) ∨
      next cfg (⟨o, .interrupted code⟩ :: script) s = .fault .environment) ∧
    (∀ script, (∀ t ∈ script, t.wait.slots = []) →
      ∃ s2, next cfg (⟨o, .interrupted code⟩ :: script) s = .blocked s2) ∧
    (∀ script r s2, canceledOnly script = true →
      next cfg (⟨o, .interrupted code⟩ :: script) s = .returned r s2 →
      r.swResponse = .error code ∧
      (∃ i, (keys s)[i]? = some (false, r.shardId) ∧
        keys s2 = (keys s).set i (true, r.shardId)) ∧
      ∀ scripts s3 out, (∀ sc ∈ scripts, canceledOnly sc = true) →
        destructor cfg scripts s2 = .ok (s3, out) →
        (∀ x ∈ out, x.swResponse = .error code) ∧
        (r.shardId :: out.map fun x => x.shardId).Perm (remaining (keys s)) ∧
        out.length + 1 = pending s) := by
  have hwf : Wf s := wf_reachable hc hrun
  have hs1 : s1._interruptStatus = .OK := by rw [(_ready_flags hr).1, hok]
  obtain ⟨hwi, hnei, hdi, hnone, hcan⟩ := interruptedWait_state code hwf hd hr
  have hmain : ∀ script, next cfg (⟨o, .interrupted code⟩ :: script) s =
      nextLoop cfg script (interruptedWait code s1) := by
    intro script
    rw [next_of_not_done hd, nextLoop]
    simp only [hr, hs1]
  refine ⟨hmain, ?_, ?_, ?_⟩
  · intro script
    rw [hmain]
    rcases nextLoop_recorded cfg script (interruptedWait code s1) hwi hnei rfl rfl with
      ⟨r, s2, h, -⟩ | ⟨s2, h, -⟩ | h
    · exact .inl ⟨r, s2, h⟩
    · exact .inr (.inl ⟨s2, h⟩)
    · exact .inr (.inr h)
  · intro script hquiet
    rw [hmain]
    exact nextLoop_waits cfg script hwi hnei rfl rfl hnone hquiet
  · intro script r s2 hco hn
    obtain ⟨i, hi, hset⟩ := next_keys hn
    rw [hmain] at hn
    obtain ⟨hresp, hs2⟩ := canceled_nextLoop cfg script _ r s2 hcan hco hn
    refine ⟨hresp, ⟨i, hi, hset⟩, ?_⟩
    intro scripts s3 out hall hdes
    have hcan2 : Canceled code (_cancelPendingRequests s2) := ⟨hs2.1, rfl, hs2.2.2⟩
    have hst := canceled_drain cfg scripts _ s3 out hcan2 hall hdes
    have hperm := drain_remaining cfg scripts _ s3 out hdes
    have hk : keys (_cancelPendingRequests s2) = keys s2 := rfl
    rw [hk, hset] at hperm
    have hall2 : (r.shardId :: out.map fun x => x.shardId).Perm (remaining (keys s)) :=
      (List.Perm.cons _ hperm).trans (remaining_set (keys s) i r.shardId hi).symm
    refine ⟨hst, hall2, ?_⟩
    have := hall2.length_eq
    rw [remaining_length] at this
    simpa using this

theorem C13_interrupt_not_raised_witness :
    construct exampleConfig (fun _ => exampleAnswers) twoRequests = some twoStart ∧
    pending twoStart = 2 ∧
    next exampleConfig
        [⟨fun _ => exampleAnswers, .interrupted ErrorCodes.Interrupted⟩,
         ⟨fun _ => exampleAnswers, .callbacks [(1, canceledReply)]⟩, idleTick] twoStart =
      .returned ⟨2, .error ErrorCodes.Interrupted, some 100⟩ twoSecondOut ∧
    destructor exampleConfig
        [[⟨fun _ => exampleAnswers, .callbacks [(0, canceledReply)]⟩, idleTick]]
        twoSecondOut =
      .ok (twoSecondDrained, [⟨1, .error ErrorCodes.Interrupted, some 100⟩]) ∧
    ∀ scripts s3 out, (∀ sc ∈ scripts, canceledOnly sc = true) →
      destructor exampleConfig scripts twoSecondOut = .ok (s3, out) →
      (∀ x ∈ out, x.swResponse = .error ErrorCodes.Interrupted) ∧
      ((2 : ShardId) :: out.map fun x => x.shardId).Perm (remaining (keys twoStart)) ∧
      out.length + 1 = pending twoStart :=
  ⟨rfl, rfl, rfl, rfl,
    ((C13_interrupt_not_raised exampleConfig (fun _ => exampleAnswers) twoRequests twoStart
      twoStart [] [] (fun _ => exampleAnswers) ErrorCodes.Interrupted twoStart
      rfl rfl rfl rfl rfl).2.2.2
      [⟨fun _ => exampleAnswers, .callbacks [(1, canceledReply)]⟩, idleTick]
      ⟨2, .error ErrorCodes.Interrupted, some 100⟩ twoSecondOut rfl rfl).2.2⟩

end AsyncRequestsSender

namespace SplitChunk

/-- What the loop checks: for each pair of neighbours in the boundary sequence
the lookup at the first yields a chunk whose upper bound is the second. -/
theorem checkBounds_iff (m : CollectionMetadata) :
    ∀ (l : List BSONObj) (startKey b : BSONObj),
      checkBounds m startKey (l ++ [b]) = true ↔
      ∀ p ∈ (startKey :: l).zip (l ++ [b]), ∃ c, m.getNextChunk p.1 = some c ∧ c.max = p.2 := by
  intro l
  induction l with
  | nil =>
    intro startKey b
    simp only [List.nil_append, checkBounds, List.zip_cons_cons, List.zip_nil_right,
      List.mem_singleton, forall_eq]
    cases h : m.getNextChunk startKey with
    | none => simp
    | some c =>
      by_cases hc : c.max = b <;> simp [hc]
  | cons e l ih =>
    intro startKey b
    simp only [List.cons_append, checkBounds, List.zip_cons_cons, List.mem_cons, forall_eq_or_imp]
    cases h : m.getNextChunk startKey with
    | none => simp
    | some c =>
      by_cases hc : c.max = e
      · simp only [hc, bne_self_eq_false, Bool.false_eq_true, if_false, Option.some.injEq,
          exists_eq_left', true_and]
        exact ih e b
      · simp [hc]

/-- The loop never reads the lower bound of the chunks the lookup yields. -/
theorem checkBounds_min (m : CollectionMetadata) (f : ChunkType → BSONObj) :
    ∀ (bounds : List BSONObj) (startKey : BSONObj),
      checkBounds { getNextChunk := fun k => (m.getNextChunk k).map fun c => { c with min := f c } }
        startKey bounds = checkBounds m startKey bounds := by
  intro bounds
  induction bounds with
  | nil => intro startKey; rfl
  | cons e rest ih =>
    intro startKey
    simp only [checkBounds]
    cases h : m.getNextChunk startKey with
    | none => simp
    | some c =>
      simp only [Option.map_some']
      rw [ih e]

/-- C27 (metadata check after a split): `checkMetadataForSuccessfulSplitChunk`
throws StaleEpoch when the collection has no sharding metadata; otherwise it
returns true exactly when, for each pair of neighbours in the boundary
sequence min, k1, ..., kn, max, the lookup `getNextChunk` at the first yields
a chunk whose upper bound is the second.  The lower bound of that chunk is
never read: replacing the lower bounds of all chunks does not change the
result.  So the function returns true for the range [0, 20) and the split key
10 on metadata holding the chunks [-5, 10) and [10, 20), which has no chunk
[0, 10), and on metadata holding [0, 10) and [15, 20), which has no chunk
[10, 20); it returns true on [0, 10), [10, 20) and false on the unsplit chunk
[0, 20). -/
theorem C27_metadata_check :
    (∀ (chunkRange : ChunkRange) (splitKeys : List BSONObj),
      checkMetadataForSuccessfulSplitChunk none chunkRange splitKeys =
        .error ErrorCodes.StaleEpoch) ∧
    (∀ (m : CollectionMetadata) (chunkRange : ChunkRange) (splitKeys : List BSONObj),
      ∃ b, checkMetadataForSuccessfulSplitChunk (some m) chunkRange splitKeys = .ok b ∧
        (b = true ↔ ∀ p ∈ (chunkRange.min :: splitKeys).zip (splitKeys ++ [chunkRange.max]),
          ∃ c, m.getNextChunk p.1 = some c ∧ c.max = p.2)) ∧
    (∀ (m : CollectionMetadata) (f : ChunkType → BSONObj) (chunkRange : ChunkRange)
      (splitKeys : List BSONObj),
      checkMetadataForSuccessfulSplitChunk
        (some { getNextChunk := fun k => (m.getNextChunk k).map fun c => { c with min := f c } })
        chunkRange splitKeys =
      checkMetadataForSuccessfulSplitChunk (some m) chunkRange splitKeys) ∧
    checkMetadataForSuccessfulSplitChunk (some (metadataOf widerChunks))
      { min := longKey 0, max := longKey 20 } [longKey 10] = .ok true ∧
    (∀ c ∈ widerChunks, c.min ≠ longKey 0) ∧
    checkMetadataForSuccessfulSplitChunk (some (metadataOf gapChunks))
      { min := longKey 0, max := longKey 20 } [longKey 10] = .ok true ∧
    (∀ c ∈ gapChunks, c.min ≠ longKey 10) ∧
    checkMetadataForSuccessfulSplitChunk (some (metadataOf splitChunks))
      { min := longKey 0, max := longKey 20 } [longKey 10] = .ok true ∧
    checkMetadataForSuccessfulSplitChunk (some (metadataOf unsplitChunks))
      { min := longKey 0, max := longKey 20 } [longKey 10] = .ok false := by
  refine ⟨fun _ _ => rfl, ?_, ?_, rfl, by decide, rfl, by decide, rfl, rfl⟩
  · intro m chunkRange splitKeys
    exact ⟨_, rfl, checkBounds_iff m splitKeys chunkRange.min chunkRange.max⟩
  · intro m f chunkRange splitKeys
    simp only [checkMetadataForSuccessfulSplitChunk]
    rw [checkBounds_min]

/-- The first of the two statuses that is not OK is an error. -/
theorem errorStatus_code {commandStatus writeConcernStatus : Status}
    (h : commandStatus.isOK = false ∨ writeConcernStatus.isOK = false) :
    ∃ code, (if commandStatus.isOK then writeConcernStatus else commandStatus) = .error code ∧
      (commandStatus = .error code ∨
        (commandStatus = .OK ∧ writeConcernStatus = .error code)) := by
  cases commandStatus with
  | error c => exact ⟨c, by simp [Status.isOK], .inl rfl⟩
  | OK =>
    cases writeConcernStatus with
    | error c => exact ⟨c, by simp [Status.isOK], .inr ⟨rfl, rfl⟩⟩
    | OK => simp [Status.isOK] at h

/-- C28, as the code has it: with a non-OK command status that is not
StaleEpoch, a successful refresh and a collection without sharding metadata
`splitChunk` throws StaleEpoch and does not return the command status. -/
theorem C28_counterexample :
    unshardedEnv.lock = .OK ∧
    unshardedEnv.runCommandWithFixedRetryAttempts =
      .value { commandStatus := .error ErrorCodes.HostUnreachable, writeConcernStatus := .OK } ∧
    unshardedEnv.refreshMetadataNow = .OK ∧
    (∀ keys, checkMetadataForSuccessfulSplitChunk unshardedEnv.getMetadata
      { min := longKey 0, max := longKey 20 } keys ≠ .ok true) ∧
    splitChunk unshardedEnv [] { min := longKey 0, max := longKey 20 } [longKey 10] =
      (.thrown ErrorCodes.StaleEpoch,
        [.lock, .commit { min := longKey 0, max := longKey 20 } [longKey 10], .refresh]) ∧
    splitChunk unshardedEnv [] { min := longKey 0, max := longKey 20 } [longKey 10] ≠
      (.returned (.error ErrorCodes.HostUnreachable),
        [.lock, .commit { min := longKey 0, max := longKey 20 } [longKey 10], .refresh]) :=
  ⟨rfl, rfl, rfl, fun _ => by simp [unshardedEnv, quietEnv, checkMetadataForSuccessfulSplitChunk],
    rfl, by decide⟩

/-- C28 (error reconciliation), amended: once the lock is held, the split
keys have passed the check and the config server has replied with a command
status and a write-concern status: a command status StaleEpoch is returned
without a refresh; when both statuses are OK there is no refresh and the call
goes on to the top-chunk check; otherwise the metadata is refreshed, and
(a) when the refresh fails, the error returned has the code of the command
status if that is not OK, else of the write-concern status; (b) when the
metadata check returns true, the call goes on to the same top-chunk check as
after a successful commit; (c) when the metadata check returns false, the
command status is returned if it is not OK, else the write-concern status;
(d) when the collection has no sharding metadata after the refresh, the call
throws StaleEpoch. -/
theorem C28_reconciliation (env : Env) (keyPatternObj : BSONObj) (chunkRange : ChunkRange)
    (splitKeys : List BSONObj) (commandStatus writeConcernStatus : Status)
    (hlock : env.lock = .OK)
    (hkeys : (env.isHashedKeyPattern keyPatternObj &&
      splitKeys.any (fun splitKey => splitKey.any fun e => e.type != .NumberLong)) = false)
    (hreply : env.runCommandWithFixedRetryAttempts = .value ⟨commandStatus, writeConcernStatus⟩) :
    (commandStatus = .error ErrorCodes.StaleEpoch →
      splitChunk env keyPatternObj chunkRange splitKeys =
        (.returned (.error ErrorCodes.StaleEpoch), [.lock, .commit chunkRange splitKeys])) ∧
    (commandStatus = .OK → writeConcernStatus = .OK →
      splitChunk env keyPatternObj chunkRange splitKeys =
        (topChunkCheck env keyPatternObj chunkRange splitKeys,
          [.lock, .commit chunkRange splitKeys])) ∧
    (commandStatus ≠ .error ErrorCodes.StaleEpoch →
      (commandStatus.isOK = false ∨ writeConcernStatus.isOK = false) →
      ∃ code, (commandStatus = .error code ∨
          (commandStatus = .OK ∧ writeConcernStatus = .error code)) ∧
        (splitChunk env keyPatternObj chunkRange splitKeys).2 =
          [.lock, .commit chunkRange splitKeys, .refresh] ∧
        (env.refreshMetadataNow.isOK = false →
          (splitChunk env keyPatternObj chunkRange splitKeys).1 = .returned (.error code)) ∧
        (env.refreshMetadataNow = .OK →
          checkMetadataForSuccessfulSplitChunk env.getMetadata chunkRange splitKeys = .ok true →
          (splitChunk env keyPatternObj chunkRange splitKeys).1 =
            topChunkCheck env keyPatternObj chunkRange splitKeys) ∧
        (env.refreshMetadataNow = .OK →
          checkMetadataForSuccessfulSplitChunk env.getMetadata chunkRange splitKeys = .ok false →
          (splitChunk env keyPatternObj chunkRange splitKeys).1 = .returned (.error code)) ∧
        (env.refreshMetadataNow = .OK → env.getMetadata = none →
          (splitChunk env keyPatternObj chunkRange splitKeys).1 =
            .thrown ErrorCodes.StaleEpoch)) := by
  refine ⟨?_, ?_, ?_⟩
  · intro hcs
    subst hcs
    simp only [splitChunk, hlock, hkeys, hreply, Bool.false_eq_true, if_false, if_true,
      Result.ofStatus]
  · intro hcs hwc
    subst hcs hwc
    simp [splitChunk, hlock, hkeys, hreply, Status.isOK]
  · intro hne hnot
    obtain ⟨code, hcode, hwhich⟩ := errorStatus_code hnot
    have hnot2 : (!commandStatus.isOK || !writeConcernStatus.isOK) = true := by
      rcases hnot with h | h <;> simp [h]
    refine ⟨code, hwhich, ?_, ?_, ?_, ?_, ?_⟩
    · simp only [splitChunk, hlock, hkeys, hreply, Bool.false_eq_true, if_false, hne, hnot2,
        if_true]
      cases env.refreshMetadataNow with
      | error c => rfl
      | OK =>
        simp only []
        cases checkMetadataForSuccessfulSplitChunk env.getMetadata chunkRange splitKeys with
        | error c => rfl
        | ok b =>
          simp only []
          split_ifs <;> rfl
    · intro href
      cases hr : env.refreshMetadataNow with
      | OK => rw [hr] at href; simp [Status.isOK] at href
      | error c =>
        simp only [splitChunk, hlock, hkeys, hreply, Bool.false_eq_true, if_false, hne, hnot2,
          if_true, hr, hcode, Result.ofStatus]
    · intro href hchk
      simp only [splitChunk, hlock, hkeys, hreply, Bool.false_eq_true, if_false, hne, hnot2,
        if_true, href, hchk]
    · intro href hchk
      simp only [splitChunk, hlock, hkeys, hreply, Bool.false_eq_true, if_false, hne, hnot2,
        if_true, href, hchk]
      rcases hwhich with h | ⟨h1, h2⟩
      · subst h
        simp [Status.isOK, Result.ofStatus]
      · subst h1 h2
        simp [Status.isOK, Result.ofStatus]
    · intro href hmeta
      simp only [splitChunk, hlock, hkeys, hreply, Bool.false_eq_true, if_false, hne, hnot2,
        if_true, href, hmeta, checkMetadataForSuccessfulSplitChunk]

theorem C28_reconciliation_witness :
    notCommittedEnv.lock = .OK ∧
    checkMetadataForSuccessfulSplitChunk notCommittedEnv.getMetadata
      { min := longKey 0, max := longKey 20 } [longKey 10] = .ok false ∧
    splitChunk notCommittedEnv [] { min := longKey 0, max := longKey 20 } [longKey 10] =
      (.returned (.error ErrorCodes.HostUnreachable),
        [.lock, .commit { min := longKey 0, max := longKey 20 } [longKey 10], .refresh]) ∧
    (.error ErrorCodes.HostUnreachable ≠ Status.error ErrorCodes.StaleEpoch →
      ((Status.error ErrorCodes.HostUnreachable).isOK = false ∨ Status.OK.isOK = false) →
      ∃ code, (Status.error ErrorCodes.HostUnreachable = .error code ∨
          (Status.error ErrorCodes.HostUnreachable = .OK ∧ Status.OK = .error code)) ∧
        (splitChunk notCommittedEnv [] { min := longKey 0, max := longKey 20 } [longKey 10]).2 =
          [.lock, .commit { min := longKey 0, max := longKey 20 } [longKey 10], .refresh] ∧
        (notCommittedEnv.refreshMetadataNow.isOK = false →
          (splitChunk notCommittedEnv [] { min := longKey 0, max := longKey 20 }
            [longKey 10]).1 = .returned (.error code)) ∧
        (notCommittedEnv.refreshMetadataNow = .OK →
          checkMetadataForSuccessfulSplitChunk notCommittedEnv.getMetadata
            { min := longKey 0, max := longKey 20 } [longKey 10] = .ok true →
          (splitChunk notCommittedEnv [] { min := longKey 0, max := longKey 20 }
            [longKey 10]).1 =
            topChunkCheck notCommittedEnv [] { min := longKey 0, max := longKey 20 }
              [longKey 10]) ∧
        (notCommittedEnv.refreshMetadataNow = .OK →
          checkMetadataForSuccessfulSplitChunk notCommittedEnv.getMetadata
            { min := longKey 0, max := longKey 20 } [longKey 10] = .ok false →
          (splitChunk notCommittedEnv [] { min := longKey 0, max := longKey 20 }
            [longKey 10]).1 = .returned (.error code)) ∧
        (notCommittedEnv.refreshMetadataNow = .OK → notCommittedEnv.getMetadata = none →
          (splitChunk notCommittedEnv [] { min := longKey 0, max := longKey 20 }
            [longKey 10]).1 = .thrown ErrorCodes.StaleEpoch)) :=
  ⟨rfl, rfl, rfl,
    (C28_reconciliation notCommittedEnv [] { min := longKey 0, max := longKey 20 } [longKey 10]
      (.error ErrorCodes.HostUnreachable) .OK rfl rfl rfl).2.2⟩

/-- The test of the split keys finds an element exactly when some element of
some split key is not a NumberLong. -/
theorem any_not_long (splitKeys : List BSONObj) :
    (splitKeys.any fun splitKey => splitKey.any fun e => e.type != .NumberLong) = true ↔
    ∃ splitKey ∈ splitKeys, ∃ e ∈ splitKey, e.type ≠ .NumberLong := by
  simp [List.any_eq_true]

/-- C29, as the code has it: when the distributed lock is not acquired,
`splitChunk` returns the error of the lock, not CannotSplit, also for a hashed
key pattern and a split point that is not a NumberLong; with the lock acquired
the same call returns CannotSplit. -/
theorem C29_counterexample :
    lockBusyEnv.isHashedKeyPattern [] = true ∧
    (∃ e ∈ doubleKey 10, e.type ≠ .NumberLong) ∧
    splitChunk lockBusyEnv [] { min := longKey 0, max := longKey 20 } [doubleKey 10] =
      (.returned (.error ErrorCodes.LockBusy), [.lock]) ∧
    ErrorCodes.LockBusy ≠ ErrorCodes.CannotSplit ∧
    splitChunk hashedEnv [] { min := longKey 0, max := longKey 20 } [doubleKey 10] =
      (.returned (.error ErrorCodes.CannotSplit), [.lock]) :=
  ⟨rfl, ⟨_, List.mem_singleton.2 rfl, by decide⟩, rfl, by decide, rfl⟩

/-- C29 (split points of a hashed key), amended: for a hashed key pattern and
split keys of which some element is not a NumberLong, `splitChunk` never sends
the commit to the config server, and it returns CannotSplit once the
distributed lock is acquired (without the lock it returns the error of the
lock).  For a key pattern that is not hashed, or split keys whose elements are
all NumberLong, the check rejects nothing: the call ends as it does for a key
pattern that is not hashed, and once the lock is acquired the commit is
sent. -/
theorem C29_hashed_split_points (env : Env) (keyPatternObj : BSONObj)
    (chunkRange : ChunkRange) (splitKeys : List BSONObj) :
    (env.isHashedKeyPattern keyPatternObj = true →
      (∃ splitKey ∈ splitKeys, ∃ e ∈ splitKey, e.type ≠ .NumberLong) →
      (∀ a ∈ (splitChunk env keyPatternObj chunkRange splitKeys).2, a = .lock) ∧
      (env.lock = .OK → splitChunk env keyPatternObj chunkRange splitKeys =
        (.returned (.error ErrorCodes.CannotSplit), [.lock])) ∧
      (∀ code, env.lock = .error code → splitChunk env keyPatternObj chunkRange splitKeys =
        (.returned (.error code), [.lock]))) ∧
    ((env.isHashedKeyPattern keyPatternObj = false ∨
        ∀ splitKey ∈ splitKeys, ∀ e ∈ splitKey, e.type = .NumberLong) →
      splitChunk env keyPatternObj chunkRange splitKeys =
        splitChunk { env with isHashedKeyPattern := fun _ => false } keyPatternObj chunkRange
          splitKeys ∧
      (env.lock = .OK →
        .commit chunkRange splitKeys ∈
          (splitChunk env keyPatternObj chunkRange splitKeys).2)) := by
  constructor
  · intro hh hbad
    have hany := (any_not_long splitKeys).2 hbad
    have hok : env.lock = .OK → splitChunk env keyPatternObj chunkRange splitKeys =
        (.returned (.error ErrorCodes.CannotSplit), [.lock]) := by
      intro hl
      simp only [splitChunk, hl, hh, hany, Bool.and_self, if_true]
    have herr : ∀ code, env.lock = .error code →
        splitChunk env keyPatternObj chunkRange splitKeys =
          (.returned (.error code), [.lock]) := by
      intro code hl
      simp only [splitChunk, hl]
    refine ⟨?_, hok, herr⟩
    intro a ha
    cases hl : env.lock with
    | OK =>
      rw [hok hl] at ha
      simpa using ha
    | error code =>
      rw [herr code hl] at ha
      simpa using ha
  · intro hgood
    have hchk : (env.isHashedKeyPattern keyPatternObj &&
        splitKeys.any (fun splitKey => splitKey.any fun e => e.type != .NumberLong)) = false := by
      rcases hgood with h | h
      · simp [h]
      · have : ¬ (splitKeys.any fun splitKey => splitKey.any fun e => e.type != .NumberLong)
            = true := by
          rw [any_not_long]
          rintro ⟨k, hk, e, he, hne⟩
          exact hne (h k hk e he)
        simp only [Bool.not_eq_true] at this
        simp [this]
    constructor
    · simp only [splitChunk, hchk, Bool.false_and, Bool.false_eq_true, if_false, topChunkCheck]
    · intro hl
      simp only [splitChunk, hl, hchk, Bool.false_eq_true, if_false]
      repeat' split
      all_goals simp

end SplitChunk

namespace DropDatabase

/-- The flag after `_finishDropDatabase` is false when the database is still
there. -/
theorem _finishDropDatabase_flag {env : Env} {db db2 : Database} {out : Outcome}
    (h : _finishDropDatabase env db = (out, some db2)) : db2.dropPending = false := by
  unfold _finishDropDatabase at h
  cases hthrow : env.dropDatabaseThrows with
  | none => simp [hthrow] at h
  | some code =>
    simp only [hthrow, Prod.mk.injEq, Option.some.injEq] at h
    rw [← h.2]

/-- C30 (drop-pending after a failure), as the code has it: a database with
one replicated collection that is not drop-pending on entry, on a node that is
primary while the collections are dropped and has stepped down when the wait
for replication is over: `dropDatabase` returns PrimarySteppedDown and the
database is still in the catalog with the drop-pending flag set.  On the
sibling path, a failed wait, the flag is reset.  This is the only such path:
whenever a database that is not drop-pending on entry still exists after a
call that returned a non-OK status or threw, and its flag is set, the call
returned PrimarySteppedDown from the check after a successful wait. -/
theorem C30_stepdown_keeps_drop_pending :
    dropDatabase stepDownEnv (some { dropPending := false, collections := [userCollection] }) =
      (.returned (.error ErrorCodes.PrimarySteppedDown),
        some { dropPending := true, collections := [userCollection] }) ∧
    dropDatabase waitFailsEnv (some { dropPending := false, collections := [userCollection] }) =
      (.returned (.error ErrorCodes.Interrupted),
        some { dropPending := false, collections := [userCollection] }) ∧
    dropDatabase primaryEnv (some { dropPending := false, collections := [userCollection] }) =
      (.returned .OK, none) ∧
    (∀ (env : Env) (db db2 : Database) (out : Outcome), db.dropPending = false →
      dropDatabase env (some db) = (out, some db2) → out ≠ .aborted → db2.dropPending = true →
      out = .returned (.error ErrorCodes.PrimarySteppedDown) ∧
        env.writesAreReplicated = true ∧ env.canAcceptWritesSecond = false ∧
        ∃ latest num, dropCollections env db.collections 0 0 = .finished latest num ∧
          awaitDrops env latest num = some .OK) := by
  refine ⟨rfl, rfl, rfl, ?_⟩
  intro env db db2 out hdb h hab hflag
  simp only [dropDatabase] at h
  cases hro : env.readOnly with
  | true =>
    simp only [hro, if_true, Prod.mk.injEq, Option.some.injEq] at h
    rw [← h.2, hdb] at hflag
    exact absurd hflag (by decide)
  | false =>
    simp only [hro, Bool.false_eq_true, if_false] at h
    cases hnp : (env.writesAreReplicated && !env.canAcceptWritesFirst) with
    | true =>
      simp only [hnp, if_true, Prod.mk.injEq, Option.some.injEq] at h
      rw [← h.2, hdb] at hflag
      exact absurd hflag (by decide)
    | false =>
      simp only [hnp, Bool.false_eq_true, if_false] at h
      cases hloop : dropCollections env db.collections 0 0 with
      | thrown code =>
        simp only [hloop, Prod.mk.injEq, Option.some.injEq] at h
        rw [← h.2] at hflag
        exact absurd hflag (by simp)
      | aborted =>
        simp only [hloop, Prod.mk.injEq] at h
        exact absurd h.1.symm hab
      | finished latest num =>
        simp only [hloop] at h
        by_cases hnone : num = 0 ∧ latest = 0
        · simp only [hnone, and_self, if_true] at h
          exact absurd hflag (by rw [_finishDropDatabase_flag h]; decide)
        · simp only [hnone, if_false] at h
          cases hwait : awaitDrops env latest num with
          | none =>
            simp only [hwait, Prod.mk.injEq] at h
            exact absurd h.1.symm hab
          | some st =>
            cases st with
            | error code =>
              simp only [hwait, Prod.mk.injEq] at h
              cases hex : env.existsAfterWait with
              | false => simp [hex] at h
              | true =>
                simp only [hex, if_true, Option.some.injEq] at h
                rw [← h.2] at hflag
                exact absurd hflag (by simp)
            | OK =>
              simp only [hwait] at h
              cases hstep : (env.writesAreReplicated && !env.canAcceptWritesSecond) with
              | true =>
                simp only [hstep, if_true, Prod.mk.injEq] at h
                simp only [Bool.and_eq_true, Bool.not_eq_true'] at hstep
                exact ⟨h.1.symm, hstep.1, hstep.2, latest, num, rfl, hwait⟩
              | false =>
                simp only [hstep, Bool.false_eq_true, if_false] at h
                cases hex : env.existsAfterWait with
                | false => simp [hex] at h
                | true =>
                  simp only [hex, if_true] at h
                  exact absurd hflag (by rw [_finishDropDatabase_flag h]; decide)

end DropDatabase
